import Mathlib

/-!
# OpenSurv GUI editor: the structured-text codec

A shallow embedding of `YAMLParser.parse` and `YAMLParser.stringify` of `src/web/script.js`,
and theorems about them.

Modelling conventions.

* A JavaScript string is a `List Char` (`Str`).  String literals are written `"...".toList`.
* A JavaScript number is a `JSNumber`: `NaN` or an exact integer.  The integers the codec
  handles are produced by `parseInt` and printed by template literals; the model is exact
  for every magnitude up to `2^53`, the range in which an IEEE double holds an integer
  exactly.  Theorems that speak about the value of a number say so in a hypothesis.
* `null` (and a missing property) is `none`.
* The mutable cursors `currentScreen` and `currentStream` of the parser are references into
  the configuration being built; they are modelled as indices into it.
* An operation that would raise a `TypeError` in JavaScript (calling `.trim()` on
  `undefined`) returns `Except.error`.
-/

namespace OpenSurv

/-- JavaScript strings, as lists of characters. -/
abbrev Str := List Char

/-! ## Numbers -/

/-- The numbers the codec handles: `NaN` or an integer. -/
inductive JSNumber where
  | nan : JSNumber
  | int (n : Int) : JSNumber
  deriving DecidableEq, Repr

/-- JavaScript truthiness of a number: `NaN` and `0` are falsy. -/
def JSNumber.truthy : JSNumber → Bool
  | .nan => false
  | .int n => n != 0

/-- The decimal digits of a natural number, as `Number.prototype.toString` prints them. -/
def natToStr (n : Nat) : Str := Nat.toDigits 10 n

/-- Conversion of a number to a string, as a template literal or `Array.prototype.join`
does: the decimal digits of the integer.  JavaScript writes the exponent form from `1e21`
on; the model is faithful below that, and the theorems on the text of a number bound the
number by `2 ^ 53`. -/
def JSNumber.toStr : JSNumber → Str
  | .nan => "NaN".toList
  | .int n => if n < 0 then '-' :: natToStr n.natAbs else natToStr n.natAbs

/-! ## String primitives -/

/-- The code points of JavaScript's WhiteSpace and LineTerminator productions: what
`String.prototype.trim` strips, what `\s` matches and what `parseInt` skips. -/
def isWhite (c : Char) : Bool :=
  let n := c.toNat
  (9 ≤ n && n ≤ 13) || n == 32 || n == 160 || n == 5760 || (8192 ≤ n && n ≤ 8202) ||
    n == 8232 || n == 8233 || n == 8239 || n == 8287 || n == 12288 || n == 65279

/-- The class `\d`: the ASCII digits. -/
def isDigit (c : Char) : Bool := 48 ≤ c.toNat && c.toNat ≤ 57

/-- Removal of leading white space. -/
def trimStart (s : Str) : Str := s.dropWhile isWhite

/-- Removal of trailing white space. -/
def trimEnd (s : Str) : Str := (s.reverse.dropWhile isWhite).reverse

/-- The method `String.prototype.trim`. -/
def trim (s : Str) : Str := trimEnd (trimStart s)

/-- The method `String.prototype.startsWith`. -/
def startsWith (p s : Str) : Bool := p.isPrefixOf s

/-- The method `String.prototype.includes`. -/
def includes (p : Str) : Str → Bool
  | [] => p.isPrefixOf []
  | c :: cs => p.isPrefixOf (c :: cs) || includes p cs

/-- The method `String.prototype.split` with a one-character separator. -/
def splitOn (sep : Char) : Str → List Str
  | [] => [[]]
  | c :: cs =>
    if c = sep then [] :: splitOn sep cs
    else match splitOn sep cs with
      | [] => [[c]]
      | h :: t => (c :: h) :: t

/-- The method `Array.prototype.join`. -/
def joinWith (sep : Str) : List Str → Str
  | [] => []
  | [x] => x
  | x :: y :: rest => x ++ sep ++ joinWith sep (y :: rest)

/-- The value of a character as a digit in the given radix (10 or 16), if it is one. -/
def digitVal (radix : Nat) (c : Char) : Option Nat :=
  let n := c.toNat
  if 48 ≤ n ∧ n ≤ 57 then some (n - 48)
  else if radix = 16 ∧ 97 ≤ n ∧ n ≤ 102 then some (n - 87)
  else if radix = 16 ∧ 65 ≤ n ∧ n ≤ 70 then some (n - 55)
  else none

/-- The value of the longest prefix of digits, with the number of digits read. -/
def readDigits (radix : Nat) : Str → Nat → Nat → Nat × Nat
  | [], acc, cnt => (acc, cnt)
  | c :: cs, acc, cnt =>
    match digitVal radix c with
    | some d => readDigits radix cs (acc * radix + d) (cnt + 1)
    | none => (acc, cnt)

/-- The sign of `parseInt`: a leading `-` or `+` is read off. -/
def stripSign : Str → Bool × Str
  | '-' :: r => (true, r)
  | '+' :: r => (false, r)
  | s => (false, s)

/-- The radix of `parseInt` without a radix argument: 16 after a prefix `0x` or `0X`, which is
read off, else 10. -/
def stripRadix : Str → Nat × Str
  | '0' :: 'x' :: r => (16, r)
  | '0' :: 'X' :: r => (16, r)
  | s => (10, s)

/-- The global function `parseInt` with no radix argument: skip leading white space, read a
sign, read a `0x` or `0X` prefix (radix 16, else radix 10), read the longest prefix of
digits; no digit gives `NaN`.  The value is the exact integer of the digits.  JavaScript
rounds it to a double from `2 ^ 53` on, and to `Infinity` beyond the doubles; the model is
faithful for values below `2 ^ 53`, and the theorems on the value of a number read carry
that bound. -/
def parseInt (s : Str) : JSNumber :=
  let (neg, s1) := stripSign (trimStart s)
  let (radix, s2) := stripRadix s1
  let (v, cnt) := readDigits radix s2 0 0
  if cnt = 0 then .nan else .int (if neg then -(v : Int) else (v : Int))

/-! ## The regular expressions of the parser -/

/-- An unanchored regular-expression search: the first suffix at which the anchored
matcher succeeds. -/
def searchFirst {α : Type} (m : Str → Option α) : Str → Option α
  | [] => m []
  | c :: cs =>
    match m (c :: cs) with
    | some r => some r
    | none => searchFirst m cs

/-- The pattern `"([^"]+)"` anchored at the start: the captured group. -/
def quotedAt : Str → Option Str
  | '"' :: r =>
    let body := r.takeWhile (fun c => c != '"')
    match body, r.dropWhile (fun c => c != '"') with
    | _ :: _, '"' :: _ => some body
    | _, _ => none
  | _ => none

/-- The pattern `- url:\s*"([^"]+)"` anchored at the start: the captured group. -/
def urlAt (s : Str) : Option Str :=
  if startsWith "- url:".toList s then quotedAt ((s.drop 6).dropWhile isWhite) else none

/-- The unanchored search for the stream-marker pattern, as `String.prototype.match` performs
it: the captured group. -/
def urlMatch (s : Str) : Option Str := searchFirst urlAt s

/-- The unanchored search for the pattern `"([^"]+)"`: the captured group. -/
def quotedMatch (s : Str) : Option Str := searchFirst quotedAt s

/-- The class `[\d,\s]`. -/
def isCoordChar (c : Char) : Bool := isDigit c || c == ',' || isWhite c

/-- The pattern `\[([\d,\s]+)\]` anchored at the start: the captured group. -/
def coordsAt : Str → Option Str
  | '[' :: r =>
    let body := r.takeWhile isCoordChar
    match body, r.dropWhile isCoordChar with
    | _ :: _, ']' :: _ => some body
    | _, _ => none
  | _ => none

/-- The unanchored search for the pattern `\[([\d,\s]+)\]`: the captured group. -/
def coordsMatch (s : Str) : Option Str := searchFirst coordsAt s

/-- ASCII lower-casing; the `i` flag of a non-unicode pattern relates an ASCII letter only
to its other case. -/
def lowerAscii (c : Char) : Char :=
  if 65 ≤ c.toNat ∧ c.toNat ≤ 90 then Char.ofNat (c.toNat + 32) else c

/-- The pattern `Resolution:\s*(\d+)x(\d+)` with flag `i`, anchored at the start: the two
captured groups. -/
def resolutionAt (s : Str) : Option (Str × Str) :=
  if (s.take 11).map lowerAscii = "resolution:".toList then
    let r := (s.drop 11).dropWhile isWhite
    let w := r.takeWhile isDigit
    match w, r.dropWhile isDigit with
    | _ :: _, x :: r2 =>
      let h := r2.takeWhile isDigit
      match h with
      | _ :: _ => if lowerAscii x = 'x' then some (w, h) else none
      | [] => none
    | _, _ => none
  else none

/-- The unanchored search for the resolution pattern: the two captured groups. -/
def resolutionMatch (s : Str) : Option (Str × Str) := searchFirst resolutionAt s

/-! ## The document model -/

instance instDecidableEqExcept {ε α : Type} [DecidableEq ε] [DecidableEq α] :
    DecidableEq (Except ε α)
  | .ok a, .ok b => if h : a = b then isTrue (by rw [h]) else isFalse (by intro e; cases e; exact h rfl)
  | .error a, .error b =>
    if h : a = b then isTrue (by rw [h]) else isFalse (by intro e; cases e; exact h rfl)
  | .ok _, .error _ => isFalse (by intro e; cases e)
  | .error _, .ok _ => isFalse (by intro e; cases e)

/-- One stream (camera) object, with the property names of the source.  The transient
property `_previewCoords` of the preview code is the field `previewCoords`. -/
structure Stream where
  name : Option Str
  url : Str
  imageurl : Option Bool
  showontop : Option Bool
  enableaudio : Option Bool
  probe_timeout : Option JSNumber
  timeout_waiting_for_init_stream : Option JSNumber
  freeform_advanced_mpv_options : Option Str
  force_coordinates : Option (List JSNumber)
  disabled : Bool
  previewCoords : Option (List JSNumber) := none
  deriving DecidableEq, Repr

/-- One screen object. -/
structure Screen where
  streams : List Stream
  duration : Option JSNumber
  nr_of_columns : Option JSNumber
  rotate90 : Option Bool
  disable_probing_for_all_streams : Option Bool
  deriving DecidableEq, Repr

/-- The object `config.essentials`. -/
structure Config where
  disable_autorotation : Bool
  screens : List Screen
  deriving DecidableEq, Repr

/-- The object `state.resolution`. -/
structure Resolution where
  width : JSNumber
  height : JSNumber
  deriving DecidableEq, Repr

/-- The initial value of `state.resolution`. -/
def defaultResolution : Resolution := ⟨.int 1920, .int 1080⟩

/-! ## `YAMLParser.parse` -/

/-- The local variables of `parse` inside its loop, with the global `state.resolution`. -/
structure PState where
  config : Config
  resolution : Resolution
  currentScreen : Option Nat
  currentStream : Option (Nat × Nat)
  inEssentials : Bool
  inScreens : Bool
  lastComment : Option Str
  deriving DecidableEq, Repr

/-- The state of `parse` before the first line. -/
def initState (res : Resolution) : PState :=
  { config := { disable_autorotation := false, screens := [] }
    resolution := res
    currentScreen := none
    currentStream := none
    inEssentials := false
    inScreens := false
    lastComment := none }

/-- Replacement of the element at an index by its image. -/
def modifyAt {α : Type} (f : α → α) : Nat → List α → List α
  | _, [] => []
  | 0, x :: xs => f x :: xs
  | n + 1, x :: xs => x :: modifyAt f n xs

/-- The stream a reference points to. -/
def Config.getStream (c : Config) (p : Nat × Nat) : Option Stream :=
  match c.screens[p.1]? with
  | some sc => sc.streams[p.2]?
  | none => none

/-- An assignment through the reference `currentStream`. -/
def Config.modifyStream (c : Config) (p : Nat × Nat) (f : Stream → Stream) : Config :=
  { c with screens :=
      modifyAt (fun sc => { sc with streams := modifyAt f p.2 sc.streams }) p.1 c.screens }

/-- An assignment through the reference `currentScreen`. -/
def Config.modifyScreen (c : Config) (i : Nat) (f : Screen → Screen) : Config :=
  { c with screens := modifyAt f i c.screens }

/-- The expression `lastComment || null`. -/
def orNull : Option Str → Option Str
  | some [] => none
  | o => o

/-- The object literal of a new stream. -/
def newStream (lastComment : Option Str) (url : Str) (disabled : Bool) : Stream :=
  { name := orNull lastComment
    url := url
    imageurl := none
    showontop := none
    enableaudio := none
    probe_timeout := none
    timeout_waiting_for_init_stream := none
    freeform_advanced_mpv_options := none
    force_coordinates := none
    disabled := disabled }

/-- The object literal of a new screen. -/
def newScreen : Screen :=
  { streams := []
    duration := none
    nr_of_columns := none
    rotate90 := none
    disable_probing_for_all_streams := none }

/-- The expression `s.split(':')[1].trim()`; the element is `undefined` when the text has
no colon, and `.trim()` then raises a `TypeError`. -/
def colonValue (s : Str) : Except String Str :=
  match (splitOn ':' s)[1]? with
  | some v => .ok (trim v)
  | none => .error "TypeError: cannot read properties of undefined"

/-- The test `value === 'True' || value === 'true'`. -/
def isTrueLit (v : Str) : Bool := v == "True".toList || v == "true".toList

/-- The expression `m[1].split(',').map(n => parseInt(n.trim()))`. -/
def parseCoords (group : Str) : List JSNumber :=
  (splitOn ',' group).map (fun n => parseInt (trim n))

/-- The statement `currentScreen.streams.push(currentStream)`, with the new reference. -/
def pushStream (s : PState) (i : Nat) (st : Stream) : PState :=
  { s with
    config := s.config.modifyScreen i (fun sc => { sc with streams := sc.streams ++ [st] })
    currentStream :=
      some (i, match s.config.screens[i]? with
               | some sc => sc.streams.length
               | none => 0)
    lastComment := none }

/-- Case 2 of the commented-line branch: the comment is a property line of the disabled
stream `st`.  The result is `none` when no key matches (`handledAsDisabled` stays false). -/
def disabledProp (content : Str) (st : Stream) : Except String (Option Stream) :=
  if startsWith "imageurl:".toList content then
    (colonValue content).map (fun v => some { st with imageurl := some (isTrueLit v) })
  else if startsWith "showontop:".toList content then
    (colonValue content).map (fun v => some { st with showontop := some (isTrueLit v) })
  else if startsWith "enableaudio:".toList content then
    (colonValue content).map (fun v => some { st with enableaudio := some (isTrueLit v) })
  else if startsWith "probe_timeout:".toList content then
    (colonValue content).map (fun v => some { st with probe_timeout := some (parseInt v) })
  else if startsWith "timeout_waiting_for_init_stream:".toList content then
    (colonValue content).map
      (fun v => some { st with timeout_waiting_for_init_stream := some (parseInt v) })
  else if startsWith "freeform_advanced_mpv_options:".toList content then
    match quotedMatch content with
    | some v => .ok (some { st with freeform_advanced_mpv_options := some v })
    | none => .ok (some st)
  else if startsWith "force_coordinates:".toList content then
    match coordsMatch content with
    | some g => .ok (some { st with force_coordinates := some (parseCoords g) })
    | none => .ok (some st)
  else .ok none

/-- The branch for a line that starts with `#` (special handling of disabled streams).  The
result is `some` of the new state when the line was handled (`handledAsDisabled`), `none`
when the scan goes on to the comment capture. -/
def handleDisabled (s : PState) (content : Str) : Except String (Option PState) :=
  if s.currentScreen.isSome && startsWith "- url:".toList content then
    match s.currentScreen, urlMatch content with
    | some i, some u => .ok (some (pushStream s i (newStream s.lastComment u true)))
    | _, _ => .ok none
  else
    match s.currentStream with
    | none => .ok none
    | some p =>
      match s.config.getStream p with
      | none => .ok none
      | some st =>
        if st.disabled then
          (disabledProp content st).map
            (fun r => r.map (fun st2 => { s with config := s.config.modifyStream p (fun _ => st2) }))
        else .ok none

/-- The comment capture: a resolution annotation sets `state.resolution`, any other comment
inside a screen becomes the pending name. -/
def captureComment (s : PState) (commentText : Str) : PState :=
  match resolutionMatch commentText with
  | some (w, h) => { s with resolution := { width := parseInt w, height := parseInt h } }
  | none => if s.currentScreen.isSome then { s with lastComment := some commentText } else s

/-- The block `Stream properties` applied to the stream `st` the reference points to. -/
def streamProp (trimmed : Str) (st : Stream) : Except String Stream :=
  if startsWith "disabled:".toList trimmed then
    (colonValue trimmed).map (fun v => { st with disabled := isTrueLit v })
  else if startsWith "imageurl:".toList trimmed then
    (colonValue trimmed).map (fun v => { st with imageurl := some (isTrueLit v) })
  else if startsWith "showontop:".toList trimmed then
    (colonValue trimmed).map (fun v => { st with showontop := some (isTrueLit v) })
  else if startsWith "enableaudio:".toList trimmed then
    (colonValue trimmed).map (fun v => { st with enableaudio := some (isTrueLit v) })
  else if startsWith "probe_timeout:".toList trimmed then
    (colonValue trimmed).map (fun v => { st with probe_timeout := some (parseInt v) })
  else if startsWith "timeout_waiting_for_init_stream:".toList trimmed then
    (colonValue trimmed).map
      (fun v => { st with timeout_waiting_for_init_stream := some (parseInt v) })
  else if startsWith "freeform_advanced_mpv_options:".toList trimmed then
    match quotedMatch trimmed with
    | some v => .ok { st with freeform_advanced_mpv_options := some v }
    | none => .ok st
  else if startsWith "force_coordinates:".toList trimmed then
    match coordsMatch trimmed with
    | some g => .ok { st with force_coordinates := some (parseCoords g) }
    | none => .ok st
  else .ok st

/-- The block `Screen properties` applied to the screen `sc` the reference points to. -/
def screenProp (trimmed : Str) (sc : Screen) : Except String Screen :=
  if startsWith "duration:".toList trimmed then
    (colonValue trimmed).map (fun v => { sc with duration := some (parseInt v) })
  else if startsWith "nr_of_columns:".toList trimmed then
    (colonValue trimmed).map (fun v => { sc with nr_of_columns := some (parseInt v) })
  else if startsWith "rotate90:".toList trimmed then
    (colonValue trimmed).map (fun v => { sc with rotate90 := some (isTrueLit v) })
  else if startsWith "disable_probing_for_all_streams:".toList trimmed then
    (colonValue trimmed).map
      (fun v => { sc with disable_probing_for_all_streams := some (isTrueLit v) })
  else .ok sc

/-- The statement `if (currentStream) ...` at the end of the loop body. -/
def applyStreamProps (s : PState) (trimmed : Str) : Except String PState :=
  match s.currentStream with
  | none => .ok s
  | some p =>
    match s.config.getStream p with
    | none => .ok s
    | some st =>
      (streamProp trimmed st).map
        (fun st2 => { s with config := s.config.modifyStream p (fun _ => st2) })

/-- The statement `if (currentScreen && !trimmed.startsWith('- url:')) ...` at the end of the
loop body. -/
def applyScreenProps (s : PState) (trimmed : Str) : Except String PState :=
  match s.currentScreen with
  | none => .ok s
  | some i =>
    if startsWith "- url:".toList trimmed then .ok s
    else
      match s.config.screens[i]? with
      | none => .ok s
      | some sc =>
        (screenProp trimmed sc).map
          (fun sc2 => { s with config := s.config.modifyScreen i (fun _ => sc2) })

/-- The part of the loop body after the comment handling, for a line that does not start
with `#`. -/
def stepPlain (s : PState) (trimmed : Str) : Except String PState :=
  if trimmed = "essentials:".toList then .ok { s with inEssentials := true }
  else if s.inEssentials && startsWith "disable_autorotation:".toList trimmed then
    (colonValue trimmed).map
      (fun v => { s with config := { s.config with disable_autorotation := isTrueLit v } })
  else if trimmed = "screens:".toList then .ok { s with inScreens := true }
  else if s.inScreens && trimmed == "- streams:".toList then
    .ok { s with
          config := { s.config with screens := s.config.screens ++ [newScreen] }
          currentScreen := some s.config.screens.length
          lastComment := none }
  else if s.currentScreen.isSome && startsWith "- url:".toList trimmed then
    match s.currentScreen, urlMatch trimmed with
    | some i, some u => .ok (pushStream s i (newStream s.lastComment u false))
    | _, _ => .ok s
  else
    (applyStreamProps s trimmed).bind (fun s2 => applyScreenProps s2 trimmed)

/-- One iteration of the loop of `parse`, on one line. -/
def step (s : PState) (line : Str) : Except String PState :=
  let trimmed := trim line
  if trimmed = [] then .ok s
  else if startsWith "#".toList trimmed then
    (handleDisabled s (trim (trimmed.drop 1))).bind (fun r =>
      match r with
      | some s2 => .ok s2
      | none =>
        if !(includes "###".toList trimmed) then
          .ok (captureComment s (trim (trimmed.drop 1)))
        else .ok s)
  else stepPlain s trimmed

/-- The loop of `parse` over the lines. -/
def parseLines (s : PState) : List Str → Except String PState
  | [] => .ok s
  | l :: ls => (step s l).bind (fun s2 => parseLines s2 ls)

/-- The function `YAMLParser.parse`: the returned `config.essentials` together with the value
of `state.resolution` after the call, given its value before.  An exception inside the
scan is caught and replaced by the generic error. -/
def parse (res : Resolution) (yamlText : Str) : Except String (Config × Resolution) :=
  match parseLines (initState res) (splitOn '\n' yamlText) with
  | .ok s => .ok (s.config, s.resolution)
  | .error _ => .error "Failed to parse YAML file"

/-! ## `YAMLParser.stringify` -/

/-- The literal written for a boolean other than `imageurl`. -/
def boolCap (b : Bool) : Str := if b then "True".toList else "False".toList

/-- The literal written for `imageurl`. -/
def boolLow (b : Bool) : Str := if b then "true".toList else "false".toList

/-- The first line of a stream block: `sb += ...url...`. -/
def urlLine (st : Stream) : Str :=
  "        - url: \"".toList ++ st.url ++ "\"\n".toList

/-- The text appended to `sb` for `imageurl`: a line when the value is neither `null` nor
`undefined`. -/
def imageurlLine (st : Stream) : Str :=
  match st.imageurl with
  | some b => "          imageurl: ".toList ++ boolLow b ++ "\n".toList
  | none => []

/-- The text appended to `sb` for `force_coordinates`: a line when the list is present and
has length 4. -/
def forceCoordinatesLine (st : Stream) : Str :=
  match st.force_coordinates with
  | some cs =>
    if cs.length = 4 then
      "          force_coordinates: [".toList ++ joinWith ", ".toList (cs.map JSNumber.toStr) ++
        "]\n".toList
    else []
  | none => []

/-- The text appended to `sb` for `showontop`. -/
def showontopLine (st : Stream) : Str :=
  match st.showontop with
  | some b => "          showontop: ".toList ++ boolCap b ++ "\n".toList
  | none => []

/-- The text appended to `sb` for `enableaudio`. -/
def enableaudioLine (st : Stream) : Str :=
  match st.enableaudio with
  | some b => "          enableaudio: ".toList ++ boolCap b ++ "\n".toList
  | none => []

/-- The text appended to `sb` for `probe_timeout`: a line when the value is truthy. -/
def probeTimeoutLine (st : Stream) : Str :=
  match st.probe_timeout with
  | some n => if n.truthy then "          probe_timeout: ".toList ++ n.toStr ++ "\n".toList else []
  | none => []

/-- The text appended to `sb` for `timeout_waiting_for_init_stream`: a line when the value
is truthy. -/
def initTimeoutLine (st : Stream) : Str :=
  match st.timeout_waiting_for_init_stream with
  | some n =>
    if n.truthy then
      "          timeout_waiting_for_init_stream: ".toList ++ n.toStr ++ "\n".toList
    else []
  | none => []

/-- The text appended to `sb` for `freeform_advanced_mpv_options`: a line when the string
is truthy (not empty). -/
def freeformLine (st : Stream) : Str :=
  match st.freeform_advanced_mpv_options with
  | some o =>
    if o ≠ [] then
      "          freeform_advanced_mpv_options: \"".toList ++ o ++ "\"\n".toList
    else []
  | none => []

/-- The string `sb` built for a stream, before a disabled block is commented out. -/
def streamBlock (st : Stream) : Str :=
  urlLine st ++ imageurlLine st ++ forceCoordinatesLine st ++ showontopLine st ++
    enableaudioLine st ++ probeTimeoutLine st ++ initTimeoutLine st ++ freeformLine st

/-- The commenting-out of a disabled block: every line that is not blank gets a `#`. -/
def commentOut (sb : Str) : Str :=
  joinWith "\n".toList
    ((splitOn '\n' sb).map (fun line => if (trim line).length = 0 then line else '#' :: line))

/-- The comment line written before a stream block when the name is truthy. -/
def nameLine (st : Stream) : Str :=
  match st.name with
  | some n => if n ≠ [] then "#".toList ++ n ++ "\n".toList else []
  | none => []

/-- The body of `screen.streams.forEach`: the text appended to `yaml` for one stream. -/
def appendStream (yaml : Str) (st : Stream) : Str :=
  yaml ++ nameLine st ++ (if st.disabled then commentOut (streamBlock st) else streamBlock st)

/-- The text appended for `duration`: a line when the value is truthy. -/
def durationLine (sc : Screen) : Str :=
  match sc.duration with
  | some n => if n.truthy then "      duration: ".toList ++ n.toStr ++ "\n".toList else []
  | none => []

/-- The text appended for `nr_of_columns`: a line when the value is truthy. -/
def columnsLine (sc : Screen) : Str :=
  match sc.nr_of_columns with
  | some n => if n.truthy then "      nr_of_columns: ".toList ++ n.toStr ++ "\n".toList else []
  | none => []

/-- The text appended for `rotate90`. -/
def rotate90Line (sc : Screen) : Str :=
  match sc.rotate90 with
  | some b => "      rotate90: ".toList ++ boolCap b ++ "\n".toList
  | none => []

/-- The text appended for `disable_probing_for_all_streams`. -/
def probingLine (sc : Screen) : Str :=
  match sc.disable_probing_for_all_streams with
  | some b => "      disable_probing_for_all_streams: ".toList ++ boolCap b ++ "\n".toList
  | none => []

/-- The body of `config.essentials.screens.forEach`: the text appended for one screen. -/
def appendScreen (yaml : Str) (sc : Screen) : Str :=
  sc.streams.foldl appendStream (yaml ++ "    - streams:\n".toList) ++
    durationLine sc ++ columnsLine sc ++ rotate90Line sc ++ probingLine sc ++ "\n".toList

/-- The text `stringify` starts with, up to the line `screens:`. -/
def header (res : Resolution) (config : Config) : Str :=
  "#THIS IS A YAML FILE, INDENTATION IS IMPORTANT. ALSO DO NOT USE TABS ".toList ++
  "FOR INDENTATION, BUT USE SPACES\n".toList ++
  "# Resolution: ".toList ++ res.width.toStr ++ "x".toList ++ res.height.toStr ++
    "\n\n".toList ++
  "essentials:\n".toList ++
  "  disable_autorotation: ".toList ++ boolCap config.disable_autorotation ++ "\n\n".toList ++
  "  screens:\n".toList

/-- The function `YAMLParser.stringify`, given the value of `state.resolution`. -/
def stringify (res : Resolution) (config : Config) : Str :=
  config.screens.foldl appendScreen (header res config)


/-! ## Totality of the scan -/

theorem splitOn_ne_nil (sep : Char) (s : Str) : splitOn sep s ≠ [] := by
  cases s with
  | nil => simp [splitOn]
  | cons c cs =>
    simp only [splitOn]
    split_ifs
    · simp
    · split <;> simp

theorem splitOn_second_of_mem {sep : Char} {s : Str} (h : sep ∈ s) :
    ∃ v, (splitOn sep s)[1]? = some v := by
  induction s with
  | nil => simp at h
  | cons c cs ih =>
    simp only [splitOn]
    by_cases hc : c = sep
    · simp only [hc, if_true]
      cases hs : splitOn sep cs with
      | nil => exact absurd hs (splitOn_ne_nil sep cs)
      | cons a t => exact ⟨a, by simp⟩
    · simp only [hc, if_false]
      have hmem : sep ∈ cs := by
        rcases List.mem_cons.mp h with h1 | h1
        · exact absurd h1.symm hc
        · exact h1
      obtain ⟨v, hv⟩ := ih hmem
      cases hs : splitOn sep cs with
      | nil => exact absurd hs (splitOn_ne_nil sep cs)
      | cons a t =>
        rw [hs] at hv
        exact ⟨v, by simpa using hv⟩

theorem mem_of_startsWith {p s : Str} {c : Char} (h : startsWith p s = true) (hc : c ∈ p) :
    c ∈ s := by
  unfold startsWith at h
  rw [List.isPrefixOf_iff_prefix] at h
  exact h.subset hc

theorem colonValue_ok {p s : Str} (hp : ':' ∈ p) (h : startsWith p s = true) :
    ∃ v, colonValue s = .ok v := by
  obtain ⟨v, hv⟩ := splitOn_second_of_mem (mem_of_startsWith h hp)
  exact ⟨trim v, by simp [colonValue, hv]⟩

theorem disabledProp_ok (content : Str) (st : Stream) : ∃ r, disabledProp content st = .ok r := by
  unfold disabledProp
  split_ifs with h1 h2 h3 h4 h5 h6 h7
  · obtain ⟨v, hv⟩ := colonValue_ok (by decide) h1
    exact ⟨_, by rw [hv]; rfl⟩
  · obtain ⟨v, hv⟩ := colonValue_ok (by decide) h2
    exact ⟨_, by rw [hv]; rfl⟩
  · obtain ⟨v, hv⟩ := colonValue_ok (by decide) h3
    exact ⟨_, by rw [hv]; rfl⟩
  · obtain ⟨v, hv⟩ := colonValue_ok (by decide) h4
    exact ⟨_, by rw [hv]; rfl⟩
  · obtain ⟨v, hv⟩ := colonValue_ok (by decide) h5
    exact ⟨_, by rw [hv]; rfl⟩
  · split <;> exact ⟨_, rfl⟩
  · split <;> exact ⟨_, rfl⟩
  · exact ⟨_, rfl⟩

theorem streamProp_ok (trimmed : Str) (st : Stream) : ∃ r, streamProp trimmed st = .ok r := by
  unfold streamProp
  split_ifs with h0 h1 h2 h3 h4 h5 h6 h7
  · obtain ⟨v, hv⟩ := colonValue_ok (by decide) h0
    exact ⟨_, by rw [hv]; rfl⟩
  · obtain ⟨v, hv⟩ := colonValue_ok (by decide) h1
    exact ⟨_, by rw [hv]; rfl⟩
  · obtain ⟨v, hv⟩ := colonValue_ok (by decide) h2
    exact ⟨_, by rw [hv]; rfl⟩
  · obtain ⟨v, hv⟩ := colonValue_ok (by decide) h3
    exact ⟨_, by rw [hv]; rfl⟩
  · obtain ⟨v, hv⟩ := colonValue_ok (by decide) h4
    exact ⟨_, by rw [hv]; rfl⟩
  · obtain ⟨v, hv⟩ := colonValue_ok (by decide) h5
    exact ⟨_, by rw [hv]; rfl⟩
  · split <;> exact ⟨_, rfl⟩
  · split <;> exact ⟨_, rfl⟩
  · exact ⟨_, rfl⟩

theorem screenProp_ok (trimmed : Str) (sc : Screen) : ∃ r, screenProp trimmed sc = .ok r := by
  unfold screenProp
  split_ifs with h1 h2 h3 h4
  · obtain ⟨v, hv⟩ := colonValue_ok (by decide) h1
    exact ⟨_, by rw [hv]; rfl⟩
  · obtain ⟨v, hv⟩ := colonValue_ok (by decide) h2
    exact ⟨_, by rw [hv]; rfl⟩
  · obtain ⟨v, hv⟩ := colonValue_ok (by decide) h3
    exact ⟨_, by rw [hv]; rfl⟩
  · obtain ⟨v, hv⟩ := colonValue_ok (by decide) h4
    exact ⟨_, by rw [hv]; rfl⟩
  · exact ⟨_, rfl⟩

theorem handleDisabled_ok (s : PState) (content : Str) :
    ∃ r, handleDisabled s content = .ok r := by
  unfold handleDisabled
  split_ifs with h
  · split <;> exact ⟨_, rfl⟩
  · split
    · exact ⟨_, rfl⟩
    · split
      · exact ⟨_, rfl⟩
      · split_ifs
        · obtain ⟨r, hr⟩ := disabledProp_ok content ‹Stream›
          exact ⟨_, by rw [hr]; rfl⟩
        · exact ⟨_, rfl⟩

theorem applyStreamProps_ok (s : PState) (t : Str) : ∃ r, applyStreamProps s t = .ok r := by
  unfold applyStreamProps
  split
  · exact ⟨_, rfl⟩
  · split
    · exact ⟨_, rfl⟩
    · obtain ⟨r, hr⟩ := streamProp_ok t ‹Stream›
      exact ⟨_, by rw [hr]; rfl⟩

theorem applyScreenProps_ok (s : PState) (t : Str) : ∃ r, applyScreenProps s t = .ok r := by
  unfold applyScreenProps
  split
  · exact ⟨_, rfl⟩
  · split_ifs
    · exact ⟨_, rfl⟩
    · split
      · exact ⟨_, rfl⟩
      · obtain ⟨r, hr⟩ := screenProp_ok t ‹Screen›
        exact ⟨_, by rw [hr]; rfl⟩

theorem stepPlain_ok (s : PState) (t : Str) : ∃ r, stepPlain s t = .ok r := by
  unfold stepPlain
  split_ifs with h1 h2 h3 h4 h5
  · exact ⟨_, rfl⟩
  · obtain ⟨v, hv⟩ := colonValue_ok (p := "disable_autorotation:".toList) (by decide)
      (by simp only [Bool.and_eq_true] at h2; exact h2.2)
    exact ⟨_, by rw [hv]; rfl⟩
  · exact ⟨_, rfl⟩
  · exact ⟨_, rfl⟩
  · split <;> exact ⟨_, rfl⟩
  · obtain ⟨r, hr⟩ := applyStreamProps_ok s t
    obtain ⟨r2, hr2⟩ := applyScreenProps_ok r t
    exact ⟨r2, by rw [hr]; exact hr2⟩

theorem step_ok (s : PState) (line : Str) : ∃ r, step s line = .ok r := by
  unfold step
  simp only
  by_cases h1 : trim line = []
  · rw [if_pos h1]; exact ⟨_, rfl⟩
  · rw [if_neg h1]
    by_cases h2 : startsWith "#".toList (trim line) = true
    · rw [if_pos h2]
      obtain ⟨r, hr⟩ := handleDisabled_ok s (trim ((trim line).drop 1))
      rw [hr]
      cases r with
      | some s2 => exact ⟨_, rfl⟩
      | none =>
        simp only [Except.bind]
        split_ifs <;> exact ⟨_, rfl⟩
    · rw [if_neg h2]; exact stepPlain_ok s _

theorem parseLines_ok (ls : List Str) : ∀ s : PState, ∃ r, parseLines s ls = .ok r := by
  induction ls with
  | nil => intro s; exact ⟨s, rfl⟩
  | cons l ls ih =>
    intro s
    obtain ⟨r, hr⟩ := step_ok s l
    obtain ⟨r2, hr2⟩ := ih r
    exact ⟨r2, by simp only [parseLines, hr, Except.bind]; exact hr2⟩

/-- C5: for every input string and every prior resolution, `parse` returns a configuration
(with the resolution after the call); the generic error is never raised, whatever the
lines are. -/
theorem parse_never_fails (res : Resolution) (yamlText : Str) :
    ∃ cfg res2, parse res yamlText = .ok (cfg, res2) := by
  obtain ⟨r, hr⟩ := parseLines_ok (splitOn '\n' yamlText) (initState res)
  exact ⟨r.config, r.resolution, by simp only [parse, hr]⟩


/-! ## Lemmas on the string primitives -/

theorem splitOn_append_sep (sep : Char) (l rest : Str) (h : sep ∉ l) :
    splitOn sep (l ++ sep :: rest) = l :: splitOn sep rest := by
  induction l with
  | nil => simp [splitOn]
  | cons c cs ih =>
    have hc : c ≠ sep := fun e => h (by simp [e])
    have hcs : sep ∉ cs := fun e => h (by simp [e])
    rw [List.cons_append, splitOn, if_neg hc, ih hcs]

theorem splitOn_of_not_mem (sep : Char) (l : Str) (h : sep ∉ l) : splitOn sep l = [l] := by
  induction l with
  | nil => simp [splitOn]
  | cons c cs ih =>
    have hc : c ≠ sep := fun e => h (by simp [e])
    have hcs : sep ∉ cs := fun e => h (by simp [e])
    rw [splitOn, if_neg hc, ih hcs]

theorem takeWhile_append_stop {p : Char → Bool} (xs : Str) (y : Char) (ys : Str)
    (hx : ∀ c ∈ xs, p c = true) (hy : p y = false) :
    (xs ++ y :: ys).takeWhile p = xs := by
  induction xs with
  | nil => simp [List.takeWhile_cons, hy]
  | cons c cs ih =>
    have h1 : p c = true := hx c (by simp)
    rw [List.cons_append, List.takeWhile_cons, if_pos h1,
      ih (fun d hd => hx d (by simp [hd]))]

theorem dropWhile_append_stop {p : Char → Bool} (xs : Str) (y : Char) (ys : Str)
    (hx : ∀ c ∈ xs, p c = true) (hy : p y = false) :
    (xs ++ y :: ys).dropWhile p = y :: ys := by
  induction xs with
  | nil => simp [List.dropWhile_cons, hy]
  | cons c cs ih =>
    have h1 : p c = true := hx c (by simp)
    rw [List.cons_append, List.dropWhile_cons, if_pos h1,
      ih (fun d hd => hx d (by simp [hd]))]

theorem takeWhile_all {p : Char → Bool} (xs : Str) (hx : ∀ c ∈ xs, p c = true) :
    xs.takeWhile p = xs := by
  induction xs with
  | nil => rfl
  | cons c cs ih =>
    have h1 : p c = true := hx c (by simp)
    rw [List.takeWhile_cons, if_pos h1, ih (fun d hd => hx d (by simp [hd]))]

theorem dropWhile_all {p : Char → Bool} (xs : Str) (hx : ∀ c ∈ xs, p c = true) :
    xs.dropWhile p = [] := by
  induction xs with
  | nil => rfl
  | cons c cs ih =>
    have h1 : p c = true := hx c (by simp)
    rw [List.dropWhile_cons, if_pos h1, ih (fun d hd => hx d (by simp [hd]))]

theorem length_dropWhile_le (p : Char → Bool) (l : Str) : (l.dropWhile p).length ≤ l.length :=
  (List.dropWhile_sublist p).length_le

/-- A text is trimmed when it is not empty and neither starts nor ends with white space. -/
def Trimmed (s : Str) : Prop :=
  (∃ c r, s = c :: r ∧ isWhite c = false) ∧ (∃ r d, s = r ++ [d] ∧ isWhite d = false)

theorem trimEnd_of_last (r : Str) (d : Char) (h : isWhite d = false) :
    trimEnd (r ++ [d]) = r ++ [d] := by
  simp [trimEnd, List.reverse_append, List.dropWhile_cons, h]

theorem trim_indent (pre body : Str) (hpre : ∀ c ∈ pre, isWhite c = true) (hb : Trimmed body) :
    trim (pre ++ body) = body := by
  obtain ⟨⟨c, r, h1, hc⟩, ⟨r2, d, h2, hd⟩⟩ := hb
  have : trimStart (pre ++ body) = body := by
    rw [h1]; exact dropWhile_append_stop pre c r hpre hc
  rw [trim, this, h2]
  exact trimEnd_of_last r2 d hd

theorem trim_of_trimmed (body : Str) (hb : Trimmed body) : trim body = body := by
  simpa using trim_indent [] body (by simp) hb

theorem trimmed_ne_nil {body : Str} (hb : Trimmed body) : body ≠ [] := by
  obtain ⟨⟨c, r, h1, _⟩, _⟩ := hb
  rw [h1]; simp

theorem dropWhile_head (p : Char → Bool) (l : Str) :
    l.dropWhile p = [] ∨ ∃ c r, l.dropWhile p = c :: r ∧ p c = false := by
  induction l with
  | nil => exact Or.inl rfl
  | cons c cs ih =>
    by_cases h : p c = true
    · rw [List.dropWhile_cons, if_pos h]; exact ih
    · rw [List.dropWhile_cons, if_neg h]
      exact Or.inr ⟨c, cs, rfl, by simpa using h⟩

theorem trimEnd_initial (t : Str) : trimEnd t <+: t := by
  obtain ⟨pre, hpre⟩ := List.dropWhile_suffix (l := t.reverse) isWhite
  refine ⟨pre.reverse, ?_⟩
  have := congrArg List.reverse hpre
  simpa [trimEnd] using this

theorem trimEnd_last (t : Str) :
    trimEnd t = [] ∨ ∃ r d, trimEnd t = r ++ [d] ∧ isWhite d = false := by
  rcases dropWhile_head isWhite t.reverse with h | ⟨c, r, h, hc⟩
  · exact Or.inl (by simp [trimEnd, h])
  · exact Or.inr ⟨r.reverse, c, by simp [trimEnd, h], hc⟩

theorem trimmed_of_trim_eq {s : Str} (h1 : s ≠ []) (h2 : trim s = s) : Trimmed s := by
  constructor
  · rcases dropWhile_head isWhite s with h | ⟨c, r, h, hc⟩
    · exfalso
      apply h1
      rw [← h2, trim, trimStart, h]
      rfl
    · have hp : s <+: c :: r := by
        have := trimEnd_initial (trimStart s)
        rw [show trimEnd (trimStart s) = s from h2, trimStart, h] at this
        exact this
      cases s with
      | nil => exact absurd rfl h1
      | cons a t =>
        obtain ⟨q, hq⟩ := hp
        simp only [List.cons_append, List.cons.injEq] at hq
        exact ⟨a, t, rfl, by rw [hq.1]; exact hc⟩
  · rcases trimEnd_last (trimStart s) with h | ⟨r, d, h, hd⟩
    · exact absurd (h2.symm.trans h) h1
    · exact ⟨r, d, h2.symm.trans h, hd⟩

/-! ## Lemmas on numbers -/

theorem toDigitsCore_eq (n : Nat) : ∀ (fuel : Nat) (ds : List Char), n < fuel →
    Nat.toDigitsCore 10 fuel n ds = Nat.toDigitsCore 10 (n + 1) n [] ++ ds := by
  induction n using Nat.strong_induction_on with
  | _ n ih =>
    intro fuel ds hf
    cases fuel with
    | zero => omega
    | succ fuel =>
      by_cases h0 : n / 10 = 0
      · simp [Nat.toDigitsCore, h0]
      · have hlt : n / 10 < n := by omega
        have e1 : Nat.toDigitsCore 10 (fuel + 1) n ds =
            Nat.toDigitsCore 10 fuel (n / 10) (Nat.digitChar (n % 10) :: ds) := by
          simp [Nat.toDigitsCore, h0]
        have e2 : Nat.toDigitsCore 10 (n + 1) n [] =
            Nat.toDigitsCore 10 n (n / 10) [Nat.digitChar (n % 10)] := by
          simp [Nat.toDigitsCore, h0]
        rw [e1, e2, ih (n / 10) hlt fuel _ (by omega), ih (n / 10) hlt n _ hlt]
        simp

theorem natToStr_small (n : Nat) (h : n < 10) : natToStr n = [Nat.digitChar n] := by
  have h0 : n / 10 = 0 := by omega
  have h1 : n % 10 = n := by omega
  simp [natToStr, Nat.toDigits, Nat.toDigitsCore, h0, h1]

theorem natToStr_step (n : Nat) (h : 10 ≤ n) :
    natToStr n = natToStr (n / 10) ++ [Nat.digitChar (n % 10)] := by
  have h0 : n / 10 ≠ 0 := by omega
  have e2 : Nat.toDigitsCore 10 (n + 1) n [] =
      Nat.toDigitsCore 10 n (n / 10) [Nat.digitChar (n % 10)] := by
    simp [Nat.toDigitsCore, h0]
  rw [natToStr, Nat.toDigits, e2, toDigitsCore_eq (n / 10) n _ (by omega)]
  rfl

theorem digitChar_spec : ∀ d : Fin 10,
    digitVal 10 (Nat.digitChar d.val) = some d.val ∧ isDigit (Nat.digitChar d.val) = true := by
  decide

theorem digitVal_digitChar (d : Nat) (h : d < 10) : digitVal 10 (Nat.digitChar d) = some d :=
  (digitChar_spec ⟨d, h⟩).1

theorem isDigit_digitChar (d : Nat) (h : d < 10) : isDigit (Nat.digitChar d) = true :=
  (digitChar_spec ⟨d, h⟩).2

/-- The printed form of a natural number: not empty, digits only. -/
theorem natToStr_digits (n : Nat) : natToStr n ≠ [] ∧ ∀ c ∈ natToStr n, isDigit c = true := by
  induction n using Nat.strong_induction_on with
  | _ n ih =>
    by_cases h : n < 10
    · rw [natToStr_small n h]
      exact ⟨by simp, by intro c hc; simp at hc; rw [hc]; exact isDigit_digitChar n h⟩
    · rw [natToStr_step n (by omega)]
      refine ⟨by simp, ?_⟩
      intro c hc
      rcases List.mem_append.mp hc with h1 | h1
      · exact (ih (n / 10) (by omega)).2 c h1
      · simp at h1; rw [h1]; exact isDigit_digitChar _ (Nat.mod_lt _ (by omega))

theorem digitVal_of_isDigit (radix : Nat) (c : Char) (h : isDigit c = true) :
    digitVal radix c = some (c.toNat - 48) := by
  simp only [isDigit, Bool.and_eq_true, decide_eq_true_eq] at h
  simp [digitVal, h.1, h.2]

theorem digitVal_none_of_not_hex (c : Char) (h : digitVal 16 c = none) (radix : Nat) :
    digitVal radix c = none := by
  unfold digitVal at *
  simp only at *
  split_ifs at h ⊢ <;> simp_all

/-- Reading a run of decimal digits followed by something that is not a digit. -/
theorem readDigits_append (xs rest : Str) (hx : ∀ c ∈ xs, isDigit c = true) :
    ∀ acc cnt, readDigits 10 (xs ++ rest) acc cnt =
      readDigits 10 rest (xs.foldl (fun a c => a * 10 + (c.toNat - 48)) acc) (cnt + xs.length) := by
  induction xs with
  | nil => intro acc cnt; rfl
  | cons c cs ih =>
    intro acc cnt
    have hc := digitVal_of_isDigit 10 c (hx c (by simp))
    rw [List.cons_append, readDigits, hc]
    simp only
    rw [ih (fun d hd => hx d (by simp [hd]))]
    simp only [List.foldl_cons, List.length_cons]
    congr 1
    omega

theorem natToStr_value (n : Nat) :
    (natToStr n).foldl (fun a c => a * 10 + (c.toNat - 48)) 0 = n := by
  induction n using Nat.strong_induction_on with
  | _ n ih =>
    by_cases h : n < 10
    · rw [natToStr_small n h]
      have := digitVal_digitChar n h
      rw [digitVal_of_isDigit 10 _ (isDigit_digitChar n h)] at this
      simpa using this
    · rw [natToStr_step n (by omega), List.foldl_append, ih (n / 10) (by omega)]
      have hd : n % 10 < 10 := Nat.mod_lt _ (by omega)
      have := digitVal_digitChar (n % 10) hd
      rw [digitVal_of_isDigit 10 _ (isDigit_digitChar _ hd)] at this
      simp only [Option.some.injEq] at this
      simp only [List.foldl_cons, List.foldl_nil, this]
      omega

theorem readDigits_natToStr (n : Nat) :
    readDigits 10 (natToStr n) 0 0 = (n, (natToStr n).length) := by
  have := readDigits_append (natToStr n) [] (natToStr_digits n).2 0 0
  simpa [readDigits, natToStr_value] using this

theorem isWhite_of_isDigit {c : Char} (h : isDigit c = true) : isWhite c = false := by
  simp only [isDigit, Bool.and_eq_true, decide_eq_true_eq] at h
  simp only [isWhite, Bool.or_eq_false_iff, Bool.and_eq_false_iff, decide_eq_false_iff_not,
    beq_eq_false_iff_ne, ne_eq]
  omega

theorem stripSign_of_digit (c : Char) (r : Str) (h : isDigit c = true) :
    stripSign (c :: r) = (false, c :: r) := by
  unfold stripSign
  split
  · rename_i heq; cases heq; exact absurd h (by decide)
  · rename_i heq; cases heq; exact absurd h (by decide)
  · rfl

theorem stripRadix_of_digits (s : Str) (h : ∀ c ∈ s, isDigit c = true) :
    stripRadix s = (10, s) := by
  unfold stripRadix
  split
  · have := h 'x' (by simp); exact absurd this (by decide)
  · have := h 'X' (by simp); exact absurd this (by decide)
  · rfl

theorem trimStart_of_head (c : Char) (r : Str) (h : isWhite c = false) :
    trimStart (c :: r) = c :: r := by
  simp [trimStart, List.dropWhile_cons, h]

theorem parseInt_natToStr (n : Nat) : parseInt (natToStr n) = .int n := by
  obtain ⟨hne, hd⟩ := natToStr_digits n
  cases hs : natToStr n with
  | nil => exact absurd hs hne
  | cons c r =>
    have hc : isDigit c = true := hd c (by rw [hs]; simp)
    have hd2 : ∀ x ∈ c :: r, isDigit x = true := by rw [← hs]; exact hd
    have hr := readDigits_natToStr n
    rw [hs] at hr
    simp only [parseInt, trimStart_of_head c r (isWhite_of_isDigit hc), stripSign_of_digit c r hc,
      stripRadix_of_digits (c :: r) hd2, hr]
    simp

theorem parseInt_neg_natToStr (n : Nat) : parseInt ('-' :: natToStr n) = .int (-(n : Int)) := by
  have hr := readDigits_natToStr n
  have h1 : trimStart ('-' :: natToStr n) = '-' :: natToStr n :=
    trimStart_of_head _ _ (by decide)
  have h2 : stripSign ('-' :: natToStr n) = (true, natToStr n) := rfl
  simp only [parseInt, h1, h2, stripRadix_of_digits _ (natToStr_digits n).2, hr]
  have : (natToStr n).length ≠ 0 := by
    intro h; exact (natToStr_digits n).1 (List.length_eq_zero.mp h)
  simp [this]

/-- Reading back a printed integer gives the integer. -/
theorem parseInt_toStr (n : Int) : parseInt (JSNumber.toStr (.int n)) = .int n := by
  simp only [JSNumber.toStr]
  split_ifs with h
  · rw [parseInt_neg_natToStr]
    congr 1
    omega
  · rw [parseInt_natToStr]
    congr 1
    omega

/-- Characters of a printed integer: digits and possibly a leading minus sign. -/
def isNumChar (c : Char) : Bool := isDigit c || c == '-'

theorem toStr_int_chars (n : Int) :
    (JSNumber.toStr (.int n)) ≠ [] ∧ ∀ c ∈ JSNumber.toStr (.int n), isNumChar c = true := by
  simp only [JSNumber.toStr]
  split_ifs with h
  · refine ⟨by simp, ?_⟩
    intro c hc
    rcases List.mem_cons.mp hc with h1 | h1
    · rw [h1]; decide
    · simp [isNumChar, (natToStr_digits _).2 c h1]
  · refine ⟨(natToStr_digits _).1, ?_⟩
    intro c hc
    simp [isNumChar, (natToStr_digits _).2 c hc]

theorem toStr_nat_chars (n : Nat) :
    JSNumber.toStr (.int (n : Int)) = natToStr n := by
  simp [JSNumber.toStr]

theorem isNumChar_facts {c : Char} (h : isNumChar c = true) :
    isWhite c = false ∧ c ≠ '\n' ∧ c ≠ ':' ∧ c ≠ '"' ∧ c ≠ ',' ∧ c ≠ '#' ∧ c ≠ ']' := by
  simp only [isNumChar, isDigit, Bool.or_eq_true, Bool.and_eq_true, decide_eq_true_eq,
    beq_iff_eq] at h
  rcases h with h | h
  · refine ⟨isWhite_of_isDigit (by simp [isDigit, h.1, h.2]), ?_, ?_, ?_, ?_, ?_, ?_⟩ <;>
    · intro e; rw [e] at h; revert h; decide
  · rw [h]; decide

/-- A printed integer is trimmed text. -/
theorem toStr_int_trimmed (n : Int) : Trimmed (JSNumber.toStr (.int n)) := by
  obtain ⟨hne, hc⟩ := toStr_int_chars n
  constructor
  · cases hs : JSNumber.toStr (.int n) with
    | nil => exact absurd hs hne
    | cons c r => exact ⟨c, r, rfl, (isNumChar_facts (hc c (by rw [hs]; simp))).1⟩
  · rcases List.eq_nil_or_concat (JSNumber.toStr (.int n)) with h | ⟨r, d, h⟩
    · exact absurd h hne
    · have h' : JSNumber.toStr (.int n) = r ++ [d] := by simpa using h
      exact ⟨r, d, h', (isNumChar_facts (hc d (by rw [h']; simp))).1⟩

/-! ## Running the scan over a text, line by line -/

/-- The scan takes the state `s` to the state `s2` over the complete lines `txt`: whatever
text follows, scanning `txt` followed by it from `s` is scanning it from `s2`. -/
def Runs (s : PState) (txt : Str) (s2 : PState) : Prop :=
  ∀ rest, parseLines s (splitOn '\n' (txt ++ rest)) = parseLines s2 (splitOn '\n' rest)

theorem Runs.nil (s : PState) : Runs s [] s := fun _ => rfl

theorem Runs.trans {s1 s2 s3 : PState} {t1 t2 : Str} (h1 : Runs s1 t1 s2) (h2 : Runs s2 t2 s3) :
    Runs s1 (t1 ++ t2) s3 := by
  intro rest
  rw [List.append_assoc, h1, h2]

theorem Runs.line {s s2 : PState} {l : Str} (hl : '\n' ∉ l) (h : step s l = .ok s2) :
    Runs s (l ++ ['\n']) s2 := by
  intro rest
  rw [List.append_assoc, List.singleton_append, splitOn_append_sep _ _ _ hl, parseLines, h]
  rfl

theorem Runs.blank (s : PState) : Runs s ['\n'] s := by
  have := @Runs.line s s [] (by simp) (by rfl)
  simpa using this

theorem Runs.finish {s s2 : PState} {txt : Str} (h : Runs s txt s2) :
    parseLines s (splitOn '\n' txt) = .ok s2 := by
  have := h []
  rw [List.append_nil] at this
  rw [this]
  rfl

/-! ## Lemmas on the cursors -/

theorem modifyAt_length {α : Type} (f : α → α) (l : List α) (x : α) :
    modifyAt f l.length (l ++ [x]) = l ++ [f x] := by
  induction l with
  | nil => rfl
  | cons a l ih =>
    rw [List.length_cons, List.cons_append, modifyAt, ih]
    rfl

theorem modifyAt_self {α : Type} (l : List α) : ∀ (i : Nat) (x : α), l[i]? = some x →
    modifyAt (fun _ => x) i l = l := by
  induction l with
  | nil => intro i x _; cases i <;> rfl
  | cons a l ih =>
    intro i x h
    cases i with
    | zero => simp at h; simp [modifyAt, h]
    | succ i => simp at h; simp [modifyAt, ih i x h]

theorem getElem?_length_append {α : Type} (l : List α) (x : α) :
    (l ++ [x])[l.length]? = some x := by
  simp

theorem Config.modifyStream_self (c : Config) (p : Nat × Nat) (st : Stream)
    (h : c.getStream p = some st) : c.modifyStream p (fun _ => st) = c := by
  unfold Config.getStream at h
  unfold Config.modifyStream
  cases hsc : c.screens[p.1]? with
  | none => rw [hsc] at h; cases h
  | some sc =>
    rw [hsc] at h
    simp only at h
    have e : (fun sc : Screen => { sc with streams := modifyAt (fun _ => st) p.2 sc.streams }) =
        fun sc => { sc with streams := modifyAt (fun _ => st) p.2 sc.streams } := rfl
    have hself : ∀ (l : List Screen) (i : Nat), l[i]? = some sc →
        modifyAt (fun sc : Screen => { sc with streams := modifyAt (fun _ => st) p.2 sc.streams })
          i l = l := by
      intro l
      induction l with
      | nil => intro i _; cases i <;> rfl
      | cons a l ih =>
        intro i hi
        cases i with
        | zero =>
          simp at hi
          subst hi
          simp only [modifyAt, modifyAt_self _ _ _ h]
        | succ i => simp at hi; simp [modifyAt, ih i hi]
    rw [hself _ _ hsc]

theorem Config.modifyScreen_self (c : Config) (i : Nat) (sc : Screen)
    (h : c.screens[i]? = some sc) : c.modifyScreen i (fun _ => sc) = c := by
  unfold Config.modifyScreen
  rw [modifyAt_self _ _ _ h]

/-! ## The loop body on a line of known shape -/

/-- The tests of `stepPlain` that come before the property blocks all fail. -/
def ordinary (t : Str) : Bool :=
  !(startsWith "#".toList t) && !(t == "essentials:".toList) &&
  !(startsWith "disable_autorotation:".toList t) && !(t == "screens:".toList) &&
  !(t == "- streams:".toList) && !(startsWith "- url:".toList t)

theorem isPrefixOf_cons_cons (a b : Char) (as bs : Str) :
    (a :: as).isPrefixOf (b :: bs) = (a == b && as.isPrefixOf bs) := rfl

theorem stepPlain_ordinary (s : PState) (t : Str) (h : ordinary t = true) :
    stepPlain s t = (applyStreamProps s t).bind (fun s2 => applyScreenProps s2 t) := by
  simp only [ordinary, Bool.and_eq_true, Bool.not_eq_true', beq_eq_false_iff_ne, ne_eq] at h
  obtain ⟨⟨⟨⟨⟨_, h1⟩, h2⟩, h3⟩, h4⟩, h5⟩ := h
  have h4b : (t == "- streams:".toList) = false := by simpa using h4
  simp only [stepPlain, h1, h2, h3, h4b, h5, if_false, Bool.and_false, Bool.false_eq_true]

theorem step_of_trim (s : PState) (line t : Str) (ht : trim line = t) (hne : t ≠ [])
    (hc : startsWith "#".toList t = false) : step s line = stepPlain s t := by
  simp only [step, ht, hne, hc, if_false, Bool.false_eq_true]

theorem step_plain_line (s : PState) (ind t : Str) (hind : ∀ c ∈ ind, isWhite c = true)
    (ht : Trimmed t) (hc : startsWith "#".toList t = false) :
    step s (ind ++ t) = stepPlain s t :=
  step_of_trim s _ t (trim_indent ind t hind ht) (trimmed_ne_nil ht) hc

theorem trimmed_hash (ind t : Str) (ht : Trimmed t) : Trimmed ('#' :: (ind ++ t)) := by
  obtain ⟨_, ⟨r, d, h, hd⟩⟩ := ht
  exact ⟨⟨'#', ind ++ t, rfl, by decide⟩, ⟨'#' :: (ind ++ r), d, by simp [h], hd⟩⟩

theorem step_comment_line (s : PState) (ind t : Str) (hind : ∀ c ∈ ind, isWhite c = true)
    (ht : Trimmed t) :
    step s ('#' :: (ind ++ t)) =
      (handleDisabled s t).bind (fun r =>
        match r with
        | some s2 => .ok s2
        | none =>
          if !(includes "###".toList ('#' :: (ind ++ t))) then .ok (captureComment s t)
          else .ok s) := by
  have h1 : trim ('#' :: (ind ++ t)) = '#' :: (ind ++ t) :=
    trim_of_trimmed _ (trimmed_hash ind t ht)
  have h2 : trim (ind ++ t) = t := trim_indent ind t hind ht
  have h3 : startsWith "#".toList ('#' :: (ind ++ t)) = true := by
    simp [startsWith, String.toList]
  have h4 : ('#' :: (ind ++ t)) ≠ [] := by simp
  simp only [step, h1, h3, h4, if_true, if_false, List.drop_succ_cons, List.drop_zero, h2]

/-! ## Resolution of the key tests -/

/-- Two prefixes clash when one is a prefix of the other. -/
def clash (p q : Str) : Bool := p.isPrefixOf q || q.isPrefixOf p

theorem startsWith_excl {p q t : Str} (h : startsWith p t = true) (hc : clash p q = false) :
    startsWith q t = false := by
  by_contra hq
  have hq2 : startsWith q t = true := by simpa using hq
  simp only [startsWith, List.isPrefixOf_iff_prefix] at h hq2
  simp only [clash, Bool.or_eq_false_iff] at hc
  rcases List.prefix_or_prefix_of_prefix h hq2 with h1 | h1
  · have := List.isPrefixOf_iff_prefix.mpr h1
    rw [hc.1] at this; cases this
  · have := List.isPrefixOf_iff_prefix.mpr h1
    rw [hc.2] at this; cases this

/-- The keys tested by the block `Stream properties`, in order. -/
def streamKeys : List Str :=
  ["disabled:".toList, "imageurl:".toList, "showontop:".toList, "enableaudio:".toList,
   "probe_timeout:".toList, "timeout_waiting_for_init_stream:".toList,
   "freeform_advanced_mpv_options:".toList, "force_coordinates:".toList]

/-- The keys tested by the block `Screen properties`, in order. -/
def screenKeys : List Str :=
  ["duration:".toList, "nr_of_columns:".toList, "rotate90:".toList,
   "disable_probing_for_all_streams:".toList]

/-- Some key of the list starts the text. -/
def hasKey (keys : List Str) (t : Str) : Bool := keys.any (fun k => startsWith k t)

theorem hasKey_false_of_startsWith {p t : Str} (keys : List Str) (h : startsWith p t = true)
    (hc : keys.all (fun q => !clash p q) = true) : hasKey keys t = false := by
  simp only [hasKey, List.any_eq_false]
  intro q hq
  simp only [List.all_eq_true, Bool.not_eq_true'] at hc
  simp [startsWith_excl h (hc q hq)]

theorem streamProp_noKey (t : Str) (x : Stream) (h : hasKey streamKeys t = false) :
    streamProp t x = .ok x := by
  simp only [hasKey, streamKeys, List.any_cons, List.any_nil, Bool.or_false,
    Bool.or_eq_false_iff] at h
  obtain ⟨h0, h1, h2, h3, h4, h5, h6, h7⟩ := h
  simp only [streamProp, h0, h1, h2, h3, h4, h5, h6, h7, if_false, Bool.false_eq_true]

theorem disabledProp_noKey (t : Str) (x : Stream) (h : hasKey streamKeys t = false) :
    disabledProp t x = .ok none := by
  simp only [hasKey, streamKeys, List.any_cons, List.any_nil, Bool.or_false,
    Bool.or_eq_false_iff] at h
  obtain ⟨h0, h1, h2, h3, h4, h5, h6, h7⟩ := h
  simp only [disabledProp, h1, h2, h3, h4, h5, h6, h7, if_false, Bool.false_eq_true]

theorem screenProp_noKey (t : Str) (sc : Screen) (h : hasKey screenKeys t = false) :
    screenProp t sc = .ok sc := by
  simp only [hasKey, screenKeys, List.any_cons, List.any_nil, Bool.or_false,
    Bool.or_eq_false_iff] at h
  obtain ⟨h0, h1, h2, h3⟩ := h
  simp only [screenProp, h0, h1, h2, h3, if_false, Bool.false_eq_true]

theorem streamProp_disabled (t : Str) (x : Stream) (h : startsWith "disabled:".toList t = true) :
    streamProp t x = (colonValue t).map (fun v => { x with disabled := isTrueLit v }) := by
  simp only [streamProp, h, if_true]

theorem streamProp_imageurl (t : Str) (x : Stream) (h : startsWith "imageurl:".toList t = true) :
    streamProp t x = (colonValue t).map (fun v => { x with imageurl := some (isTrueLit v) }) := by
  have h0 := startsWith_excl h (q := "disabled:".toList) (by decide)
  simp only [streamProp, h0, h, if_true, if_false, Bool.false_eq_true]

theorem streamProp_showontop (t : Str) (x : Stream)
    (h : startsWith "showontop:".toList t = true) :
    streamProp t x = (colonValue t).map (fun v => { x with showontop := some (isTrueLit v) }) := by
  have h0 := startsWith_excl h (q := "disabled:".toList) (by decide)
  have h1 := startsWith_excl h (q := "imageurl:".toList) (by decide)
  simp only [streamProp, h0, h1, h, if_true, if_false, Bool.false_eq_true]

theorem streamProp_enableaudio (t : Str) (x : Stream)
    (h : startsWith "enableaudio:".toList t = true) :
    streamProp t x =
      (colonValue t).map (fun v => { x with enableaudio := some (isTrueLit v) }) := by
  have h0 := startsWith_excl h (q := "disabled:".toList) (by decide)
  have h1 := startsWith_excl h (q := "imageurl:".toList) (by decide)
  have h2 := startsWith_excl h (q := "showontop:".toList) (by decide)
  simp only [streamProp, h0, h1, h2, h, if_true, if_false, Bool.false_eq_true]

theorem streamProp_probe_timeout (t : Str) (x : Stream)
    (h : startsWith "probe_timeout:".toList t = true) :
    streamProp t x =
      (colonValue t).map (fun v => { x with probe_timeout := some (parseInt v) }) := by
  have h0 := startsWith_excl h (q := "disabled:".toList) (by decide)
  have h1 := startsWith_excl h (q := "imageurl:".toList) (by decide)
  have h2 := startsWith_excl h (q := "showontop:".toList) (by decide)
  have h3 := startsWith_excl h (q := "enableaudio:".toList) (by decide)
  simp only [streamProp, h0, h1, h2, h3, h, if_true, if_false, Bool.false_eq_true]

theorem streamProp_init_timeout (t : Str) (x : Stream)
    (h : startsWith "timeout_waiting_for_init_stream:".toList t = true) :
    streamProp t x =
      (colonValue t).map
        (fun v => { x with timeout_waiting_for_init_stream := some (parseInt v) }) := by
  have h0 := startsWith_excl h (q := "disabled:".toList) (by decide)
  have h1 := startsWith_excl h (q := "imageurl:".toList) (by decide)
  have h2 := startsWith_excl h (q := "showontop:".toList) (by decide)
  have h3 := startsWith_excl h (q := "enableaudio:".toList) (by decide)
  have h4 := startsWith_excl h (q := "probe_timeout:".toList) (by decide)
  simp only [streamProp, h0, h1, h2, h3, h4, h, if_true, if_false, Bool.false_eq_true]

theorem streamProp_freeform (t : Str) (x : Stream)
    (h : startsWith "freeform_advanced_mpv_options:".toList t = true) :
    streamProp t x =
      match quotedMatch t with
      | some v => .ok { x with freeform_advanced_mpv_options := some v }
      | none => .ok x := by
  have h0 := startsWith_excl h (q := "disabled:".toList) (by decide)
  have h1 := startsWith_excl h (q := "imageurl:".toList) (by decide)
  have h2 := startsWith_excl h (q := "showontop:".toList) (by decide)
  have h3 := startsWith_excl h (q := "enableaudio:".toList) (by decide)
  have h4 := startsWith_excl h (q := "probe_timeout:".toList) (by decide)
  have h5 := startsWith_excl h (q := "timeout_waiting_for_init_stream:".toList) (by decide)
  simp only [streamProp, h0, h1, h2, h3, h4, h5, h, if_true, if_false, Bool.false_eq_true]

theorem streamProp_force_coordinates (t : Str) (x : Stream)
    (h : startsWith "force_coordinates:".toList t = true) :
    streamProp t x =
      match coordsMatch t with
      | some g => .ok { x with force_coordinates := some (parseCoords g) }
      | none => .ok x := by
  have h0 := startsWith_excl h (q := "disabled:".toList) (by decide)
  have h1 := startsWith_excl h (q := "imageurl:".toList) (by decide)
  have h2 := startsWith_excl h (q := "showontop:".toList) (by decide)
  have h3 := startsWith_excl h (q := "enableaudio:".toList) (by decide)
  have h4 := startsWith_excl h (q := "probe_timeout:".toList) (by decide)
  have h5 := startsWith_excl h (q := "timeout_waiting_for_init_stream:".toList) (by decide)
  have h6 := startsWith_excl h (q := "freeform_advanced_mpv_options:".toList) (by decide)
  simp only [streamProp, h0, h1, h2, h3, h4, h5, h6, h, if_true, if_false, Bool.false_eq_true]

/-- The commented-line branch reads a key as the block `Stream properties` does, the key
`disabled:` apart. -/
theorem disabledProp_eq_streamProp (t : Str) (x : Stream)
    (h0 : startsWith "disabled:".toList t = false) (hk : hasKey streamKeys t = true) :
    disabledProp t x = (streamProp t x).map some := by
  simp only [disabledProp, streamProp, h0, if_false, Bool.false_eq_true]
  by_cases h1 : startsWith "imageurl:".toList t = true
  · simp only [h1, if_true]; cases colonValue t <;> rfl
  by_cases h2 : startsWith "showontop:".toList t = true
  · simp only [h1, h2, if_true, if_false]; cases colonValue t <;> rfl
  by_cases h3 : startsWith "enableaudio:".toList t = true
  · simp only [h1, h2, h3, if_true, if_false]; cases colonValue t <;> rfl
  by_cases h4 : startsWith "probe_timeout:".toList t = true
  · simp only [h1, h2, h3, h4, if_true, if_false]; cases colonValue t <;> rfl
  by_cases h5 : startsWith "timeout_waiting_for_init_stream:".toList t = true
  · simp only [h1, h2, h3, h4, h5, if_true, if_false]; cases colonValue t <;> rfl
  by_cases h6 : startsWith "freeform_advanced_mpv_options:".toList t = true
  · simp only [h1, h2, h3, h4, h5, h6, if_true, if_false]; cases quotedMatch t <;> rfl
  by_cases h7 : startsWith "force_coordinates:".toList t = true
  · simp only [h1, h2, h3, h4, h5, h6, h7, if_true, if_false]; cases coordsMatch t <;> rfl
  · simp only [Bool.not_eq_true] at h1 h2 h3 h4 h5 h6 h7
    have hf : hasKey streamKeys t = false := by
      simp only [hasKey, streamKeys, List.any_cons, List.any_nil, Bool.or_false,
        Bool.or_eq_false_iff]
      exact ⟨h0, h1, h2, h3, h4, h5, h6, h7⟩
    rw [hf] at hk
    cases hk

/-! ## States of the scan inside a screen -/

/-- The state of the scan inside the screen `cur`, after the screens `done`. -/
def inScreen (b : Bool) (res : Resolution) (done : List Screen) (cur : Screen)
    (cst : Option (Nat × Nat)) (lc : Option Str) : PState :=
  { config := { disable_autorotation := b, screens := done ++ [cur] }
    resolution := res
    currentScreen := some done.length
    currentStream := cst
    inEssentials := true
    inScreens := true
    lastComment := lc }

/-- The state of the scan right after the stream `x` was pushed on the screen `cur`, or
after property lines of `x`. -/
def atStream (b : Bool) (res : Resolution) (done : List Screen) (cur : Screen) (x : Stream) :
    PState :=
  inScreen b res done { cur with streams := cur.streams ++ [x] }
    (some (done.length, cur.streams.length)) none

theorem getStream_last (b : Bool) (done : List Screen) (cur : Screen) (x : Stream) :
    Config.getStream
      { disable_autorotation := b
        screens := done ++ [{ cur with streams := cur.streams ++ [x] }] }
      (done.length, cur.streams.length) = some x := by
  simp [Config.getStream]

theorem modifyStream_last (b : Bool) (done : List Screen) (cur : Screen) (x x2 : Stream) :
    Config.modifyStream
      { disable_autorotation := b
        screens := done ++ [{ cur with streams := cur.streams ++ [x] }] }
      (done.length, cur.streams.length) (fun _ => x2) =
    { disable_autorotation := b
      screens := done ++ [{ cur with streams := cur.streams ++ [x2] }] } := by
  simp [Config.modifyStream, modifyAt_length]

theorem applyScreenProps_noKey (s : PState) (t : Str) (h : hasKey screenKeys t = false) :
    applyScreenProps s t = .ok s := by
  obtain ⟨cfg, res, cs, cst, ie, isc, lc⟩ := s
  unfold applyScreenProps
  cases cs with
  | none => rfl
  | some i =>
    simp only
    split_ifs
    · rfl
    · cases hsc : cfg.screens[i]? with
      | none => rfl
      | some sc =>
        simp only [screenProp_noKey t sc h, Except.map, Config.modifyScreen_self _ _ _ hsc]

theorem applyStreamProps_noKey (s : PState) (t : Str) (h : hasKey streamKeys t = false) :
    applyStreamProps s t = .ok s := by
  obtain ⟨cfg, res, cs, cst, ie, isc, lc⟩ := s
  unfold applyStreamProps
  cases cst with
  | none => rfl
  | some p =>
    simp only
    cases hst : cfg.getStream p with
    | none => rfl
    | some st =>
      simp only [streamProp_noKey t st h, Except.map, Config.modifyStream_self _ _ _ hst]

theorem handleDisabled_noKey (s : PState) (t : Str)
    (hu : startsWith "- url:".toList t = false) (h : hasKey streamKeys t = false) :
    handleDisabled s t = .ok none := by
  obtain ⟨cfg, res, cs, cst, ie, isc, lc⟩ := s
  unfold handleDisabled
  simp only [hu, Bool.and_false, Bool.false_eq_true, if_false]
  cases cst with
  | none => rfl
  | some p =>
    simp only
    cases hst : cfg.getStream p with
    | none => rfl
    | some st =>
      simp only [disabledProp_noKey t st h]
      split_ifs <;> rfl

/-- The prefix of a line of a stream block: `#` when the stream is disabled. -/
def mark (disabled : Bool) : Str := if disabled then ['#'] else []

theorem ordinary_hash {t : Str} (h : ordinary t = true) : startsWith "#".toList t = false := by
  simp only [ordinary, Bool.and_eq_true, Bool.not_eq_true'] at h
  exact h.1.1.1.1.1

theorem ordinary_url {t : Str} (h : ordinary t = true) : startsWith "- url:".toList t = false := by
  simp only [ordinary, Bool.and_eq_true, Bool.not_eq_true'] at h
  exact h.2

/-- A property line of the stream just pushed, written plainly or commented out. -/
theorem step_streamProp_line (b : Bool) (res : Resolution) (done : List Screen) (cur : Screen)
    (x x2 : Stream) (ind t : Str) (hind : ∀ c ∈ ind, isWhite c = true) (ht : Trimmed t)
    (hord : ordinary t = true) (hsk : hasKey screenKeys t = false)
    (hd0 : startsWith "disabled:".toList t = false) (hkey : hasKey streamKeys t = true)
    (hsp : streamProp t x = .ok x2) :
    step (atStream b res done cur x) (mark x.disabled ++ (ind ++ t)) =
      .ok (atStream b res done cur x2) := by
  cases hdis : x.disabled with
  | false =>
    simp only [mark, Bool.false_eq_true, if_false, List.nil_append]
    rw [step_plain_line _ ind t hind ht (ordinary_hash hord), stepPlain_ordinary _ _ hord]
    have h1 : applyStreamProps (atStream b res done cur x) t =
        .ok (atStream b res done cur x2) := by
      simp only [atStream, inScreen, applyStreamProps, getStream_last, hsp, Except.map,
        modifyStream_last]
    rw [h1]
    show applyScreenProps (atStream b res done cur x2) t = _
    exact applyScreenProps_noKey _ _ hsk
  | true =>
    simp only [mark, if_true, List.singleton_append]
    rw [step_comment_line _ ind t hind ht]
    have h1 : handleDisabled (atStream b res done cur x) t =
        .ok (some (atStream b res done cur x2)) := by
      simp only [atStream, inScreen, handleDisabled, ordinary_url hord, Bool.and_false,
        Bool.false_eq_true, if_false, getStream_last, hdis, if_true,
        disabledProp_eq_streamProp t x hd0 hkey, hsp, Except.map, Option.map, modifyStream_last]
    rw [h1]
    rfl

theorem ne_of_startsWith {p t q : Str} (h : startsWith p t = true)
    (hq : startsWith p q = false) : t ≠ q := by
  intro e; rw [e, hq] at h; cases h

/-- A stream marker inside a screen, written plainly or commented out. -/
theorem step_url_line (b : Bool) (res : Resolution) (done : List Screen) (cur : Screen)
    (cst : Option (Nat × Nat)) (lc : Option Str) (dis : Bool) (ind t u : Str)
    (hind : ∀ c ∈ ind, isWhite c = true) (ht : Trimmed t)
    (hs : startsWith "- url:".toList t = true) (hm : urlMatch t = some u) :
    step (inScreen b res done cur cst lc) (mark dis ++ (ind ++ t)) =
      .ok (atStream b res done cur (newStream lc u dis)) := by
  have hpush : pushStream (inScreen b res done cur cst lc) done.length (newStream lc u dis) =
      atStream b res done cur (newStream lc u dis) := by
    simp [pushStream, inScreen, atStream, Config.modifyScreen, modifyAt_length]
  cases dis with
  | false =>
    simp only [mark, Bool.false_eq_true, if_false, List.nil_append]
    have h0 := startsWith_excl hs (q := "#".toList) (by decide)
    have h1 : t ≠ "essentials:".toList := ne_of_startsWith hs (by decide)
    have h2 := startsWith_excl hs (q := "disable_autorotation:".toList) (by decide)
    have h3 : t ≠ "screens:".toList := ne_of_startsWith hs (by decide)
    have h4 : (t == "- streams:".toList) = false := by
      simpa using ne_of_startsWith hs (q := "- streams:".toList) (by decide)
    rw [step_plain_line _ ind t hind ht h0]
    simp only [stepPlain, h1, h2, h3, h4, if_false, Bool.and_false, Bool.false_eq_true, inScreen,
      Option.isSome_some, hs, Bool.and_self, if_true, hm]
    exact congrArg Except.ok hpush
  | true =>
    simp only [mark, if_true, List.singleton_append]
    rw [step_comment_line _ ind t hind ht]
    have h1 : handleDisabled (inScreen b res done cur cst lc) t =
        .ok (some (pushStream (inScreen b res done cur cst lc) done.length
          (newStream lc u true))) := by
      simp only [handleDisabled, inScreen, Option.isSome_some, hs, Bool.and_self, if_true, hm]
    rw [h1, hpush]
    rfl

/-- A plain comment inside a screen becomes the pending name. -/
theorem step_name_line (b : Bool) (res : Resolution) (done : List Screen) (cur : Screen)
    (cst : Option (Nat × Nat)) (lc : Option Str) (n : Str) (ht : Trimmed n)
    (hu : startsWith "- url:".toList n = false) (hk : hasKey streamKeys n = false)
    (h3 : includes "###".toList ('#' :: n) = false) (hr : resolutionMatch n = none) :
    step (inScreen b res done cur cst lc) ('#' :: n) =
      .ok (inScreen b res done cur cst (some n)) := by
  have := step_comment_line (inScreen b res done cur cst lc) [] n (by simp) ht
  rw [List.nil_append] at this
  rw [this, handleDisabled_noKey _ _ hu hk]
  simp only [Except.bind, h3, Bool.not_false, if_true, captureComment, hr, inScreen,
    Option.isSome_some]

/-- A screen property line inside a screen. -/
theorem step_screenProp_line (b : Bool) (res : Resolution) (done : List Screen)
    (cur cur2 : Screen) (cst : Option (Nat × Nat)) (lc : Option Str) (ind t : Str)
    (hind : ∀ c ∈ ind, isWhite c = true) (ht : Trimmed t) (hord : ordinary t = true)
    (hk : hasKey streamKeys t = false) (hsp : screenProp t cur = .ok cur2) :
    step (inScreen b res done cur cst lc) (ind ++ t) =
      .ok (inScreen b res done cur2 cst lc) := by
  rw [step_plain_line _ ind t hind ht (ordinary_hash hord), stepPlain_ordinary _ _ hord,
    applyStreamProps_noKey _ _ hk]
  show applyScreenProps (inScreen b res done cur cst lc) t = _
  simp only [applyScreenProps, inScreen, ordinary_url hord, Bool.false_eq_true, if_false,
    getElem?_length_append, hsp, Except.map, Config.modifyScreen, modifyAt_length]

/-- The screen marker, once the line `screens:` has been read. -/
theorem step_screen_marker (cfg : Config) (res : Resolution) (cs : Option Nat)
    (cst : Option (Nat × Nat)) (ie : Bool) (lc : Option Str) :
    step ⟨cfg, res, cs, cst, ie, true, lc⟩ "    - streams:".toList =
      .ok ⟨{ cfg with screens := cfg.screens ++ [newScreen] }, res, some cfg.screens.length, cst,
        ie, true, none⟩ := by
  have h1 : trim "    - streams:".toList = "- streams:".toList := by decide
  rw [step_of_trim _ _ _ h1 (by decide) (by decide)]
  have h2 : "- streams:".toList ≠ "essentials:".toList := by decide
  have h3 : startsWith "disable_autorotation:".toList "- streams:".toList = false := by decide
  have h4 : "- streams:".toList ≠ "screens:".toList := by decide
  simp only [stepPlain, h2, h3, h4, if_false, Bool.and_false, Bool.false_eq_true, beq_self_eq_true,
    Bool.and_self, if_true]

/-! ## Facts on the lines that `stringify` writes -/

/-- The checks on a key that make a line starting with it reach the property blocks. -/
def ordChecks (p : Str) : Bool :=
  !clash p "#".toList && !startsWith p "essentials:".toList &&
  !clash p "disable_autorotation:".toList && !startsWith p "screens:".toList &&
  !startsWith p "- streams:".toList && !clash p "- url:".toList

theorem ordinary_of_startsWith {p t : Str} (h : startsWith p t = true)
    (hc : ordChecks p = true) : ordinary t = true := by
  simp only [ordChecks, Bool.and_eq_true, Bool.not_eq_true'] at hc
  obtain ⟨⟨⟨⟨⟨c1, c2⟩, c3⟩, c4⟩, c5⟩, c6⟩ := hc
  have h1 := startsWith_excl h c1
  have h2 : t ≠ "essentials:".toList := ne_of_startsWith h c2
  have h3 := startsWith_excl h c3
  have h4 : t ≠ "screens:".toList := ne_of_startsWith h c4
  have h5 : t ≠ "- streams:".toList := ne_of_startsWith h c5
  have h6 := startsWith_excl h c6
  simp only [ordinary, h1, h3, h6, Bool.not_false, Bool.true_and, Bool.and_true,
    Bool.and_eq_true, Bool.not_eq_true', beq_eq_false_iff_ne, ne_eq]
  exact ⟨⟨h2, h4⟩, h5⟩

theorem hasKey_of_mem {keys : List Str} {p t : Str} (hp : p ∈ keys)
    (h : startsWith p t = true) : hasKey keys t = true := by
  simp only [hasKey, List.any_eq_true]
  exact ⟨p, hp, h⟩

/-- A line that starts with a stream key other than `disabled:` is a stream property line
and nothing else. -/
theorem streamKey_line {p t : Str} (hp : p ∈ streamKeys) (hne : p ≠ "disabled:".toList)
    (h : startsWith p t = true) :
    ordinary t = true ∧ hasKey screenKeys t = false ∧
      startsWith "disabled:".toList t = false ∧ hasKey streamKeys t = true := by
  have hall : ∀ q ∈ streamKeys, q ≠ "disabled:".toList →
      (ordChecks q && screenKeys.all (fun k => !clash q k) &&
        !clash q "disabled:".toList) = true := by decide
  have := hall p hp hne
  simp only [Bool.and_eq_true, Bool.not_eq_true'] at this
  exact ⟨ordinary_of_startsWith h this.1.1, hasKey_false_of_startsWith _ h this.1.2,
    startsWith_excl h this.2, hasKey_of_mem hp h⟩

/-- A line that starts with a screen key is a screen property line and nothing else. -/
theorem screenKey_line {p t : Str} (hp : p ∈ screenKeys) (h : startsWith p t = true) :
    ordinary t = true ∧ hasKey streamKeys t = false := by
  have hall : ∀ q ∈ screenKeys,
      (ordChecks q && streamKeys.all (fun k => !clash q k)) = true := by decide
  have := hall p hp
  simp only [Bool.and_eq_true] at this
  exact ⟨ordinary_of_startsWith h this.1, hasKey_false_of_startsWith _ h this.2⟩

theorem startsWith_append (p r : Str) : startsWith p (p ++ r) = true := by
  simp [startsWith]

theorem trimmed_append {a v : Str} (c : Char) (r : Str) (ha : a = c :: r)
    (hc : isWhite c = false) (hv : Trimmed v) : Trimmed (a ++ v) := by
  obtain ⟨_, ⟨r2, d, h2, hd⟩⟩ := hv
  exact ⟨⟨c, r ++ v, by simp [ha], hc⟩, ⟨a ++ r2, d, by simp [h2], hd⟩⟩

theorem trimmed_quoted {a : Str} (c : Char) (r : Str) (ha : a = c :: r)
    (hc : isWhite c = false) (v : Str) : Trimmed (a ++ (v ++ ['"'])) :=
  ⟨⟨c, r ++ (v ++ ['"']), by simp [ha], hc⟩, ⟨a ++ v, '"', by simp, by decide⟩⟩

/-- The value after the colon of a line `key: value`. -/
theorem colonValue_key (k v : Str) (hk : ':' ∉ k) (hv : ':' ∉ v) (ht : Trimmed v) :
    colonValue (k ++ ':' :: ' ' :: v) = .ok v := by
  have h1 : splitOn ':' (k ++ ':' :: ' ' :: v) = [k, ' ' :: v] := by
    rw [splitOn_append_sep _ _ _ hk, splitOn_of_not_mem]
    intro h
    rcases List.mem_cons.mp h with h | h
    · cases h
    · exact hv h
  have h2 : trim (' ' :: v) = v := trim_indent [' '] v (by decide) ht
  simp [colonValue, h1, h2]

theorem quotedAt_spec (u rest : Str) (hu : u ≠ []) (hq : '"' ∉ u) :
    quotedAt ('"' :: (u ++ '"' :: rest)) = some u := by
  have hx : ∀ c ∈ u, (fun c : Char => c != '"') c = true := by
    intro c hc
    simp only [bne_iff_ne, ne_eq]
    intro e; exact hq (e ▸ hc)
  have h1 := takeWhile_append_stop u '"' rest hx (by simp)
  have h2 := dropWhile_append_stop u '"' rest hx (by simp)
  cases u with
  | nil => exact absurd rfl hu
  | cons a r =>
    simp only [quotedAt, h1, h2]

theorem searchFirst_hit {α : Type} (m : Str → Option α) (c : Char) (cs : Str) (r : α)
    (h : m (c :: cs) = some r) : searchFirst m (c :: cs) = some r := by
  simp [searchFirst, h]

theorem searchFirst_skip {α : Type} (m : Str → Option α) (pre rest : Str)
    (h : ∀ a b, a ++ b = pre → b ≠ [] → m (b ++ rest) = none) :
    searchFirst m (pre ++ rest) = searchFirst m rest := by
  induction pre with
  | nil => rfl
  | cons c cs ih =>
    have h1 : m (c :: cs ++ rest) = none := h [] (c :: cs) rfl (by simp)
    rw [List.cons_append] at h1 ⊢
    rw [searchFirst, h1]
    exact ih (fun a b hab hb => h (c :: a) b (by simp [hab]) hb)

theorem quotedAt_none_of_head {s : Str} (h : s.head? ≠ some '"') : quotedAt s = none := by
  unfold quotedAt
  split
  · simp at h
  · rfl

theorem coordsAt_none_of_head {s : Str} (h : s.head? ≠ some '[') : coordsAt s = none := by
  unfold coordsAt
  split
  · simp at h
  · rfl

/-- A search that looks at the first character only skips a prefix without that
character. -/
theorem searchFirst_skip_char {α : Type} (m : Str → Option α) (q : Char)
    (hm : ∀ s : Str, s.head? ≠ some q → m s = none) (pre rest : Str) (hp : q ∉ pre) :
    searchFirst m (pre ++ rest) = searchFirst m rest := by
  apply searchFirst_skip
  intro a b hab hb
  apply hm
  cases b with
  | nil => exact absurd rfl hb
  | cons c cs =>
    simp only [List.cons_append, List.head?_cons, ne_eq, Option.some.injEq]
    intro e
    apply hp
    rw [← hab, e]
    simp

/-! ## Commenting out a block, line by line -/

/-- The text of a stream block as it is appended: commented out when the stream is
disabled. -/
def markLines (dis : Bool) (txt : Str) : Str := if dis then commentOut txt else txt

theorem commentOut_nil : commentOut [] = [] := by decide

theorem commentOut_line (l rest : Str) (hl : '\n' ∉ l) (hb : (trim l).length ≠ 0) :
    commentOut (l ++ '\n' :: rest) = ('#' :: l) ++ '\n' :: commentOut rest := by
  unfold commentOut
  rw [splitOn_append_sep _ _ _ hl]
  cases hs : splitOn '\n' rest with
  | nil => exact absurd hs (splitOn_ne_nil _ _)
  | cons y ys =>
    simp only [List.map_cons, joinWith, hb, if_false]
    simp [String.toList]

theorem markLines_nil (dis : Bool) : markLines dis [] = [] := by
  cases dis
  · rfl
  · exact commentOut_nil

theorem markLines_line (dis : Bool) (l rest : Str) (hl : '\n' ∉ l) (hb : (trim l).length ≠ 0) :
    markLines dis ((l ++ ['\n']) ++ rest) = ((mark dis ++ l) ++ ['\n']) ++ markLines dis rest := by
  cases dis
  · simp [markLines, mark]
  · simp only [markLines, mark, if_true, List.append_assoc, List.singleton_append]
    rw [commentOut_line l rest hl hb]

/-- One piece of a block: nothing, or one complete line that the scan takes from `s` to
`s2`, plainly or commented out. -/
def PieceRuns (dis : Bool) (s : PState) (p : Str) (s2 : PState) : Prop :=
  (p = [] ∧ s = s2) ∨
  (∃ l, p = l ++ ['\n'] ∧ '\n' ∉ l ∧ (trim l).length ≠ 0 ∧ step s (mark dis ++ l) = .ok s2)

theorem mark_no_newline (dis : Bool) : '\n' ∉ mark dis := by
  cases dis <;> decide

theorem PieceRuns.cons {dis : Bool} {s s2 s3 : PState} {p rest : Str}
    (h : PieceRuns dis s p s2) (h2 : Runs s2 (markLines dis rest) s3) :
    Runs s (markLines dis (p ++ rest)) s3 := by
  rcases h with ⟨hp, hs⟩ | ⟨l, hp, hl, hb, hstep⟩
  · rw [hp, hs, List.nil_append]; exact h2
  · rw [hp, markLines_line dis l rest hl hb]
    refine Runs.trans (Runs.line ?_ hstep) h2
    intro hm
    rcases List.mem_append.mp hm with h1 | h1
    · exact mark_no_newline dis h1
    · exact hl h1

theorem PieceRuns.none (dis : Bool) (s : PState) : PieceRuns dis s [] s := Or.inl ⟨rfl, rfl⟩

theorem trim_length_indent (ind t : Str) (hind : ∀ c ∈ ind, isWhite c = true) (ht : Trimmed t) :
    (trim (ind ++ t)).length ≠ 0 := by
  rw [trim_indent ind t hind ht]
  intro h
  exact trimmed_ne_nil ht (List.length_eq_zero.mp h)

theorem not_mem_append {c : Char} {a b : Str} (ha : c ∉ a) (hb : c ∉ b) : c ∉ a ++ b := by
  intro h
  rcases List.mem_append.mp h with h | h
  · exact ha h
  · exact hb h

/-- The indentation of a property line of a stream. -/
def ind10 : Str := "          ".toList

/-- The indentation of a stream marker. -/
def ind8 : Str := "        ".toList

/-- The indentation of a property line of a screen. -/
def ind6 : Str := "      ".toList

theorem ind_white : (∀ c ∈ ind10, isWhite c = true) ∧ (∀ c ∈ ind8, isWhite c = true) ∧
    (∀ c ∈ ind6, isWhite c = true) := by decide

theorem ind_no_newline : '\n' ∉ ind10 ∧ '\n' ∉ ind8 ∧ '\n' ∉ ind6 := by decide

/-- A property line of the stream just pushed, as a piece of its block. -/
theorem pieceRuns_streamProp (b : Bool) (res : Resolution) (done : List Screen) (cur : Screen)
    (x x2 : Stream) (p t : Str) (hp : p ∈ streamKeys) (hne : p ≠ "disabled:".toList)
    (hs : startsWith p t = true) (ht : Trimmed t) (hnl : '\n' ∉ t)
    (hsp : streamProp t x = .ok x2) :
    PieceRuns x.disabled (atStream b res done cur x) ((ind10 ++ t) ++ ['\n'])
      (atStream b res done cur x2) := by
  obtain ⟨h1, h2, h3, h4⟩ := streamKey_line hp hne hs
  exact Or.inr ⟨ind10 ++ t, rfl, not_mem_append ind_no_newline.1 hnl,
    trim_length_indent _ _ ind_white.1 ht,
    step_streamProp_line b res done cur x x2 ind10 t ind_white.1 ht h1 h2 h3 h4 hsp⟩

/-- A stream marker inside a screen, as the first piece of its block. -/
theorem pieceRuns_url (b : Bool) (res : Resolution) (done : List Screen) (cur : Screen)
    (cst : Option (Nat × Nat)) (lc : Option Str) (dis : Bool) (t u : Str) (ht : Trimmed t)
    (hnl : '\n' ∉ t) (hs : startsWith "- url:".toList t = true) (hm : urlMatch t = some u) :
    PieceRuns dis (inScreen b res done cur cst lc) ((ind8 ++ t) ++ ['\n'])
      (atStream b res done cur (newStream lc u dis)) :=
  Or.inr ⟨ind8 ++ t, rfl, not_mem_append ind_no_newline.2.1 hnl,
    trim_length_indent _ _ ind_white.2.1 ht,
    step_url_line b res done cur cst lc dis ind8 t u ind_white.2.1 ht hs hm⟩

/-! ## Documents that survive a round trip -/

/-- Text that can stand between double quotes on one line: not empty, no double quote, no
line break. -/
def okQuoted (u : Str) : Prop := u ≠ [] ∧ '"' ∉ u ∧ '\n' ∉ u

/-- A name that is read back from its comment line: not empty, no surrounding white space,
no line break, not taken for a divider (`###` in the comment line), for a resolution
annotation, for a commented-out stream marker or for a commented-out property line. -/
def okName (n : Str) : Prop :=
  n ≠ [] ∧ trim n = n ∧ '\n' ∉ n ∧ includes "###".toList ('#' :: n) = false ∧
  resolutionMatch n = none ∧ startsWith "- url:".toList n = false ∧
  hasKey streamKeys n = false

/-- A numeric field that is written and read back: absent, or an integer other than 0, of
magnitude below `2^53` (the range in which the model of numbers is exact). -/
def okNumber : Option JSNumber → Prop
  | none => True
  | some .nan => False
  | some (.int n) => n ≠ 0 ∧ n.natAbs < 2 ^ 53

/-- A coordinate: an integer that is not negative, below `2^53`. -/
def okCoord : JSNumber → Prop
  | .nan => False
  | .int n => 0 ≤ n ∧ n < 2 ^ 53

/-- A coordinate list that is written and read back: absent, or four integers that are not
negative, below `2^53`. -/
def okCoords : Option (List JSNumber) → Prop
  | none => True
  | some cs => cs.length = 4 ∧ ∀ c ∈ cs, okCoord c

/-- A property holds of the value of an optional field, if there is one. -/
def optAll {α : Type} (p : α → Prop) : Option α → Prop
  | none => True
  | some a => p a

instance {α : Type} (p : α → Prop) [DecidablePred p] : DecidablePred (optAll p)
  | none => isTrue trivial
  | some a => inferInstanceAs (Decidable (p a))

instance : DecidablePred okQuoted := fun u => by unfold okQuoted; infer_instance
instance : DecidablePred okName := fun u => by unfold okName; infer_instance
instance : DecidablePred okNumber
  | none => isTrue trivial
  | some .nan => isFalse (fun h => h)
  | some (.int n) => inferInstanceAs (Decidable (n ≠ 0 ∧ n.natAbs < 2 ^ 53))
instance : DecidablePred okCoord
  | .nan => isFalse (fun h => h)
  | .int n => inferInstanceAs (Decidable (0 ≤ n ∧ n < 2 ^ 53))
instance : DecidablePred okCoords
  | none => isTrue trivial
  | some cs => inferInstanceAs (Decidable (cs.length = 4 ∧ ∀ c ∈ cs, okCoord c))

/-- A stream that survives a round trip. -/
def okStream (st : Stream) : Prop :=
  okQuoted st.url ∧ optAll okName st.name ∧ okNumber st.probe_timeout ∧
  okNumber st.timeout_waiting_for_init_stream ∧
  optAll okQuoted st.freeform_advanced_mpv_options ∧ okCoords st.force_coordinates ∧
  st.previewCoords = none

/-- A screen that survives a round trip. -/
def okScreen (sc : Screen) : Prop :=
  (∀ st ∈ sc.streams, okStream st) ∧ okNumber sc.duration ∧ okNumber sc.nr_of_columns

/-- A configuration that survives a round trip. -/
def okConfig (d : Config) : Prop := ∀ sc ∈ d.screens, okScreen sc

/-- A resolution that is written and read back: two integers that are not negative, below
`2^53`. -/
def okResolution (res : Resolution) : Prop := okCoord res.width ∧ okCoord res.height

instance : DecidablePred okStream := fun st => by unfold okStream; infer_instance
instance : DecidablePred okScreen := fun st => by unfold okScreen; infer_instance
instance : DecidablePred okConfig := fun st => by unfold okConfig; infer_instance
instance : DecidablePred okResolution := fun st => by unfold okResolution; infer_instance

/-- The stream being built by the scan after the marker and the first `k` optional
property lines of the block of `st`. -/
def upTo (st : Stream) (k : Nat) : Stream :=
  { name := st.name
    url := st.url
    imageurl := if 1 ≤ k then st.imageurl else none
    force_coordinates := if 2 ≤ k then st.force_coordinates else none
    showontop := if 3 ≤ k then st.showontop else none
    enableaudio := if 4 ≤ k then st.enableaudio else none
    probe_timeout := if 5 ≤ k then st.probe_timeout else none
    timeout_waiting_for_init_stream := if 6 ≤ k then st.timeout_waiting_for_init_stream else none
    freeform_advanced_mpv_options := if 7 ≤ k then st.freeform_advanced_mpv_options else none
    disabled := st.disabled
    previewCoords := none }

theorem upTo_seven (st : Stream) (h : st.previewCoords = none) : upTo st 7 = st := by
  cases st
  simp only at h
  simp [upTo, h]

theorem upTo_disabled (st : Stream) (k : Nat) : (upTo st k).disabled = st.disabled := rfl

theorem boolLow_isTrueLit (b : Bool) : isTrueLit (boolLow b) = b := by cases b <;> decide
theorem boolCap_isTrueLit (b : Bool) : isTrueLit (boolCap b) = b := by cases b <;> decide

theorem bool_value_facts (b : Bool) :
    (Trimmed (boolLow b) ∧ ':' ∉ boolLow b ∧ '\n' ∉ boolLow b) ∧
    (Trimmed (boolCap b) ∧ ':' ∉ boolCap b ∧ '\n' ∉ boolCap b) := by
  cases b <;>
    exact ⟨⟨trimmed_of_trim_eq (by decide) (by decide), by decide, by decide⟩,
      ⟨trimmed_of_trim_eq (by decide) (by decide), by decide, by decide⟩⟩

/-- Facts on a line `key: value` whose key is a fixed word and whose value is trimmed text
without colon or line break. -/
theorem keyValue_facts (k v : Str) (c : Char) (r : Str) (hk : k = c :: r)
    (hc : isWhite c = false) (hk1 : ':' ∉ k) (hk2 : '\n' ∉ k) (hv : Trimmed v) (hv1 : ':' ∉ v)
    (hv2 : '\n' ∉ v) :
    Trimmed (k ++ ':' :: ' ' :: v) ∧ '\n' ∉ (k ++ ':' :: ' ' :: v) ∧
    startsWith (k ++ [':']) (k ++ ':' :: ' ' :: v) = true ∧
    colonValue (k ++ ':' :: ' ' :: v) = .ok v := by
  refine ⟨?_, ?_, ?_, colonValue_key k v hk1 hv1 hv⟩
  · have := trimmed_append (a := k ++ [':', ' ']) (v := v) c (r ++ [':', ' ']) (by simp [hk]) hc hv
    simpa using this
  · intro h
    rcases List.mem_append.mp h with h | h
    · exact hk2 h
    · simp only [List.mem_cons] at h
      rcases h with h | h | h
      · cases h
      · cases h
      · exact hv2 h
  · have : k ++ ':' :: ' ' :: v = (k ++ [':']) ++ (' ' :: v) := by simp
    rw [this]
    exact startsWith_append _ _

/-! ## The scan over the pieces of a stream block -/

theorem okNumber_some {n : JSNumber} (h : okNumber (some n)) :
    ∃ m : Int, n = .int m ∧ m ≠ 0 ∧ n.truthy = true := by
  cases n with
  | nan => exact absurd h (fun h => h)
  | int m => exact ⟨m, rfl, h.1, by simpa [JSNumber.truthy] using h.1⟩

theorem toStr_int_facts (m : Int) :
    Trimmed (JSNumber.toStr (.int m)) ∧ ':' ∉ JSNumber.toStr (.int m) ∧
      '\n' ∉ JSNumber.toStr (.int m) := by
  refine ⟨toStr_int_trimmed m, ?_, ?_⟩
  · intro h; exact (isNumChar_facts ((toStr_int_chars m).2 _ h)).2.2.1 rfl
  · intro h; exact (isNumChar_facts ((toStr_int_chars m).2 _ h)).2.1 rfl

theorem piece_imageurl (b : Bool) (res : Resolution) (done : List Screen) (cur : Screen)
    (st : Stream) :
    PieceRuns st.disabled (atStream b res done cur (upTo st 0)) (imageurlLine st)
      (atStream b res done cur (upTo st 1)) := by
  cases h : st.imageurl with
  | none =>
    have e1 : imageurlLine st = [] := by simp [imageurlLine, h]
    have e2 : upTo st 1 = upTo st 0 := by simp [upTo, h]
    rw [e1, e2]; exact PieceRuns.none _ _
  | some v =>
    obtain ⟨⟨hv, hv1, hv2⟩, _⟩ := bool_value_facts v
    obtain ⟨f1, f2, f3, f4⟩ := keyValue_facts "imageurl".toList (boolLow v) 'i' "mageurl".toList
      rfl (by decide) (by decide) (by decide) hv hv1 hv2
    have e1 : imageurlLine st =
        (ind10 ++ ("imageurl".toList ++ ':' :: ' ' :: boolLow v)) ++ ['\n'] := by
      rw [imageurlLine, h]; rfl
    rw [e1]
    refine pieceRuns_streamProp b res done cur (upTo st 0) (upTo st 1)
      ("imageurl".toList ++ [':']) _ (by decide) (by decide) f3 f1 f2 ?_
    rw [streamProp_imageurl _ _ f3, f4]
    simp [Except.map, upTo, h, boolLow_isTrueLit]

theorem piece_showontop (b : Bool) (res : Resolution) (done : List Screen) (cur : Screen)
    (st : Stream) :
    PieceRuns st.disabled (atStream b res done cur (upTo st 2)) (showontopLine st)
      (atStream b res done cur (upTo st 3)) := by
  cases h : st.showontop with
  | none =>
    have e1 : showontopLine st = [] := by simp [showontopLine, h]
    have e2 : upTo st 3 = upTo st 2 := by simp [upTo, h]
    rw [e1, e2]; exact PieceRuns.none _ _
  | some v =>
    obtain ⟨_, ⟨hv, hv1, hv2⟩⟩ := bool_value_facts v
    obtain ⟨f1, f2, f3, f4⟩ := keyValue_facts "showontop".toList (boolCap v) 's' "howontop".toList
      rfl (by decide) (by decide) (by decide) hv hv1 hv2
    have e1 : showontopLine st =
        (ind10 ++ ("showontop".toList ++ ':' :: ' ' :: boolCap v)) ++ ['\n'] := by
      rw [showontopLine, h]; rfl
    rw [e1]
    refine pieceRuns_streamProp b res done cur (upTo st 2) (upTo st 3)
      ("showontop".toList ++ [':']) _ (by decide) (by decide) f3 f1 f2 ?_
    rw [streamProp_showontop _ _ f3, f4]
    simp [Except.map, upTo, h, boolCap_isTrueLit]

theorem piece_enableaudio (b : Bool) (res : Resolution) (done : List Screen) (cur : Screen)
    (st : Stream) :
    PieceRuns st.disabled (atStream b res done cur (upTo st 3)) (enableaudioLine st)
      (atStream b res done cur (upTo st 4)) := by
  cases h : st.enableaudio with
  | none =>
    have e1 : enableaudioLine st = [] := by simp [enableaudioLine, h]
    have e2 : upTo st 4 = upTo st 3 := by simp [upTo, h]
    rw [e1, e2]; exact PieceRuns.none _ _
  | some v =>
    obtain ⟨_, ⟨hv, hv1, hv2⟩⟩ := bool_value_facts v
    obtain ⟨f1, f2, f3, f4⟩ := keyValue_facts "enableaudio".toList (boolCap v) 'e'
      "nableaudio".toList rfl (by decide) (by decide) (by decide) hv hv1 hv2
    have e1 : enableaudioLine st =
        (ind10 ++ ("enableaudio".toList ++ ':' :: ' ' :: boolCap v)) ++ ['\n'] := by
      rw [enableaudioLine, h]; rfl
    rw [e1]
    refine pieceRuns_streamProp b res done cur (upTo st 3) (upTo st 4)
      ("enableaudio".toList ++ [':']) _ (by decide) (by decide) f3 f1 f2 ?_
    rw [streamProp_enableaudio _ _ f3, f4]
    simp [Except.map, upTo, h, boolCap_isTrueLit]

theorem piece_probe_timeout (b : Bool) (res : Resolution) (done : List Screen) (cur : Screen)
    (st : Stream) (hok : okNumber st.probe_timeout) :
    PieceRuns st.disabled (atStream b res done cur (upTo st 4)) (probeTimeoutLine st)
      (atStream b res done cur (upTo st 5)) := by
  cases h : st.probe_timeout with
  | none =>
    have e1 : probeTimeoutLine st = [] := by simp [probeTimeoutLine, h]
    have e2 : upTo st 5 = upTo st 4 := by simp [upTo, h]
    rw [e1, e2]; exact PieceRuns.none _ _
  | some n =>
    rw [h] at hok
    obtain ⟨m, rfl, hm, htr⟩ := okNumber_some hok
    obtain ⟨hv, hv1, hv2⟩ := toStr_int_facts m
    obtain ⟨f1, f2, f3, f4⟩ := keyValue_facts "probe_timeout".toList (JSNumber.toStr (.int m)) 'p'
      "robe_timeout".toList rfl (by decide) (by decide) (by decide) hv hv1 hv2
    have e1 : probeTimeoutLine st =
        (ind10 ++ ("probe_timeout".toList ++ ':' :: ' ' :: JSNumber.toStr (.int m))) ++
          ['\n'] := by
      rw [probeTimeoutLine, h]; simp only [htr, if_true]; rfl
    rw [e1]
    refine pieceRuns_streamProp b res done cur (upTo st 4) (upTo st 5)
      ("probe_timeout".toList ++ [':']) _ (by decide) (by decide) f3 f1 f2 ?_
    rw [streamProp_probe_timeout _ _ f3, f4]
    simp [Except.map, upTo, h, parseInt_toStr]

theorem piece_init_timeout (b : Bool) (res : Resolution) (done : List Screen) (cur : Screen)
    (st : Stream) (hok : okNumber st.timeout_waiting_for_init_stream) :
    PieceRuns st.disabled (atStream b res done cur (upTo st 5)) (initTimeoutLine st)
      (atStream b res done cur (upTo st 6)) := by
  cases h : st.timeout_waiting_for_init_stream with
  | none =>
    have e1 : initTimeoutLine st = [] := by simp [initTimeoutLine, h]
    have e2 : upTo st 6 = upTo st 5 := by simp [upTo, h]
    rw [e1, e2]; exact PieceRuns.none _ _
  | some n =>
    rw [h] at hok
    obtain ⟨m, rfl, hm, htr⟩ := okNumber_some hok
    obtain ⟨hv, hv1, hv2⟩ := toStr_int_facts m
    obtain ⟨f1, f2, f3, f4⟩ := keyValue_facts "timeout_waiting_for_init_stream".toList
      (JSNumber.toStr (.int m)) 't' "imeout_waiting_for_init_stream".toList rfl (by decide)
      (by decide) (by decide) hv hv1 hv2
    have e1 : initTimeoutLine st =
        (ind10 ++ ("timeout_waiting_for_init_stream".toList ++
          ':' :: ' ' :: JSNumber.toStr (.int m))) ++ ['\n'] := by
      rw [initTimeoutLine, h]; simp only [htr, if_true]; rfl
    rw [e1]
    refine pieceRuns_streamProp b res done cur (upTo st 5) (upTo st 6)
      ("timeout_waiting_for_init_stream".toList ++ [':']) _ (by decide) (by decide) f3 f1 f2 ?_
    rw [streamProp_init_timeout _ _ f3, f4]
    simp [Except.map, upTo, h, parseInt_toStr]

theorem okQuoted_facts {o : Str} (h : okQuoted o) (k : Str) (c : Char) (r : Str)
    (hk : k = c :: r) (hc : isWhite c = false) (hk2 : '\n' ∉ k) (hk3 : '"' ∉ k) :
    Trimmed (k ++ '"' :: (o ++ ['"'])) ∧ '\n' ∉ (k ++ '"' :: (o ++ ['"'])) ∧
      quotedMatch (k ++ '"' :: (o ++ ['"'])) = some o := by
  obtain ⟨h1, h2, h3⟩ := h
  refine ⟨?_, ?_, ?_⟩
  · have := trimmed_quoted (a := k ++ ['"']) c (r ++ ['"']) (by simp [hk]) hc o
    simpa using this
  · intro hm
    rcases List.mem_append.mp hm with hm | hm
    · exact hk2 hm
    · simp only [List.mem_cons, List.mem_append, List.mem_singleton] at hm
      rcases hm with hm | hm | hm
      · cases hm
      · exact h3 hm
      · rcases hm with hm | hm
        · cases hm
        · cases hm
  · unfold quotedMatch
    rw [searchFirst_skip_char quotedAt '"' (fun s hs => quotedAt_none_of_head hs) k _ hk3]
    exact searchFirst_hit _ _ _ _ (quotedAt_spec o [] h1 h2)

theorem piece_freeform (b : Bool) (res : Resolution) (done : List Screen) (cur : Screen)
    (st : Stream) (hok : optAll okQuoted st.freeform_advanced_mpv_options) :
    PieceRuns st.disabled (atStream b res done cur (upTo st 6)) (freeformLine st)
      (atStream b res done cur (upTo st 7)) := by
  cases h : st.freeform_advanced_mpv_options with
  | none =>
    have e1 : freeformLine st = [] := by simp [freeformLine, h]
    have e2 : upTo st 7 = upTo st 6 := by simp [upTo, h]
    rw [e1, e2]; exact PieceRuns.none _ _
  | some o =>
    rw [h] at hok
    have hq : okQuoted o := hok
    obtain ⟨f1, f2, f4⟩ := okQuoted_facts hq "freeform_advanced_mpv_options: ".toList 'f'
      "reeform_advanced_mpv_options: ".toList rfl (by decide) (by decide) (by decide)
    have f3 : startsWith ("freeform_advanced_mpv_options".toList ++ [':'])
        ("freeform_advanced_mpv_options: ".toList ++ '"' :: (o ++ ['"'])) = true := by
      have := startsWith_append ("freeform_advanced_mpv_options".toList ++ [':'])
        (' ' :: '"' :: (o ++ ['"']))
      exact this
    have e1 : freeformLine st =
        (ind10 ++ ("freeform_advanced_mpv_options: ".toList ++ '"' :: (o ++ ['"']))) ++
          ['\n'] := by
      rw [freeformLine, h]
      simp only [hq.1, ne_eq, not_false_eq_true, if_true]
      simp [String.toList, ind10]
    rw [e1]
    refine pieceRuns_streamProp b res done cur (upTo st 6) (upTo st 7)
      ("freeform_advanced_mpv_options".toList ++ [':']) _ (by decide) (by decide) f3 f1 f2 ?_
    rw [streamProp_freeform _ _ f3, f4]
    simp [upTo, h]

/-! ### The coordinate list -/

theorem okCoord_toStr {c : JSNumber} (h : okCoord c) :
    ∃ n : Nat, c = .int n ∧ JSNumber.toStr c = natToStr n := by
  cases c with
  | nan => exact absurd h (fun h => h)
  | int m =>
    have hm : 0 ≤ m := h.1
    refine ⟨m.toNat, by rw [Int.toNat_of_nonneg hm], ?_⟩
    have : ¬ m < 0 := by omega
    simp only [JSNumber.toStr, this, if_false]
    congr 1
    omega

theorem splitOn_cons_ne (sep c : Char) (s : Str) (h : c ≠ sep) :
    ∃ hd tl, splitOn sep s = hd :: tl ∧ splitOn sep (c :: s) = (c :: hd) :: tl := by
  cases hs : splitOn sep s with
  | nil => exact absurd hs (splitOn_ne_nil _ _)
  | cons hd tl => exact ⟨hd, tl, rfl, by simp only [splitOn, h, if_false, hs]⟩

theorem trim_cons_white (c : Char) (s : Str) (h : isWhite c = true) : trim (c :: s) = trim s := by
  simp only [trim, trimStart, List.dropWhile_cons, h, if_true]

theorem parseCoords_space (s : Str) : parseCoords (' ' :: s) = parseCoords s := by
  obtain ⟨hd, tl, h1, h2⟩ := splitOn_cons_ne ',' ' ' s (by decide)
  simp only [parseCoords, h1, h2, List.map_cons, trim_cons_white ' ' hd (by decide)]

theorem natToStr_facts (n : Nat) :
    Trimmed (natToStr n) ∧ ',' ∉ natToStr n ∧ ∀ c ∈ natToStr n, isCoordChar c = true := by
  have h := toStr_int_chars (n : Int)
  have ht := toStr_int_trimmed (n : Int)
  rw [toStr_nat_chars] at h ht
  refine ⟨ht, ?_, ?_⟩
  · intro hm; exact (isNumChar_facts (h.2 _ hm)).2.2.2.2.1 rfl
  · intro c hc
    simp [isCoordChar, (natToStr_digits n).2 c hc]

/-- Reading back a printed list of coordinates. -/
theorem parseCoords_joinWith (x : JSNumber) (xs : List JSNumber)
    (h : ∀ c ∈ x :: xs, okCoord c) :
    parseCoords (joinWith ", ".toList ((x :: xs).map JSNumber.toStr)) = x :: xs := by
  induction xs generalizing x with
  | nil =>
    obtain ⟨n, rfl, hn⟩ := okCoord_toStr (h x (by simp))
    obtain ⟨ht, hc, _⟩ := natToStr_facts n
    simp only [List.map_cons, List.map_nil, joinWith, hn, parseCoords,
      splitOn_of_not_mem _ _ hc, trim_of_trimmed _ ht, parseInt_natToStr]
  | cons y ys ih =>
    obtain ⟨n, rfl, hn⟩ := okCoord_toStr (h x (by simp))
    obtain ⟨ht, hc, _⟩ := natToStr_facts n
    have e : joinWith ", ".toList ((JSNumber.int n :: y :: ys).map JSNumber.toStr) =
        natToStr n ++ ',' :: (' ' :: joinWith ", ".toList ((y :: ys).map JSNumber.toStr)) := by
      simp [joinWith, hn, String.toList]
    have ih2 := ih y (fun c hc => h c (by simp at hc ⊢; right; exact hc))
    rw [e]
    have e2 : parseCoords (natToStr n ++ ',' :: (' ' ::
        joinWith ", ".toList ((y :: ys).map JSNumber.toStr))) =
        parseInt (trim (natToStr n)) :: parseCoords (' ' ::
          joinWith ", ".toList ((y :: ys).map JSNumber.toStr)) := by
      simp only [parseCoords, splitOn_append_sep _ _ _ hc, List.map_cons]
    rw [e2, parseCoords_space, ih2, trim_of_trimmed _ ht, parseInt_natToStr]

theorem joinWith_coordChars (x : JSNumber) (xs : List JSNumber)
    (h : ∀ c ∈ x :: xs, okCoord c) :
    joinWith ", ".toList ((x :: xs).map JSNumber.toStr) ≠ [] ∧
      ∀ c ∈ joinWith ", ".toList ((x :: xs).map JSNumber.toStr),
        isDigit c = true ∨ c = ',' ∨ c = ' ' := by
  induction xs generalizing x with
  | nil =>
    obtain ⟨n, rfl, hn⟩ := okCoord_toStr (h x (by simp))
    obtain ⟨ht, _, _⟩ := natToStr_facts n
    simp only [List.map_cons, List.map_nil, joinWith, hn]
    exact ⟨trimmed_ne_nil ht, fun c hc => Or.inl ((natToStr_digits n).2 c hc)⟩
  | cons y ys ih =>
    obtain ⟨n, rfl, hn⟩ := okCoord_toStr (h x (by simp))
    have e : joinWith ", ".toList ((JSNumber.int n :: y :: ys).map JSNumber.toStr) =
        natToStr n ++ ',' :: (' ' :: joinWith ", ".toList ((y :: ys).map JSNumber.toStr)) := by
      simp [joinWith, hn, String.toList]
    have ih2 := ih y (fun c hc => h c (by simp at hc ⊢; right; exact hc))
    rw [e]
    refine ⟨by simp, ?_⟩
    intro c hcm
    rcases List.mem_append.mp hcm with h1 | h1
    · exact Or.inl ((natToStr_digits n).2 c h1)
    · simp only [List.mem_cons] at h1
      rcases h1 with h1 | h1 | h1
      · exact Or.inr (Or.inl h1)
      · exact Or.inr (Or.inr h1)
      · exact ih2.2 c h1

theorem coordText_facts {c : Char} (h : isDigit c = true ∨ c = ',' ∨ c = ' ') :
    isCoordChar c = true ∧ c ≠ '\n' := by
  rcases h with h | h | h
  · refine ⟨by simp [isCoordChar, h], ?_⟩
    intro e; rw [e] at h; exact absurd h (by decide)
  · rw [h]; decide
  · rw [h]; decide

theorem coordsAt_spec (g rest : Str) (hg : g ≠ []) (hc : ∀ c ∈ g, isCoordChar c = true) :
    coordsAt ('[' :: (g ++ ']' :: rest)) = some g := by
  have h1 := takeWhile_append_stop g ']' rest hc (by decide)
  have h2 := dropWhile_append_stop g ']' rest hc (by decide)
  cases g with
  | nil => exact absurd rfl hg
  | cons a r => simp only [coordsAt, h1, h2]

theorem piece_force_coordinates (b : Bool) (res : Resolution) (done : List Screen)
    (cur : Screen) (st : Stream) (hok : okCoords st.force_coordinates) :
    PieceRuns st.disabled (atStream b res done cur (upTo st 1)) (forceCoordinatesLine st)
      (atStream b res done cur (upTo st 2)) := by
  cases h : st.force_coordinates with
  | none =>
    have e1 : forceCoordinatesLine st = [] := by simp [forceCoordinatesLine, h]
    have e2 : upTo st 2 = upTo st 1 := by simp [upTo, h]
    rw [e1, e2]; exact PieceRuns.none _ _
  | some cs =>
    rw [h] at hok
    obtain ⟨hlen, hall⟩ : cs.length = 4 ∧ ∀ c ∈ cs, okCoord c := hok
    cases cs with
    | nil => simp at hlen
    | cons x xs =>
      obtain ⟨hg, hgc⟩ := joinWith_coordChars x xs hall
      have hpc := parseCoords_joinWith x xs hall
      generalize hG : joinWith ", ".toList ((x :: xs).map JSNumber.toStr) = g at hg hgc hpc
      have f1 : Trimmed ("force_coordinates: ".toList ++ '[' :: (g ++ [']'])) :=
        ⟨⟨'f', "orce_coordinates: ".toList ++ '[' :: (g ++ [']']), rfl, by decide⟩,
          ⟨"force_coordinates: ".toList ++ '[' :: g, ']', by simp, by decide⟩⟩
      have f2 : '\n' ∉ ("force_coordinates: ".toList ++ '[' :: (g ++ [']'])) := by
        intro hm
        rcases List.mem_append.mp hm with hm | hm
        · revert hm; decide
        · simp only [List.mem_cons, List.mem_append, List.mem_singleton] at hm
          rcases hm with hm | hm | hm
          · cases hm
          · exact (coordText_facts (hgc _ hm)).2 rfl
          · rcases hm with hm | hm
            · cases hm
            · cases hm
      have f3 : startsWith ("force_coordinates".toList ++ [':'])
          ("force_coordinates: ".toList ++ '[' :: (g ++ [']'])) = true :=
        startsWith_append ("force_coordinates".toList ++ [':']) (' ' :: '[' :: (g ++ [']']))
      have f4 : coordsMatch ("force_coordinates: ".toList ++ '[' :: (g ++ [']'])) = some g := by
        unfold coordsMatch
        rw [searchFirst_skip_char coordsAt '[' (fun s hs => coordsAt_none_of_head hs)
          "force_coordinates: ".toList _ (by decide)]
        exact searchFirst_hit _ _ _ _
          (coordsAt_spec g [] hg (fun c hc => (coordText_facts (hgc c hc)).1))
      have e1 : forceCoordinatesLine st =
          (ind10 ++ ("force_coordinates: ".toList ++ '[' :: (g ++ [']']))) ++ ['\n'] := by
        rw [forceCoordinatesLine, h]
        simp only [hlen, if_true, hG]
        simp [String.toList, ind10]
      rw [e1]
      refine pieceRuns_streamProp b res done cur (upTo st 1) (upTo st 2)
        ("force_coordinates".toList ++ [':']) _ (by decide) (by decide) f3 f1 f2 ?_
      rw [streamProp_force_coordinates _ _ f3, f4]
      simp [upTo, h, hpc]

theorem urlBody_facts {u : Str} (h : okQuoted u) :
    Trimmed ("- url: ".toList ++ '"' :: (u ++ ['"'])) ∧
      '\n' ∉ ("- url: ".toList ++ '"' :: (u ++ ['"'])) ∧
      startsWith "- url:".toList ("- url: ".toList ++ '"' :: (u ++ ['"'])) = true ∧
      urlMatch ("- url: ".toList ++ '"' :: (u ++ ['"'])) = some u := by
  obtain ⟨f1, f2, _⟩ := okQuoted_facts h "- url: ".toList '-' " url: ".toList rfl (by decide)
    (by decide) (by decide)
  have f3 : startsWith "- url:".toList ("- url: ".toList ++ '"' :: (u ++ ['"'])) = true :=
    startsWith_append "- url:".toList (' ' :: '"' :: (u ++ ['"']))
  refine ⟨f1, f2, f3, ?_⟩
  have hq := quotedAt_spec u [] h.1 h.2.1
  have hat : urlAt ("- url: ".toList ++ '"' :: (u ++ ['"'])) = some u := by
    rw [urlAt, if_pos f3]
    have : List.dropWhile isWhite (List.drop 6 ("- url: ".toList ++ '"' :: (u ++ ['"']))) =
        '"' :: (u ++ ['"']) := by
      show List.dropWhile isWhite (' ' :: '"' :: (u ++ ['"'])) = _
      rw [List.dropWhile_cons, if_pos (by decide), List.dropWhile_cons, if_neg (by decide)]
    rw [this]
    exact hq
  exact searchFirst_hit urlAt '-' _ u hat

theorem orNull_of_okName {n : Option Str} (h : optAll okName n) : orNull n = n := by
  cases n with
  | none => rfl
  | some v =>
    have : v ≠ [] := h.1
    cases v with
    | nil => exact absurd rfl this
    | cons c r => rfl

theorem piece_url (b : Bool) (res : Resolution) (done : List Screen) (cur : Screen)
    (cst : Option (Nat × Nat)) (st : Stream) (hu : okQuoted st.url)
    (hn : optAll okName st.name) :
    PieceRuns st.disabled (inScreen b res done cur cst st.name) (urlLine st)
      (atStream b res done cur (upTo st 0)) := by
  obtain ⟨f1, f2, f3, f4⟩ := urlBody_facts hu
  have e1 : urlLine st = (ind8 ++ ("- url: ".toList ++ '"' :: (st.url ++ ['"']))) ++ ['\n'] := by
    simp [urlLine, String.toList, ind8]
  have e2 : upTo st 0 = newStream st.name st.url st.disabled := by
    simp [upTo, newStream, orNull_of_okName hn]
  rw [e1, e2]
  exact pieceRuns_url b res done cur cst st.name st.disabled _ st.url f1 f2 f3 f4

/-! ## The scan over the text of a stream -/

/-- The text appended for one stream: the name comment, then the block, commented out when
the stream is disabled. -/
def streamText (st : Stream) : Str := nameLine st ++ markLines st.disabled (streamBlock st)

theorem appendStream_eq (yaml : Str) (st : Stream) :
    appendStream yaml st = yaml ++ streamText st := by
  simp [appendStream, streamText, markLines]

theorem foldl_appendStream (sts : List Stream) :
    ∀ yaml : Str, sts.foldl appendStream yaml = yaml ++ (sts.map streamText).flatten := by
  induction sts with
  | nil => intro yaml; simp
  | cons st sts ih =>
    intro yaml
    rw [List.foldl_cons, ih, appendStream_eq]
    simp

theorem runs_block (b : Bool) (res : Resolution) (done : List Screen) (cur : Screen)
    (cst : Option (Nat × Nat)) (st : Stream) (hok : okStream st) :
    Runs (inScreen b res done cur cst st.name) (markLines st.disabled (streamBlock st))
      (atStream b res done cur st) := by
  obtain ⟨hu, hn, hp, hi, hf, hc, hpv⟩ := hok
  have e : streamBlock st = urlLine st ++ (imageurlLine st ++ (forceCoordinatesLine st ++
      (showontopLine st ++ (enableaudioLine st ++ (probeTimeoutLine st ++
        (initTimeoutLine st ++ (freeformLine st ++ []))))))) := by
    simp [streamBlock]
  rw [e]
  have hend : Runs (atStream b res done cur (upTo st 7)) (markLines st.disabled [])
      (atStream b res done cur st) := by
    rw [markLines_nil, upTo_seven st hpv]
    exact Runs.nil _
  exact (piece_url b res done cur cst st hu hn).cons
    ((piece_imageurl b res done cur st).cons
    ((piece_force_coordinates b res done cur st hc).cons
    ((piece_showontop b res done cur st).cons
    ((piece_enableaudio b res done cur st).cons
    ((piece_probe_timeout b res done cur st hp).cons
    ((piece_init_timeout b res done cur st hi).cons
    ((piece_freeform b res done cur st hf).cons hend)))))))

theorem runs_nameLine (b : Bool) (res : Resolution) (done : List Screen) (cur : Screen)
    (cst : Option (Nat × Nat)) (st : Stream) (hn : optAll okName st.name) :
    Runs (inScreen b res done cur cst none) (nameLine st)
      (inScreen b res done cur cst st.name) := by
  cases h : st.name with
  | none =>
    have : nameLine st = [] := by simp [nameLine, h]
    rw [this]; exact Runs.nil _
  | some n =>
    rw [h] at hn
    obtain ⟨h1, h2, h3, h4, h5, h6, h7⟩ : okName n := hn
    have e : nameLine st = ('#' :: n) ++ ['\n'] := by
      simp [nameLine, h, h1, String.toList]
    rw [e]
    refine Runs.line ?_ (step_name_line b res done cur cst none n (trimmed_of_trim_eq h1 h2)
      h6 h7 h4 h5)
    intro hm
    rcases List.mem_cons.mp hm with hm | hm
    · cases hm
    · exact h3 hm

theorem runs_stream (b : Bool) (res : Resolution) (done : List Screen) (cur : Screen)
    (cst : Option (Nat × Nat)) (st : Stream) (hok : okStream st) :
    Runs (inScreen b res done cur cst none) (streamText st) (atStream b res done cur st) :=
  Runs.trans (runs_nameLine b res done cur cst st hok.2.1) (runs_block b res done cur cst st hok)

theorem runs_streams (b : Bool) (res : Resolution) (done : List Screen) (sts : List Stream)
    (hok : ∀ st ∈ sts, okStream st) :
    ∀ (cur : Screen) (cst : Option (Nat × Nat)), ∃ cst2,
      Runs (inScreen b res done cur cst none) (sts.map streamText).flatten
        (inScreen b res done { cur with streams := cur.streams ++ sts } cst2 none) := by
  induction sts with
  | nil => intro cur cst; exact ⟨cst, by simpa using Runs.nil _⟩
  | cons st sts ih =>
    intro cur cst
    have h1 := runs_stream b res done cur cst st (hok st (by simp))
    obtain ⟨cst2, h2⟩ := ih (fun x hx => hok x (by simp [hx]))
      { cur with streams := cur.streams ++ [st] } (some (done.length, cur.streams.length))
    refine ⟨cst2, ?_⟩
    have := Runs.trans h1 h2
    simpa using this

/-! ## The scan over the text of a screen -/

theorem screenProp_duration (t : Str) (sc : Screen) (h : startsWith "duration:".toList t = true) :
    screenProp t sc = (colonValue t).map (fun v => { sc with duration := some (parseInt v) }) := by
  simp only [screenProp, h, if_true]

theorem screenProp_nr_of_columns (t : Str) (sc : Screen)
    (h : startsWith "nr_of_columns:".toList t = true) :
    screenProp t sc =
      (colonValue t).map (fun v => { sc with nr_of_columns := some (parseInt v) }) := by
  have h0 := startsWith_excl h (q := "duration:".toList) (by decide)
  simp only [screenProp, h0, h, if_true, if_false, Bool.false_eq_true]

theorem screenProp_rotate90 (t : Str) (sc : Screen)
    (h : startsWith "rotate90:".toList t = true) :
    screenProp t sc = (colonValue t).map (fun v => { sc with rotate90 := some (isTrueLit v) }) := by
  have h0 := startsWith_excl h (q := "duration:".toList) (by decide)
  have h1 := startsWith_excl h (q := "nr_of_columns:".toList) (by decide)
  simp only [screenProp, h0, h1, h, if_true, if_false, Bool.false_eq_true]

theorem screenProp_probing (t : Str) (sc : Screen)
    (h : startsWith "disable_probing_for_all_streams:".toList t = true) :
    screenProp t sc =
      (colonValue t).map
        (fun v => { sc with disable_probing_for_all_streams := some (isTrueLit v) }) := by
  have h0 := startsWith_excl h (q := "duration:".toList) (by decide)
  have h1 := startsWith_excl h (q := "nr_of_columns:".toList) (by decide)
  have h2 := startsWith_excl h (q := "rotate90:".toList) (by decide)
  simp only [screenProp, h0, h1, h2, h, if_true, if_false, Bool.false_eq_true]

/-- A screen property line, as a complete line of the text. -/
theorem runs_screenProp (b : Bool) (res : Resolution) (done : List Screen) (cur cur2 : Screen)
    (cst : Option (Nat × Nat)) (lc : Option Str) (p t : Str) (hp : p ∈ screenKeys)
    (hs : startsWith p t = true) (ht : Trimmed t) (hnl : '\n' ∉ t)
    (hsp : screenProp t cur = .ok cur2) :
    Runs (inScreen b res done cur cst lc) ((ind6 ++ t) ++ ['\n'])
      (inScreen b res done cur2 cst lc) := by
  obtain ⟨h1, h2⟩ := screenKey_line hp hs
  exact Runs.line (not_mem_append ind_no_newline.2.2 hnl)
    (step_screenProp_line b res done cur cur2 cst lc ind6 t ind_white.2.2 ht h1 h2 hsp)

/-- The screen being built by the scan after the streams and the first `k` optional
property lines of `sc`. -/
def scUpTo (sc : Screen) (k : Nat) : Screen :=
  { streams := sc.streams
    duration := if 1 ≤ k then sc.duration else none
    nr_of_columns := if 2 ≤ k then sc.nr_of_columns else none
    rotate90 := if 3 ≤ k then sc.rotate90 else none
    disable_probing_for_all_streams :=
      if 4 ≤ k then sc.disable_probing_for_all_streams else none }

theorem scUpTo_four (sc : Screen) : scUpTo sc 4 = sc := by
  cases sc; simp [scUpTo]

theorem runs_duration (b : Bool) (res : Resolution) (done : List Screen) (sc : Screen)
    (cst : Option (Nat × Nat)) (hok : okNumber sc.duration) :
    Runs (inScreen b res done (scUpTo sc 0) cst none) (durationLine sc)
      (inScreen b res done (scUpTo sc 1) cst none) := by
  cases h : sc.duration with
  | none =>
    have e1 : durationLine sc = [] := by simp [durationLine, h]
    have e2 : scUpTo sc 1 = scUpTo sc 0 := by simp [scUpTo, h]
    rw [e1, e2]; exact Runs.nil _
  | some n =>
    rw [h] at hok
    obtain ⟨m, rfl, hm, htr⟩ := okNumber_some hok
    obtain ⟨hv, hv1, hv2⟩ := toStr_int_facts m
    obtain ⟨f1, f2, f3, f4⟩ := keyValue_facts "duration".toList (JSNumber.toStr (.int m)) 'd'
      "uration".toList rfl (by decide) (by decide) (by decide) hv hv1 hv2
    have e1 : durationLine sc =
        (ind6 ++ ("duration".toList ++ ':' :: ' ' :: JSNumber.toStr (.int m))) ++ ['\n'] := by
      rw [durationLine, h]; simp only [htr, if_true]; rfl
    rw [e1]
    refine runs_screenProp b res done _ _ cst none ("duration".toList ++ [':']) _ (by decide)
      f3 f1 f2 ?_
    rw [screenProp_duration _ _ f3, f4]
    simp [Except.map, scUpTo, h, parseInt_toStr]

theorem runs_columns (b : Bool) (res : Resolution) (done : List Screen) (sc : Screen)
    (cst : Option (Nat × Nat)) (hok : okNumber sc.nr_of_columns) :
    Runs (inScreen b res done (scUpTo sc 1) cst none) (columnsLine sc)
      (inScreen b res done (scUpTo sc 2) cst none) := by
  cases h : sc.nr_of_columns with
  | none =>
    have e1 : columnsLine sc = [] := by simp [columnsLine, h]
    have e2 : scUpTo sc 2 = scUpTo sc 1 := by simp [scUpTo, h]
    rw [e1, e2]; exact Runs.nil _
  | some n =>
    rw [h] at hok
    obtain ⟨m, rfl, hm, htr⟩ := okNumber_some hok
    obtain ⟨hv, hv1, hv2⟩ := toStr_int_facts m
    obtain ⟨f1, f2, f3, f4⟩ := keyValue_facts "nr_of_columns".toList (JSNumber.toStr (.int m)) 'n'
      "r_of_columns".toList rfl (by decide) (by decide) (by decide) hv hv1 hv2
    have e1 : columnsLine sc =
        (ind6 ++ ("nr_of_columns".toList ++ ':' :: ' ' :: JSNumber.toStr (.int m))) ++
          ['\n'] := by
      rw [columnsLine, h]; simp only [htr, if_true]; rfl
    rw [e1]
    refine runs_screenProp b res done _ _ cst none ("nr_of_columns".toList ++ [':']) _
      (by decide) f3 f1 f2 ?_
    rw [screenProp_nr_of_columns _ _ f3, f4]
    simp [Except.map, scUpTo, h, parseInt_toStr]

theorem runs_rotate90 (b : Bool) (res : Resolution) (done : List Screen) (sc : Screen)
    (cst : Option (Nat × Nat)) :
    Runs (inScreen b res done (scUpTo sc 2) cst none) (rotate90Line sc)
      (inScreen b res done (scUpTo sc 3) cst none) := by
  cases h : sc.rotate90 with
  | none =>
    have e1 : rotate90Line sc = [] := by simp [rotate90Line, h]
    have e2 : scUpTo sc 3 = scUpTo sc 2 := by simp [scUpTo, h]
    rw [e1, e2]; exact Runs.nil _
  | some v =>
    obtain ⟨_, ⟨hv, hv1, hv2⟩⟩ := bool_value_facts v
    obtain ⟨f1, f2, f3, f4⟩ := keyValue_facts "rotate90".toList (boolCap v) 'r' "otate90".toList
      rfl (by decide) (by decide) (by decide) hv hv1 hv2
    have e1 : rotate90Line sc =
        (ind6 ++ ("rotate90".toList ++ ':' :: ' ' :: boolCap v)) ++ ['\n'] := by
      rw [rotate90Line, h]; rfl
    rw [e1]
    refine runs_screenProp b res done _ _ cst none ("rotate90".toList ++ [':']) _ (by decide)
      f3 f1 f2 ?_
    rw [screenProp_rotate90 _ _ f3, f4]
    simp [Except.map, scUpTo, h, boolCap_isTrueLit]

theorem runs_probing (b : Bool) (res : Resolution) (done : List Screen) (sc : Screen)
    (cst : Option (Nat × Nat)) :
    Runs (inScreen b res done (scUpTo sc 3) cst none) (probingLine sc)
      (inScreen b res done (scUpTo sc 4) cst none) := by
  cases h : sc.disable_probing_for_all_streams with
  | none =>
    have e1 : probingLine sc = [] := by simp [probingLine, h]
    have e2 : scUpTo sc 4 = scUpTo sc 3 := by simp [scUpTo, h]
    rw [e1, e2]; exact Runs.nil _
  | some v =>
    obtain ⟨_, ⟨hv, hv1, hv2⟩⟩ := bool_value_facts v
    obtain ⟨f1, f2, f3, f4⟩ := keyValue_facts "disable_probing_for_all_streams".toList
      (boolCap v) 'd' "isable_probing_for_all_streams".toList rfl (by decide) (by decide)
      (by decide) hv hv1 hv2
    have e1 : probingLine sc =
        (ind6 ++ ("disable_probing_for_all_streams".toList ++ ':' :: ' ' :: boolCap v)) ++
          ['\n'] := by
      rw [probingLine, h]; rfl
    rw [e1]
    refine runs_screenProp b res done _ _ cst none
      ("disable_probing_for_all_streams".toList ++ [':']) _ (by decide) f3 f1 f2 ?_
    rw [screenProp_probing _ _ f3, f4]
    simp [Except.map, scUpTo, h, boolCap_isTrueLit]

/-- The text appended for one screen. -/
def screenText (sc : Screen) : Str :=
  "    - streams:\n".toList ++ (sc.streams.map streamText).flatten ++ durationLine sc ++
    columnsLine sc ++ rotate90Line sc ++ probingLine sc ++ "\n".toList

theorem appendScreen_eq (yaml : Str) (sc : Screen) :
    appendScreen yaml sc = yaml ++ screenText sc := by
  simp [appendScreen, screenText, foldl_appendStream]

theorem foldl_appendScreen (scs : List Screen) :
    ∀ yaml : Str, scs.foldl appendScreen yaml = yaml ++ (scs.map screenText).flatten := by
  induction scs with
  | nil => intro yaml; simp
  | cons sc scs ih =>
    intro yaml
    rw [List.foldl_cons, ih, appendScreen_eq]
    simp

/-- The scan over the text of one screen, once the line `screens:` has been read. -/
theorem runs_screen (b : Bool) (res : Resolution) (done : List Screen) (sc : Screen)
    (hok : okScreen sc) (cs : Option Nat) (cst : Option (Nat × Nat)) (lc : Option Str) :
    ∃ cst2, Runs ⟨⟨b, done⟩, res, cs, cst, true, true, lc⟩ (screenText sc)
      (inScreen b res done sc cst2 none) := by
  obtain ⟨hs, hd, hc⟩ := hok
  have h0 : Runs ⟨⟨b, done⟩, res, cs, cst, true, true, lc⟩ ("    - streams:".toList ++ ['\n'])
      (inScreen b res done newScreen cst none) :=
    Runs.line (by decide) (step_screen_marker ⟨b, done⟩ res cs cst true lc)
  obtain ⟨cst2, h1⟩ := runs_streams b res done sc.streams hs newScreen cst
  have e1 : ({ newScreen with streams := newScreen.streams ++ sc.streams } : Screen) =
      scUpTo sc 0 := by
    simp [newScreen, scUpTo]
  rw [e1] at h1
  have h5 := runs_probing b res done sc cst2
  rw [scUpTo_four] at h5
  have hall := Runs.trans h0 (Runs.trans h1 (Runs.trans (runs_duration b res done sc cst2 hd)
    (Runs.trans (runs_columns b res done sc cst2 hc)
      (Runs.trans (runs_rotate90 b res done sc cst2) (Runs.trans h5 (Runs.blank _))))))
  refine ⟨cst2, ?_⟩
  have e : screenText sc = "    - streams:".toList ++ ['\n'] ++
      ((sc.streams.map streamText).flatten ++ (durationLine sc ++ (columnsLine sc ++
        (rotate90Line sc ++ (probingLine sc ++ ['\n']))))) := by
    simp [screenText, String.toList]
  rw [e]
  exact hall

theorem runs_screens (b : Bool) (res : Resolution) (scs : List Screen)
    (hok : ∀ sc ∈ scs, okScreen sc) :
    ∀ (done : List Screen) (cs : Option Nat) (cst : Option (Nat × Nat)) (lc : Option Str),
      ∃ cs2 cst2 lc2, Runs ⟨⟨b, done⟩, res, cs, cst, true, true, lc⟩
        (scs.map screenText).flatten ⟨⟨b, done ++ scs⟩, res, cs2, cst2, true, true, lc2⟩ := by
  induction scs with
  | nil => intro done cs cst lc; exact ⟨cs, cst, lc, by simpa using Runs.nil _⟩
  | cons sc scs ih =>
    intro done cs cst lc
    obtain ⟨cst2, h1⟩ := runs_screen b res done sc (hok sc (by simp)) cs cst lc
    obtain ⟨cs3, cst3, lc3, h2⟩ := ih (fun x hx => hok x (by simp [hx])) (done ++ [sc])
      (some done.length) cst2 none
    refine ⟨cs3, cst3, lc3, ?_⟩
    have := Runs.trans h1 h2
    simpa [inScreen] using this

/-! ## The scan over the header, and the round trip -/

theorem includes_false_of_not_mem (c : Char) (p s : Str) (h : c ∉ s) :
    includes (c :: p) s = false := by
  induction s with
  | nil => rfl
  | cons a r ih =>
    have ha : c ≠ a := fun e => h (by simp [e])
    have hr : c ∉ r := fun e => h (by simp [e])
    simp only [includes, isPrefixOf_cons_cons, ih hr, Bool.or_false, Bool.and_eq_false_iff,
      beq_eq_false_iff_ne, ne_eq]
    exact Or.inl ha

theorem handleDisabled_outside (cfg : Config) (res : Resolution) (ie isc : Bool)
    (lc : Option Str) (t : Str) :
    handleDisabled ⟨cfg, res, none, none, ie, isc, lc⟩ t = .ok none := by
  simp [handleDisabled]

/-- The first header line changes nothing. -/
theorem step_banner (cfg : Config) (res : Resolution) (ie isc : Bool) (lc : Option Str) :
    step ⟨cfg, res, none, none, ie, isc, lc⟩
      ("#THIS IS A YAML FILE, INDENTATION IS IMPORTANT. ALSO DO NOT USE TABS ".toList ++
        "FOR INDENTATION, BUT USE SPACES".toList) =
      .ok ⟨cfg, res, none, none, ie, isc, lc⟩ := by
  have ht : Trimmed ("THIS IS A YAML FILE, INDENTATION IS IMPORTANT. ALSO DO NOT USE TABS ".toList ++
      "FOR INDENTATION, BUT USE SPACES".toList) := trimmed_of_trim_eq (by decide) (by decide)
  have h := step_comment_line ⟨cfg, res, none, none, ie, isc, lc⟩ [] _ (by simp) ht
  have hr : resolutionMatch
      ("THIS IS A YAML FILE, INDENTATION IS IMPORTANT. ALSO DO NOT USE TABS ".toList ++
        "FOR INDENTATION, BUT USE SPACES".toList) = none := by decide
  have e : ("#THIS IS A YAML FILE, INDENTATION IS IMPORTANT. ALSO DO NOT USE TABS ".toList ++
        "FOR INDENTATION, BUT USE SPACES".toList) = '#' :: ([] ++
      ("THIS IS A YAML FILE, INDENTATION IS IMPORTANT. ALSO DO NOT USE TABS ".toList ++
        "FOR INDENTATION, BUT USE SPACES".toList)) := rfl
  rw [e, h, handleDisabled_outside]
  simp only [Except.bind, captureComment, hr, Option.isSome_none, Bool.false_eq_true, if_false]
  split_ifs <;> rfl

theorem resolutionAt_spec (w h : Nat) :
    resolutionAt ("Resolution: ".toList ++ (natToStr w ++ 'x' :: natToStr h)) =
      some (natToStr w, natToStr h) := by
  obtain ⟨hw0, hw⟩ := natToStr_digits w
  obtain ⟨hh0, hh⟩ := natToStr_digits h
  have e1 : (List.take 11 ("Resolution: ".toList ++ (natToStr w ++ 'x' :: natToStr h))).map
      lowerAscii = "resolution:".toList := by
    show (List.take 11 ('R' :: 'e' :: 's' :: 'o' :: 'l' :: 'u' :: 't' :: 'i' :: 'o' :: 'n' ::
      ':' :: ' ' :: (natToStr w ++ 'x' :: natToStr h))).map lowerAscii = _
    simp only [List.take_succ_cons, List.take_zero, List.map_cons, List.map_nil]
    decide
  have e2 : List.dropWhile isWhite (List.drop 11
      ("Resolution: ".toList ++ (natToStr w ++ 'x' :: natToStr h))) =
      natToStr w ++ 'x' :: natToStr h := by
    show List.dropWhile isWhite (' ' :: (natToStr w ++ 'x' :: natToStr h)) = _
    rw [List.dropWhile_cons, if_pos (by decide)]
    cases hs : natToStr w with
    | nil => exact absurd hs hw0
    | cons c r =>
      have : isWhite c = false := isWhite_of_isDigit (hw c (by rw [hs]; simp))
      rw [List.cons_append, List.dropWhile_cons, if_neg (by simp [this])]
  have e3 := takeWhile_append_stop (natToStr w) 'x' (natToStr h) hw (by decide)
  have e4 := dropWhile_append_stop (natToStr w) 'x' (natToStr h) hw (by decide)
  have e5 := takeWhile_all (natToStr h) hh
  rw [resolutionAt, if_pos e1]
  simp only [e2, e3, e4, e5]
  cases hs : natToStr w with
  | nil => exact absurd hs hw0
  | cons c r =>
    cases hs2 : natToStr h with
    | nil => exact absurd hs2 hh0
    | cons c2 r2 =>
      rw [hs2] at e5
      simp only [e5]
      rw [if_pos (by decide)]

/-- The resolution annotation of the header sets the resolution that was written. -/
theorem step_resolution (cfg : Config) (ie isc : Bool) (lc : Option Str) (w h : Nat)
    (res0 : Resolution) :
    step ⟨cfg, res0, none, none, ie, isc, lc⟩
      ('#' :: ([' '] ++ ("Resolution: ".toList ++ (natToStr w ++ 'x' :: natToStr h)))) =
      .ok ⟨cfg, ⟨.int w, .int h⟩, none, none, ie, isc, lc⟩ := by
  obtain ⟨hw0, hw⟩ := natToStr_digits w
  obtain ⟨hh0, hh⟩ := natToStr_digits h
  have ht : Trimmed ("Resolution: ".toList ++ (natToStr w ++ 'x' :: natToStr h)) := by
    have hH := (natToStr_facts h).1
    have h1 : Trimmed ('x' :: natToStr h) := trimmed_append (a := ['x']) 'x' [] rfl (by decide) hH
    obtain ⟨r1, c1, e1⟩ : ∃ r c, natToStr w = c :: r := by
      cases hs : natToStr w with
      | nil => exact absurd hs hw0
      | cons c r => exact ⟨r, c, rfl⟩
    have h2 := trimmed_append (a := "Resolution: ".toList ++ natToStr w) 'R'
      ("esolution: ".toList ++ natToStr w) rfl (by decide) h1
    simpa using h2
  rw [step_comment_line _ [' '] _ (by decide) ht, handleDisabled_outside]
  have hinc : includes "###".toList
      ('#' :: ([' '] ++ ("Resolution: ".toList ++ (natToStr w ++ 'x' :: natToStr h)))) =
      false := by
    have hnm : '#' ∉ ([' '] ++ ("Resolution: ".toList ++ (natToStr w ++ 'x' :: natToStr h))) := by
      intro hm
      simp only [List.mem_append, List.mem_cons, List.mem_singleton] at hm
      rcases hm with hm | hm | hm | hm | hm
      · revert hm; decide
      · revert hm; decide
      · exact absurd (hw _ hm) (by decide)
      · cases hm
      · exact absurd (hh _ hm) (by decide)
    have h1 := includes_false_of_not_mem '#' "##".toList _ hnm
    show includes ('#' :: "##".toList) ('#' :: ([' '] ++ _)) = false
    rw [includes, h1]
    rfl
  have hm : resolutionMatch ("Resolution: ".toList ++ (natToStr w ++ 'x' :: natToStr h)) =
      some (natToStr w, natToStr h) :=
    searchFirst_hit resolutionAt 'R' _ _ (resolutionAt_spec w h)
  simp only [Except.bind, hinc, Bool.not_false, if_true, captureComment, hm, parseInt_natToStr]

theorem step_essentials (cfg : Config) (res : Resolution) (cs : Option Nat)
    (cst : Option (Nat × Nat)) (ie isc : Bool) (lc : Option Str) :
    step ⟨cfg, res, cs, cst, ie, isc, lc⟩ "essentials:".toList =
      .ok ⟨cfg, res, cs, cst, true, isc, lc⟩ := by
  have h1 : trim "essentials:".toList = "essentials:".toList := by decide
  rw [step_of_trim _ _ _ h1 (by decide) (by decide)]
  simp only [stepPlain, if_true]

theorem step_screens (cfg : Config) (res : Resolution) (cs : Option Nat)
    (cst : Option (Nat × Nat)) (ie isc : Bool) (lc : Option Str) :
    step ⟨cfg, res, cs, cst, ie, isc, lc⟩ "  screens:".toList =
      .ok ⟨cfg, res, cs, cst, ie, true, lc⟩ := by
  have h1 : trim "  screens:".toList = "screens:".toList := by decide
  rw [step_of_trim _ _ _ h1 (by decide) (by decide)]
  have h2 : "screens:".toList ≠ "essentials:".toList := by decide
  have h3 : startsWith "disable_autorotation:".toList "screens:".toList = false := by decide
  simp only [stepPlain, h2, h3, if_false, Bool.and_false, Bool.false_eq_true, if_true]

theorem step_autorotation (b0 : Bool) (scs : List Screen) (res : Resolution) (cs : Option Nat)
    (cst : Option (Nat × Nat)) (isc : Bool) (lc : Option Str) (b : Bool) :
    step ⟨⟨b0, scs⟩, res, cs, cst, true, isc, lc⟩
      ("  disable_autorotation: ".toList ++ boolCap b) =
      .ok ⟨⟨b, scs⟩, res, cs, cst, true, isc, lc⟩ := by
  have h1 : trim ("  disable_autorotation: ".toList ++ boolCap b) =
      "disable_autorotation: ".toList ++ boolCap b := by cases b <;> decide
  have h0 : "disable_autorotation: ".toList ++ boolCap b ≠ [] := by cases b <;> decide
  have hc : startsWith "#".toList ("disable_autorotation: ".toList ++ boolCap b) = false := by
    cases b <;> decide
  rw [step_of_trim _ _ _ h1 h0 hc]
  have h2 : "disable_autorotation: ".toList ++ boolCap b ≠ "essentials:".toList := by
    cases b <;> decide
  have h3 : startsWith "disable_autorotation:".toList
      ("disable_autorotation: ".toList ++ boolCap b) = true := by cases b <;> decide
  have h4 : colonValue ("disable_autorotation: ".toList ++ boolCap b) = .ok (boolCap b) := by
    cases b <;> decide
  simp only [stepPlain, h2, h3, h4, if_false, Bool.and_self, if_true, Except.map,
    boolCap_isTrueLit]

theorem okResolution_nat {res : Resolution} (h : okResolution res) :
    ∃ w h : Nat, res = ⟨.int w, .int h⟩ ∧ res.width.toStr = natToStr w ∧
      res.height.toStr = natToStr h := by
  obtain ⟨w, hw, hw2⟩ := okCoord_toStr h.1
  obtain ⟨h', hh, hh2⟩ := okCoord_toStr h.2
  refine ⟨w, h', ?_, hw2, hh2⟩
  cases res
  simp only at hw hh
  rw [hw, hh]

theorem header_eq (res : Resolution) (d : Config) :
    header res d =
      (("#THIS IS A YAML FILE, INDENTATION IS IMPORTANT. ALSO DO NOT USE TABS ".toList ++
        "FOR INDENTATION, BUT USE SPACES".toList) ++ ['\n']) ++
      ((('#' :: ([' '] ++ ("Resolution: ".toList ++
          (res.width.toStr ++ 'x' :: res.height.toStr)))) ++ ['\n']) ++
      (['\n'] ++ (("essentials:".toList ++ ['\n']) ++
      ((("  disable_autorotation: ".toList ++ boolCap d.disable_autorotation) ++ ['\n']) ++
      (['\n'] ++ ("  screens:".toList ++ ['\n'])))))) := by
  simp [header, String.toList]

/-- The scan over the header that `stringify` writes. -/
theorem runs_header (res : Resolution) (d : Config) (hres : okResolution res) :
    Runs (initState res) (header res d)
      ⟨⟨d.disable_autorotation, []⟩, res, none, none, true, true, none⟩ := by
  obtain ⟨w, h, hr, hw, hh⟩ := okResolution_nat hres
  rw [header_eq, hw, hh]
  have hW := (natToStr_digits w).2
  have hH := (natToStr_digits h).2
  have nl2 : '\n' ∉ ('#' :: ([' '] ++ ("Resolution: ".toList ++
      (natToStr w ++ 'x' :: natToStr h)))) := by
    intro hm
    simp only [List.mem_append, List.mem_cons, List.mem_singleton] at hm
    rcases hm with hm | hm | hm | hm | hm | hm
    · revert hm; decide
    · revert hm; decide
    · revert hm; decide
    · exact absurd (hW _ hm) (by decide)
    · cases hm
    · exact absurd (hH _ hm) (by decide)
  have nl5 : '\n' ∉ ("  disable_autorotation: ".toList ++ boolCap d.disable_autorotation) := by
    cases d.disable_autorotation <;> decide
  have s2 := step_resolution ⟨false, []⟩ false false none w h res
  rw [← hr] at s2
  exact Runs.trans (Runs.line (by decide) (step_banner _ res false false none))
    (Runs.trans (Runs.line nl2 s2)
    (Runs.trans (Runs.blank _)
    (Runs.trans (Runs.line (by decide) (step_essentials _ res none none false false none))
    (Runs.trans (Runs.line nl5
      (step_autorotation false [] res none none false none d.disable_autorotation))
    (Runs.trans (Runs.blank _)
      (Runs.line (by decide) (step_screens _ res none none true false none)))))))

/-- The round trip of a configuration and a resolution that satisfy `okConfig` and
`okResolution`: reading back what `stringify` wrote gives the configuration, and leaves
the resolution as it was. -/
theorem roundtrip_core (res : Resolution) (d : Config) (hres : okResolution res)
    (hd : okConfig d) : parse res (stringify res d) = .ok (d, res) := by
  obtain ⟨cs, cst, lc, h2⟩ := runs_screens d.disable_autorotation res d.screens hd [] none none
    none
  have h := Runs.finish (Runs.trans (runs_header res d hres) h2)
  have e : stringify res d = header res d ++ (d.screens.map screenText).flatten := by
    rw [stringify, foldl_appendScreen]
  rw [parse, e, h]
  simp

/-! ## What one iteration of the loop can do to the state -/

/-- What the statement `if (currentStream) ...` does: nothing, or one assignment through
the reference. -/
theorem applyStreamProps_shape (s : PState) (t : Str) (s2 : PState)
    (h : applyStreamProps s t = .ok s2) :
    s2 = s ∨ ∃ p st st2, s.currentStream = some p ∧ s.config.getStream p = some st ∧
      streamProp t st = .ok st2 ∧
      s2 = { s with config := s.config.modifyStream p (fun _ => st2) } := by
  unfold applyStreamProps at h
  split at h
  · cases h; exact Or.inl rfl
  · rename_i p hp
    split at h
    · cases h; exact Or.inl rfl
    · rename_i st hst
      cases hsp : streamProp t st with
      | error e => rw [hsp] at h; cases h
      | ok st2 =>
        rw [hsp] at h
        cases h
        exact Or.inr ⟨p, st, st2, hp, hst, hsp, rfl⟩

/-- What the statement `if (currentScreen && ...) ...` does: nothing, or one assignment
through the reference. -/
theorem applyScreenProps_shape (s : PState) (t : Str) (s2 : PState)
    (h : applyScreenProps s t = .ok s2) :
    s2 = s ∨ ∃ i sc sc2, s.currentScreen = some i ∧ s.config.screens[i]? = some sc ∧
      screenProp t sc = .ok sc2 ∧
      s2 = { s with config := s.config.modifyScreen i (fun _ => sc2) } := by
  unfold applyScreenProps at h
  split at h
  · cases h; exact Or.inl rfl
  · rename_i i hi
    split_ifs at h
    · cases h; exact Or.inl rfl
    · split at h
      · cases h; exact Or.inl rfl
      · rename_i sc hsc
        cases hsp : screenProp t sc with
        | error e => rw [hsp] at h; cases h
        | ok sc2 =>
          rw [hsp] at h
          cases h
          exact Or.inr ⟨i, sc, sc2, hi, hsc, hsp, rfl⟩

/-- Case analysis of the loop body: a relation between the state before, the line and the
state after that holds for every branch of the loop body holds for the loop body. -/
theorem step_cases (R : PState → Str → PState → Prop) (hrefl : ∀ s l, R s l s)
    (hflags : ∀ (s : PState) (l : Str) (res : Resolution) (ie isc : Bool),
      R s l { s with resolution := res, inEssentials := ie, inScreens := isc })
    (hcomment : ∀ (s : PState) (l : Str) (lc : Str), startsWith "#".toList (trim l) = true →
      s.currentScreen.isSome = true → R s l { s with lastComment := some lc })
    (hauto : ∀ (s : PState) (l : Str) (b : Bool),
      R s l { s with config := { s.config with disable_autorotation := b } })
    (hpush : ∀ (s : PState) (l : Str) (i : Nat) (u : Str) (dis : Bool),
      s.currentScreen = some i →
      R s l (pushStream s i (newStream s.lastComment u dis)))
    (hscreen : ∀ (s : PState) (l : Str), startsWith "#".toList (trim l) = false →
      R s l { s with
              config := { s.config with screens := s.config.screens ++ [newScreen] }
              currentScreen := some s.config.screens.length
              lastComment := none })
    (hdprop : ∀ (s : PState) (l : Str) (p : Nat × Nat) (st st2 : Stream) (t : Str),
      s.currentStream = some p → s.config.getStream p = some st →
      disabledProp t st = .ok (some st2) →
      R s l { s with config := s.config.modifyStream p (fun _ => st2) })
    (hprops : ∀ (s : PState) (l t : Str) (s1 s2 : PState),
      startsWith "#".toList (trim l) = false →
      applyStreamProps s t = .ok s1 → applyScreenProps s1 t = .ok s2 → R s l s2) :
    ∀ (s : PState) (l : Str) (s2 : PState), step s l = .ok s2 → R s l s2 := by
  intro s l s2 h
  unfold step at h
  simp only at h
  by_cases h1 : trim l = []
  · rw [if_pos h1] at h
    cases h; exact hrefl s l
  · rw [if_neg h1] at h
    by_cases h2 : startsWith "#".toList (trim l) = true
    · rw [if_pos h2] at h
      cases hd : handleDisabled s (trim ((trim l).drop 1)) with
      | error e => rw [hd] at h; cases h
      | ok r =>
        rw [hd] at h
        cases r with
        | some s3 =>
          cases h
          unfold handleDisabled at hd
          split_ifs at hd with h3
          · split at hd
            · rename_i i u hi hu
              cases hd
              exact hpush s l i u true hi
            · cases hd
          · split at hd
            · cases hd
            · rename_i p hp
              split at hd
              · cases hd
              · rename_i st hst
                split_ifs at hd
                · cases hdp : disabledProp (trim ((trim l).drop 1)) st with
                  | error e => rw [hdp] at hd; cases hd
                  | ok r =>
                    rw [hdp] at hd
                    cases r with
                    | none => cases hd
                    | some st2 =>
                      cases hd
                      exact hdprop s l p st st2 _ hp hst hdp
                · cases hd
        | none =>
          simp only [Except.bind] at h
          by_cases h3 : (!includes "###".toList (trim l)) = true
          · rw [if_pos h3] at h
            cases h
            unfold captureComment
            split
            · exact hflags s l _ s.inEssentials s.inScreens
            · split_ifs with h4
              · exact hcomment s l _ h2 h4
              · exact hrefl s l
          · rw [if_neg h3] at h
            cases h; exact hrefl s l
    · rw [if_neg h2] at h
      have h2' : startsWith "#".toList (trim l) = false := by simpa using h2
      unfold stepPlain at h
      split_ifs at h with h3 h4 h5 h6 h7
      · cases h
        exact hflags s l s.resolution true s.inScreens
      · cases hv : colonValue (trim l) with
        | error e => rw [hv] at h; cases h
        | ok v => rw [hv] at h; cases h; exact hauto s l _
      · cases h
        exact hflags s l s.resolution s.inEssentials true
      · cases h; exact hscreen s l h2'
      · split at h
        · rename_i i u hi hu
          cases h
          exact hpush s l i u false hi
        · cases h; exact hrefl s l
      · cases h1' : applyStreamProps s (trim l) with
        | error e => rw [h1'] at h; cases h
        | ok s1 =>
          rw [h1'] at h
          exact hprops s l _ s1 s2 h2' h1' h

/-- A relation between states that is reflexive and transitive and holds across every
primitive update of the loop body holds across the loop body. -/
theorem step_induct (R : PState → PState → Prop) (hrefl : ∀ s, R s s)
    (htrans : ∀ s1 s2 s3, R s1 s2 → R s2 s3 → R s1 s3)
    (hmeta : ∀ (s : PState) (res : Resolution) (ie isc : Bool) (lc : Option Str),
      R s { s with resolution := res, inEssentials := ie, inScreens := isc, lastComment := lc })
    (hauto : ∀ (s : PState) (b : Bool),
      R s { s with config := { s.config with disable_autorotation := b } })
    (hpush : ∀ (s : PState) (i : Nat) (u : Str) (dis : Bool), s.currentScreen = some i →
      R s (pushStream s i (newStream s.lastComment u dis)))
    (hscreen : ∀ s : PState,
      R s { s with
            config := { s.config with screens := s.config.screens ++ [newScreen] }
            currentScreen := some s.config.screens.length
            lastComment := none })
    (hsprop : ∀ (s : PState) (p : Nat × Nat) (st st2 : Stream) (t : Str),
      s.currentStream = some p → s.config.getStream p = some st →
      (streamProp t st = .ok st2 ∨ disabledProp t st = .ok (some st2)) →
      R s { s with config := s.config.modifyStream p (fun _ => st2) })
    (hscprop : ∀ (s : PState) (i : Nat) (sc sc2 : Screen) (t : Str),
      s.currentScreen = some i → s.config.screens[i]? = some sc → screenProp t sc = .ok sc2 →
      R s { s with config := s.config.modifyScreen i (fun _ => sc2) }) :
    ∀ (s : PState) (l : Str) (s2 : PState), step s l = .ok s2 → R s s2 := by
  refine step_cases (fun s _ s2 => R s s2) (fun s _ => hrefl s)
    (fun s _ res ie isc => hmeta s res ie isc s.lastComment)
    (fun s _ lc _ _ => hmeta s s.resolution s.inEssentials s.inScreens (some lc))
    (fun s _ b => hauto s b) (fun s _ i u dis hi => hpush s i u dis hi)
    (fun s _ _ => hscreen s)
    (fun s _ p st st2 t hp hst hd => hsprop s p st st2 t hp hst (Or.inr hd)) ?_
  intro s l t s1 s2 _ h1 h2
  have r1 : R s s1 := by
    rcases applyStreamProps_shape s t s1 h1 with e | ⟨p, st, st2, hp, hst, hsp, e⟩
    · rw [e]; exact hrefl s
    · rw [e]; exact hsprop s p st st2 t hp hst (Or.inl hsp)
  have r2 : R s1 s2 := by
    rcases applyScreenProps_shape s1 t s2 h2 with e | ⟨i, sc, sc2, hi, hsc, hsp, e⟩
    · rw [e]; exact hrefl s1
    · rw [e]; exact hscprop s1 i sc sc2 t hi hsc hsp
  exact htrans _ _ _ r1 r2

/-- The relation of `step_induct` holds across the whole loop. -/
theorem parseLines_induct (R : PState → PState → Prop) (hrefl : ∀ s, R s s)
    (htrans : ∀ s1 s2 s3, R s1 s2 → R s2 s3 → R s1 s3)
    (hstep : ∀ (s : PState) (l : Str) (s2 : PState), step s l = .ok s2 → R s s2) :
    ∀ (ls : List Str) (s s2 : PState), parseLines s ls = .ok s2 → R s s2 := by
  intro ls
  induction ls with
  | nil => intro s s2 h; cases h; exact hrefl s
  | cons l ls ih =>
    intro s s2 h
    rw [parseLines] at h
    cases h1 : step s l with
    | error e => rw [h1] at h; cases h
    | ok s1 =>
      rw [h1] at h
      exact htrans _ _ _ (hstep s l s1 h1) (ih s1 s2 h)

/-! ## Streams of the configuration across the loop -/

theorem getElem?_modifyAt {α : Type} (f : α → α) (l : List α) :
    ∀ (i j : Nat), (modifyAt f i l)[j]? = if j = i then (l[j]?).map f else l[j]? := by
  induction l with
  | nil => intro i j; cases i <;> simp [modifyAt]
  | cons a l ih =>
    intro i j
    cases i with
    | zero =>
      cases j with
      | zero => simp [modifyAt]
      | succ j => simp [modifyAt]
    | succ i =>
      cases j with
      | zero => simp [modifyAt]
      | succ j => simp [modifyAt, ih i j]

theorem getStream_modifyStream (c : Config) (q : Nat × Nat) (x : Stream) (p : Nat × Nat) :
    (c.modifyStream q (fun _ => x)).getStream p =
      if p = q then (c.getStream p).map (fun _ => x) else c.getStream p := by
  obtain ⟨p1, p2⟩ := p
  obtain ⟨q1, q2⟩ := q
  simp only [Config.getStream, Config.modifyStream, getElem?_modifyAt, Prod.mk.injEq]
  by_cases h1 : p1 = q1
  · subst h1
    cases hsc : c.screens[p1]? with
    | none => simp
    | some sc =>
      by_cases h2 : p2 = q2
      · simp [h2, getElem?_modifyAt]
      · simp [h2, getElem?_modifyAt]
  · simp [h1]

theorem getStream_modifyScreen_same (c : Config) (i : Nat) (sc sc2 : Screen)
    (h : c.screens[i]? = some sc) (hs : sc2.streams = sc.streams) (p : Nat × Nat) :
    (c.modifyScreen i (fun _ => sc2)).getStream p = c.getStream p := by
  simp only [Config.getStream, Config.modifyScreen, getElem?_modifyAt]
  by_cases h1 : p.1 = i
  · simp [h1, h, hs]
  · simp [h1]

theorem getStream_push (c : Config) (i : Nat) (x : Stream) (p : Nat × Nat) :
    (c.modifyScreen i (fun sc => { sc with streams := sc.streams ++ [x] })).getStream p =
      match c.screens[i]? with
      | some sc => if p = (i, sc.streams.length) then some x else c.getStream p
      | none => c.getStream p := by
  obtain ⟨p1, p2⟩ := p
  simp only [Config.getStream, Config.modifyScreen, getElem?_modifyAt, Prod.mk.injEq]
  by_cases h1 : p1 = i
  · subst h1
    cases hsc : c.screens[p1]? with
    | none => simp
    | some sc =>
      simp only [if_true, Option.map_some', true_and]
      by_cases h2 : p2 = sc.streams.length
      · simp [h2]
      · simp only [h2, if_false]
        rcases Nat.lt_or_gt_of_ne h2 with h3 | h3
        · rw [List.getElem?_append_left h3]
        · rw [List.getElem?_eq_none (by simp; omega), List.getElem?_eq_none (by omega)]
  · simp only [h1, if_false, false_and]
    cases hsc : c.screens[i]? <;> rfl

theorem getStream_newScreen (b : Bool) (scs : List Screen) (p : Nat × Nat) :
    Config.getStream ⟨b, scs ++ [newScreen]⟩ p = Config.getStream ⟨b, scs⟩ p := by
  simp only [Config.getStream]
  rcases Nat.lt_trichotomy p.1 scs.length with h | h | h
  · rw [List.getElem?_append_left h]
  · rw [h, getElem?_length_append, List.getElem?_eq_none (le_refl _)]
    simp [newScreen]
  · rw [List.getElem?_eq_none (by simp; omega), List.getElem?_eq_none (by omega)]

/-- What a property line can do to a stream. -/
theorem streamProp_effect (t : Str) (st st2 : Stream) (h : streamProp t st = .ok st2) :
    st2.name = st.name ∧ st2.url = st.url ∧
      (st2.force_coordinates = st.force_coordinates ∨
        ∃ g, coordsMatch t = some g ∧ st2.force_coordinates = some (parseCoords g)) := by
  unfold streamProp at h
  split_ifs at h
  all_goals first
    | (cases hv : colonValue t with
        | error e => rw [hv] at h; cases h
        | ok v => rw [hv] at h; cases h; exact ⟨rfl, rfl, Or.inl rfl⟩)
    | (cases hq : quotedMatch t with
        | none => rw [hq] at h; cases h; exact ⟨rfl, rfl, Or.inl rfl⟩
        | some v => rw [hq] at h; cases h; exact ⟨rfl, rfl, Or.inl rfl⟩)
    | (cases hq : coordsMatch t with
        | none => rw [hq] at h; cases h; exact ⟨rfl, rfl, Or.inl rfl⟩
        | some v => rw [hq] at h; cases h; exact ⟨rfl, rfl, Or.inr ⟨v, rfl, rfl⟩⟩)
    | (cases h; exact ⟨rfl, rfl, Or.inl rfl⟩)

theorem disabledProp_effect (t : Str) (st st2 : Stream)
    (h : disabledProp t st = .ok (some st2)) :
    st2.name = st.name ∧ st2.url = st.url ∧
      (st2.force_coordinates = st.force_coordinates ∨
        ∃ g, coordsMatch t = some g ∧ st2.force_coordinates = some (parseCoords g)) := by
  unfold disabledProp at h
  split_ifs at h
  all_goals first
    | (cases hv : colonValue t with
        | error e => rw [hv] at h; cases h
        | ok v => rw [hv] at h; cases h; exact ⟨rfl, rfl, Or.inl rfl⟩)
    | (cases hq : quotedMatch t with
        | none => rw [hq] at h; cases h; exact ⟨rfl, rfl, Or.inl rfl⟩
        | some v => rw [hq] at h; cases h; exact ⟨rfl, rfl, Or.inl rfl⟩)
    | (cases hq : coordsMatch t with
        | none => rw [hq] at h; cases h; exact ⟨rfl, rfl, Or.inl rfl⟩
        | some v => rw [hq] at h; cases h; exact ⟨rfl, rfl, Or.inr ⟨v, rfl, rfl⟩⟩)
    | (cases h)

theorem screenProp_streams (t : Str) (sc sc2 : Screen) (h : screenProp t sc = .ok sc2) :
    sc2.streams = sc.streams := by
  unfold screenProp at h
  split_ifs at h
  all_goals first
    | (cases hv : colonValue t with
        | error e => rw [hv] at h; cases h
        | ok v => rw [hv] at h; cases h; rfl)
    | (cases h; rfl)

/-- A stream evolves from another by property lines. -/
inductive Evolves : Stream → Stream → Prop where
  | refl (a : Stream) : Evolves a a
  | prop {a b c : Stream} (t : Str) : Evolves a b →
      (streamProp t b = .ok c ∨ disabledProp t b = .ok (some c)) → Evolves a c

theorem Evolves.chain {a b c : Stream} (h1 : Evolves a b) (h2 : Evolves b c) : Evolves a c := by
  induction h2 with
  | refl => exact h1
  | prop t _ hp ih => exact Evolves.prop t ih hp

/-- The streams of the configuration `c2` come from those of `c` at the same places,
evolved by property lines, or are new streams evolved by property lines; none is lost. -/
def Rel (c c2 : Config) : Prop :=
  (∀ p st, c.getStream p = some st → ∃ st2, c2.getStream p = some st2 ∧ Evolves st st2) ∧
  (∀ p st2, c2.getStream p = some st2 →
    (∃ st, c.getStream p = some st ∧ Evolves st st2) ∨
    (c.getStream p = none ∧ ∃ lc u dis, Evolves (newStream lc u dis) st2))

theorem Rel.refl (c : Config) : Rel c c :=
  ⟨fun _ st h => ⟨st, h, Evolves.refl st⟩, fun _ st h => Or.inl ⟨st, h, Evolves.refl st⟩⟩

theorem Rel.compose {c1 c2 c3 : Config} (h1 : Rel c1 c2) (h2 : Rel c2 c3) : Rel c1 c3 := by
  constructor
  · intro p st h
    obtain ⟨st2, e2, v2⟩ := h1.1 p st h
    obtain ⟨st3, e3, v3⟩ := h2.1 p st2 e2
    exact ⟨st3, e3, v2.chain v3⟩
  · intro p st3 h
    rcases h2.2 p st3 h with ⟨st2, e2, v2⟩ | ⟨e2, lc, u, dis, v2⟩
    · rcases h1.2 p st2 e2 with ⟨st1, e1, v1⟩ | ⟨e1, lc, u, dis, v1⟩
      · exact Or.inl ⟨st1, e1, v1.chain v2⟩
      · exact Or.inr ⟨e1, lc, u, dis, v1.chain v2⟩
    · refine Or.inr ⟨?_, lc, u, dis, v2⟩
      cases h0 : c1.getStream p with
      | none => rfl
      | some st1 =>
        obtain ⟨st2, e, _⟩ := h1.1 p st1 h0
        rw [e2] at e; cases e

theorem Rel.of_getStream_eq {c c2 : Config} (h : ∀ p, c2.getStream p = c.getStream p) :
    Rel c c2 :=
  ⟨fun p st hp => ⟨st, by rw [h p]; exact hp, Evolves.refl st⟩,
    fun p st hp => Or.inl ⟨st, by rw [← h p]; exact hp, Evolves.refl st⟩⟩

/-- Across one iteration of the loop, the streams of the configuration evolve by property
lines and new streams are added; none is lost. -/
theorem step_rel (s : PState) (l : Str) (s2 : PState) (h : step s l = .ok s2) :
    Rel s.config s2.config := by
  refine step_induct (fun s s2 => Rel s.config s2.config) (fun s => Rel.refl _)
    (fun _ _ _ h1 h2 => Rel.compose h1 h2) (fun s _ _ _ _ => Rel.refl _) ?_ ?_ ?_ ?_ ?_ s l s2 h
  · intro s b
    exact Rel.of_getStream_eq (fun p => rfl)
  · intro s i u dis hi
    have hg := getStream_push s.config i (newStream s.lastComment u dis)
    show Rel s.config (s.config.modifyScreen i _)
    cases hsc : s.config.screens[i]? with
    | none =>
      apply Rel.of_getStream_eq
      intro p; rw [hg p, hsc]
    | some sc =>
      have hnone : s.config.getStream (i, sc.streams.length) = none := by
        simp [Config.getStream, hsc]
      constructor
      · intro p st hp
        refine ⟨st, ?_, Evolves.refl st⟩
        rw [hg p, hsc]
        simp only
        split_ifs with he
        · rw [he, hnone] at hp; cases hp
        · exact hp
      · intro p st2 hp
        rw [hg p, hsc] at hp
        simp only at hp
        split_ifs at hp with he
        · cases hp
          exact Or.inr ⟨by rw [he]; exact hnone, _, _, _, Evolves.refl _⟩
        · exact Or.inl ⟨st2, hp, Evolves.refl st2⟩
  · intro s
    exact Rel.of_getStream_eq (fun p => getStream_newScreen _ _ p)
  · intro s q st st2 t hq hst hprop
    have hg := getStream_modifyStream s.config q st2
    constructor
    · intro p x hp
      rw [hg p]
      split_ifs with he
      · subst he
        rw [hst] at hp; cases hp
        exact ⟨st2, by simp [hst], Evolves.prop t (Evolves.refl _) hprop⟩
      · exact ⟨x, hp, Evolves.refl x⟩
    · intro p x hp
      rw [hg p] at hp
      split_ifs at hp with he
      · subst he
        rw [hst] at hp
        simp only [Option.map_some', Option.some.injEq] at hp
        subst hp
        exact Or.inl ⟨st, hst, Evolves.prop t (Evolves.refl _) hprop⟩
      · exact Or.inl ⟨x, hp, Evolves.refl x⟩
  · intro s i sc sc2 t hi hsc hsp
    exact Rel.of_getStream_eq
      (fun p => getStream_modifyScreen_same _ i sc sc2 hsc (screenProp_streams t sc sc2 hsp) p)

theorem parseLines_rel (ls : List Str) (s s2 : PState) (h : parseLines s ls = .ok s2) :
    Rel s.config s2.config :=
  parseLines_induct (fun s s2 => Rel s.config s2.config) (fun _ => Rel.refl _)
    (fun _ _ _ h1 h2 => Rel.compose h1 h2) step_rel ls s s2 h

theorem parseLines_append (ls1 ls2 : List Str) (s s1 : PState)
    (h : parseLines s ls1 = .ok s1) : parseLines s (ls1 ++ ls2) = parseLines s1 ls2 := by
  induction ls1 generalizing s with
  | nil => cases h; rfl
  | cons l ls ih =>
    rw [parseLines] at h
    cases h1 : step s l with
    | error e => rw [h1] at h; cases h
    | ok s0 =>
      rw [h1] at h
      rw [List.cons_append, parseLines, h1]
      exact ih s0 h

/-! ## C1 and C2: the round trip -/

/-- A configuration with one stream whose probe timeout is the integer 0, as `parse`
returns it for a file with the line `probe_timeout: 0`. -/
def zeroTimeoutConfig : Config :=
  { disable_autorotation := false
    screens :=
      [{ newScreen with
         streams :=
           [{ newStream none "rtsp://x".toList false with probe_timeout := some (.int 0) }] }] }

/-- A configuration with two screens, used to instantiate the round-trip theorems: a disabled
stream with a name, coordinates and options, an active stream, and an empty screen. -/
def sampleConfig : Config :=
  { disable_autorotation := true
    screens :=
      [{ streams :=
           [{ name := some "Front Door".toList
              url := "rtsp://x".toList
              imageurl := some true
              showontop := some false
              enableaudio := none
              probe_timeout := some (.int 5)
              timeout_waiting_for_init_stream := none
              freeform_advanced_mpv_options := some "--a=b".toList
              force_coordinates := some [.int 0, .int 0, .int 960, .int 540]
              disabled := true },
            newStream (some "B".toList) "rtsp://y".toList false]
         duration := some (.int 30)
         nr_of_columns := none
         rotate90 := some false
         disable_probing_for_all_streams := none },
       { newScreen with nr_of_columns := some (.int 2) }] }

/-- A configuration with one disabled stream whose option string holds double quotes. -/
def quotedOptionsConfig : Config :=
  { disable_autorotation := false
    screens :=
      [{ newScreen with
         streams :=
           [{ newStream none "rtsp://x".toList true with
              freeform_advanced_mpv_options := some "--title=\"Front\"".toList
              force_coordinates := some [.int 0, .int 0, .int 960, .int 540] }] }] }

/-- C1 (counterexample): the configuration `zeroTimeoutConfig` has no preview coordinates,
and reading back what `stringify` writes for it gives a configuration in which the probe
timeout is `null`, not 0: the round trip does not give the configuration back. -/
theorem roundtrip_loses_zero_timeout :
    (∀ sc ∈ zeroTimeoutConfig.screens, ∀ st ∈ sc.streams, st.previewCoords = none) ∧
    parse defaultResolution (stringify defaultResolution zeroTimeoutConfig) =
      .ok ({ disable_autorotation := false
             screens := [{ newScreen with streams := [newStream none "rtsp://x".toList false] }] },
           defaultResolution) ∧
    parse defaultResolution (stringify defaultResolution zeroTimeoutConfig) ≠
      .ok (zeroTimeoutConfig, defaultResolution) := by
  decide

/-- C1 (amended): for every configuration `d` that satisfies `okConfig` (no preview
coordinates; urls and option strings not empty, without double quote or line break; names
null or trimmed, not empty, one line, not read as a divider, a resolution annotation or a
commented-out marker or property; numeric fields null or integers other than 0 below
`2^53`; coordinates null or four integers from 0 to below `2^53`) and every resolution of
two such integers, `parse (stringify d)` is `d`, and the resolution is unchanged. -/
theorem roundtrip_of_ok (res : Resolution) (d : Config) (hres : okResolution res)
    (hd : okConfig d) : parse res (stringify res d) = .ok (d, res) := by
  obtain ⟨cs, cst, lc, h2⟩ := runs_screens d.disable_autorotation res d.screens hd [] none none
    none
  have h := Runs.finish (Runs.trans (runs_header res d hres) h2)
  have e : stringify res d = header res d ++ (d.screens.map screenText).flatten := by
    rw [stringify, foldl_appendScreen]
  rw [parse, e, h]
  simp

/-- C1 (witness): the amended round trip at `sampleConfig` and the default resolution. -/
theorem roundtrip_of_ok_witness :
    okResolution defaultResolution ∧ okConfig sampleConfig ∧
    parse defaultResolution (stringify defaultResolution sampleConfig) =
      .ok (sampleConfig, defaultResolution) :=
  ⟨by decide, by decide, roundtrip_of_ok defaultResolution sampleConfig (by decide) (by decide)⟩

/-- C2 (counterexample): a disabled stream with coordinates and with the option string
`--title="Front"` is read back with the option string `--title=`: the stream is not
identical after the round trip. -/
theorem disabled_roundtrip_loses_quoted_options :
    quotedOptionsConfig.getStream (0, 0) =
      some { newStream none "rtsp://x".toList true with
             freeform_advanced_mpv_options := some "--title=\"Front\"".toList
             force_coordinates := some [.int 0, .int 0, .int 960, .int 540] } ∧
    parse defaultResolution (stringify defaultResolution quotedOptionsConfig) =
      .ok ({ disable_autorotation := false
             screens :=
               [{ newScreen with
                  streams :=
                    [{ newStream none "rtsp://x".toList true with
                       freeform_advanced_mpv_options := some "--title=".toList
                       force_coordinates := some [.int 0, .int 0, .int 960, .int 540] }] }] },
           defaultResolution) := by
  decide

/-- C2 (amended): in a configuration and resolution that satisfy `okConfig` and
`okResolution`, every disabled stream is read back identical, at the same place: still
disabled, with the same name, url, flags, timeouts, options and coordinates. -/
theorem disabled_stream_roundtrip (res : Resolution) (d : Config) (p : Nat × Nat) (s : Stream)
    (hres : okResolution res) (hd : okConfig d) (hs : d.getStream p = some s)
    (hdis : s.disabled = true) :
    ∃ d2 s2, parse res (stringify res d) = .ok (d2, res) ∧ d2.getStream p = some s2 ∧
      s2 = s ∧ s2.disabled = true := by
  refine ⟨d, s, ?_, hs, rfl, hdis⟩
  exact roundtrip_core res d hres hd

/-- C2 (witness): the disabled stream of `sampleConfig`, with its coordinates and options. -/
theorem disabled_stream_roundtrip_witness :
    ∃ s, sampleConfig.getStream (0, 0) = some s ∧ s.disabled = true ∧
      s.force_coordinates ≠ none ∧ s.freeform_advanced_mpv_options ≠ none ∧
      ∃ d2 s2, parse defaultResolution (stringify defaultResolution sampleConfig) =
        .ok (d2, defaultResolution) ∧ d2.getStream (0, 0) = some s2 ∧ s2 = s ∧
        s2.disabled = true :=
  ⟨_, rfl, rfl, by decide, by decide,
    disabled_stream_roundtrip defaultResolution sampleConfig (0, 0) _ (by decide) (by decide)
      rfl rfl⟩

/-! ## C3: the name from the comment -/

theorem length_modifyAt {α : Type} (f : α → α) (l : List α) :
    ∀ i, (modifyAt f i l).length = l.length := by
  induction l with
  | nil => intro i; cases i <;> rfl
  | cons a l ih =>
    intro i
    cases i with
    | zero => rfl
    | succ i => simp [modifyAt, ih i]

/-- The reference `currentScreen` points into the list of screens. -/
def ValidScreen (s : PState) : Prop :=
  ∀ i, s.currentScreen = some i → i < s.config.screens.length

theorem step_validScreen (s : PState) (l : Str) (s2 : PState) (h : step s l = .ok s2) :
    ValidScreen s → ValidScreen s2 := by
  refine step_induct (fun s s2 => ValidScreen s → ValidScreen s2) (fun _ h => h)
    (fun _ _ _ h1 h2 h => h2 (h1 h)) (fun _ _ _ _ _ h => h) (fun _ _ h => h) ?_ ?_ ?_ ?_ s l s2 h
  · intro s i u dis _ hv j hj
    have := hv j hj
    simpa [pushStream, Config.modifyScreen, length_modifyAt] using this
  · intro s _ j hj
    simp only [Option.some.injEq] at hj
    simp [← hj]
  · intro s p st st2 t _ _ _ hv j hj
    have := hv j hj
    simpa [Config.modifyStream, length_modifyAt] using this
  · intro s i sc sc2 t _ _ _ hv j hj
    have := hv j hj
    simpa [Config.modifyScreen, length_modifyAt] using this

theorem parseLines_validScreen (ls : List Str) (s s2 : PState) (h : parseLines s ls = .ok s2) :
    ValidScreen s → ValidScreen s2 :=
  parseLines_induct (fun s s2 => ValidScreen s → ValidScreen s2) (fun _ h => h)
    (fun _ _ _ h1 h2 h => h2 (h1 h)) step_validScreen ls s s2 h

theorem initState_validScreen (res : Resolution) : ValidScreen (initState res) := by
  intro i hi; cases hi

/-- A plain comment line inside a screen becomes the pending name, whatever the state. -/
theorem step_comment_general (s : PState) (c text : Str) (i : Nat)
    (hin : s.currentScreen = some i)
    (hc : startsWith "#".toList (trim c) = true)
    (h3 : includes "###".toList (trim c) = false)
    (htext : trim ((trim c).drop 1) = text)
    (hres : resolutionMatch text = none)
    (hu : startsWith "- url:".toList text = false)
    (hk : ∀ p st, s.currentStream = some p → s.config.getStream p = some st →
      st.disabled = true → hasKey streamKeys text = false) :
    step s c = .ok { s with lastComment := some text } := by
  have hne : trim c ≠ [] := by
    intro e; rw [e] at hc; revert hc; decide
  have hd : handleDisabled s text = .ok none := by
    unfold handleDisabled
    simp only [hu, Bool.and_false, Bool.false_eq_true, if_false]
    cases hcs : s.currentStream with
    | none => rfl
    | some p =>
      simp only
      cases hst : s.config.getStream p with
      | none => rfl
      | some st =>
        simp only
        cases hdis : st.disabled with
        | false => simp
        | true =>
          simp only [if_true, disabledProp_noKey text st (hk p st hcs hst hdis)]
          rfl
  simp only [step, hne, if_false, hc, if_true, htext, hd, Except.bind, h3, Bool.not_false,
    captureComment, hres, hin, Option.isSome_some]

/-- A stream marker inside a screen pushes a stream named by the pending comment, whatever
the state. -/
theorem step_marker_general (s : PState) (m u : Str) (i : Nat)
    (hin : s.currentScreen = some i)
    (hm1 : startsWith "- url:".toList (trim m) = true)
    (hm2 : urlMatch (trim m) = some u) :
    step s m = .ok (pushStream s i (newStream s.lastComment u false)) := by
  have hne : trim m ≠ [] := by
    intro e; rw [e] at hm1; revert hm1; decide
  have h0 := startsWith_excl hm1 (q := "#".toList) (by decide)
  have h1 : trim m ≠ "essentials:".toList := ne_of_startsWith hm1 (by decide)
  have h2 := startsWith_excl hm1 (q := "disable_autorotation:".toList) (by decide)
  have h3 : trim m ≠ "screens:".toList := ne_of_startsWith hm1 (by decide)
  have h4 : (trim m == "- streams:".toList) = false := by
    simpa using ne_of_startsWith hm1 (q := "- streams:".toList) (by decide)
  rw [step_of_trim s m _ rfl hne h0]
  simp only [stepPlain, h1, h2, h3, h4, if_false, Bool.and_false, Bool.false_eq_true, hin,
    Option.isSome_some, hm1, Bool.and_self, if_true, hm2]

/-- C3 (counterexample): inside a screen, the plain comment `#Front ### Door` right before
the marker `- url: "rtsp://x"` does not name the stream: the name is `null`. -/
theorem comment_with_divider_gives_no_name :
    parse defaultResolution
      "essentials:\n  screens:\n    - streams:\n#Front ### Door\n        - url: \"rtsp://x\"\n".toList =
      .ok ({ disable_autorotation := false
             screens := [{ newScreen with streams := [newStream none "rtsp://x".toList false] }] },
           defaultResolution) := by
  decide

/-- C3 (amended): in every text, when the scan is inside a screen and reads a comment line
that holds no `###`, whose text (after `#`, trimmed) is not empty, matches neither the
resolution pattern nor a commented-out stream marker nor, after a disabled stream, a
property key, and then reads a stream marker with url `u`, the configuration returned has,
at the next place of that screen, a stream with that text as name and `u` as url. -/
theorem name_from_comment (res : Resolution) (pre post : List Str) (c m text u : Str)
    (s : PState) (i : Nat)
    (hpre : parseLines (initState res) pre = .ok s)
    (hin : s.currentScreen = some i)
    (hc : startsWith "#".toList (trim c) = true)
    (h3 : includes "###".toList (trim c) = false)
    (htext : trim ((trim c).drop 1) = text) (hne : text ≠ [])
    (hres : resolutionMatch text = none)
    (hu : startsWith "- url:".toList text = false)
    (hk : ∀ p st, s.currentStream = some p → s.config.getStream p = some st →
      st.disabled = true → hasKey streamKeys text = false)
    (hm1 : startsWith "- url:".toList (trim m) = true)
    (hm2 : urlMatch (trim m) = some u) :
    ∃ sf sc st, parseLines (initState res) (pre ++ c :: m :: post) = .ok sf ∧
      s.config.screens[i]? = some sc ∧
      sf.config.getStream (i, sc.streams.length) = some st ∧
      st.name = some text ∧ st.url = u := by
  have hv := parseLines_validScreen pre _ s hpre (initState_validScreen res) i hin
  obtain ⟨sc, hsc⟩ : ∃ sc, s.config.screens[i]? = some sc :=
    ⟨s.config.screens[i], List.getElem?_eq_getElem hv⟩
  have h1 := step_comment_general s c text i hin hc h3 htext hres hu hk
  have h2 := step_marker_general { s with lastComment := some text } m u i hin hm1 hm2
  obtain ⟨sf, hsf⟩ := parseLines_ok post
    (pushStream { s with lastComment := some text } i (newStream (some text) u false))
  have hrel := parseLines_rel post _ sf hsf
  have hget : (pushStream { s with lastComment := some text } i
      (newStream (some text) u false)).config.getStream (i, sc.streams.length) =
      some (newStream (some text) u false) := by
    have := getStream_push s.config i (newStream (some text) u false) (i, sc.streams.length)
    rw [hsc] at this
    simpa [pushStream] using this
  obtain ⟨st, hst, hev⟩ := hrel.1 _ _ hget
  have hnu : ∀ a b, Evolves a b → b.name = a.name ∧ b.url = a.url := by
    intro a b hab
    induction hab with
    | refl => exact ⟨rfl, rfl⟩
    | prop t _ hp ih =>
      rcases hp with hp | hp
      · have := streamProp_effect t _ _ hp
        exact ⟨this.1.trans ih.1, this.2.1.trans ih.2⟩
      · have := disabledProp_effect t _ _ hp
        exact ⟨this.1.trans ih.1, this.2.1.trans ih.2⟩
  refine ⟨sf, sc, st, ?_, hsc, hst, ?_, ?_⟩
  · rw [parseLines_append pre _ _ s hpre, parseLines, h1]
    show parseLines _ (m :: post) = _
    rw [parseLines, h2]
    exact hsf
  · rw [(hnu _ _ hev).1]
    cases text with
    | nil => exact absurd rfl hne
    | cons a r => rfl
  · rw [(hnu _ _ hev).2]; rfl

/-- C3 (witness): the block `#Front Door` then `- url: "rtsp://x"` inside a screen yields a
stream named `Front Door` with url `rtsp://x`. -/
theorem name_from_comment_witness :
    ∃ sf sc st,
      parseLines (initState defaultResolution)
        (["essentials:".toList, "  screens:".toList, "    - streams:".toList] ++
          "#Front Door".toList :: "        - url: \"rtsp://x\"".toList :: []) = .ok sf ∧
      ([newScreen] : List Screen)[0]? = some sc ∧
      sf.config.getStream (0, sc.streams.length) = some st ∧
      st.name = some "Front Door".toList ∧ st.url = "rtsp://x".toList :=
  name_from_comment defaultResolution
    ["essentials:".toList, "  screens:".toList, "    - streams:".toList] []
    "#Front Door".toList "        - url: \"rtsp://x\"".toList "Front Door".toList
    "rtsp://x".toList
    ⟨⟨false, [newScreen]⟩, defaultResolution, some 0, none, true, true, none⟩ 0
    (by decide) rfl (by decide) (by decide) (by decide) (by decide) (by decide) (by decide)
    (by intro p st h; cases h) (by decide) (by decide)

/-! ## C4: the pending comment is used at most once -/

/-- The total number of streams of a configuration. -/
def streamCount (c : Config) : Nat := (c.screens.map (fun sc => sc.streams.length)).sum

theorem sum_map_modifyAt {α : Type} (g : α → Nat) (f : α → α) (l : List α) :
    ∀ (i : Nat) (x : α), l[i]? = some x →
      ((modifyAt f i l).map g).sum + g x = (l.map g).sum + g (f x) := by
  induction l with
  | nil => intro i x h; simp at h
  | cons a l ih =>
    intro i x h
    cases i with
    | zero =>
      simp only [List.getElem?_cons_zero, Option.some.injEq] at h
      subst h
      simp only [modifyAt, List.map_cons, List.sum_cons]
      omega
    | succ i =>
      simp only [List.getElem?_cons_succ] at h
      have := ih i x h
      simp only [modifyAt, List.map_cons, List.sum_cons]
      omega

theorem modifyAt_none {α : Type} (f : α → α) (l : List α) :
    ∀ i : Nat, l[i]? = none → modifyAt f i l = l := by
  induction l with
  | nil => intro i _; cases i <;> rfl
  | cons a l ih =>
    intro i h
    cases i with
    | zero => simp at h
    | succ i =>
      simp only [List.getElem?_cons_succ] at h
      simp only [modifyAt, ih i h]

theorem streamCount_modifyStream (c : Config) (p : Nat × Nat) (x : Stream) :
    streamCount (c.modifyStream p (fun _ => x)) = streamCount c := by
  simp only [streamCount, Config.modifyStream]
  cases hsc : c.screens[p.1]? with
  | none => rw [modifyAt_none _ _ _ hsc]
  | some sc =>
    have := sum_map_modifyAt (fun sc : Screen => sc.streams.length)
      (fun sc => { sc with streams := modifyAt (fun _ => x) p.2 sc.streams }) c.screens p.1 sc hsc
    simp only [length_modifyAt] at this
    omega

theorem streamCount_modifyScreen_same (c : Config) (i : Nat) (sc sc2 : Screen)
    (h : c.screens[i]? = some sc) (hs : sc2.streams = sc.streams) :
    streamCount (c.modifyScreen i (fun _ => sc2)) = streamCount c := by
  simp only [streamCount, Config.modifyScreen]
  have := sum_map_modifyAt (fun sc : Screen => sc.streams.length) (fun _ => sc2) c.screens i sc h
  simp only [hs] at this
  omega

theorem streamCount_push (c : Config) (i : Nat) (x : Stream) :
    streamCount (c.modifyScreen i (fun sc => { sc with streams := sc.streams ++ [x] })) =
      match c.screens[i]? with
      | some _ => streamCount c + 1
      | none => streamCount c := by
  simp only [streamCount, Config.modifyScreen]
  cases hsc : c.screens[i]? with
  | none => rw [modifyAt_none _ _ _ hsc]
  | some sc =>
    have := sum_map_modifyAt (fun sc : Screen => sc.streams.length)
      (fun sc => { sc with streams := sc.streams ++ [x] }) c.screens i sc hsc
    simp only [List.length_append, List.length_singleton] at this
    show _ = (List.map (fun sc : Screen => sc.streams.length) c.screens).sum + 1
    omega

theorem applyProps_frame (s : PState) (t : Str) (s1 s2 : PState)
    (h1 : applyStreamProps s t = .ok s1) (h2 : applyScreenProps s1 t = .ok s2) :
    s2.lastComment = s.lastComment ∧ streamCount s2.config = streamCount s.config ∧
      s2.config.screens.length = s.config.screens.length := by
  have r1 : s1.lastComment = s.lastComment ∧ streamCount s1.config = streamCount s.config ∧
      s1.config.screens.length = s.config.screens.length := by
    rcases applyStreamProps_shape s t s1 h1 with e | ⟨p, st, st2, hp, hst, hsp, e⟩
    · rw [e]; exact ⟨rfl, rfl, rfl⟩
    · rw [e]
      exact ⟨rfl, streamCount_modifyStream _ _ _, by simp [Config.modifyStream, length_modifyAt]⟩
  have r2 : s2.lastComment = s1.lastComment ∧ streamCount s2.config = streamCount s1.config ∧
      s2.config.screens.length = s1.config.screens.length := by
    rcases applyScreenProps_shape s1 t s2 h2 with e | ⟨i, sc, sc2, hi, hsc, hsp, e⟩
    · rw [e]; exact ⟨rfl, rfl, rfl⟩
    · rw [e]
      exact ⟨rfl, streamCount_modifyScreen_same _ i sc sc2 hsc (screenProp_streams t sc sc2 hsp),
        by simp [Config.modifyScreen, length_modifyAt]⟩
  exact ⟨r2.1.trans r1.1, r2.2.1.trans r1.2.1, r2.2.2.trans r1.2.2⟩

/-- A line that is not a comment leaves the pending comment as it is or clears it. -/
theorem step_plain_lastComment (s : PState) (l : Str) (s2 : PState) (h : step s l = .ok s2) :
    startsWith "#".toList (trim l) = false →
      s2.lastComment = s.lastComment ∨ s2.lastComment = none := by
  refine step_cases
    (fun s l s2 => startsWith "#".toList (trim l) = false →
      s2.lastComment = s.lastComment ∨ s2.lastComment = none)
    (fun _ _ _ => Or.inl rfl) (fun _ _ _ _ _ _ => Or.inl rfl) ?_ (fun _ _ _ _ => Or.inl rfl)
    (fun _ _ _ _ _ _ _ => Or.inr rfl) (fun _ _ _ _ => Or.inr rfl)
    (fun _ _ _ _ _ _ _ _ _ _ => Or.inl rfl) ?_ s l s2 h
  · intro s l lc hc _ hn
    rw [hc] at hn; cases hn
  · intro s l t s1 s2 _ h1 h2 _
    exact Or.inl (applyProps_frame s t s1 s2 h1 h2).1

/-- A line on which the scan pushes a stream clears the pending comment, and the stream it
pushes is the current stream, named by the comment that was pending. -/
theorem step_push_lastComment (s : PState) (l : Str) (s2 : PState) (h : step s l = .ok s2) :
    streamCount s2.config = streamCount s.config + 1 →
      s2.lastComment = none ∧ ∃ p st, s2.currentStream = some p ∧
        s2.config.getStream p = some st ∧ st.name = orNull s.lastComment := by
  refine step_cases
    (fun s _ s2 => streamCount s2.config = streamCount s.config + 1 →
      s2.lastComment = none ∧ ∃ p st, s2.currentStream = some p ∧
        s2.config.getStream p = some st ∧ st.name = orNull s.lastComment)
    ?_ ?_ ?_ ?_ ?_ ?_ ?_ ?_ s l s2 h
  · intro s _ hc; omega
  · intro s _ _ _ _ hc; simp only at hc; omega
  · intro s _ _ _ _ hc; simp only at hc; omega
  · intro s _ _ hc; simp only [streamCount] at hc; omega
  · intro s _ i u dis hi hc
    have hcnt := streamCount_push s.config i (newStream s.lastComment u dis)
    have hg := getStream_push s.config i (newStream s.lastComment u dis)
    cases hsc : s.config.screens[i]? with
    | none =>
      rw [hsc] at hcnt
      simp only [pushStream] at hc
      simp only at hcnt
      rw [hcnt] at hc
      omega
    | some sc =>
      refine ⟨rfl, (i, sc.streams.length), newStream s.lastComment u dis, ?_, ?_, rfl⟩
      · simp [pushStream, hsc]
      · have := hg (i, sc.streams.length)
        rw [hsc] at this
        simpa [pushStream] using this
  · intro s _ _ hc
    simp [streamCount, newScreen] at hc
  · intro s _ p st st2 t _ _ _ hc
    simp only at hc
    rw [streamCount_modifyStream] at hc
    omega
  · intro s l t s1 s2 _ h1 h2 hc
    rw [(applyProps_frame s t s1 s2 h1 h2).2.1] at hc
    omega

/-- A line on which the scan starts a new screen clears the pending comment. -/
theorem step_screen_lastComment (s : PState) (l : Str) (s2 : PState) (h : step s l = .ok s2) :
    s2.config.screens.length = s.config.screens.length + 1 → s2.lastComment = none := by
  refine step_cases
    (fun s _ s2 => s2.config.screens.length = s.config.screens.length + 1 →
      s2.lastComment = none)
    ?_ ?_ ?_ ?_ ?_ ?_ ?_ ?_ s l s2 h
  · intro s _ hc; omega
  · intro s _ _ _ _ hc; simp only at hc; omega
  · intro s _ _ _ _ hc; simp only at hc; omega
  · intro s _ _ hc; simp only at hc; omega
  · intro s _ i u dis hi hc; rfl
  · intro s _ _ hc; rfl
  · intro s _ p st st2 t _ _ _ hc
    simp [Config.modifyStream, length_modifyAt] at hc
  · intro s l t s1 s2 _ h1 h2 hc
    rw [(applyProps_frame s t s1 s2 h1 h2).2.2] at hc
    omega

theorem parseLines_plain_lastComment (mid : List Str) :
    ∀ (s s2 : PState), parseLines s mid = .ok s2 →
      (∀ l ∈ mid, startsWith "#".toList (trim l) = false) →
      s.lastComment = none → s2.lastComment = none := by
  induction mid with
  | nil => intro s s2 h _ hn; cases h; exact hn
  | cons l ls ih =>
    intro s s2 h hmid hn
    rw [parseLines] at h
    cases h1 : step s l with
    | error e => rw [h1] at h; cases h
    | ok s1 =>
      rw [h1] at h
      have := step_plain_lastComment s l s1 h1 (hmid l (by simp))
      refine ih s1 s2 h (fun x hx => hmid x (by simp [hx])) ?_
      rcases this with e | e
      · rw [e]; exact hn
      · exact e

/-- The state after the scan of some lines, for stating examples. -/
def stateAfter (s : PState) (ls : List Str) : PState :=
  match parseLines s ls with
  | .ok s2 => s2
  | .error _ => s

/-- C4: when the scan pushes a stream on a line (a stream marker, active or commented out,
that takes the pending comment) or starts a new screen on it, the pending comment is
cleared; and if no comment line follows before the next line on which the scan pushes a
stream, that stream has the name `null`. -/
theorem pending_comment_used_once (s1 s2 s3 s4 : PState) (m1 m2 : Str) (mid : List Str)
    (h1 : step s1 m1 = .ok s2)
    (hev : streamCount s2.config = streamCount s1.config + 1 ∨
      s2.config.screens.length = s1.config.screens.length + 1)
    (hmid : ∀ l ∈ mid, startsWith "#".toList (trim l) = false)
    (h2 : parseLines s2 mid = .ok s3)
    (h3 : step s3 m2 = .ok s4)
    (hp : streamCount s4.config = streamCount s3.config + 1) :
    s2.lastComment = none ∧ ∃ p st, s4.currentStream = some p ∧
      s4.config.getStream p = some st ∧ st.name = none := by
  have e2 : s2.lastComment = none := by
    rcases hev with hev | hev
    · exact (step_push_lastComment s1 m1 s2 h1 hev).1
    · exact step_screen_lastComment s1 m1 s2 h1 hev
  have e3 := parseLines_plain_lastComment mid s2 s3 h2 hmid e2
  obtain ⟨_, p, st, hp1, hp2, hp3⟩ := step_push_lastComment s3 m2 s4 h3 hp
  refine ⟨e2, p, st, hp1, hp2, ?_⟩
  rw [hp3, e3]; rfl

/-- C4 (witness): a named stream marker, a property line, then a commented-out stream
marker: the second stream has no name. -/
theorem pending_comment_used_once_witness :
    (stateAfter (initState defaultResolution)
        ["screens:".toList, "- streams:".toList, "#Cam A".toList]).lastComment =
      some "Cam A".toList ∧
    ∃ p st,
      (stateAfter (initState defaultResolution)
        ["screens:".toList, "- streams:".toList, "#Cam A".toList, "- url: \"rtsp://a\"".toList,
          "imageurl: true".toList, "# - url: \"rtsp://b\"".toList]).currentStream = some p ∧
      (stateAfter (initState defaultResolution)
        ["screens:".toList, "- streams:".toList, "#Cam A".toList, "- url: \"rtsp://a\"".toList,
          "imageurl: true".toList, "# - url: \"rtsp://b\"".toList]).config.getStream p =
        some st ∧ st.name = none :=
  ⟨by decide,
    (pending_comment_used_once
      (stateAfter (initState defaultResolution)
        ["screens:".toList, "- streams:".toList, "#Cam A".toList])
      (stateAfter (initState defaultResolution)
        ["screens:".toList, "- streams:".toList, "#Cam A".toList, "- url: \"rtsp://a\"".toList])
      (stateAfter (initState defaultResolution)
        ["screens:".toList, "- streams:".toList, "#Cam A".toList, "- url: \"rtsp://a\"".toList,
          "imageurl: true".toList])
      (stateAfter (initState defaultResolution)
        ["screens:".toList, "- streams:".toList, "#Cam A".toList, "- url: \"rtsp://a\"".toList,
          "imageurl: true".toList, "# - url: \"rtsp://b\"".toList])
      "- url: \"rtsp://a\"".toList "# - url: \"rtsp://b\"".toList ["imageurl: true".toList]
      (by decide) (by decide) (by decide) (by decide) (by decide) (by decide)).2⟩

/-! ## C6: numeric fields -/

/-- A property line of the current stream, written plainly, whatever the state. -/
theorem step_streamKey_general (s : PState) (l k : Str) (p : Nat × Nat) (st st2 : Stream)
    (hcs : s.currentStream = some p) (hst : s.config.getStream p = some st)
    (hk : k ∈ streamKeys) (hne : k ≠ "disabled:".toList)
    (hs : startsWith k (trim l) = true) (hsp : streamProp (trim l) st = .ok st2) :
    step s l = .ok { s with config := s.config.modifyStream p (fun _ => st2) } := by
  obtain ⟨h1, h2, _, h4⟩ := streamKey_line hk hne hs
  have hne0 : trim l ≠ [] := by
    intro e
    rw [e] at h4
    revert h4; decide
  rw [step_of_trim s l _ rfl hne0 (ordinary_hash h1), stepPlain_ordinary _ _ h1]
  have e1 : applyStreamProps s (trim l) =
      .ok { s with config := s.config.modifyStream p (fun _ => st2) } := by
    simp only [applyStreamProps, hcs, hst, hsp, Except.map]
  rw [e1]
  exact applyScreenProps_noKey _ _ h2

/-- A commented-out property line of the current stream, which is disabled, whatever the
state. -/
theorem step_disabledKey_general (s : PState) (l k : Str) (p : Nat × Nat) (st st2 : Stream)
    (hcs : s.currentStream = some p) (hst : s.config.getStream p = some st)
    (hdis : st.disabled = true) (hc : startsWith "#".toList (trim l) = true)
    (hk : k ∈ streamKeys) (hne : k ≠ "disabled:".toList)
    (hs : startsWith k (trim ((trim l).drop 1)) = true)
    (hsp : streamProp (trim ((trim l).drop 1)) st = .ok st2) :
    step s l = .ok { s with config := s.config.modifyStream p (fun _ => st2) } := by
  obtain ⟨h1, _, h3, h4⟩ := streamKey_line hk hne hs
  have hne0 : trim l ≠ [] := by
    intro e; rw [e] at hc; revert hc; decide
  have hd : handleDisabled s (trim ((trim l).drop 1)) =
      .ok (some { s with config := s.config.modifyStream p (fun _ => st2) }) := by
    simp only [handleDisabled, ordinary_url h1, Bool.and_false, Bool.false_eq_true, if_false,
      hcs, hst, hdis, if_true, disabledProp_eq_streamProp _ st h3 h4, hsp, Except.map,
      Option.map]
  simp only [step, hne0, if_false, hc, if_true, hd, Except.bind]

/-- A property line of the current screen, whatever the state. -/
theorem step_screenKey_general (s : PState) (l k : Str) (i : Nat) (sc sc2 : Screen)
    (hcs : s.currentScreen = some i) (hsc : s.config.screens[i]? = some sc)
    (hk : k ∈ screenKeys) (hs : startsWith k (trim l) = true)
    (hsp : screenProp (trim l) sc = .ok sc2) :
    step s l = .ok { s with config := s.config.modifyScreen i (fun _ => sc2) } := by
  obtain ⟨h1, h2⟩ := screenKey_line hk hs
  have hne0 : trim l ≠ [] := by
    intro e
    have h4 := hasKey_of_mem hk hs
    rw [e] at h4
    revert h4; decide
  rw [step_of_trim s l _ rfl hne0 (ordinary_hash h1), stepPlain_ordinary _ _ h1,
    applyStreamProps_noKey _ _ h2]
  show applyScreenProps s (trim l) = _
  simp only [applyScreenProps, hcs, ordinary_url h1, Bool.false_eq_true, if_false, hsc, hsp,
    Except.map]

/-- The value does not start, after white space and a sign, with a decimal digit: it is
missing or it is not a number. -/
def notNumeric (v : Str) : Bool :=
  match (stripSign (trimStart v)).2 with
  | c :: _ => !isDigit c
  | [] => true

theorem digitVal_ten_none {c : Char} (h : isDigit c = false) : digitVal 10 c = none := by
  simp only [isDigit, Bool.and_eq_false_iff, decide_eq_false_iff_not, not_le] at h
  unfold digitVal
  simp only
  split_ifs with h1 h2 h3
  · omega
  · omega
  · omega
  · rfl

theorem parseInt_notNumeric (v : Str) (h : notNumeric v = true) : parseInt v = .nan := by
  unfold notNumeric at h
  unfold parseInt
  generalize (stripSign (trimStart v)) = sg at h
  obtain ⟨neg, s1⟩ := sg
  simp only at h ⊢
  cases s1 with
  | nil => rfl
  | cons c r =>
    simp only [Bool.not_eq_true'] at h
    have hr : stripRadix (c :: r) = (10, c :: r) := by
      unfold stripRadix
      split
      · rename_i heq; cases heq; exact absurd h (by decide)
      · rename_i heq; cases heq; exact absurd h (by decide)
      · rfl
    simp only [hr, readDigits, digitVal_ten_none h]
    rfl

/-- C6 (counterexample): the property line `probe_timeout: abc` of a stream and the
property line `duration:` of its screen leave `NaN` in the fields, not `null`; the scan
does not fail. -/
theorem non_numeric_value_gives_nan :
    parse defaultResolution
      "screens:\n- streams:\n- url: \"rtsp://x\"\nprobe_timeout: abc\nduration:\n".toList =
      .ok ({ disable_autorotation := false
             screens :=
               [{ newScreen with
                  streams :=
                    [{ newStream none "rtsp://x".toList false with
                       probe_timeout := some .nan }]
                  duration := some .nan }] },
           defaultResolution) ∧
    (some JSNumber.nan : Option JSNumber) ≠ none := by
  decide

/-- C6 (amended): a property line for `probe_timeout` or
`timeout_waiting_for_init_stream` of the current stream (written plainly, or commented
out after a disabled stream) and a property line for `duration` or `nr_of_columns` of the
current screen never fail; they store `parseInt` of the value, the trimmed text between the
first and the second colon.  That is `NaN` (not `null`) when the value is missing or does
not start with a digit, and the integer when the value is the decimal form of an integer
below `2^53`. -/
theorem numeric_fields_decode :
    (∀ (s : PState) (l : Str) (p : Nat × Nat) (st : Stream),
      s.currentStream = some p → s.config.getStream p = some st →
      (startsWith "probe_timeout:".toList (trim l) = true →
        ∃ v, colonValue (trim l) = .ok v ∧
          step s l = .ok { s with
            config := s.config.modifyStream p
              (fun _ => { st with probe_timeout := some (parseInt v) }) }) ∧
      (startsWith "timeout_waiting_for_init_stream:".toList (trim l) = true →
        ∃ v, colonValue (trim l) = .ok v ∧
          step s l = .ok { s with
            config := s.config.modifyStream p
              (fun _ => { st with timeout_waiting_for_init_stream := some (parseInt v) }) })) ∧
    (∀ (s : PState) (l : Str) (p : Nat × Nat) (st : Stream),
      s.currentStream = some p → s.config.getStream p = some st → st.disabled = true →
      startsWith "#".toList (trim l) = true →
      (startsWith "probe_timeout:".toList (trim ((trim l).drop 1)) = true →
        ∃ v, colonValue (trim ((trim l).drop 1)) = .ok v ∧
          step s l = .ok { s with
            config := s.config.modifyStream p
              (fun _ => { st with probe_timeout := some (parseInt v) }) }) ∧
      (startsWith "timeout_waiting_for_init_stream:".toList (trim ((trim l).drop 1)) = true →
        ∃ v, colonValue (trim ((trim l).drop 1)) = .ok v ∧
          step s l = .ok { s with
            config := s.config.modifyStream p
              (fun _ => { st with timeout_waiting_for_init_stream := some (parseInt v) }) })) ∧
    (∀ (s : PState) (l : Str) (i : Nat) (sc : Screen),
      s.currentScreen = some i → s.config.screens[i]? = some sc →
      (startsWith "duration:".toList (trim l) = true →
        ∃ v, colonValue (trim l) = .ok v ∧
          step s l = .ok { s with
            config := s.config.modifyScreen i
              (fun _ => { sc with duration := some (parseInt v) }) }) ∧
      (startsWith "nr_of_columns:".toList (trim l) = true →
        ∃ v, colonValue (trim l) = .ok v ∧
          step s l = .ok { s with
            config := s.config.modifyScreen i
              (fun _ => { sc with nr_of_columns := some (parseInt v) }) })) ∧
    (∀ v : Str, notNumeric v = true → parseInt v = .nan) ∧
    (∀ n : Nat, n < 2 ^ 53 → parseInt (natToStr n) = .int n) := by
  refine ⟨?_, ?_, ?_, parseInt_notNumeric, fun n _ => parseInt_natToStr n⟩
  · intro s l p st hcs hst
    constructor
    · intro hs
      obtain ⟨v, hv⟩ := colonValue_ok (p := "probe_timeout:".toList) (by decide) hs
      refine ⟨v, hv, step_streamKey_general s l _ p st _ hcs hst (by decide) (by decide) hs ?_⟩
      rw [streamProp_probe_timeout _ _ hs, hv]; rfl
    · intro hs
      obtain ⟨v, hv⟩ := colonValue_ok (p := "timeout_waiting_for_init_stream:".toList)
        (by decide) hs
      refine ⟨v, hv, step_streamKey_general s l _ p st _ hcs hst (by decide) (by decide) hs ?_⟩
      rw [streamProp_init_timeout _ _ hs, hv]; rfl
  · intro s l p st hcs hst hdis hc
    constructor
    · intro hs
      obtain ⟨v, hv⟩ := colonValue_ok (p := "probe_timeout:".toList) (by decide) hs
      refine ⟨v, hv,
        step_disabledKey_general s l _ p st _ hcs hst hdis hc (by decide) (by decide) hs ?_⟩
      rw [streamProp_probe_timeout _ _ hs, hv]; rfl
    · intro hs
      obtain ⟨v, hv⟩ := colonValue_ok (p := "timeout_waiting_for_init_stream:".toList)
        (by decide) hs
      refine ⟨v, hv,
        step_disabledKey_general s l _ p st _ hcs hst hdis hc (by decide) (by decide) hs ?_⟩
      rw [streamProp_init_timeout _ _ hs, hv]; rfl
  · intro s l i sc hcs hsc
    constructor
    · intro hs
      obtain ⟨v, hv⟩ := colonValue_ok (p := "duration:".toList) (by decide) hs
      refine ⟨v, hv, step_screenKey_general s l _ i sc _ hcs hsc (by decide) hs ?_⟩
      rw [screenProp_duration _ _ hs, hv]; rfl
    · intro hs
      obtain ⟨v, hv⟩ := colonValue_ok (p := "nr_of_columns:".toList) (by decide) hs
      refine ⟨v, hv, step_screenKey_general s l _ i sc _ hcs hsc (by decide) hs ?_⟩
      rw [screenProp_nr_of_columns _ _ hs, hv]; rfl

/-! ## C9: the scope of stream property lines -/

/-- C9 (the code at the failing input): a property line `imageurl: true` that follows the
second screen marker and precedes the first stream marker of that screen changes the last
stream of the first screen: its `imageurl` becomes `true`. -/
theorem property_after_screen_marker_changes_previous_stream :
    parse defaultResolution
      ("essentials:\n  screens:\n    - streams:\n        - url: \"rtsp://a\"\n" ++
       "    - streams:\n          imageurl: true\n        - url: \"rtsp://b\"\n").toList =
      .ok ({ disable_autorotation := false
             screens :=
               [{ newScreen with
                  streams :=
                    [{ newStream none "rtsp://a".toList false with imageurl := some true }] },
                { newScreen with streams := [newStream none "rtsp://b".toList false] }] },
           defaultResolution) := by
  decide

/-! ## C10: the shape of the coordinate list -/

theorem searchFirst_some {α : Type} (m : Str → Option α) (s : Str) (r : α)
    (h : searchFirst m s = some r) : ∃ a b, s = a ++ b ∧ m b = some r := by
  induction s with
  | nil => exact ⟨[], [], rfl, h⟩
  | cons c cs ih =>
    rw [searchFirst] at h
    cases hm : m (c :: cs) with
    | some x =>
      rw [hm] at h
      simp only [Option.some.injEq] at h
      exact ⟨[], c :: cs, rfl, by rw [hm, h]⟩
    | none =>
      rw [hm] at h
      obtain ⟨a, b, e, hb⟩ := ih h
      exact ⟨c :: a, b, by rw [e]; rfl, hb⟩

theorem takeWhile_mem_prop (p : Char → Bool) (l : Str) : ∀ c ∈ l.takeWhile p, p c = true := by
  induction l with
  | nil => intro c hc; simp at hc
  | cons a l ih =>
    intro c hc
    rw [List.takeWhile_cons] at hc
    split_ifs at hc with h
    · rcases List.mem_cons.mp hc with e | e
      · rw [e]; exact h
      · exact ih c e
    · simp at hc

theorem coordsAt_some (s g : Str) (h : coordsAt s = some g) :
    g ≠ [] ∧ ∀ c ∈ g, isCoordChar c = true := by
  unfold coordsAt at h
  split at h
  · rename_i r
    simp only at h
    split at h
    · rename_i hd tl tl2 e1 e2
      simp only [Option.some.injEq] at h
      rw [← h]
      refine ⟨by rw [e1]; simp, takeWhile_mem_prop _ _⟩
    · cases h
  · cases h

theorem coordsMatch_some (t g : Str) (h : coordsMatch t = some g) :
    g ≠ [] ∧ ∀ c ∈ g, isCoordChar c = true := by
  obtain ⟨a, b, _, hb⟩ := searchFirst_some coordsAt t g h
  exact coordsAt_some b g hb

theorem splitOn_mem_sub (sep : Char) (s : Str) :
    ∀ n ∈ splitOn sep s, ∀ c ∈ n, c ∈ s := by
  induction s with
  | nil => intro n hn c hc; simp [splitOn] at hn; rw [hn] at hc; exact hc
  | cons a s ih =>
    intro n hn c hc
    rw [splitOn] at hn
    split_ifs at hn with h
    · rcases List.mem_cons.mp hn with e | e
      · rw [e] at hc; simp at hc
      · exact List.mem_cons_of_mem _ (ih n e c hc)
    · cases hs : splitOn sep s with
      | nil => exact absurd hs (splitOn_ne_nil _ _)
      | cons hd tl =>
        rw [hs] at hn ih
        simp only at hn
        rcases List.mem_cons.mp hn with e | e
        · rw [e] at hc
          rcases List.mem_cons.mp hc with e2 | e2
          · rw [e2]; simp
          · exact List.mem_cons_of_mem _ (ih hd (by simp) c e2)
        · exact List.mem_cons_of_mem _ (ih n (by simp [e]) c hc)

theorem trim_mem_sub (s : Str) : ∀ c ∈ trim s, c ∈ s := by
  intro c hc
  have h1 : c ∈ trimStart s := (trimEnd_initial (trimStart s)).subset hc
  exact (List.dropWhile_suffix isWhite).subset h1

/-- A text without minus sign is read by `parseInt` as `NaN` or as a natural number. -/
theorem parseInt_nat_of_no_minus (s : Str) (h : '-' ∉ s) :
    parseInt s = .nan ∨ ∃ n : Nat, parseInt s = .int n := by
  have hts : '-' ∉ trimStart s := fun hm => h ((List.dropWhile_suffix isWhite).subset hm)
  have hsg : (stripSign (trimStart s)).1 = false := by
    unfold stripSign
    split
    · rename_i r e; rw [e] at hts; simp at hts
    · rfl
    · rfl
  unfold parseInt
  generalize stripSign (trimStart s) = sg at hsg
  obtain ⟨neg, s1⟩ := sg
  simp only at hsg
  subst hsg
  simp only
  generalize stripRadix s1 = rd
  obtain ⟨radix, s2⟩ := rd
  simp only
  generalize readDigits radix s2 0 0 = v
  obtain ⟨v, cnt⟩ := v
  simp only
  by_cases hcnt : cnt = 0
  · rw [if_pos hcnt]; exact Or.inl rfl
  · rw [if_neg hcnt]; exact Or.inr ⟨v, by simp⟩

/-- The coordinate list of a stream is `null`, or the list read from a bracketed text. -/
def CoordsShape (st : Stream) : Prop :=
  st.force_coordinates = none ∨
    ∃ g, g ≠ [] ∧ (∀ c ∈ g, isCoordChar c = true) ∧ st.force_coordinates = some (parseCoords g)

theorem evolves_coordsShape {a b : Stream} (h : Evolves a b) (ha : CoordsShape a) :
    CoordsShape b := by
  induction h with
  | refl => exact ha
  | @prop b0 c0 t _ hp ih =>
    have heff : c0.force_coordinates = b0.force_coordinates ∨
        ∃ g, coordsMatch t = some g ∧ c0.force_coordinates = some (parseCoords g) := by
      rcases hp with hp | hp
      · exact (streamProp_effect t _ _ hp).2.2
      · exact (disabledProp_effect t _ _ hp).2.2
    rcases heff with e | ⟨g, hg, e⟩
    · rcases ih with e0 | ⟨g, h1, h2, e0⟩
      · exact Or.inl (e.trans e0)
      · exact Or.inr ⟨g, h1, h2, e.trans e0⟩
    · obtain ⟨h1, h2⟩ := coordsMatch_some t g hg
      exact Or.inr ⟨g, h1, h2, e⟩

theorem parseCoords_shape (g : Str) (hc : ∀ c ∈ g, isCoordChar c = true) :
    parseCoords g ≠ [] ∧ ∀ x ∈ parseCoords g, x = .nan ∨ ∃ n : Nat, x = .int n := by
  constructor
  · unfold parseCoords
    intro h
    exact splitOn_ne_nil ',' g (List.map_eq_nil_iff.mp h)
  · intro x hx
    unfold parseCoords at hx
    obtain ⟨n, hn, rfl⟩ := List.mem_map.mp hx
    apply parseInt_nat_of_no_minus
    intro hm
    have := hc '-' (splitOn_mem_sub ',' g n hn '-' (trim_mem_sub n '-' hm))
    revert this; decide

/-- C10 (counterexample): the line `force_coordinates: [1, 2]` gives a list of 2
integers, and the line `force_coordinates: [1,,2 3,4 ]` gives a list of 4 elements of
which one is `NaN`. -/
theorem force_coordinates_of_other_shape :
    parse defaultResolution
      ("screens:\n- streams:\n- url: \"a\"\nforce_coordinates: [1, 2]\n" ++
       "- url: \"b\"\nforce_coordinates: [1,,2 3,4 ]\n").toList =
      .ok ({ disable_autorotation := false
             screens :=
               [{ newScreen with
                  streams :=
                    [{ newStream none "a".toList false with
                       force_coordinates := some [.int 1, .int 2] },
                     { newStream none "b".toList false with
                       force_coordinates := some [.int 1, .nan, .int 2, .int 4] }] }] },
           defaultResolution) := by
  decide

/-- C10 (amended): for every input text, every stream returned by `parse` has
`force_coordinates` either `null` or a list that is not empty and whose elements are each
`NaN` or an integer that is not negative; the length is not checked.  The numbers are those
that `parseInt` reads from the items of the list: the statement is for lists whose numbers
are below `2 ^ 53`, the range in which `parseInt` gives the integer that is written. -/
theorem force_coordinates_shape (res res2 : Resolution) (text : Str) (cfg : Config)
    (p : Nat × Nat) (st : Stream) (h : parse res text = .ok (cfg, res2))
    (hst : cfg.getStream p = some st)
    (hsmall : ∀ l, st.force_coordinates = some l → ∀ x ∈ l, ∀ k : Int, x = .int k → k < 2 ^ 53) :
    st.force_coordinates = none ∨
      ∃ l, st.force_coordinates = some l ∧ l ≠ [] ∧
        ∀ x ∈ l, x = .nan ∨ ∃ n : Nat, x = .int n ∧ n < 2 ^ 53 := by
  unfold parse at h
  cases hp : parseLines (initState res) (splitOn '\n' text) with
  | error e => rw [hp] at h; cases h
  | ok sf =>
    rw [hp] at h
    simp only [Except.ok.injEq, Prod.mk.injEq] at h
    have hrel := parseLines_rel _ _ sf hp
    rw [h.1] at hrel
    have hshape : CoordsShape st := by
      rcases hrel.2 p st hst with ⟨st0, h0, _⟩ | ⟨_, lc, u, dis, hev⟩
      · simp [initState, Config.getStream] at h0
      · exact evolves_coordsShape hev (Or.inl rfl)
    rcases hshape with e | ⟨g, _, hc, e⟩
    · exact Or.inl e
    · refine Or.inr ⟨parseCoords g, e, (parseCoords_shape g hc).1, ?_⟩
      intro x hx
      rcases (parseCoords_shape g hc).2 x hx with hnan | ⟨n, hn⟩
      · exact Or.inl hnan
      · refine Or.inr ⟨n, hn, ?_⟩
        have := hsmall _ e x hx (n : Int) hn
        exact_mod_cast this

/-- C10 (witness): the second stream of the text of the counterexample. -/
theorem force_coordinates_shape_witness :
    (some [JSNumber.int 1, .nan, .int 2, .int 4] : Option (List JSNumber)) = none ∨
      ∃ l, (some [JSNumber.int 1, .nan, .int 2, .int 4] : Option (List JSNumber)) = some l ∧
        l ≠ [] ∧ ∀ x ∈ l, x = .nan ∨ ∃ n : Nat, x = .int n ∧ n < 2 ^ 53 :=
  force_coordinates_shape defaultResolution defaultResolution
    ("screens:\n- streams:\n- url: \"a\"\nforce_coordinates: [1, 2]\n" ++
      "- url: \"b\"\nforce_coordinates: [1,,2 3,4 ]\n").toList
    { disable_autorotation := false
      screens :=
        [{ newScreen with
           streams :=
             [{ newStream none "a".toList false with
                force_coordinates := some [.int 1, .int 2] },
              { newStream none "b".toList false with
                force_coordinates := some [.int 1, .nan, .int 2, .int 4] }] }] }
    (0, 1)
    { newStream none "b".toList false with
      force_coordinates := some [.int 1, .nan, .int 2, .int 4] }
    (by decide) (by decide)
    (by
      intro l hl x hx k hk
      simp only [Option.some.injEq] at hl
      subst hl
      simp only [List.mem_cons, List.mem_singleton, List.not_mem_nil, or_false] at hx
      rcases hx with e | e | e | e <;> rw [e] at hk <;> cases hk <;> norm_num)

/-! ## The lines of the text that `stringify` writes -/

/-- The text consists of complete lines, each ended by a line break and each with the
property `Q`. -/
inductive LinesAll (Q : Str → Prop) : Str → Prop
  | nil : LinesAll Q []
  | cons (l rest : Str) : '\n' ∉ l → Q l → LinesAll Q rest → LinesAll Q (l ++ '\n' :: rest)

theorem linesAll_append {Q : Str → Prop} {a b : Str} (ha : LinesAll Q a) (hb : LinesAll Q b) :
    LinesAll Q (a ++ b) := by
  induction ha with
  | nil => exact hb
  | cons l rest hl hq _ ih =>
    rw [List.append_assoc, List.cons_append]
    exact LinesAll.cons l _ hl hq ih

theorem linesAll_one {Q : Str → Prop} (l : Str) (hl : '\n' ∉ l) (hq : Q l) :
    LinesAll Q (l ++ ['\n']) :=
  LinesAll.cons l [] hl hq LinesAll.nil

theorem linesAll_flatten {Q : Str → Prop} (ts : List Str) (h : ∀ t ∈ ts, LinesAll Q t) :
    LinesAll Q ts.flatten := by
  induction ts with
  | nil => exact LinesAll.nil
  | cons t ts ih =>
    rw [List.flatten_cons]
    exact linesAll_append (h t (by simp)) (ih (fun t2 h2 => h t2 (by simp [h2])))

theorem linesAll_mono {Q Q2 : Str → Prop} {t : Str} (h : LinesAll Q t)
    (hq : ∀ l, '\n' ∉ l → Q l → Q2 l) : LinesAll Q2 t := by
  induction h with
  | nil => exact LinesAll.nil
  | cons l rest hl hql _ ih => exact LinesAll.cons l rest hl (hq l hl hql) ih

/-- The lines of a text of complete lines, as `split` gives them: the lines, then the empty
rest after the last line break. -/
theorem linesAll_split {Q : Str → Prop} {t : Str} (h : LinesAll Q t) :
    ∃ ls, splitOn '\n' t = ls ++ [[]] ∧ ∀ l ∈ ls, Q l := by
  induction h with
  | nil => exact ⟨[], by simp [splitOn], by simp⟩
  | cons l rest hl hq _ ih =>
    obtain ⟨ls, e, hls⟩ := ih
    refine ⟨l :: ls, ?_, ?_⟩
    · rw [splitOn_append_sep _ _ _ hl, e]; rfl
    · intro x hx
      rcases List.mem_cons.mp hx with e2 | e2
      · rw [e2]; exact hq
      · exact hls x e2

/-- Every text that ends with a line break consists of complete lines. -/
theorem linesAll_of_ends (t : Str) : LinesAll (fun _ => True) (t ++ ['\n']) := by
  induction t with
  | nil => exact LinesAll.cons [] [] (by simp) trivial LinesAll.nil
  | cons c t ih =>
    by_cases hc : c = '\n'
    · rw [hc]
      exact LinesAll.cons [] (t ++ ['\n']) (by simp) trivial ih
    · generalize hg : t ++ ['\n'] = u at ih
      cases ih with
      | nil => simp at hg
      | cons l rest hl _ hr =>
        rw [List.cons_append, hg, ← List.cons_append]
        refine LinesAll.cons (c :: l) rest ?_ trivial hr
        intro hm
        rcases List.mem_cons.mp hm with e | e
        · exact hc e.symm
        · exact hl e

/-- The callback of `map` in the commenting-out of a disabled block. -/
def commentLine (line : Str) : Str := if (trim line).length = 0 then line else '#' :: line

theorem commentOut_cons_line (l rest : Str) (hl : '\n' ∉ l) :
    commentOut (l ++ '\n' :: rest) = commentLine l ++ '\n' :: commentOut rest := by
  unfold commentOut
  rw [splitOn_append_sep _ _ _ hl]
  cases hs : splitOn '\n' rest with
  | nil => exact absurd hs (splitOn_ne_nil _ _)
  | cons y ys =>
    simp only [List.map_cons, joinWith, commentLine]
    simp [String.toList]

theorem commentLine_no_newline (l : Str) (hl : '\n' ∉ l) : '\n' ∉ commentLine l := by
  unfold commentLine
  split_ifs
  · exact hl
  · intro hm
    rcases List.mem_cons.mp hm with e | e
    · revert e; decide
    · exact hl e

theorem linesAll_commentOut {Q Q2 : Str → Prop} {t : Str} (h : LinesAll Q t)
    (hq : ∀ l, '\n' ∉ l → Q l → Q2 (commentLine l)) : LinesAll Q2 (commentOut t) := by
  induction h with
  | nil => rw [commentOut_nil]; exact LinesAll.nil
  | cons l rest hl hql _ ih =>
    rw [commentOut_cons_line l rest hl]
    exact LinesAll.cons _ _ (commentLine_no_newline l hl) (hq l hl hql) ih

theorem commentOut_append {a : Str} (ha : LinesAll (fun _ => True) a) (b : Str) :
    commentOut (a ++ b) = commentOut a ++ commentOut b := by
  induction ha with
  | nil => rw [commentOut_nil]; rfl
  | cons l rest hl _ _ ih =>
    rw [List.append_assoc, List.cons_append, commentOut_cons_line l _ hl,
      commentOut_cons_line l rest hl, ih]
    simp

/-- The text has the complete line `l`, after complete lines. -/
def HasLine (t l : Str) : Prop :=
  ∃ x y, t = x ++ (l ++ '\n' :: y) ∧ LinesAll (fun _ => True) x

theorem hasLine_mem {t l : Str} (h : HasLine t l) (hl : '\n' ∉ l) : l ∈ splitOn '\n' t := by
  obtain ⟨x, y, e, hx⟩ := h
  rw [e]
  clear e
  induction hx with
  | nil => rw [List.nil_append, splitOn_append_sep _ _ _ hl]; simp
  | cons l2 rest hl2 _ _ ih =>
    rw [List.append_assoc, List.cons_append, splitOn_append_sep _ _ _ hl2]
    exact List.mem_cons_of_mem _ ih

theorem hasLine_here (l y : Str) : HasLine (l ++ '\n' :: y) l :=
  ⟨[], y, rfl, LinesAll.nil⟩

theorem hasLine_append_right {t l : Str} (h : HasLine t l) (z : Str) : HasLine (t ++ z) l := by
  obtain ⟨x, y, e, hx⟩ := h
  exact ⟨x, y ++ z, by rw [e]; simp, hx⟩

theorem hasLine_append_left {t l : Str} (h : HasLine t l) {a : Str}
    (ha : LinesAll (fun _ => True) a) : HasLine (a ++ t) l := by
  obtain ⟨x, y, e, hx⟩ := h
  exact ⟨a ++ x, y, by rw [e]; simp, linesAll_append ha hx⟩

theorem hasLine_commentOut {t l : Str} (h : HasLine t l) (hl : '\n' ∉ l) :
    HasLine (commentOut t) (commentLine l) := by
  obtain ⟨x, y, e, hx⟩ := h
  refine ⟨commentOut x, commentOut y, ?_, linesAll_commentOut hx (fun _ _ _ => trivial)⟩
  rw [e, commentOut_append hx, commentOut_cons_line l y hl]

theorem hasLine_markLines (dis : Bool) {t l : Str} (h : HasLine t l) (hl : '\n' ∉ l)
    (hb : (trim l).length ≠ 0) : HasLine (markLines dis t) (mark dis ++ l) := by
  cases dis
  · exact h
  · have := hasLine_commentOut h hl
    rw [commentLine, if_neg hb] at this
    exact this

theorem hasLine_flatten (ts : List Str) (hts : ∀ t ∈ ts, LinesAll (fun _ => True) t) {t0 l : Str}
    (h0 : t0 ∈ ts) (h : HasLine t0 l) : HasLine ts.flatten l := by
  induction ts with
  | nil => simp at h0
  | cons t ts ih =>
    rw [List.flatten_cons]
    rcases List.mem_cons.mp h0 with e | e
    · rw [← e]; exact hasLine_append_right h _
    · exact hasLine_append_left (ih (fun t2 h2 => hts t2 (by simp [h2])) e) (hts t (by simp))

/-- A piece that is empty or one text ended by a line break consists of complete lines. -/
theorem linesAll_piece (p : Str) (h : p = [] ∨ ∃ t, p = t ++ ['\n']) :
    LinesAll (fun _ => True) p := by
  rcases h with e | ⟨t, e⟩
  · rw [e]; exact LinesAll.nil
  · rw [e]; exact linesAll_of_ends t

theorem urlLine_lines (st : Stream) : LinesAll (fun _ => True) (urlLine st) :=
  linesAll_piece _ (Or.inr ⟨"        - url: \"".toList ++ st.url ++ ['"'], by
    simp [urlLine, String.toList]⟩)

theorem imageurlLine_lines (st : Stream) : LinesAll (fun _ => True) (imageurlLine st) := by
  apply linesAll_piece
  unfold imageurlLine
  cases st.imageurl with
  | none => exact Or.inl rfl
  | some b => exact Or.inr ⟨_, rfl⟩

theorem forceCoordinatesLine_lines (st : Stream) :
    LinesAll (fun _ => True) (forceCoordinatesLine st) := by
  apply linesAll_piece
  unfold forceCoordinatesLine
  cases st.force_coordinates with
  | none => exact Or.inl rfl
  | some cs =>
    simp only
    split_ifs
    · exact Or.inr ⟨"          force_coordinates: [".toList ++
        joinWith ", ".toList (cs.map JSNumber.toStr) ++ [']'], by simp [String.toList]⟩
    · exact Or.inl rfl

theorem showontopLine_lines (st : Stream) : LinesAll (fun _ => True) (showontopLine st) := by
  apply linesAll_piece
  unfold showontopLine
  cases st.showontop with
  | none => exact Or.inl rfl
  | some b => exact Or.inr ⟨_, rfl⟩

theorem enableaudioLine_lines (st : Stream) : LinesAll (fun _ => True) (enableaudioLine st) := by
  apply linesAll_piece
  unfold enableaudioLine
  cases st.enableaudio with
  | none => exact Or.inl rfl
  | some b => exact Or.inr ⟨_, rfl⟩

theorem probeTimeoutLine_lines (st : Stream) :
    LinesAll (fun _ => True) (probeTimeoutLine st) := by
  apply linesAll_piece
  unfold probeTimeoutLine
  cases st.probe_timeout with
  | none => exact Or.inl rfl
  | some n =>
    simp only
    split_ifs
    · exact Or.inr ⟨_, rfl⟩
    · exact Or.inl rfl

theorem initTimeoutLine_lines (st : Stream) :
    LinesAll (fun _ => True) (initTimeoutLine st) := by
  apply linesAll_piece
  unfold initTimeoutLine
  cases st.timeout_waiting_for_init_stream with
  | none => exact Or.inl rfl
  | some n =>
    simp only
    split_ifs
    · exact Or.inr ⟨_, rfl⟩
    · exact Or.inl rfl

theorem freeformLine_lines (st : Stream) : LinesAll (fun _ => True) (freeformLine st) := by
  apply linesAll_piece
  unfold freeformLine
  cases st.freeform_advanced_mpv_options with
  | none => exact Or.inl rfl
  | some o =>
    simp only
    split_ifs
    · exact Or.inr ⟨"          freeform_advanced_mpv_options: \"".toList ++ o ++ ['"'], by
        simp [String.toList]⟩
    · exact Or.inl rfl

theorem nameLine_lines (st : Stream) : LinesAll (fun _ => True) (nameLine st) := by
  apply linesAll_piece
  unfold nameLine
  cases st.name with
  | none => exact Or.inl rfl
  | some n =>
    simp only
    split_ifs
    · exact Or.inr ⟨_, rfl⟩
    · exact Or.inl rfl

theorem streamBlock_lines (st : Stream) : LinesAll (fun _ => True) (streamBlock st) :=
  linesAll_append (linesAll_append (linesAll_append (linesAll_append (linesAll_append
    (linesAll_append (linesAll_append (urlLine_lines st) (imageurlLine_lines st))
    (forceCoordinatesLine_lines st)) (showontopLine_lines st)) (enableaudioLine_lines st))
    (probeTimeoutLine_lines st)) (initTimeoutLine_lines st)) (freeformLine_lines st)

theorem streamText_lines (st : Stream) : LinesAll (fun _ => True) (streamText st) := by
  refine linesAll_append (nameLine_lines st) ?_
  unfold markLines
  split_ifs
  · exact linesAll_commentOut (streamBlock_lines st) (fun _ _ _ => trivial)
  · exact streamBlock_lines st

theorem durationLine_lines (sc : Screen) : LinesAll (fun _ => True) (durationLine sc) := by
  apply linesAll_piece
  unfold durationLine
  cases sc.duration with
  | none => exact Or.inl rfl
  | some n =>
    simp only
    split_ifs
    · exact Or.inr ⟨_, rfl⟩
    · exact Or.inl rfl

theorem columnsLine_lines (sc : Screen) : LinesAll (fun _ => True) (columnsLine sc) := by
  apply linesAll_piece
  unfold columnsLine
  cases sc.nr_of_columns with
  | none => exact Or.inl rfl
  | some n =>
    simp only
    split_ifs
    · exact Or.inr ⟨_, rfl⟩
    · exact Or.inl rfl

theorem rotate90Line_lines (sc : Screen) : LinesAll (fun _ => True) (rotate90Line sc) := by
  apply linesAll_piece
  unfold rotate90Line
  cases sc.rotate90 with
  | none => exact Or.inl rfl
  | some b => exact Or.inr ⟨_, rfl⟩

theorem probingLine_lines (sc : Screen) : LinesAll (fun _ => True) (probingLine sc) := by
  apply linesAll_piece
  unfold probingLine
  cases sc.disable_probing_for_all_streams with
  | none => exact Or.inl rfl
  | some b => exact Or.inr ⟨_, rfl⟩

theorem streamTexts_lines (sts : List Stream) :
    LinesAll (fun _ => True) (sts.map streamText).flatten :=
  linesAll_flatten _ (fun t ht => by
    obtain ⟨st, _, e⟩ := List.mem_map.mp ht
    rw [← e]; exact streamText_lines st)

theorem screenHead_lines (sc : Screen) :
    LinesAll (fun _ => True) ("    - streams:\n".toList ++ (sc.streams.map streamText).flatten) :=
  linesAll_append (linesAll_of_ends "    - streams:".toList) (streamTexts_lines sc.streams)

theorem screenText_lines (sc : Screen) : LinesAll (fun _ => True) (screenText sc) :=
  linesAll_append (linesAll_append (linesAll_append (linesAll_append (linesAll_append
    (screenHead_lines sc) (durationLine_lines sc)) (columnsLine_lines sc))
    (rotate90Line_lines sc)) (probingLine_lines sc)) (linesAll_of_ends [])

theorem header_lines (res : Resolution) (d : Config) :
    LinesAll (fun _ => True) (header res d) := by
  rw [header_eq]
  refine linesAll_append (linesAll_of_ends _) (linesAll_append (linesAll_of_ends _)
    (linesAll_append (linesAll_of_ends []) (linesAll_append (linesAll_of_ends _)
    (linesAll_append (linesAll_of_ends _) (linesAll_append (linesAll_of_ends [])
    (linesAll_of_ends _))))))

theorem stringify_eq (res : Resolution) (d : Config) :
    stringify res d = header res d ++ (d.screens.map screenText).flatten := by
  rw [stringify, foldl_appendScreen]

theorem hasLine_of_screen (res : Resolution) (d : Config) (sc : Screen) (l : Str)
    (hsc : sc ∈ d.screens) (h : HasLine (screenText sc) l) : HasLine (stringify res d) l := by
  rw [stringify_eq]
  refine hasLine_append_left (hasLine_flatten _ ?_ (List.mem_map_of_mem _ hsc) h)
    (header_lines res d)
  intro t ht
  obtain ⟨sc2, _, e⟩ := List.mem_map.mp ht
  rw [← e]; exact screenText_lines sc2

theorem hasLine_of_stream (sc : Screen) (st : Stream) (l : Str) (hst : st ∈ sc.streams)
    (h : HasLine (streamText st) l) : HasLine (screenText sc) l := by
  have h1 : HasLine (sc.streams.map streamText).flatten l :=
    hasLine_flatten _ (fun t ht => by
      obtain ⟨st2, _, e⟩ := List.mem_map.mp ht
      rw [← e]; exact streamText_lines st2) (List.mem_map_of_mem _ hst) h
  have h2 := hasLine_append_left h1 (linesAll_of_ends "    - streams:".toList)
  exact hasLine_append_right (hasLine_append_right (hasLine_append_right
    (hasLine_append_right (hasLine_append_right h2 _) _) _) _) _

theorem mark_line_no_newline (dis : Bool) (l : Str) (hl : '\n' ∉ l) : '\n' ∉ mark dis ++ l := by
  cases dis
  · exact hl
  · intro hm
    rcases List.mem_cons.mp hm with e | e
    · revert e; decide
    · exact hl e

/-- A line of the block of a stream is a line of the text, with `#` before it when the
stream is disabled. -/
theorem stream_line_mem (res : Resolution) (d : Config) (sc : Screen) (st : Stream) (l : Str)
    (hsc : sc ∈ d.screens) (hst : st ∈ sc.streams) (h : HasLine (streamBlock st) l)
    (hl : '\n' ∉ l) (hb : (trim l).length ≠ 0) :
    mark st.disabled ++ l ∈ splitOn '\n' (stringify res d) := by
  have h1 : HasLine (streamText st) (mark st.disabled ++ l) :=
    hasLine_append_left (hasLine_markLines st.disabled h hl hb) (nameLine_lines st)
  exact hasLine_mem (hasLine_of_screen res d sc _ hsc (hasLine_of_stream sc st _ hst h1))
    (mark_line_no_newline _ _ hl)

theorem block_has_imageurl (st : Stream) (b : Bool) (h : st.imageurl = some b) :
    HasLine (streamBlock st) ("          imageurl: ".toList ++ boolLow b) := by
  have e : imageurlLine st = ("          imageurl: ".toList ++ boolLow b) ++ '\n' :: [] := by
    rw [imageurlLine, h]; rfl
  have h1 : HasLine (urlLine st ++ imageurlLine st) ("          imageurl: ".toList ++ boolLow b) := by
    rw [e]; exact hasLine_append_left (hasLine_here _ _) (urlLine_lines st)
  exact hasLine_append_right (hasLine_append_right (hasLine_append_right
    (hasLine_append_right (hasLine_append_right (hasLine_append_right h1 _) _) _) _) _) _

theorem block_has_showontop (st : Stream) (b : Bool) (h : st.showontop = some b) :
    HasLine (streamBlock st) ("          showontop: ".toList ++ boolCap b) := by
  have e : showontopLine st = ("          showontop: ".toList ++ boolCap b) ++ '\n' :: [] := by
    rw [showontopLine, h]; rfl
  have h1 : HasLine (urlLine st ++ imageurlLine st ++ forceCoordinatesLine st ++
      showontopLine st) ("          showontop: ".toList ++ boolCap b) := by
    rw [e]
    exact hasLine_append_left (hasLine_here _ _) (linesAll_append (linesAll_append
      (urlLine_lines st) (imageurlLine_lines st)) (forceCoordinatesLine_lines st))
  exact hasLine_append_right (hasLine_append_right (hasLine_append_right
    (hasLine_append_right h1 _) _) _) _

theorem block_has_enableaudio (st : Stream) (b : Bool) (h : st.enableaudio = some b) :
    HasLine (streamBlock st) ("          enableaudio: ".toList ++ boolCap b) := by
  have e : enableaudioLine st = ("          enableaudio: ".toList ++ boolCap b) ++ '\n' :: [] := by
    rw [enableaudioLine, h]; rfl
  have h1 : HasLine (urlLine st ++ imageurlLine st ++ forceCoordinatesLine st ++
      showontopLine st ++ enableaudioLine st) ("          enableaudio: ".toList ++ boolCap b) := by
    rw [e]
    exact hasLine_append_left (hasLine_here _ _) (linesAll_append (linesAll_append
      (linesAll_append (urlLine_lines st) (imageurlLine_lines st))
      (forceCoordinatesLine_lines st)) (showontopLine_lines st))
  exact hasLine_append_right (hasLine_append_right (hasLine_append_right h1 _) _) _

theorem screen_has_rotate90 (sc : Screen) (b : Bool) (h : sc.rotate90 = some b) :
    HasLine (screenText sc) ("      rotate90: ".toList ++ boolCap b) := by
  have e : rotate90Line sc = ("      rotate90: ".toList ++ boolCap b) ++ '\n' :: [] := by
    rw [rotate90Line, h]; rfl
  have h1 : HasLine ("    - streams:\n".toList ++ (sc.streams.map streamText).flatten ++
      durationLine sc ++ columnsLine sc ++ rotate90Line sc)
      ("      rotate90: ".toList ++ boolCap b) := by
    rw [e]
    exact hasLine_append_left (hasLine_here _ _) (linesAll_append (linesAll_append
      (screenHead_lines sc) (durationLine_lines sc)) (columnsLine_lines sc))
  exact hasLine_append_right (hasLine_append_right h1 _) _

theorem screen_has_probing (sc : Screen) (b : Bool)
    (h : sc.disable_probing_for_all_streams = some b) :
    HasLine (screenText sc) ("      disable_probing_for_all_streams: ".toList ++ boolCap b) := by
  have e : probingLine sc =
      ("      disable_probing_for_all_streams: ".toList ++ boolCap b) ++ '\n' :: [] := by
    rw [probingLine, h]; rfl
  have h1 : HasLine ("    - streams:\n".toList ++ (sc.streams.map streamText).flatten ++
      durationLine sc ++ columnsLine sc ++ rotate90Line sc ++ probingLine sc)
      ("      disable_probing_for_all_streams: ".toList ++ boolCap b) := by
    rw [e]
    exact hasLine_append_left (hasLine_here _ _) (linesAll_append (linesAll_append
      (linesAll_append (screenHead_lines sc) (durationLine_lines sc)) (columnsLine_lines sc))
      (rotate90Line_lines sc))
  exact hasLine_append_right h1 _

theorem header_has_autorotation (res : Resolution) (d : Config) :
    HasLine (header res d) ("  disable_autorotation: ".toList ++ boolCap d.disable_autorotation) := by
  rw [header_eq]
  refine hasLine_append_left (hasLine_append_left (hasLine_append_left (hasLine_append_left
    (hasLine_append_right (hasLine_here _ []) _) (linesAll_of_ends _)) (linesAll_of_ends []))
    (linesAll_of_ends _)) (linesAll_of_ends _)


theorem capLine_no_newline (k : Str) (hk : '\n' ∉ k) (b : Bool) : '\n' ∉ k ++ boolCap b := by
  intro hm
  rcases List.mem_append.mp hm with e | e
  · exact hk e
  · revert e; cases b <;> decide

theorem lowLine_no_newline (k : Str) (hk : '\n' ∉ k) (b : Bool) : '\n' ∉ k ++ boolLow b := by
  intro hm
  rcases List.mem_append.mp hm with e | e
  · exact hk e
  · revert e; cases b <;> decide

/-- C7: for every document and resolution, the text written by `stringify` has the line
`imageurl: true` or `imageurl: false` (lowercase) for every stream whose `imageurl` is not
`null`, and the lines `showontop:`, `enableaudio:`, `rotate90:`,
`disable_probing_for_all_streams:` and `disable_autorotation:` with `True` or `False`
for every such value that is not `null`; for a disabled stream the line is the same, after
the `#` that comments it out. -/
theorem boolean_casing (res : Resolution) (d : Config) :
    (∀ b, boolLow b = "true".toList ∨ boolLow b = "false".toList) ∧
    (∀ b, boolCap b = "True".toList ∨ boolCap b = "False".toList) ∧
    "  disable_autorotation: ".toList ++ boolCap d.disable_autorotation ∈
      splitOn '\n' (stringify res d) ∧
    ∀ sc ∈ d.screens,
      (∀ b, sc.rotate90 = some b →
        "      rotate90: ".toList ++ boolCap b ∈ splitOn '\n' (stringify res d)) ∧
      (∀ b, sc.disable_probing_for_all_streams = some b →
        "      disable_probing_for_all_streams: ".toList ++ boolCap b ∈
          splitOn '\n' (stringify res d)) ∧
      ∀ st ∈ sc.streams,
        (∀ b, st.imageurl = some b →
          mark st.disabled ++ ("          imageurl: ".toList ++ boolLow b) ∈
            splitOn '\n' (stringify res d)) ∧
        (∀ b, st.showontop = some b →
          mark st.disabled ++ ("          showontop: ".toList ++ boolCap b) ∈
            splitOn '\n' (stringify res d)) ∧
        (∀ b, st.enableaudio = some b →
          mark st.disabled ++ ("          enableaudio: ".toList ++ boolCap b) ∈
            splitOn '\n' (stringify res d)) := by
  refine ⟨by decide, by decide, ?_, ?_⟩
  · have h : HasLine (stringify res d)
        ("  disable_autorotation: ".toList ++ boolCap d.disable_autorotation) := by
      rw [stringify_eq]
      exact hasLine_append_right (header_has_autorotation res d) _
    exact hasLine_mem h (capLine_no_newline _ (by decide) _)
  · intro sc hsc
    refine ⟨?_, ?_, ?_⟩
    · intro b hb
      exact hasLine_mem (hasLine_of_screen res d sc _ hsc (screen_has_rotate90 sc b hb))
        (capLine_no_newline _ (by decide) _)
    · intro b hb
      exact hasLine_mem (hasLine_of_screen res d sc _ hsc (screen_has_probing sc b hb))
        (capLine_no_newline _ (by decide) _)
    · intro st hst
      refine ⟨?_, ?_, ?_⟩
      · intro b hb
        exact stream_line_mem res d sc st _ hsc hst (block_has_imageurl st b hb)
          (lowLine_no_newline _ (by decide) _) (by cases b <;> decide)
      · intro b hb
        exact stream_line_mem res d sc st _ hsc hst (block_has_showontop st b hb)
          (capLine_no_newline _ (by decide) _) (by cases b <;> decide)
      · intro b hb
        exact stream_line_mem res d sc st _ hsc hst (block_has_enableaudio st b hb)
          (capLine_no_newline _ (by decide) _) (by cases b <;> decide)

/-- A line as `stringify` writes it for a field that is present: not empty, and not ending
with `: null`. -/
def WrittenLine (l : Str) : Prop := l ≠ [] ∧ ¬ ": null".toList <:+ l

theorem writtenLine_of_last (r : Str) (c : Char) (hc : c ≠ 'l') : WrittenLine (r ++ [c]) := by
  refine ⟨by simp, ?_⟩
  rintro ⟨p, hp⟩
  have h1 : (p ++ ": null".toList).getLast? = some 'l' := by
    rw [List.getLast?_append]; rfl
  rw [hp, List.getLast?_concat] at h1
  exact hc (Option.some.inj h1)

theorem writtenLine_of_chars (k v : Str) (hv : v ≠ []) (h : ∀ c ∈ v, c ≠ 'l') :
    WrittenLine (k ++ v) := by
  obtain ⟨r, c, e⟩ : ∃ r c, v = r ++ [c] := by
    rcases List.eq_nil_or_concat v with e | ⟨r, c, e⟩
    · exact absurd e hv
    · exact ⟨r, c, by simpa using e⟩
  rw [e, ← List.append_assoc]
  exact writtenLine_of_last _ c (h c (by simp [e]))

theorem writtenLine_hash {l : Str} (h : ¬ ": null".toList <:+ l) : WrittenLine ('#' :: l) := by
  refine ⟨by simp, ?_⟩
  intro hs
  rcases List.suffix_cons_iff.mp hs with e | e
  · revert e; simp [String.toList]
  · exact h e

theorem writtenLine_commentLine {l : Str} (h : WrittenLine l) : WrittenLine (commentLine l) := by
  unfold commentLine
  split_ifs
  · exact h
  · exact writtenLine_hash h.2

theorem toStr_chars (n : JSNumber) :
    n.toStr ≠ [] ∧ ∀ c ∈ n.toStr, c ≠ 'l' ∧ c ≠ '\n' := by
  cases n with
  | nan => exact ⟨by decide, by decide⟩
  | int m =>
    refine ⟨(toStr_int_chars m).1, ?_⟩
    intro c hc
    have h := (toStr_int_chars m).2 c hc
    refine ⟨?_, (isNumChar_facts h).2.1⟩
    intro e; rw [e] at h; revert h; decide

/-- The pieces are lines one by one: a piece that is empty or one written line. -/
theorem linesAll_written (p : Str)
    (h : p = [] ∨ ∃ l, p = l ++ ['\n'] ∧ '\n' ∉ l ∧ WrittenLine l) : LinesAll WrittenLine p := by
  rcases h with e | ⟨l, e, h1, h2⟩
  · rw [e]; exact LinesAll.nil
  · rw [e]; exact linesAll_one l h1 h2

theorem numberLine_written (k : Str) (hk : '\n' ∉ k) (n : JSNumber) :
    '\n' ∉ k ++ n.toStr ∧ WrittenLine (k ++ n.toStr) :=
  ⟨not_mem_append hk (fun h => ((toStr_chars n).2 _ h).2 rfl),
    writtenLine_of_chars k _ (toStr_chars n).1 (fun c hc => ((toStr_chars n).2 c hc).1)⟩

theorem capLine_written (k : Str) (hk : '\n' ∉ k) (b : Bool) :
    '\n' ∉ k ++ boolCap b ∧ WrittenLine (k ++ boolCap b) := by
  refine ⟨not_mem_append hk (by cases b <;> decide), ?_⟩
  cases b
  · have e : k ++ boolCap false = (k ++ "Fals".toList) ++ ['e'] := by
      simp [boolCap, String.toList]
    rw [e]; exact writtenLine_of_last _ 'e' (by decide)
  · have e : k ++ boolCap true = (k ++ "Tru".toList) ++ ['e'] := by
      simp [boolCap, String.toList]
    rw [e]; exact writtenLine_of_last _ 'e' (by decide)

theorem lowLine_written (b : Bool) :
    '\n' ∉ "          imageurl: ".toList ++ boolLow b ∧
      WrittenLine ("          imageurl: ".toList ++ boolLow b) := by
  cases b
  · exact ⟨by decide, by decide, by decide⟩
  · exact ⟨by decide, by decide, by decide⟩

/-- The strings of a stream hold no line break. -/
def plainStream (st : Stream) : Prop :=
  '\n' ∉ st.url ∧ optAll (fun n => '\n' ∉ n) st.name ∧
    optAll (fun o => '\n' ∉ o) st.freeform_advanced_mpv_options

/-- The line is the comment line `#<name>` that carries the name of the stream. -/
def IsNameLine (st : Stream) (l : Str) : Prop := ∃ n, st.name = some n ∧ l = '#' :: n

/-- A line of the text of a stream: not empty, and ending with `: null` only when it is
the comment line that carries the name. -/
def FieldOrName (st : Stream) (l : Str) : Prop :=
  l ≠ [] ∧ (": null".toList <:+ l → IsNameLine st l)

theorem fieldOrName_of_written (st : Stream) {l : Str} (h : WrittenLine l) :
    FieldOrName st l :=
  ⟨h.1, fun hs => absurd hs h.2⟩

/-- Every stream of the document is plain. -/
def plainConfig (d : Config) : Prop := ∀ sc ∈ d.screens, ∀ st ∈ sc.streams, plainStream st

instance : DecidablePred plainStream := fun st => by unfold plainStream; infer_instance
instance : DecidablePred plainConfig := fun d => by unfold plainConfig; infer_instance

theorem joinWith_no_newline (xs : List JSNumber) :
    '\n' ∉ joinWith ", ".toList (xs.map JSNumber.toStr) := by
  induction xs with
  | nil => simp [joinWith]
  | cons x xs ih =>
    cases xs with
    | nil =>
      simp only [List.map_cons, List.map_nil, joinWith]
      exact fun h => ((toStr_chars x).2 _ h).2 rfl
    | cons y ys =>
      simp only [List.map_cons, joinWith] at ih ⊢
      refine not_mem_append (not_mem_append (fun h => ((toStr_chars x).2 _ h).2 rfl)
        (by decide)) ih

theorem urlLine_written (st : Stream) (h : '\n' ∉ st.url) :
    LinesAll WrittenLine (urlLine st) := by
  have e : urlLine st = (("        - url: \"".toList ++ st.url) ++ ['"']) ++ ['\n'] := by
    simp [urlLine, String.toList]
  rw [e]
  exact linesAll_one _ (not_mem_append (not_mem_append (by decide) h) (by decide))
    (writtenLine_of_last _ '"' (by decide))

theorem imageurlLine_written (st : Stream) : LinesAll WrittenLine (imageurlLine st) := by
  apply linesAll_written
  unfold imageurlLine
  cases st.imageurl with
  | none => exact Or.inl rfl
  | some b => exact Or.inr ⟨_, rfl, lowLine_written b⟩

theorem forceCoordinatesLine_written (st : Stream) :
    LinesAll WrittenLine (forceCoordinatesLine st) := by
  apply linesAll_written
  unfold forceCoordinatesLine
  cases st.force_coordinates with
  | none => exact Or.inl rfl
  | some cs =>
    simp only
    split_ifs
    · refine Or.inr ⟨("          force_coordinates: [".toList ++
        joinWith ", ".toList (cs.map JSNumber.toStr)) ++ [']'], by simp [String.toList], ?_,
        writtenLine_of_last _ ']' (by decide)⟩
      exact not_mem_append (not_mem_append (by decide) (joinWith_no_newline cs)) (by decide)
    · exact Or.inl rfl

theorem showontopLine_written (st : Stream) : LinesAll WrittenLine (showontopLine st) := by
  apply linesAll_written
  unfold showontopLine
  cases st.showontop with
  | none => exact Or.inl rfl
  | some b => exact Or.inr ⟨_, rfl, capLine_written _ (by decide) b⟩

theorem enableaudioLine_written (st : Stream) : LinesAll WrittenLine (enableaudioLine st) := by
  apply linesAll_written
  unfold enableaudioLine
  cases st.enableaudio with
  | none => exact Or.inl rfl
  | some b => exact Or.inr ⟨_, rfl, capLine_written _ (by decide) b⟩

theorem probeTimeoutLine_written (st : Stream) :
    LinesAll WrittenLine (probeTimeoutLine st) := by
  apply linesAll_written
  unfold probeTimeoutLine
  cases st.probe_timeout with
  | none => exact Or.inl rfl
  | some n =>
    simp only
    split_ifs
    · exact Or.inr ⟨_, rfl, numberLine_written _ (by decide) n⟩
    · exact Or.inl rfl

theorem initTimeoutLine_written (st : Stream) :
    LinesAll WrittenLine (initTimeoutLine st) := by
  apply linesAll_written
  unfold initTimeoutLine
  cases st.timeout_waiting_for_init_stream with
  | none => exact Or.inl rfl
  | some n =>
    simp only
    split_ifs
    · exact Or.inr ⟨_, rfl, numberLine_written _ (by decide) n⟩
    · exact Or.inl rfl

theorem freeformLine_written (st : Stream)
    (h : optAll (fun o => '\n' ∉ o) st.freeform_advanced_mpv_options) :
    LinesAll WrittenLine (freeformLine st) := by
  apply linesAll_written
  unfold freeformLine
  cases ho : st.freeform_advanced_mpv_options with
  | none => exact Or.inl rfl
  | some o =>
    rw [ho] at h
    simp only
    split_ifs
    · refine Or.inr ⟨("          freeform_advanced_mpv_options: \"".toList ++ o) ++ ['"'],
        by simp [String.toList], ?_, writtenLine_of_last _ '"' (by decide)⟩
      exact not_mem_append (not_mem_append (by decide) h) (by decide)
    · exact Or.inl rfl

theorem nameLine_written (st : Stream) (h : optAll (fun n => '\n' ∉ n) st.name) :
    LinesAll (FieldOrName st) (nameLine st) := by
  unfold nameLine
  cases hn : st.name with
  | none => exact LinesAll.nil
  | some n =>
    rw [hn] at h
    simp only
    split_ifs
    · refine linesAll_one ('#' :: n) ?_ ⟨by simp, fun _ => ⟨n, hn, rfl⟩⟩
      intro hm
      rcases List.mem_cons.mp hm with e | e
      · revert e; decide
      · exact h e
    · exact LinesAll.nil

theorem streamBlock_written (st : Stream) (h : plainStream st) :
    LinesAll WrittenLine (streamBlock st) :=
  linesAll_append (linesAll_append (linesAll_append (linesAll_append (linesAll_append
    (linesAll_append (linesAll_append (urlLine_written st h.1) (imageurlLine_written st))
    (forceCoordinatesLine_written st)) (showontopLine_written st)) (enableaudioLine_written st))
    (probeTimeoutLine_written st)) (initTimeoutLine_written st))
    (freeformLine_written st h.2.2)

theorem streamText_written (st : Stream) (h : plainStream st) :
    LinesAll (FieldOrName st) (streamText st) := by
  refine linesAll_append (nameLine_written st h.2.1) ?_
  unfold markLines
  split_ifs
  · exact linesAll_commentOut (streamBlock_written st h)
      (fun _ _ hq => fieldOrName_of_written st (writtenLine_commentLine hq))
  · exact linesAll_mono (streamBlock_written st h) (fun _ _ hq => fieldOrName_of_written st hq)

theorem durationLine_written (sc : Screen) : LinesAll WrittenLine (durationLine sc) := by
  apply linesAll_written
  unfold durationLine
  cases sc.duration with
  | none => exact Or.inl rfl
  | some n =>
    simp only
    split_ifs
    · exact Or.inr ⟨_, rfl, numberLine_written _ (by decide) n⟩
    · exact Or.inl rfl

theorem columnsLine_written (sc : Screen) : LinesAll WrittenLine (columnsLine sc) := by
  apply linesAll_written
  unfold columnsLine
  cases sc.nr_of_columns with
  | none => exact Or.inl rfl
  | some n =>
    simp only
    split_ifs
    · exact Or.inr ⟨_, rfl, numberLine_written _ (by decide) n⟩
    · exact Or.inl rfl

theorem rotate90Line_written (sc : Screen) : LinesAll WrittenLine (rotate90Line sc) := by
  apply linesAll_written
  unfold rotate90Line
  cases sc.rotate90 with
  | none => exact Or.inl rfl
  | some b => exact Or.inr ⟨_, rfl, capLine_written _ (by decide) b⟩

theorem probingLine_written (sc : Screen) : LinesAll WrittenLine (probingLine sc) := by
  apply linesAll_written
  unfold probingLine
  cases sc.disable_probing_for_all_streams with
  | none => exact Or.inl rfl
  | some b => exact Or.inr ⟨_, rfl, capLine_written _ (by decide) b⟩

/-- The text of a screen before its closing blank line. -/
def screenBody (sc : Screen) : Str :=
  "    - streams:\n".toList ++ (sc.streams.map streamText).flatten ++ durationLine sc ++
    columnsLine sc ++ rotate90Line sc ++ probingLine sc

/-- A line of the text of a screen: not empty, and ending with `: null` only when it is
the comment line that carries the name of one of its streams. -/
def ScreenLine (sc : Screen) (l : Str) : Prop :=
  l ≠ [] ∧ (": null".toList <:+ l → ∃ st ∈ sc.streams, IsNameLine st l)

theorem screenBody_written (sc : Screen) (h : ∀ st ∈ sc.streams, plainStream st) :
    LinesAll (ScreenLine sc) (screenBody sc) := by
  have hw : ∀ l, '\n' ∉ l → WrittenLine l → ScreenLine sc l :=
    fun l _ hq => ⟨hq.1, fun hs => absurd hs hq.2⟩
  have h0 : LinesAll (ScreenLine sc) "    - streams:\n".toList :=
    linesAll_one "    - streams:".toList (by decide) (hw _ (by decide) ⟨by decide, by decide⟩)
  have h1 : LinesAll (ScreenLine sc) (sc.streams.map streamText).flatten :=
    linesAll_flatten _ (fun t ht => by
      obtain ⟨st, hst, e⟩ := List.mem_map.mp ht
      rw [← e]
      exact linesAll_mono (streamText_written st (h st hst))
        (fun l _ hq => ⟨hq.1, fun hs => ⟨st, hst, hq.2 hs⟩⟩))
  exact linesAll_append (linesAll_append (linesAll_append (linesAll_append
    (linesAll_append h0 h1) (linesAll_mono (durationLine_written sc) hw))
    (linesAll_mono (columnsLine_written sc) hw))
    (linesAll_mono (rotate90Line_written sc) hw)) (linesAll_mono (probingLine_written sc) hw)

theorem screenText_body (sc : Screen) : screenText sc = screenBody sc ++ ['\n'] := rfl

/-- The lines of a text of complete lines. -/
theorem linesAll_lines {Q : Str → Prop} {t : Str} (h : LinesAll Q t) :
    ∃ ls : List Str, (∀ l ∈ ls, Q l ∧ '\n' ∉ l) ∧
      t = (ls.map (fun l => l ++ ['\n'])).flatten := by
  induction h with
  | nil => exact ⟨[], by simp, rfl⟩
  | cons l rest hl hq _ ih =>
    obtain ⟨ls, h1, h2⟩ := ih
    refine ⟨l :: ls, ?_, ?_⟩
    · intro x hx
      rcases List.mem_cons.mp hx with e | e
      · rw [e]; exact ⟨hq, hl⟩
      · exact h1 x e
    · rw [List.map_cons, List.flatten_cons, ← h2]; simp

theorem header_noNull (res : Resolution) (d : Config) :
    LinesAll (fun l => ¬ ": null".toList <:+ l) (header res d) := by
  rw [header_eq]
  have hres : '\n' ∉ ('#' :: ([' '] ++ ("Resolution: ".toList ++
      (res.width.toStr ++ 'x' :: res.height.toStr)))) ∧
      WrittenLine ('#' :: ([' '] ++ ("Resolution: ".toList ++
      (res.width.toStr ++ 'x' :: res.height.toStr)))) := by
    have e : ('#' :: ([' '] ++ ("Resolution: ".toList ++
        (res.width.toStr ++ 'x' :: res.height.toStr)))) =
        (("# Resolution: ".toList ++ res.width.toStr) ++ ['x']) ++ res.height.toStr := by
      simp [String.toList]
    rw [e]
    exact ⟨not_mem_append (not_mem_append (numberLine_written _ (by decide) _).1 (by decide))
      (fun h => ((toStr_chars _).2 _ h).2 rfl),
      writtenLine_of_chars _ _ (toStr_chars _).1 (fun c hc => ((toStr_chars _).2 c hc).1)⟩
  have hauto := capLine_written "  disable_autorotation: ".toList (by decide)
    d.disable_autorotation
  exact linesAll_append (linesAll_one _ (by decide) (by decide))
    (linesAll_append (linesAll_one _ hres.1 hres.2.2)
    (linesAll_append (linesAll_one [] (by decide) (by decide))
    (linesAll_append (linesAll_one _ (by decide) (by decide))
    (linesAll_append (linesAll_one _ hauto.1 hauto.2.2)
    (linesAll_append (linesAll_one [] (by decide) (by decide))
    (linesAll_one _ (by decide) (by decide)))))))

/-- A line of the text of a document ends with `: null` only when it is the comment line
that carries the name of one of its streams. -/
def DocumentLine (d : Config) (l : Str) : Prop :=
  ": null".toList <:+ l → ∃ sc ∈ d.screens, ∃ st ∈ sc.streams, IsNameLine st l

theorem stringify_noNull (res : Resolution) (d : Config) (hd : plainConfig d) :
    LinesAll (DocumentLine d) (stringify res d) := by
  rw [stringify_eq]
  refine linesAll_append
    (linesAll_mono (header_noNull res d) (fun _ _ h hs => absurd hs h)) (linesAll_flatten _ ?_)
  intro t ht
  obtain ⟨sc, hsc, e⟩ := List.mem_map.mp ht
  rw [← e, screenText_body]
  refine linesAll_append (linesAll_mono (screenBody_written sc (hd sc hsc)) ?_)
    (linesAll_one [] (by decide) (fun hs => absurd hs (by decide)))
  intro l _ hq hs
  obtain ⟨st, hst, hn⟩ := hq.2 hs
  exact ⟨sc, hsc, st, hst, hn⟩

/-- The text of a stream without name and without optional fields: its marker line. -/
theorem streamText_marker (st : Stream) (hu : '\n' ∉ st.url) (h0 : st.name = none)
    (h1 : st.imageurl = none) (h2 : st.force_coordinates = none) (h3 : st.showontop = none)
    (h4 : st.enableaudio = none) (h5 : st.probe_timeout = none)
    (h6 : st.timeout_waiting_for_init_stream = none)
    (h7 : st.freeform_advanced_mpv_options = none) :
    streamText st =
      (mark st.disabled ++ ("        - url: \"".toList ++ st.url ++ "\"".toList)) ++ ['\n'] := by
  have e : streamBlock st = ("        - url: \"".toList ++ st.url ++ "\"".toList) ++ '\n' :: [] := by
    simp [streamBlock, urlLine, imageurlLine, forceCoordinatesLine, showontopLine,
      enableaudioLine, probeTimeoutLine, initTimeoutLine, freeformLine, h1, h2, h3, h4, h5,
      h6, h7, String.toList]
  have hn : nameLine st = [] := by simp [nameLine, h0]
  have hl : '\n' ∉ "        - url: \"".toList ++ st.url ++ "\"".toList :=
    not_mem_append (not_mem_append (by decide) hu) (by decide)
  have hb : (trim ("        - url: \"".toList ++ st.url ++ "\"".toList)).length ≠ 0 := by
    have e2 : "        - url: \"".toList ++ st.url ++ "\"".toList =
        ind8 ++ ("- url: \"".toList ++ st.url ++ ['"']) := by
      simp [ind8, String.toList]
    rw [e2]
    refine trim_length_indent _ _ (by decide) ⟨⟨'-', " url: \"".toList ++ st.url ++ ['"'], ?_, ?_⟩,
      ⟨"- url: \"".toList ++ st.url, '"', rfl, ?_⟩⟩
    · simp [String.toList]
    · decide
    · decide
  rw [streamText, hn, e, List.nil_append]
  cases st.disabled
  · simp [markLines, mark]
  · simp only [markLines, if_true, mark]
    rw [commentOut_cons_line _ _ hl, commentLine, if_neg hb, commentOut_nil]
    simp

/-- C8: a field that is `null` adds nothing to the text.  For every document whose urls,
names and option strings hold no line break (`parse` reads them from single lines and the
editor from text fields), no line that `stringify` writes for a field ends with `: null`:
a line of the text that ends so is the comment line `#<name>` of a stream whose name ends
so.  The text of every screen is lines that are not empty followed by one empty line, and a
stream without name whose optional fields are all `null` is written as one line, its marker
`- url: "<url>"`, after a `#` when the stream is disabled. -/
theorem absent_fields_omitted (res : Resolution) (d : Config) (hd : plainConfig d) :
    (∀ st : Stream, (st.name = none → nameLine st = []) ∧
      (st.imageurl = none → imageurlLine st = []) ∧
      (st.force_coordinates = none → forceCoordinatesLine st = []) ∧
      (st.showontop = none → showontopLine st = []) ∧
      (st.enableaudio = none → enableaudioLine st = []) ∧
      (st.probe_timeout = none → probeTimeoutLine st = []) ∧
      (st.timeout_waiting_for_init_stream = none → initTimeoutLine st = []) ∧
      (st.freeform_advanced_mpv_options = none → freeformLine st = [])) ∧
    (∀ sc : Screen, (sc.duration = none → durationLine sc = []) ∧
      (sc.nr_of_columns = none → columnsLine sc = []) ∧
      (sc.rotate90 = none → rotate90Line sc = []) ∧
      (sc.disable_probing_for_all_streams = none → probingLine sc = [])) ∧
    (∀ l ∈ splitOn '\n' (stringify res d), ": null".toList <:+ l →
      ∃ sc ∈ d.screens, ∃ st ∈ sc.streams, ∃ n, st.name = some n ∧ l = '#' :: n) ∧
    (∀ sc ∈ d.screens, ∃ ls : List Str, (∀ l ∈ ls, l ≠ [] ∧ '\n' ∉ l) ∧
      ∀ yaml, appendScreen yaml sc =
        yaml ++ (ls.map (fun l => l ++ ['\n'])).flatten ++ ['\n']) ∧
    (∀ sc ∈ d.screens, ∀ st ∈ sc.streams, st.name = none → st.imageurl = none →
      st.force_coordinates = none → st.showontop = none → st.enableaudio = none →
      st.probe_timeout = none → st.timeout_waiting_for_init_stream = none →
      st.freeform_advanced_mpv_options = none →
      ∀ yaml, appendStream yaml st =
        yaml ++ (mark st.disabled ++ ("        - url: \"".toList ++ st.url ++ "\"".toList)) ++
          ['\n']) := by
  refine ⟨?_, ?_, ?_, ?_, ?_⟩
  · intro st
    refine ⟨?_, ?_, ?_, ?_, ?_, ?_, ?_, ?_⟩ <;> intro h
    · simp [nameLine, h]
    · simp [imageurlLine, h]
    · simp [forceCoordinatesLine, h]
    · simp [showontopLine, h]
    · simp [enableaudioLine, h]
    · simp [probeTimeoutLine, h]
    · simp [initTimeoutLine, h]
    · simp [freeformLine, h]
  · intro sc
    refine ⟨?_, ?_, ?_, ?_⟩ <;> intro h
    · simp [durationLine, h]
    · simp [columnsLine, h]
    · simp [rotate90Line, h]
    · simp [probingLine, h]
  · intro l hl
    obtain ⟨ls, e, hls⟩ := linesAll_split (stringify_noNull res d hd)
    rw [e] at hl
    rcases List.mem_append.mp hl with h | h
    · exact hls l h
    · rw [List.mem_singleton.mp h]
      intro hs
      exact absurd hs (by decide)
  · intro sc hsc
    obtain ⟨ls, h1, h2⟩ := linesAll_lines (screenBody_written sc (hd sc hsc))
    refine ⟨ls, fun l hl => ⟨(h1 l hl).1.1, (h1 l hl).2⟩, ?_⟩
    intro yaml
    rw [appendScreen_eq, screenText_body, h2]
    simp
  · intro sc hsc st hst h0 h1 h2 h3 h4 h5 h6 h7 yaml
    rw [appendStream_eq, streamText_marker st (hd sc hsc st hst).1 h0 h1 h2 h3 h4 h5 h6 h7]
    simp

/-- C8 (witness): the configuration `sampleConfig` has strings without line break. -/
theorem absent_fields_omitted_witness :
    plainConfig sampleConfig ∧
    ∀ l ∈ splitOn '\n' (stringify defaultResolution sampleConfig), ": null".toList <:+ l →
      ∃ sc ∈ sampleConfig.screens, ∃ st ∈ sc.streams, ∃ n, st.name = some n ∧ l = '#' :: n :=
  ⟨by decide, (absent_fields_omitted defaultResolution sampleConfig (by decide)).2.2.1⟩

/-! ## The resolution annotation -/

/-- The two groups that a line gives to the resolution capture of `parse`: the line is a
comment without `###` whose text matches `Resolution:\s*(\d+)x(\d+)` in any letter case. -/
def resolutionOf (line : Str) : Option (Str × Str) :=
  if startsWith "#".toList (trim line) && !(includes "###".toList (trim line)) then
    resolutionMatch (trim ((trim line).drop 1))
  else none

theorem applyProps_resolution (s : PState) (t : Str) (s1 s2 : PState)
    (h1 : applyStreamProps s t = .ok s1) (h2 : applyScreenProps s1 t = .ok s2) :
    s2.resolution = s.resolution := by
  have r1 : s1.resolution = s.resolution := by
    rcases applyStreamProps_shape s t s1 h1 with e | ⟨p, st, st2, _, _, _, e⟩
    · rw [e]
    · rw [e]
  have r2 : s2.resolution = s1.resolution := by
    rcases applyScreenProps_shape s1 t s2 h2 with e | ⟨i, sc, sc2, _, _, _, e⟩
    · rw [e]
    · rw [e]
  exact r2.trans r1

/-- One iteration of the loop leaves `state.resolution` as it is, or the line is a
resolution annotation and the resolution is the one it gives. -/
theorem step_resolution_cases (s : PState) (l : Str) (s2 : PState) (h : step s l = .ok s2) :
    s2.resolution = s.resolution ∨
      ∃ w h, resolutionOf l = some (w, h) ∧
        s2.resolution = { width := parseInt w, height := parseInt h } := by
  unfold step at h
  simp only at h
  by_cases h1 : trim l = []
  · rw [if_pos h1] at h
    cases h; exact Or.inl rfl
  · rw [if_neg h1] at h
    by_cases h2 : startsWith "#".toList (trim l) = true
    · rw [if_pos h2] at h
      cases hd : handleDisabled s (trim ((trim l).drop 1)) with
      | error e => rw [hd] at h; cases h
      | ok r =>
        rw [hd] at h
        cases r with
        | some s3 =>
          cases h
          unfold handleDisabled at hd
          split_ifs at hd with h3
          · split at hd
            · cases hd; exact Or.inl rfl
            · cases hd
          · split at hd
            · cases hd
            · split at hd
              · cases hd
              · rename_i st hst
                split_ifs at hd
                · cases hdp : disabledProp (trim ((trim l).drop 1)) st with
                  | error e => rw [hdp] at hd; cases hd
                  | ok r =>
                    rw [hdp] at hd
                    cases r with
                    | none => cases hd
                    | some st2 => cases hd; exact Or.inl rfl
                · cases hd
        | none =>
          simp only [Except.bind] at h
          by_cases h3 : (!includes "###".toList (trim l)) = true
          · rw [if_pos h3] at h
            cases h
            unfold captureComment
            cases hm : resolutionMatch (trim ((trim l).drop 1)) with
            | some wh =>
              obtain ⟨w, hh⟩ := wh
              refine Or.inr ⟨w, hh, ?_, rfl⟩
              rw [resolutionOf, h2, h3]
              exact hm
            | none =>
              simp only
              split_ifs
              · exact Or.inl rfl
              · exact Or.inl rfl
          · rw [if_neg h3] at h
            cases h; exact Or.inl rfl
    · rw [if_neg h2] at h
      unfold stepPlain at h
      split_ifs at h with h3 h4 h5 h6 h7
      · cases h; exact Or.inl rfl
      · cases hv : colonValue (trim l) with
        | error e => rw [hv] at h; cases h
        | ok v => rw [hv] at h; cases h; exact Or.inl rfl
      · cases h; exact Or.inl rfl
      · cases h; exact Or.inl rfl
      · split at h
        · cases h; exact Or.inl rfl
        · cases h; exact Or.inl rfl
      · cases h1' : applyStreamProps s (trim l) with
        | error e => rw [h1'] at h; cases h
        | ok s1 =>
          rw [h1'] at h
          exact Or.inl (applyProps_resolution s _ s1 s2 h1' h)

/-- The loop leaves the resolution as it is over lines of which none is an annotation. -/
theorem parseLines_resolution_frame (ls : List Str) (hls : ∀ l ∈ ls, resolutionOf l = none) :
    ∀ (s s2 : PState), parseLines s ls = .ok s2 → s2.resolution = s.resolution := by
  induction ls with
  | nil => intro s s2 h; cases h; rfl
  | cons l ls ih =>
    intro s s2 h
    rw [parseLines] at h
    cases h1 : step s l with
    | error e => rw [h1] at h; cases h
    | ok s1 =>
      rw [h1] at h
      have e2 := ih (fun x hx => hls x (by simp [hx])) s1 s2 h
      rcases step_resolution_cases s l s1 h1 with e | ⟨w, hh, e, _⟩
      · exact e2.trans e
      · rw [hls l (by simp)] at e; cases e

/-- A resolution annotation that is not taken for a commented-out marker or property line
sets the resolution, whatever the state. -/
theorem step_resolution_set (s : PState) (l w h : Str) (hr : resolutionOf l = some (w, h))
    (hu : startsWith "- url:".toList (trim ((trim l).drop 1)) = false)
    (hk : hasKey streamKeys (trim ((trim l).drop 1)) = false) :
    step s l = .ok { s with resolution := { width := parseInt w, height := parseInt h } } := by
  unfold resolutionOf at hr
  split_ifs at hr with h1
  simp only [Bool.and_eq_true] at h1
  obtain ⟨hc, h3⟩ := h1
  have hne : trim l ≠ [] := by
    intro e; rw [e] at hc; revert hc; decide
  simp only [step, hne, if_false, hc, if_true, handleDisabled_noKey s _ hu hk, Except.bind, h3,
    captureComment, hr]

theorem header_has_resolution (res : Resolution) (d : Config) :
    HasLine (header res d)
      ("# Resolution: ".toList ++ res.width.toStr ++ "x".toList ++ res.height.toStr) := by
  have e : "# Resolution: ".toList ++ res.width.toStr ++ "x".toList ++ res.height.toStr =
      '#' :: ([' '] ++ ("Resolution: ".toList ++ (res.width.toStr ++ 'x' :: res.height.toStr))) := by
    simp [String.toList]
  rw [header_eq, e]
  exact hasLine_append_left (hasLine_append_right (hasLine_here _ []) _) (linesAll_of_ends _)

/-- A configuration whose only stream has a name of the form of a resolution annotation. -/
def resolutionNameConfig : Config :=
  { disable_autorotation := false
    screens :=
      [{ newScreen with
         streams := [newStream (some "Resolution: 1x1".toList) "rtsp://x".toList false] }] }

/-- C11 (counterexample): a comment line with `###` that matches the pattern leaves the
resolution at 1920x1080, and reading back what `stringify` writes for `resolutionNameConfig`
at 1920x1080 leaves the resolution at 1x1: the name line of the stream is taken for an
annotation. -/
theorem resolution_not_kept :
    (parse defaultResolution "# ### Resolution: 800x600".toList).map Prod.snd =
      .ok defaultResolution ∧
    (parse defaultResolution (stringify defaultResolution resolutionNameConfig)).map Prod.snd =
      .ok { width := .int 1, height := .int 1 } := by
  decide

/-- C11 (amended): for every text and prior resolution, `parse` leaves the resolution as it
was when no line is a comment without `###` whose text matches `Resolution: <W>x<H>` in any
letter case; when a line is such a comment, is not a commented-out marker or property line,
and no later line is such a comment, the resolution after `parse` is `parseInt W` x
`parseInt H`.  The text that `stringify` writes has the line `# Resolution: <W>x<H>` of the
current resolution, and reading it back leaves the resolution as it was when the resolution
is two integers from 0 below `2^53` and the document is well formed (in particular no
stream name matches the pattern). -/
theorem resolution_capture :
    (∀ (res : Resolution) (text : Str), (∀ l ∈ splitOn '\n' text, resolutionOf l = none) →
      ∃ cfg, parse res text = .ok (cfg, res)) ∧
    (∀ (res : Resolution) (text : Str) (before after : List Str) (line w h : Str),
      splitOn '\n' text = before ++ line :: after →
      resolutionOf line = some (w, h) →
      startsWith "- url:".toList (trim ((trim line).drop 1)) = false →
      hasKey streamKeys (trim ((trim line).drop 1)) = false →
      (∀ l ∈ after, resolutionOf l = none) →
      ∃ cfg, parse res text = .ok (cfg, { width := parseInt w, height := parseInt h })) ∧
    (∀ (res : Resolution) (d : Config),
      "# Resolution: ".toList ++ res.width.toStr ++ "x".toList ++ res.height.toStr ∈
        splitOn '\n' (stringify res d)) ∧
    (∀ (res : Resolution) (d : Config), okResolution res → okConfig d →
      parse res (stringify res d) = .ok (d, res)) := by
  refine ⟨?_, ?_, ?_, fun res d hres hd => roundtrip_core res d hres hd⟩
  · intro res text hls
    obtain ⟨sf, hsf⟩ := parseLines_ok (splitOn '\n' text) (initState res)
    have e := parseLines_resolution_frame _ hls _ _ hsf
    exact ⟨sf.config, by rw [parse, hsf]; simp only; rw [e]; rfl⟩
  · intro res text before after line w h hsplit hr hu hk hafter
    obtain ⟨s1, hs1⟩ := parseLines_ok before (initState res)
    obtain ⟨sf, hsf⟩ := parseLines_ok after
      { s1 with resolution := { width := parseInt w, height := parseInt h } }
    have hall : parseLines (initState res) (before ++ line :: after) = .ok sf := by
      rw [parseLines_append before _ _ s1 hs1, parseLines, step_resolution_set s1 line w h hr hu hk]
      exact hsf
    have e := parseLines_resolution_frame _ hafter _ _ hsf
    exact ⟨sf.config, by rw [parse, hsplit, hall]; simp only; rw [e]⟩
  · intro res d
    have h : HasLine (stringify res d)
        ("# Resolution: ".toList ++ res.width.toStr ++ "x".toList ++ res.height.toStr) := by
      rw [stringify_eq]
      exact hasLine_append_right (header_has_resolution res d) _
    refine hasLine_mem h ?_
    exact not_mem_append (not_mem_append (numberLine_written _ (by decide) _).1 (by decide))
      (fun hm => ((toStr_chars _).2 _ hm).2 rfl)

/-- C11 (witness): an annotation in capital letters after a first one, and the round trip of
`sampleConfig` at 1920x1080. -/
theorem resolution_capture_witness :
    (∃ cfg, parse defaultResolution
      "# Resolution: 1x1\n# RESOLUTION:  800x600\nessentials:".toList =
        .ok (cfg, { width := .int 800, height := .int 600 })) ∧
    parse defaultResolution (stringify defaultResolution sampleConfig) =
      .ok (sampleConfig, defaultResolution) :=
  ⟨resolution_capture.2.1 defaultResolution
      "# Resolution: 1x1\n# RESOLUTION:  800x600\nessentials:".toList
      ["# Resolution: 1x1".toList] ["essentials:".toList] "# RESOLUTION:  800x600".toList
      "800".toList "600".toList (by decide) (by decide) (by decide) (by decide) (by decide),
    resolution_capture.2.2.2 defaultResolution sampleConfig (by decide) (by decide)⟩

/-! ## Double-precision numbers

The numbers of the preview are IEEE 754 doubles.  A finite double is kept as the rational
number it stands for, and an arithmetic operation of the source is the exact operation
followed by `toDouble`, the rounding to the nearest double with ties to the even
significand.  The model has no infinity: it is faithful as long as the results stay below
`2 ^ 1024` in size. -/

/-- The number of binary digits of `n`, with `fuel` steps to spend. -/
def bitsFuel : Nat → Nat → Nat
  | 0, _ => 0
  | fuel + 1, n => if n = 0 then 0 else bitsFuel fuel (n / 2) + 1

/-- The number of binary digits of `n`: 0 for 0, and `b` with `2 ^ (b - 1) ≤ n < 2 ^ b`
otherwise. -/
def bitLength (n : Nat) : Nat := bitsFuel n n

/-- The power `2 ^ k` for an integer exponent. -/
def pow2 (k : Int) : ℚ :=
  if 0 ≤ k then ((2 ^ k.toNat : Nat) : ℚ) else 1 / ((2 ^ (-k).toNat : Nat) : ℚ)

/-- The binary exponent of a positive rational `a`: the `e` with `2 ^ e ≤ a < 2 ^ (e + 1)`. -/
def exponentOf (a : ℚ) : Int :=
  let e0 : Int := (bitLength a.num.natAbs : Int) - (bitLength a.den : Int)
  if pow2 e0 ≤ a then e0 else e0 - 1

/-- The integer nearest to `m`, the even one of the two at a tie. -/
def roundHalfEven (m : ℚ) : Int :=
  let f := ⌊m⌋
  let r := m - (f : ℚ)
  if r < 1 / 2 then f
  else if 1 / 2 < r then f + 1
  else if f % 2 = 0 then f else f + 1

/-- The double nearest to `x`, ties to the even significand.  The spacing of the doubles
around `x` is `2 ^ (e - 52)` for the binary exponent `e` of `x`, and `2 ^ (-1074)` for the
subnormal numbers below `2 ^ (-1022)`. -/
def toDouble (x : ℚ) : ℚ :=
  if x = 0 then 0
  else
    let ulp := pow2 (max (exponentOf |x|) (-1022) - 52)
    (roundHalfEven (x / ulp) : ℚ) * ulp

theorem bitsFuel_bounds : ∀ (fuel n : Nat), n ≤ fuel → n ≠ 0 →
    2 ^ (bitsFuel fuel n - 1) ≤ n ∧ n < 2 ^ bitsFuel fuel n := by
  intro fuel
  induction fuel with
  | zero => intro n h hn; omega
  | succ f ih =>
    intro n h hn
    rw [bitsFuel, if_neg hn]
    by_cases h2 : n / 2 = 0
    · have h1 : n = 1 := by omega
      subst h1
      have : bitsFuel f (1 / 2) = 0 := by
        cases f with
        | zero => rfl
        | succ g => simp [bitsFuel]
      rw [this]
      simp
    · obtain ⟨hl, hu⟩ := ih (n / 2) (by omega) h2
      have hb : 1 ≤ bitsFuel f (n / 2) := by
        by_contra hc
        have : bitsFuel f (n / 2) = 0 := by omega
        rw [this] at hu
        simp at hu
        exact h2 hu
      refine ⟨?_, ?_⟩
      · have e : bitsFuel f (n / 2) + 1 - 1 = (bitsFuel f (n / 2) - 1) + 1 := by omega
        rw [e, pow_succ]
        omega
      · rw [pow_succ]
        omega

theorem bitLength_bounds (n : Nat) (hn : n ≠ 0) :
    2 ^ (bitLength n - 1) ≤ n ∧ n < 2 ^ bitLength n :=
  bitsFuel_bounds n n le_rfl hn

theorem pow2_eq (k : Int) : pow2 k = (2 : ℚ) ^ k := by
  unfold pow2
  split_ifs with h
  · obtain ⟨n, rfl⟩ := Int.eq_ofNat_of_zero_le h
    simp
  · have h2 : 0 ≤ -k := by omega
    obtain ⟨n, hn⟩ := Int.eq_ofNat_of_zero_le h2
    have e : k = -(n : Int) := by omega
    rw [hn, e]
    simp

theorem pow2_pos (k : Int) : 0 < pow2 k := by
  rw [pow2_eq]; positivity

theorem pow2_add (a b : Int) : pow2 (a + b) = pow2 a * pow2 b := by
  rw [pow2_eq, pow2_eq, pow2_eq, zpow_add₀ (by norm_num)]

theorem pow2_mono {a b : Int} (h : a ≤ b) : pow2 a ≤ pow2 b := by
  rw [pow2_eq, pow2_eq]
  exact zpow_le_zpow_right₀ (by norm_num) h

theorem frac_lower (p q bp bq : Nat) (hq : 0 < q) (hp : 2 ^ (bp - 1) ≤ p) (hqu : q < 2 ^ bq) :
    (2 : ℚ) ^ (bp - 1) / (2 : ℚ) ^ bq ≤ (p : ℚ) / (q : ℚ) := by
  have hq2 : (0 : ℚ) < (q : ℚ) := by exact_mod_cast hq
  have hpl2 : ((2 : ℚ) ^ (bp - 1)) ≤ (p : ℚ) := by exact_mod_cast hp
  have hqu2 : (q : ℚ) ≤ (2 : ℚ) ^ bq := by exact_mod_cast hqu.le
  have hpos : (0 : ℚ) < (2 : ℚ) ^ bq := by positivity
  rw [div_le_div_iff₀ hpos hq2]
  calc (2 : ℚ) ^ (bp - 1) * (q : ℚ)
      ≤ (p : ℚ) * (q : ℚ) := mul_le_mul_of_nonneg_right hpl2 hq2.le
    _ ≤ (p : ℚ) * (2 : ℚ) ^ bq := mul_le_mul_of_nonneg_left hqu2 (by positivity)

/-- The binary exponent of a positive number is not above the number. -/
theorem pow2_exponentOf_le (a : ℚ) (ha : 0 < a) : pow2 (exponentOf a) ≤ a := by
  unfold exponentOf
  dsimp only
  split_ifs with h
  · exact h
  · have hnum : 0 < a.num := Rat.num_pos.mpr ha
    have hp0 : a.num.natAbs ≠ 0 := by omega
    have hq0 : a.den ≠ 0 := a.den_nz
    obtain ⟨hpl, hpu⟩ := bitLength_bounds a.num.natAbs hp0
    obtain ⟨_, hqu⟩ := bitLength_bounds a.den hq0
    have hbp : 1 ≤ bitLength a.num.natAbs := by
      by_contra hc
      have h0 : bitLength a.num.natAbs = 0 := by omega
      rw [h0] at hpu
      omega
    have e : ((bitLength a.num.natAbs : Int) - (bitLength a.den : Int) - 1) =
        ((bitLength a.num.natAbs - 1 : Nat) : Int) - (bitLength a.den : Int) := by
      omega
    have ha2 : (a.num.natAbs : ℚ) / (a.den : ℚ) = a := by
      have h1 : ((a.num.natAbs : Nat) : ℚ) = (a.num : ℚ) := by
        have h0 : ((a.num.natAbs : Nat) : Int) = a.num := Int.natAbs_of_nonneg hnum.le
        rw [← Int.cast_natCast, h0]
      rw [h1]
      exact Rat.num_div_den a
    rw [e, pow2_eq, zpow_sub₀ (by norm_num), zpow_natCast, zpow_natCast]
    exact le_trans (frac_lower _ _ _ _ (Nat.pos_of_ne_zero hq0) hpl hqu) (le_of_eq ha2)

theorem roundHalfEven_err (m : ℚ) : |((roundHalfEven m : Int) : ℚ) - m| ≤ 1 / 2 := by
  have h1 := Int.floor_le m
  have h2 := Int.lt_floor_add_one m
  unfold roundHalfEven
  dsimp only
  rw [abs_le]
  split_ifs with a b c
  · constructor <;> linarith
  · push_cast; constructor <;> linarith
  · push_neg at a b; constructor <;> linarith
  · push_neg at a b; push_cast; constructor <;> linarith

theorem toDouble_zero : toDouble 0 = 0 := by
  simp [toDouble]

/-- The rounding error of `toDouble`: at most the fraction `2 ^ (-53)` of the number, or
`2 ^ (-1075)` for a subnormal result. -/
theorem toDouble_err (x : ℚ) : |toDouble x - x| ≤ |x| / 2 ^ 53 + 1 / 2 ^ 1075 := by
  by_cases hx : x = 0
  · rw [hx, toDouble_zero]; simp
  · unfold toDouble
    rw [if_neg hx]
    dsimp only
    set e := exponentOf |x| with he
    set ulp := pow2 (max e (-1022) - 52) with hulp
    have hup : 0 < ulp := pow2_pos _
    have hr := roundHalfEven_err (x / ulp)
    have h1 : ((roundHalfEven (x / ulp) : Int) : ℚ) * ulp - x =
        (((roundHalfEven (x / ulp) : Int) : ℚ) - x / ulp) * ulp := by
      field_simp
    rw [h1, abs_mul, abs_of_pos hup]
    have h2 : |((roundHalfEven (x / ulp) : Int) : ℚ) - x / ulp| * ulp ≤ 1 / 2 * ulp :=
      mul_le_mul_of_nonneg_right hr hup.le
    refine le_trans h2 ?_
    have habs : 0 < |x| := abs_pos.mpr hx
    have hle : pow2 e ≤ |x| := pow2_exponentOf_le |x| habs
    rcases le_total e (-1022) with hc | hc
    · have e1 : max e (-1022) - 52 = -1074 := by rw [max_eq_right hc]; norm_num
      have e2 : ulp = 1 / 2 ^ 1074 := by
        rw [hulp, e1, pow2_eq]
        norm_num
      rw [e2]
      have : (0 : ℚ) ≤ |x| / 2 ^ 53 := by positivity
      have e3 : (1 : ℚ) / 2 * (1 / 2 ^ 1074) = 1 / 2 ^ 1075 := by norm_num
      rw [e3]
      linarith
    · have e1 : max e (-1022) - 52 = e + (-52) := by rw [max_eq_left hc]; ring
      have e2 : ulp = pow2 e * (1 / 2 ^ 52) := by
        have e52 : pow2 (-52) = 1 / 2 ^ 52 := by
          rw [pow2_eq]
          norm_num
        rw [hulp, e1, pow2_add, e52]
      rw [e2]
      have h3 : (1 : ℚ) / 2 * (pow2 e * (1 / 2 ^ 52)) = pow2 e / 2 ^ 53 := by
        rw [div_eq_mul_inv, div_eq_mul_inv, div_eq_mul_inv]
        norm_num
        ring
      rw [h3]
      have h4 : pow2 e / 2 ^ 53 ≤ |x| / 2 ^ 53 :=
        div_le_div_of_nonneg_right hle (by positivity)
      have : (0 : ℚ) ≤ 1 / 2 ^ 1075 := by positivity
      linarith

example : ⌊toDouble (275 * toDouble (1366 / 1100)) + 1 / 2⌋ = 341 := by decide!

theorem roundHalfEven_intCast (z : Int) : roundHalfEven (z : ℚ) = z := by
  unfold roundHalfEven
  simp

/-- An integer below `2 ^ 53` in size is a double. -/
theorem toDouble_intCast (n : Int) (h : |n| < 2 ^ 53) : toDouble (n : ℚ) = n := by
  by_cases hn : n = 0
  · rw [hn]; simp [toDouble]
  · have hq : (n : ℚ) ≠ 0 := by exact_mod_cast hn
    unfold toDouble
    rw [if_neg hq]
    dsimp only
    set e := exponentOf |(n : ℚ)| with he
    have habs : 0 < |(n : ℚ)| := abs_pos.mpr hq
    have hle : pow2 e ≤ |(n : ℚ)| := pow2_exponentOf_le _ habs
    have hlt : |(n : ℚ)| < pow2 53 := by
      rw [pow2_eq]
      have : ((|n| : Int) : ℚ) < ((2 ^ 53 : Int) : ℚ) := by exact_mod_cast h
      rw [Int.cast_abs] at this
      norm_num at this ⊢
      exact this
    have he53 : e < 53 := by
      by_contra hc
      have := pow2_mono (not_lt.mp hc)
      linarith
    have hk : max e (-1022) - 52 ≤ 0 := by
      have : max e (-1022) ≤ 52 := max_le (by omega) (by norm_num)
      omega
    obtain ⟨m, hm⟩ := Int.eq_ofNat_of_zero_le (by omega : 0 ≤ -(max e (-1022) - 52))
    have ek : max e (-1022) - 52 = -(m : Int) := by omega
    rw [ek]
    have hp : pow2 (-(m : Int)) = 1 / (2 : ℚ) ^ m := by
      rw [pow2_eq, zpow_neg, zpow_natCast]; simp
    rw [hp]
    have e1 : (n : ℚ) / (1 / (2 : ℚ) ^ m) = ((n * 2 ^ m : Int) : ℚ) := by
      push_cast
      field_simp
    rw [e1, roundHalfEven_intCast]
    push_cast
    field_simp

/-- The rounding error of `toDouble` for numbers up to `2 ^ 25` in size. -/
theorem toDouble_near (x : ℚ) (h : |x| ≤ 2 ^ 25) : |toDouble x - x| ≤ 1 / 2 ^ 27 := by
  have h1 := toDouble_err x
  have h2 : |x| / 2 ^ 53 ≤ 2 ^ 25 / 2 ^ 53 := div_le_div_of_nonneg_right h (by positivity)
  have h3 : (2 : ℚ) ^ 25 / 2 ^ 53 + 1 / 2 ^ 1075 ≤ 1 / 2 ^ 27 := by norm_num
  linarith

/-- The quotient `i / c` of two natural numbers in double precision: the exact quotient
when `c` divides `i`, and a number strictly between the two nearest integers otherwise. -/
theorem toDouble_div_cases (i c : Nat) (hc : 0 < c) (hi : i < 2 ^ 52) (hcb : c < 2 ^ 53) :
    (i % c = 0 ∧ toDouble ((i : ℚ) / (c : ℚ)) = ((i / c : Nat) : ℚ)) ∨
    (i % c ≠ 0 ∧ ((i / c : Nat) : ℚ) < toDouble ((i : ℚ) / (c : ℚ)) ∧
      toDouble ((i : ℚ) / (c : ℚ)) < ((i / c : Nat) : ℚ) + 1 ∧
      ((i / c : Nat) : ℚ) < (i : ℚ) / (c : ℚ) ∧ (i : ℚ) / (c : ℚ) < ((i / c : Nat) : ℚ) + 1) := by
  have hcq : (0 : ℚ) < (c : ℚ) := by exact_mod_cast hc
  have hsplit : (i : ℚ) = (c : ℚ) * ((i / c : Nat) : ℚ) + ((i % c : Nat) : ℚ) := by
    exact_mod_cast (Nat.div_add_mod i c).symm
  have hx : (i : ℚ) / (c : ℚ) = ((i / c : Nat) : ℚ) + ((i % c : Nat) : ℚ) / (c : ℚ) := by
    rw [hsplit]
    field_simp
    ring
  by_cases hj : i % c = 0
  · left
    refine ⟨hj, ?_⟩
    rw [hx, hj]
    simp only [Nat.cast_zero, zero_div, add_zero]
    have hm : i / c < 2 ^ 53 := lt_of_le_of_lt (Nat.div_le_self i c) (by omega)
    have := toDouble_intCast ((i / c : Nat) : Int) (by
      rw [abs_of_nonneg (by positivity)]
      exact_mod_cast hm)
    simpa using this
  · right
    have hj1 : (1 : ℚ) ≤ ((i % c : Nat) : ℚ) := by
      have : 1 ≤ i % c := Nat.one_le_iff_ne_zero.mpr hj
      exact_mod_cast this
    have hj2 : ((i % c : Nat) : ℚ) + 1 ≤ (c : ℚ) := by
      have : i % c + 1 ≤ c := Nat.mod_lt i hc
      exact_mod_cast this
    have hlow : 1 / (c : ℚ) ≤ ((i % c : Nat) : ℚ) / (c : ℚ) :=
      div_le_div_of_nonneg_right hj1 hcq.le
    have hup : ((i % c : Nat) : ℚ) / (c : ℚ) ≤ 1 - 1 / (c : ℚ) := by
      rw [le_sub_iff_add_le, ← add_div, div_le_one hcq]
      exact hj2
    have hxpos : 0 ≤ (i : ℚ) / (c : ℚ) := by positivity
    have herr := toDouble_err ((i : ℚ) / (c : ℚ))
    rw [abs_of_nonneg hxpos] at herr
    have h1 : (i : ℚ) / (c : ℚ) / 2 ^ 53 < 1 / 2 * (1 / (c : ℚ)) := by
      have hi2 : (i : ℚ) < 2 ^ 52 := by exact_mod_cast hi
      have e : (i : ℚ) / (c : ℚ) / 2 ^ 53 = (i : ℚ) / 2 ^ 53 * (1 / (c : ℚ)) := by
        rw [div_div, div_mul_div_comm, mul_one, mul_comm (c : ℚ)]
      rw [e]
      apply mul_lt_mul_of_pos_right _ (by positivity)
      rw [div_lt_iff₀ (by positivity)]
      linarith
    have h2 : (1 : ℚ) / 2 ^ 1075 ≤ 1 / 2 * (1 / (c : ℚ)) := by
      have hc2 : (c : ℚ) ≤ 2 ^ 53 := by exact_mod_cast hcb.le
      have : (1 : ℚ) / 2 ^ 53 ≤ 1 / (c : ℚ) := one_div_le_one_div_of_le hcq hc2
      have h3 : (1 : ℚ) / 2 ^ 1075 ≤ 1 / 2 * (1 / 2 ^ 53) := by norm_num
      linarith
    have habs := abs_lt.mp (lt_of_le_of_lt herr (by linarith :
      (i : ℚ) / (c : ℚ) / 2 ^ 53 + 1 / 2 ^ 1075 < 1 / (c : ℚ)))
    have hcpos : 0 < 1 / (c : ℚ) := by positivity
    refine ⟨hj, ?_, ?_, ?_, ?_⟩
    · linarith [habs.1]
    · linarith [habs.2]
    · linarith
    · linarith

theorem floor_toDouble_div (i c : Nat) (hc : 0 < c) (hi : i < 2 ^ 52) (hcb : c < 2 ^ 53) :
    ⌊toDouble ((i : ℚ) / (c : ℚ))⌋ = ((i / c : Nat) : Int) := by
  rcases toDouble_div_cases i c hc hi hcb with ⟨_, e⟩ | ⟨_, h1, h2, _, _⟩
  · rw [e]
    exact_mod_cast Int.floor_intCast ((i / c : Nat) : Int)
  · rw [Int.floor_eq_iff]
    simp only [Int.cast_natCast]
    exact ⟨h1.le, h2⟩

theorem ceil_toDouble_div (n c : Nat) (hc : 0 < c) (hn : n < 2 ^ 52) (hcb : c < 2 ^ 53) :
    ⌈toDouble ((n : ℚ) / (c : ℚ))⌉ = ⌈(n : ℚ) / (c : ℚ)⌉ := by
  rcases toDouble_div_cases n c hc hn hcb with ⟨hj, e⟩ | ⟨_, h1, h2, h3, h4⟩
  · rw [e]
    congr 1
    have hsplit : (n : ℚ) = (c : ℚ) * ((n / c : Nat) : ℚ) + ((n % c : Nat) : ℚ) := by
      exact_mod_cast (Nat.div_add_mod n c).symm
    have hcq : (c : ℚ) ≠ 0 := by exact_mod_cast (Nat.pos_iff_ne_zero.mp hc)
    rw [hj] at hsplit
    rw [hsplit]
    field_simp
  · have e1 : ⌈toDouble ((n : ℚ) / (c : ℚ))⌉ = ((n / c : Nat) : Int) + 1 := by
      rw [Int.ceil_eq_iff]
      simp only [Int.cast_add, Int.cast_one, Int.cast_natCast]
      constructor <;> linarith
    have e2 : ⌈(n : ℚ) / (c : ℚ)⌉ = ((n / c : Nat) : Int) + 1 := by
      rw [Int.ceil_eq_iff]
      simp only [Int.cast_add, Int.cast_one, Int.cast_natCast]
      constructor <;> linarith
    rw [e1, e2]

/-! ## The draggable preview (`preview-drag.js`)

The rectangles that the preview computes and stores (`roundScaled`, `updateAxis`) are
computed in double precision: each arithmetic operation of the source is the exact operation
followed by `toDouble`.  The drag and the resize handler add, subtract and compare pixel
positions; they are modelled over the exact numbers.  What the browser computes (the box of
an element from its percent style) is a function of its own, `getBoundingClientRect`, which
stands for a layout engine without rounding. -/

/-- The function `Math.round` on a finite number: the nearest integer, a half rounded up. -/
def jsRound (x : ℚ) : Int := ⌊x + 1 / 2⌋

/-- The expression `Math.round(k * cell)` with `cell = size / parts`, for an integer `k`:
the quotient and the product are each rounded to a double.  The result is not a finite
number when the size is `NaN` or `parts` is 0 (then the source has `NaN` or an infinity):
`.nan` stands for every such result. -/
def roundScaled (k : Int) (size : JSNumber) (parts : Int) : JSNumber :=
  match size with
  | .nan => .nan
  | .int n =>
    if parts = 0 then .nan
    else .int (jsRound (toDouble ((k : ℚ) * toDouble ((n : ℚ) / (parts : ℚ)))))

/-- The expression `screen.nr_of_columns || 2`: `null`, `NaN` and 0 give 2. -/
def columnsOf (sc : Screen) : Int :=
  match sc.nr_of_columns with
  | some (.int n) => if n = 0 then 2 else n
  | _ => 2

/-- The array `camerasWithoutCoords`: the streams whose `force_coordinates` is falsy, that
is `null` (every array is truthy). -/
def camerasWithoutCoords (sc : Screen) : List Stream :=
  sc.streams.filter (fun s => s.force_coordinates.isNone)

/-- The array assigned to `stream._previewCoords` in the callback of
`camerasWithoutCoords.forEach`, for the stream at `index` of that array; `columns` is not 0
(it is `screen.nr_of_columns || 2`). -/
def previewCell (screenWidth screenHeight : JSNumber) (columns rows : Int) (index : Nat) :
    List JSNumber :=
  let col := Int.tmod index columns
  let row := ⌊toDouble ((index : ℚ) / (columns : ℚ))⌋
  [roundScaled col screenWidth columns, roundScaled row screenHeight rows,
   roundScaled (col + 1) screenWidth columns, roundScaled (row + 1) screenHeight rows]

/-- The loop `camerasWithoutCoords.forEach` seen from `screen.streams` (the filtered array
shares its stream objects): the streams without `force_coordinates` get their cell, counted
from `index` in the order of the list; the other streams are not touched. -/
def assignCells (screenWidth screenHeight : JSNumber) (columns rows : Int) :
    Nat → List Stream → List Stream
  | _, [] => []
  | index, s :: rest =>
    if s.force_coordinates.isNone then
      { s with previewCoords := some (previewCell screenWidth screenHeight columns rows index) } ::
        assignCells screenWidth screenHeight columns rows (index + 1) rest
    else s :: assignCells screenWidth screenHeight columns rows index rest

/-- The block `Calculate auto-layout` of `showScreenPreviewDraggable`. -/
def autoLayout (screenWidth screenHeight : JSNumber) (sc : Screen) : Screen :=
  if 0 < (camerasWithoutCoords sc).length then
    let columns := columnsOf sc
    let rows := ⌈toDouble (((camerasWithoutCoords sc).length : ℚ) / (columns : ℚ))⌉
    { sc with streams := assignCells screenWidth screenHeight columns rows 0 sc.streams }
  else sc

/-- The expression `stream.force_coordinates || stream._previewCoords`. -/
def effectiveCoords (st : Stream) : Option (List JSNumber) :=
  match st.force_coordinates with
  | some cs => some cs
  | none => st.previewCoords

/-- A `.preview-camera` element of the canvas, as far as its data set goes: `dataset.index`
and the array whose JSON text is kept in `dataset.coords`.  `JSON.stringify` writes a number
that is not finite as `null`; in `coords` the entry `.nan` stands for that `null`. -/
structure CameraDiv where
  index : Nat
  coords : List JSNumber
  deriving DecidableEq, Repr

/-- The callback of `screen.streams.forEach` in the block `Render all cameras`: the element
made for the stream at `index`, none when the stream has no rectangle of 4 numbers.  The
rectangle goes into `dataset.coords` as JSON text, in which a number that is not finite is
`null`: an entry `.nan` of `coords` is that `null`. -/
def renderCamera (index : Nat) (st : Stream) : Option CameraDiv :=
  match effectiveCoords st with
  | some cs => if cs.length = 4 then some { index := index, coords := cs } else none
  | none => none

/-- The elements that the block `Render all cameras` appends to the canvas, for the streams
from `index` on. -/
def renderCameras : Nat → List Stream → List CameraDiv
  | _, [] => []
  | index, st :: rest =>
    match renderCamera index st with
    | some cam => cam :: renderCameras (index + 1) rest
    | none => renderCameras (index + 1) rest

/-- The function `showScreenPreviewDraggable` for the current screen, given the resolution
of the preview session: the screen with its preview rectangles, and the camera elements. -/
def showScreenPreviewDraggable (screenWidth screenHeight : JSNumber) (sc : Screen) :
    Screen × List CameraDiv :=
  let sc2 := autoLayout screenWidth screenHeight sc
  (sc2, renderCameras 0 sc2.streams)

/-- The array that `JSON.parse` reads back from the text in `dataset.coords`, as numbers of
a stream: the array itself when every entry is an integer.  An entry written as `null` has
no counterpart among the numbers of a stream, and there is no array then. -/
def jsonCoords (coords : List JSNumber) : Option (List JSNumber) :=
  if coords.all (fun x => decide (x ≠ .nan)) then some coords else none

/-- The callback of `forEach` in `applyPreviewChanges`: the assignment
`screen.streams[index].force_coordinates = coords` of the array read from `dataset.coords`,
which throws when there is no stream at `index`.  Where the source stores an array with a
`null` entry, which a stream of the model cannot hold, the model stops with the error
`null entry`. -/
def applyCamera (streams : List Stream) (cam : CameraDiv) : Except String (List Stream) :=
  if cam.coords.length = 4 then
    match streams[cam.index]? with
    | some _ =>
      match jsonCoords cam.coords with
      | some coords =>
        .ok (modifyAt (fun st => { st with force_coordinates := some coords }) cam.index
          streams)
      | none => .error "null entry"
    | none => .error "TypeError"
  else .ok streams

/-- The loop over the camera elements in `applyPreviewChanges`. -/
def applyCameras : List Stream → List CameraDiv → Except String (List Stream)
  | streams, [] => .ok streams
  | streams, cam :: rest => (applyCamera streams cam).bind (fun s2 => applyCameras s2 rest)

/-- The function `applyPreviewChanges` on the current screen: the screen after it and the
new value of `state.resolution`. -/
def applyPreviewChanges (screenWidth screenHeight : JSNumber) (cameras : List CameraDiv)
    (sc : Screen) : Except String (Screen × Resolution) :=
  (applyCameras sc.streams cameras).map (fun streams =>
    ({ sc with streams := streams.map (fun st => { st with previewCoords := none }) },
      { width := screenWidth, height := screenHeight }))

/-- The grid rectangle in the words of the specification: for the stream number `i` of the
`N` streams without `force_coordinates`, in `c` columns on a screen of `W` x `H`, the cell
boundaries `col*W/c`, `row*H/rows`, `(col+1)*W/c`, `(row+1)*H/rows` rounded to the nearest
integer, with `rows = ceil(N/c)`, `col = i mod c` and `row = floor(i/c)`. -/
def specGridRect (W H : Int) (c N i : Nat) : List JSNumber :=
  [.int ⌊(((i % c : Nat) : ℚ) * (W : ℚ)) / (c : ℚ) + 1 / 2⌋,
   .int ⌊(((i / c : Nat) : ℚ) * (H : ℚ)) / ((⌈(N : ℚ) / (c : ℚ)⌉ : Int) : ℚ) + 1 / 2⌋,
   .int ⌊(((i % c + 1 : Nat) : ℚ) * (W : ℚ)) / (c : ℚ) + 1 / 2⌋,
   .int ⌊(((i / c + 1 : Nat) : ℚ) * (H : ℚ)) / ((⌈(N : ℚ) / (c : ℚ)⌉ : Int) : ℚ) + 1 / 2⌋]

/-- The number of streams without `force_coordinates` before the place `p`. -/
def cellIndex (streams : List Stream) (p : Nat) : Nat :=
  ((streams.take p).filter (fun s => s.force_coordinates.isNone)).length

theorem assignCells_getElem (W H : JSNumber) (c r : Int) :
    ∀ (l : List Stream) (k p : Nat) (st : Stream), l[p]? = some st →
      (assignCells W H c r k l)[p]? =
        some (if st.force_coordinates.isNone then
          { st with previewCoords := some (previewCell W H c r (k + cellIndex l p)) }
        else st) := by
  intro l
  induction l with
  | nil => intro k p st h; simp at h
  | cons s rest ih =>
    intro k p st h
    cases p with
    | zero =>
      simp only [List.getElem?_cons_zero, Option.some.injEq] at h
      subst h
      by_cases hs : s.force_coordinates.isNone = true
      · simp [assignCells, hs, cellIndex]
      · simp [assignCells, hs]
    | succ p =>
      simp only [List.getElem?_cons_succ] at h
      by_cases hs : s.force_coordinates.isNone = true
      · rw [assignCells, if_pos hs, List.getElem?_cons_succ, ih (k + 1) p st h]
        have e : cellIndex (s :: rest) (p + 1) = cellIndex rest p + 1 := by
          simp [cellIndex, List.take_succ_cons, List.filter_cons, hs]
        rw [e, Nat.add_assoc, Nat.add_comm 1]
      · rw [assignCells, if_neg hs, List.getElem?_cons_succ, ih k p st h]
        have e : cellIndex (s :: rest) (p + 1) = cellIndex rest p := by
          simp [cellIndex, List.take_succ_cons, List.filter_cons, hs]
        rw [e]

theorem jsRound_intCast (n : Int) : jsRound (n : ℚ) = n := by
  unfold jsRound
  rw [Int.floor_int_add]
  norm_num

/-- The grid line `k` of the automatic layout on one axis, as the source computes it:
`Math.round(k * (size / parts))`, the quotient and the product each rounded to a double. -/
def gridLine (size parts : Int) (k : Nat) : Int :=
  jsRound (toDouble ((k : ℚ) * toDouble ((size : ℚ) / (parts : ℚ))))

/-- The grid rectangle as the source computes it: for the stream number `i` of the `N`
streams without `force_coordinates`, in `c` columns on a screen of `W` x `H`, the grid lines
`col` and `col + 1` of the width and `row` and `row + 1` of the height, with
`rows = ceil(N/c)`, `col = i mod c` and `row = floor(i/c)`. -/
def gridRect (W H : Int) (c N i : Nat) : List JSNumber :=
  [.int (gridLine W c (i % c)), .int (gridLine H ⌈(N : ℚ) / (c : ℚ)⌉ (i / c)),
   .int (gridLine W c (i % c + 1)), .int (gridLine H ⌈(N : ℚ) / (c : ℚ)⌉ (i / c + 1))]

theorem roundScaled_int (k : Nat) (W parts : Int) (hp : parts ≠ 0) :
    roundScaled (k : Int) (.int W) parts = .int (gridLine W parts k) := by
  simp only [roundScaled, gridLine, if_neg hp, Int.cast_natCast]

theorem rows_positive (N c : Nat) (hN : 1 ≤ N) (hc : 0 < c) : 0 < ⌈(N : ℚ) / (c : ℚ)⌉ := by
  rw [Int.ceil_pos]
  have h1 : (0 : ℚ) < (N : ℚ) := by exact_mod_cast hN
  have h2 : (0 : ℚ) < (c : ℚ) := by exact_mod_cast hc
  positivity

/-- The number of rows that the source computes in double precision is `ceil(N/c)`. -/
theorem rows_eq (N c : Nat) (hc : 0 < c) (hN : N < 2 ^ 52) (hcb : c < 2 ^ 53) :
    ⌈toDouble ((N : ℚ) / ((c : Int) : ℚ))⌉ = ⌈(N : ℚ) / (c : ℚ)⌉ := by
  rw [Int.cast_natCast]
  exact ceil_toDouble_div N c hc hN hcb

/-- The cell computed by the source is the grid rectangle, for a positive number of
columns. -/
theorem previewCell_eq (W H : Int) (c N i : Nat) (hc : 0 < c) (hN : 1 ≤ N) (hi : i < 2 ^ 52)
    (hcb : c < 2 ^ 53) :
    previewCell (.int W) (.int H) (c : Int) ⌈(N : ℚ) / (c : ℚ)⌉ i = gridRect W H c N i := by
  have hcol : Int.tmod (i : Int) (c : Int) = ((i % c : Nat) : Int) := (Int.ofNat_tmod i c).symm
  have hrow : ⌊toDouble ((i : ℚ) / ((c : Int) : ℚ))⌋ = ((i / c : Nat) : Int) := by
    rw [Int.cast_natCast]
    exact floor_toDouble_div i c hc hi hcb
  have hc0 : (c : Int) ≠ 0 := by omega
  have hr0 : ⌈(N : ℚ) / (c : ℚ)⌉ ≠ 0 := ne_of_gt (rows_positive N c hN hc)
  have e1 : ((i % c : Nat) : Int) + 1 = ((i % c + 1 : Nat) : Int) := by push_cast; rfl
  have e2 : ((i / c : Nat) : Int) + 1 = ((i / c + 1 : Nat) : Int) := by push_cast; rfl
  simp only [previewCell, hcol, hrow, e1, e2, roundScaled_int _ _ _ hc0,
    roundScaled_int _ _ _ hr0, gridRect]

/-- A grid line is exact when the cell size is a whole number: for `size = parts * a` the
line `k` is `k * a`, as it is in the words of the specification. -/
theorem gridLine_exact (parts a : Int) (k : Nat) (hp : 0 < parts) (ha : 0 ≤ a)
    (hk : (k : Int) ≤ parts) (hs : parts * a < 2 ^ 53) :
    gridLine (parts * a) parts k = k * a ∧
    ⌊((k : ℚ) * ((parts * a : Int) : ℚ)) / (parts : ℚ) + 1 / 2⌋ = k * a := by
  have hpq : (parts : ℚ) ≠ 0 := by
    have : parts ≠ 0 := by omega
    exact_mod_cast this
  have hq : ((parts * a : Int) : ℚ) / (parts : ℚ) = (a : ℚ) := by
    push_cast
    field_simp
  have ha2 : |a| < 2 ^ 53 := by
    rw [abs_of_nonneg ha]
    nlinarith
  have hk0 : (0 : Int) ≤ (k : Int) := by positivity
  have hka : |(k : Int) * a| < 2 ^ 53 := by
    rw [abs_of_nonneg (mul_nonneg hk0 ha)]
    nlinarith
  constructor
  · unfold gridLine
    rw [hq, toDouble_intCast a ha2]
    have e : (k : ℚ) * (a : ℚ) = (((k : Int) * a : Int) : ℚ) := by push_cast; rfl
    rw [e, toDouble_intCast _ hka, jsRound_intCast]
  · have e : ((k : ℚ) * ((parts * a : Int) : ℚ)) / (parts : ℚ) = (((k : Int) * a : Int) : ℚ) := by
      push_cast
      field_simp
      ring
    rw [e]
    exact jsRound_intCast _

theorem cellIndex_lt (l : List Stream) (p : Nat) (st : Stream) (h : l[p]? = some st)
    (hn : st.force_coordinates = none) :
    cellIndex l p < (l.filter (fun s => s.force_coordinates.isNone)).length := by
  induction l generalizing p with
  | nil => simp at h
  | cons s rest ih =>
    cases p with
    | zero =>
      simp only [List.getElem?_cons_zero, Option.some.injEq] at h
      subst h
      simp [cellIndex, List.filter_cons, hn]
    | succ p =>
      simp only [List.getElem?_cons_succ] at h
      have := ih p h
      by_cases hs : s.force_coordinates.isNone = true
      · simp only [cellIndex, List.take_succ_cons, List.filter_cons, hs, if_true,
          List.length_cons] at this ⊢
        omega
      · simp only [cellIndex, List.take_succ_cons, List.filter_cons, hs] at this ⊢
        exact this

theorem columnsOf_eq (sc : Screen) (c : Nat)
    (hc : (sc.nr_of_columns = none ∧ c = 2) ∨ (sc.nr_of_columns = some (.int c) ∧ 0 < c)) :
    columnsOf sc = (c : Int) := by
  rcases hc with ⟨h1, h2⟩ | ⟨h1, h2⟩
  · rw [columnsOf, h1, h2]; rfl
  · have : (c : Int) ≠ 0 := by omega
    rw [columnsOf, h1]
    simp only [this, if_false]

/-- A screen of six streams of which the third has coordinates, used to instantiate the
theorems on the preview. -/
def sixStreams : Screen :=
  { newScreen with
    streams :=
      [newStream none "a".toList false, newStream none "b".toList false,
       { newStream none "c".toList false with
         force_coordinates := some [.int 10, .int 20, .int 30, .int 40] },
       newStream none "d".toList false, newStream none "e".toList false,
       newStream none "f".toList false] }

/-- A screen of 14 streams without coordinates, in 14 columns. -/
def fourteenStreams : Screen :=
  { newScreen with
    nr_of_columns := some (.int 14)
    streams := List.replicate 14 (newStream none "a".toList false) }

/-- C12 (counterexample): on a screen 1917 wide with 14 columns, the stream number 7 gets
the left edge 958, where the cell boundary `7 * 1917 / 14 = 958.5` rounded to the nearest
integer is 959: the source rounds the double product `7 * (1917 / 14)`, which is
`958.4999999999999`. -/
theorem auto_layout_rounds_doubles :
    (camerasWithoutCoords fourteenStreams).length = 14 ∧
    ((showScreenPreviewDraggable (.int 1917) (.int 1080) fourteenStreams).1.streams[7]?).bind
      effectiveCoords = some [.int 958, .int 0, .int 1095, .int 1080] ∧
    specGridRect 1917 1080 14 14 7 = [.int 959, .int 0, .int 1095, .int 1080] := by
  decide!

theorem camerasWithoutCoords_length (sc : Screen) :
    (camerasWithoutCoords sc).length ≤ sc.streams.length :=
  List.length_filter_le _ _

/-- The streams of the screen after the automatic layout, for a positive number of
columns. -/
theorem autoLayout_streams (W H : Int) (sc : Screen) (c : Nat)
    (hc : (sc.nr_of_columns = none ∧ c = 2) ∨ (sc.nr_of_columns = some (.int c) ∧ 0 < c))
    (hcb : c < 2 ^ 53) (hlen : sc.streams.length < 2 ^ 32)
    (hn : 0 < (camerasWithoutCoords sc).length) :
    (autoLayout (.int W) (.int H) sc).streams =
      assignCells (.int W) (.int H) (c : Int)
        ⌈((camerasWithoutCoords sc).length : ℚ) / (c : ℚ)⌉ 0 sc.streams := by
  have hcols := columnsOf_eq sc c hc
  have hcpos : 0 < c := by
    rcases hc with ⟨_, h⟩ | ⟨_, h⟩
    · omega
    · exact h
  have hN : (camerasWithoutCoords sc).length < 2 ^ 52 :=
    lt_of_le_of_lt (camerasWithoutCoords_length sc) (lt_trans hlen (by norm_num))
  simp only [autoLayout, hn, if_true, hcols, rows_eq _ c hcpos hN hcb]

/-- C12 (amended): for every screen whose `nr_of_columns` is `null` (then `c = 2`) or a
positive integer `c`, and every resolution of integers `W` x `H`, the draggable preview
gives the stream at place `p`, when it has no `force_coordinates`, the rectangle
`[round(col*(W/c)), round(row*(H/rows)), round((col+1)*(W/c)), round((row+1)*(H/rows))]`,
each quotient and each product rounded to a double before `Math.round`, with
`rows = ceil(N/c)`, `col = i mod c`, `row = floor(i/c)`, where `N` counts the streams
without `force_coordinates` and `i` those of them before `p`; a stream that has
`force_coordinates` is left as it is, with them as its rectangle.  When the cell size is a
whole number (`W = c * a`, `H = rows * b`) this is the rectangle of exactly rounded cell
boundaries.  For `N = 5`, `c = 2`, 1920 x 1080 the cells 0, 1, 2 and 4 are the four
rectangles of the example. -/
theorem auto_layout_cells (W H : Int) (sc : Screen) (c : Nat)
    (hc : (sc.nr_of_columns = none ∧ c = 2) ∨ (sc.nr_of_columns = some (.int c) ∧ 0 < c))
    (hcb : c < 2 ^ 53) (hlen : sc.streams.length < 2 ^ 32)
    (p : Nat) (st : Stream) (hst : sc.streams[p]? = some st) :
    (∃ st2, (showScreenPreviewDraggable (.int W) (.int H) sc).1.streams[p]? = some st2 ∧
      (st.force_coordinates = none →
        effectiveCoords st2 =
          some (gridRect W H c (camerasWithoutCoords sc).length (cellIndex sc.streams p))) ∧
      (∀ cs, st.force_coordinates = some cs → st2 = st ∧ effectiveCoords st2 = some cs)) ∧
    (∀ (N i a b : Nat), i < N → W = (c : Int) * a → H = ⌈(N : ℚ) / (c : ℚ)⌉ * b →
      W < 2 ^ 53 → H < 2 ^ 53 → gridRect W H c N i = specGridRect W H c N i) ∧
    gridRect 1920 1080 2 5 0 = [.int 0, .int 0, .int 960, .int 360] ∧
    gridRect 1920 1080 2 5 1 = [.int 960, .int 0, .int 1920, .int 360] ∧
    gridRect 1920 1080 2 5 2 = [.int 0, .int 360, .int 960, .int 720] ∧
    gridRect 1920 1080 2 5 4 = [.int 0, .int 720, .int 960, .int 1080] := by
  have hcpos : 0 < c := by
    rcases hc with ⟨_, h⟩ | ⟨_, h⟩
    · omega
    · exact h
  refine ⟨?_, ?_, by decide!, by decide!, by decide!, by decide!⟩
  · by_cases hn : 0 < (camerasWithoutCoords sc).length
    · have e : (showScreenPreviewDraggable (.int W) (.int H) sc).1.streams =
          assignCells (.int W) (.int H) (c : Int)
            ⌈((camerasWithoutCoords sc).length : ℚ) / (c : ℚ)⌉ 0 sc.streams :=
        autoLayout_streams W H sc c hc hcb hlen hn
      rw [e, assignCells_getElem _ _ _ _ _ 0 p st hst, Nat.zero_add]
      refine ⟨_, rfl, ?_, ?_⟩
      · intro h0
        have hi : cellIndex sc.streams p < 2 ^ 52 :=
          lt_trans (cellIndex_lt sc.streams p st hst h0)
            (lt_of_le_of_lt (camerasWithoutCoords_length sc) (lt_trans hlen (by norm_num)))
        rw [previewCell_eq W H c _ _ hcpos hn hi hcb]
        simp [h0, effectiveCoords]
      · intro cs hcs
        simp [hcs, effectiveCoords]
    · have e : (showScreenPreviewDraggable (.int W) (.int H) sc).1.streams = sc.streams := by
        simp only [showScreenPreviewDraggable, autoLayout, hn, if_false]
      rw [e]
      refine ⟨st, hst, ?_, ?_⟩
      · intro h0
        have := cellIndex_lt sc.streams p st hst h0
        exact absurd (Nat.lt_of_le_of_lt (Nat.zero_le _) this) hn
      · intro cs hcs
        exact ⟨rfl, by simp [hcs, effectiveCoords]⟩
  · intro N i a b hi hW hH hWb hHb
    have hN : 1 ≤ N := by omega
    have hr := rows_positive N c hN hcpos
    have hroom : ((i / c + 1 : Nat) : Int) ≤ ⌈(N : ℚ) / (c : ℚ)⌉ := by
      have h2 : ((i / c : Nat) : Int) < ⌈(N : ℚ) / (c : ℚ)⌉ := by
        rw [Int.lt_ceil]
        have hcq : (0 : ℚ) < (c : ℚ) := by exact_mod_cast hcpos
        rw [lt_div_iff₀ hcq]
        have h3 : (i / c) * c ≤ i := Nat.div_mul_le_self i c
        have h4 : (i / c) * c < N := lt_of_le_of_lt h3 hi
        have h5 : (((i / c) * c : Nat) : ℚ) < (N : ℚ) := by exact_mod_cast h4
        push_cast at h5
        simpa using h5
      push_cast
      omega
    have hmod : i % c < c := Nat.mod_lt i hcpos
    have x1 := gridLine_exact (c : Int) a (i % c) (by omega) (by positivity) (by omega)
      (by rw [← hW]; exact hWb)
    have x2 := gridLine_exact (c : Int) a (i % c + 1) (by omega) (by positivity) (by omega)
      (by rw [← hW]; exact hWb)
    have y1 := gridLine_exact ⌈(N : ℚ) / (c : ℚ)⌉ b (i / c) hr (by positivity)
      (by push_cast at hroom; omega) (by rw [← hH]; exact hHb)
    have y2 := gridLine_exact ⌈(N : ℚ) / (c : ℚ)⌉ b (i / c + 1) hr (by positivity) hroom
      (by rw [← hH]; exact hHb)
    rw [← hW] at x1 x2
    rw [← hH] at y1 y2
    simp only [Int.cast_natCast] at x1 x2
    simp only [gridRect, specGridRect, x1.1, x1.2, x2.1, x2.2, y1.1, y1.2, y2.1, y2.2]

/-- C12 (witness): the last stream of `sixStreams` is the fifth without coordinates. -/
theorem auto_layout_cells_witness :
    sixStreams.nr_of_columns = none ∧
    sixStreams.streams[5]? = some (newStream none "f".toList false) ∧
    ∃ st2, (showScreenPreviewDraggable (.int 1920) (.int 1080) sixStreams).1.streams[5]? =
        some st2 ∧
      ((newStream none "f".toList false).force_coordinates = none →
        effectiveCoords st2 =
          some (gridRect 1920 1080 2 (camerasWithoutCoords sixStreams).length
            (cellIndex sixStreams.streams 5))) ∧
      (∀ cs, (newStream none "f".toList false).force_coordinates = some cs →
        st2 = newStream none "f".toList false ∧ effectiveCoords st2 = some cs) :=
  ⟨rfl, rfl, (auto_layout_cells 1920 1080 sixStreams 2 (Or.inl ⟨rfl, rfl⟩) (by decide)
    (by decide) 5 (newStream none "f".toList false) rfl).1⟩

theorem modifyAt_append {α : Type} (f : α → α) (pre : List α) (x : α) (rest : List α) :
    modifyAt f pre.length (pre ++ x :: rest) = pre ++ f x :: rest := by
  induction pre with
  | nil => rfl
  | cons a l ih =>
    rw [List.length_cons, List.cons_append, modifyAt, ih]
    rfl

theorem getElem?_append_cons {α : Type} (pre : List α) (x : α) (rest : List α) :
    (pre ++ x :: rest)[pre.length]? = some x := by
  induction pre with
  | nil => simp
  | cons a l ih => rw [List.length_cons, List.cons_append, List.getElem?_cons_succ, ih]

/-- What `applyPreviewChanges` stores for a stream: the rectangle of its camera element,
when it has one. -/
def persisted (st : Stream) : Stream :=
  match renderCamera 0 st with
  | some cam => { st with force_coordinates := some cam.coords }
  | none => st

theorem renderCamera_index (k : Nat) (st : Stream) :
    renderCamera k st = (renderCamera 0 st).map (fun cam => { cam with index := k }) := by
  unfold renderCamera
  cases effectiveCoords st with
  | none => rfl
  | some cs =>
    simp only
    split_ifs <;> rfl

theorem renderCamera_length (st : Stream) (cam : CameraDiv) (h : renderCamera 0 st = some cam) :
    cam.coords.length = 4 := by
  unfold renderCamera at h
  cases he : effectiveCoords st with
  | none => rw [he] at h; cases h
  | some cs =>
    rw [he] at h
    simp only at h
    split_ifs at h with h4
    cases h
    exact h4

theorem jsonCoords_of_ints (cs : List JSNumber) (h : ∀ x ∈ cs, x ≠ .nan) :
    jsonCoords cs = some cs := by
  unfold jsonCoords
  rw [if_pos]
  rw [List.all_eq_true]
  intro x hx
  exact decide_eq_true (h x hx)

/-- The loop of `applyPreviewChanges` over the elements rendered for the streams stores the
rectangle of every element in its stream, when the rectangles are arrays of integers. -/
theorem applyCameras_render (l : List Stream)
    (hl : ∀ st ∈ l, ∀ cam, renderCamera 0 st = some cam → jsonCoords cam.coords = some cam.coords) :
    ∀ pre : List Stream,
      applyCameras (pre ++ l) (renderCameras pre.length l) = .ok (pre ++ l.map persisted) := by
  induction l with
  | nil => intro pre; simp [renderCameras, applyCameras]
  | cons st rest ih =>
    intro pre
    have hnext := ih (fun s hs => hl s (List.mem_cons_of_mem _ hs)) (pre ++ [persisted st])
    rw [List.length_append, List.length_singleton, List.append_assoc, List.singleton_append]
      at hnext
    rw [renderCameras, renderCamera_index]
    cases hr : renderCamera 0 st with
    | none =>
      simp only [Option.map_none']
      have ep : persisted st = st := by rw [persisted, hr]
      rw [ep] at hnext
      rw [hnext, List.map_cons, ep]
      simp
    | some cam =>
      simp only [Option.map_some']
      have h4 := renderCamera_length st cam hr
      have hj := hl st (List.mem_cons_self _ _) cam hr
      have ep : persisted st = { st with force_coordinates := some cam.coords } := by
        rw [persisted, hr]
      have hget : (pre ++ st :: rest)[pre.length]? = some st := getElem?_append_cons pre st rest
      rw [applyCameras, applyCamera]
      simp only [h4, if_true, hget, hj, modifyAt_append, Except.bind]
      rw [← ep, hnext, List.map_cons]
      simp

theorem persisted_of_coords (st : Stream) (cs : List JSNumber)
    (h : st.force_coordinates = some cs) : persisted st = st := by
  obtain ⟨n, u, i, so, ea, pt, ti, fo, fc, dis, pc⟩ := st
  simp only at h
  subst h
  simp only [persisted, renderCamera, effectiveCoords]
  split_ifs <;> rfl

theorem persisted_of_cell (st : Stream) (W H : JSNumber) (c r : Int) (k : Nat)
    (h : st.force_coordinates = none) :
    persisted { st with previewCoords := some (previewCell W H c r k) } =
      { st with force_coordinates := some (previewCell W H c r k)
                previewCoords := some (previewCell W H c r k) } := by
  simp [persisted, renderCamera, effectiveCoords, h, previewCell]

/-- A screen with one stream, which has no coordinates. -/
def oneCamera : Screen :=
  { newScreen with streams := [newStream none "rtsp://x".toList false] }

theorem assignCells_length (W H : JSNumber) (c r : Int) :
    ∀ (l : List Stream) (k : Nat), (assignCells W H c r k l).length = l.length := by
  intro l
  induction l with
  | nil => intro k; rfl
  | cons s rest ih =>
    intro k
    rw [assignCells]
    split_ifs
    · rw [List.length_cons, List.length_cons, ih]
    · rw [List.length_cons, List.length_cons, ih]

/-- C13 (counterexample): the stream of `oneCamera` has no coordinates; after the preview is
opened at 1920 x 1080 and `applyPreviewChanges` is run, with no drag, resize or nudge, its
`force_coordinates` is its grid rectangle `[0, 0, 960, 1080]`. -/
theorem auto_layout_is_persisted :
    oneCamera.streams.map Stream.force_coordinates = [none] ∧
    (applyPreviewChanges (.int 1920) (.int 1080)
      (showScreenPreviewDraggable (.int 1920) (.int 1080) oneCamera).2
      (showScreenPreviewDraggable (.int 1920) (.int 1080) oneCamera).1).map
        (fun r => r.1.streams.map Stream.force_coordinates) =
      .ok [some [.int 0, .int 0, .int 960, .int 1080]] := by
  decide!

theorem assignCells_mem (W H : JSNumber) (c r : Int) (l : List Stream) (k : Nat)
    (st2 : Stream) (h : st2 ∈ assignCells W H c r k l) :
    ∃ (p : Nat) (st : Stream), l[p]? = some st ∧
      st2 = (if st.force_coordinates.isNone then
        { st with previewCoords := some (previewCell W H c r (k + cellIndex l p)) }
      else st) := by
  obtain ⟨p, hp⟩ := List.mem_iff_getElem?.mp h
  have hlt : p < l.length := by
    have := (List.getElem?_eq_some_iff.mp hp).1
    rwa [assignCells_length] at this
  have hget : l[p]? = some (l.get ⟨p, hlt⟩) := List.getElem?_eq_getElem hlt
  refine ⟨p, l.get ⟨p, hlt⟩, hget, ?_⟩
  rw [assignCells_getElem W H c r l k p _ hget] at hp
  exact (Option.some.inj hp).symm

/-- C13 (amended): for every screen whose `nr_of_columns` is `null` or a positive integer,
whose coordinate lists hold integers, and every resolution of integers, when the preview is
opened and `applyPreviewChanges` is run with no gesture in between, the call succeeds, the
resolution of the preview becomes `state.resolution`, and every stream is as before except
that `_previewCoords` is removed and `force_coordinates` is the rectangle of its camera
element: its own coordinates when it had some, and its auto-layout grid rectangle when it
had none. -/
theorem apply_stores_every_rectangle (W H : Int) (sc : Screen) (c : Nat)
    (hc : (sc.nr_of_columns = none ∧ c = 2) ∨ (sc.nr_of_columns = some (.int c) ∧ 0 < c))
    (hcb : c < 2 ^ 53) (hlen : sc.streams.length < 2 ^ 32)
    (hint : ∀ st ∈ sc.streams, ∀ cs, st.force_coordinates = some cs → ∀ x ∈ cs, x ≠ .nan) :
    ∃ sc2, applyPreviewChanges (.int W) (.int H)
        (showScreenPreviewDraggable (.int W) (.int H) sc).2
        (showScreenPreviewDraggable (.int W) (.int H) sc).1 =
          .ok (sc2, { width := .int W, height := .int H }) ∧
      sc2.streams.length = sc.streams.length ∧
      ∀ (p : Nat) (st : Stream), sc.streams[p]? = some st →
        sc2.streams[p]? = some { st with
          force_coordinates := some (st.force_coordinates.getD
            (gridRect W H c (camerasWithoutCoords sc).length (cellIndex sc.streams p)))
          previewCoords := none } := by
  have hcpos : 0 < c := by
    rcases hc with ⟨_, h⟩ | ⟨_, h⟩
    · omega
    · exact h
  have hN52 : (camerasWithoutCoords sc).length < 2 ^ 52 :=
    lt_of_le_of_lt (camerasWithoutCoords_length sc) (lt_trans hlen (by norm_num))
  have hown : ∀ st ∈ sc.streams, ∀ cs, st.force_coordinates = some cs → ∀ cam,
      renderCamera 0 st = some cam → jsonCoords cam.coords = some cam.coords := by
    intro st hst cs hcs cam hcam
    simp only [renderCamera, effectiveCoords, hcs] at hcam
    split_ifs at hcam
    cases hcam
    exact jsonCoords_of_ints cs (hint st hst cs hcs)
  have hjson : ∀ st ∈ (autoLayout (.int W) (.int H) sc).streams, ∀ cam,
      renderCamera 0 st = some cam → jsonCoords cam.coords = some cam.coords := by
    intro st2 hst2 cam hcam
    by_cases hn : 0 < (camerasWithoutCoords sc).length
    · rw [autoLayout_streams W H sc c hc hcb hlen hn] at hst2
      obtain ⟨p, st, hget, e⟩ := assignCells_mem _ _ _ _ _ _ _ hst2
      have hmem : st ∈ sc.streams := List.mem_iff_getElem?.mpr ⟨p, hget⟩
      rcases Option.eq_none_or_eq_some st.force_coordinates with hfc | ⟨cs, hfc⟩
      · rw [if_pos (by rw [hfc]; rfl), Nat.zero_add] at e
        have hi : cellIndex sc.streams p < 2 ^ 52 :=
          lt_trans (cellIndex_lt sc.streams p st hget hfc) hN52
        rw [previewCell_eq W H c _ _ hcpos hn hi hcb] at e
        rw [e] at hcam
        simp only [renderCamera, effectiveCoords, hfc, gridRect, List.length_cons,
          List.length_nil, if_true] at hcam
        cases hcam
        rfl
      · rw [if_neg (by rw [hfc]; simp)] at e
        rw [e] at hcam
        exact hown st hmem cs hfc cam hcam
    · have e : (autoLayout (.int W) (.int H) sc).streams = sc.streams := by
        simp only [autoLayout, hn, if_false]
      rw [e] at hst2
      rcases Option.eq_none_or_eq_some st2.force_coordinates with hfc | ⟨cs, hfc⟩
      · obtain ⟨p, hp⟩ := List.mem_iff_getElem?.mp hst2
        have := cellIndex_lt sc.streams p st2 hp hfc
        exact absurd (Nat.lt_of_le_of_lt (Nat.zero_le _) this) hn
      · exact hown st2 hst2 cs hfc cam hcam
  have happly := applyCameras_render (autoLayout (.int W) (.int H) sc).streams hjson []
  rw [List.length_nil, List.nil_append, List.nil_append] at happly
  refine ⟨{ autoLayout (.int W) (.int H) sc with
    streams := ((autoLayout (.int W) (.int H) sc).streams.map persisted).map
      (fun st => { st with previewCoords := none }) }, ?_, ?_, ?_⟩
  · simp only [applyPreviewChanges, showScreenPreviewDraggable, happly]
    rfl
  · simp only [List.length_map]
    unfold autoLayout
    split_ifs
    · exact assignCells_length _ _ _ _ _ _
    · rfl
  · intro p st hst
    simp only [List.getElem?_map]
    by_cases hn : 0 < (camerasWithoutCoords sc).length
    · rw [autoLayout_streams W H sc c hc hcb hlen hn,
        assignCells_getElem _ _ _ _ _ 0 p st hst, Nat.zero_add]
      rcases Option.eq_none_or_eq_some st.force_coordinates with hfc | ⟨cs, hfc⟩
      · have hi : cellIndex sc.streams p < 2 ^ 52 :=
          lt_trans (cellIndex_lt sc.streams p st hst hfc) hN52
        rw [if_pos (by rw [hfc]; rfl), Option.map_some', Option.map_some',
          persisted_of_cell st _ _ _ _ _ hfc, hfc, previewCell_eq W H c _ _ hcpos hn hi hcb]
        rfl
      · rw [if_neg (by rw [hfc]; simp), Option.map_some', Option.map_some',
          persisted_of_coords st cs hfc, hfc]
        rfl
    · have e : (autoLayout (.int W) (.int H) sc).streams = sc.streams := by
        simp only [autoLayout, hn, if_false]
      rw [e, hst]
      rcases Option.eq_none_or_eq_some st.force_coordinates with hfc | ⟨cs, hfc⟩
      · have := cellIndex_lt sc.streams p st hst hfc
        exact absurd (Nat.lt_of_le_of_lt (Nat.zero_le _) this) hn
      · rw [Option.map_some', Option.map_some', persisted_of_coords st cs hfc, hfc]
        rfl

/-- C13 (witness): the screen `sixStreams` at 1920 x 1080; the third stream keeps its
coordinates and the others get their grid rectangle. -/
theorem apply_stores_every_rectangle_witness :
    ∃ sc2, applyPreviewChanges (.int 1920) (.int 1080)
        (showScreenPreviewDraggable (.int 1920) (.int 1080) sixStreams).2
        (showScreenPreviewDraggable (.int 1920) (.int 1080) sixStreams).1 =
          .ok (sc2, { width := .int 1920, height := .int 1080 }) ∧
      sc2.streams.length = sixStreams.streams.length := by
  obtain ⟨sc2, h1, h2, _⟩ := apply_stores_every_rectangle 1920 1080 sixStreams 2
    (Or.inl ⟨rfl, rfl⟩) (by decide) (by decide) (by decide)
  exact ⟨sc2, h1, h2⟩

/-! ## Drag and resize in the preview -/

/-- A `DOMRect`, as `getBoundingClientRect` returns it, in pixels. -/
structure DOMRect where
  left : ℚ
  top : ℚ
  width : ℚ
  height : ℚ
  deriving DecidableEq

/-- The property `right` of a `DOMRect`. -/
def DOMRect.right (r : DOMRect) : ℚ := r.left + r.width

/-- The property `bottom` of a `DOMRect`. -/
def DOMRect.bottom (r : DOMRect) : ℚ := r.top + r.height

/-- The constant `snapThreshold` of the `mousemove` handler. -/
def snapThreshold : ℚ := 10

/-- The statements `Snap to edges` for one axis: the value of `snapX` (or `snapY`) after the
test of the canvas start and the test of the canvas end. -/
def snapToCanvas (newPos draggedSize canvasSize : ℚ) : Option ℚ :=
  let snap : Option ℚ := if abs newPos < snapThreshold then some 0 else none
  if abs ((newPos + draggedSize) - canvasSize) < snapThreshold then
    some (canvasSize - draggedSize)
  else snap

/-- The four statements of the callback of `otherCameras.forEach` for one axis, for a camera
from `camStart` to `camEnd`: the value of `snapX` (or `snapY`) after them. -/
def snapToCamera (newPos draggedSize : ℚ) (snap : Option ℚ) (camStart camEnd : ℚ) : Option ℚ :=
  let snap := if abs (newPos - camStart) < snapThreshold then some camStart else snap
  let snap := if abs (newPos - camEnd) < snapThreshold then some camEnd else snap
  let snap :=
    if abs ((newPos + draggedSize) - camStart) < snapThreshold then some (camStart - draggedSize)
    else snap
  if abs ((newPos + draggedSize) - camEnd) < snapThreshold then some (camEnd - draggedSize)
  else snap

/-- The value of `snapX` after the loop over `otherCameras`. -/
def snapX (newLeft draggedWidth : ℚ) (canvasRect : DOMRect) (otherCameras : List DOMRect) :
    Option ℚ :=
  otherCameras.foldl
    (fun snap rect =>
      snapToCamera newLeft draggedWidth snap (rect.left - canvasRect.left)
        (rect.left - canvasRect.left + rect.width))
    (snapToCanvas newLeft draggedWidth canvasRect.width)

/-- The value of `snapY` after the loop over `otherCameras`. -/
def snapY (newTop draggedHeight : ℚ) (canvasRect : DOMRect) (otherCameras : List DOMRect) :
    Option ℚ :=
  otherCameras.foldl
    (fun snap rect =>
      snapToCamera newTop draggedHeight snap (rect.top - canvasRect.top)
        (rect.top - canvasRect.top + rect.height))
    (snapToCanvas newTop draggedHeight canvasRect.height)

/-- The expression `Math.max(0, Math.min(value, canvasSize - draggedSize))`. -/
def constrain (value draggedSize canvasSize : ℚ) : ℚ := max 0 (min value (canvasSize - draggedSize))

/-- The branch `if (previewState.dragging)` of the `mousemove` handler, up to the pair
`constrainedLeft`, `constrainedTop`.  The start position comes from `previewState`, the
delta from the pointer, the size from `offsetWidth` and `offsetHeight` of the dragged
element, and `otherCameras` are the boxes of the other camera elements. -/
def dragPosition (startLeft startTop deltaX deltaY draggedWidth draggedHeight : ℚ)
    (canvasRect : DOMRect) (otherCameras : List DOMRect) : ℚ × ℚ :=
  let newLeft := startLeft + deltaX
  let newTop := startTop + deltaY
  let newLeft := (snapX newLeft draggedWidth canvasRect otherCameras).getD newLeft
  let newTop := (snapY newTop draggedHeight canvasRect otherCameras).getD newTop
  (constrain newLeft draggedWidth canvasRect.width, constrain newTop draggedHeight canvasRect.height)

/-- The branch `if (previewState.resizing)` of the `mousemove` handler, up to the pair
`constrainedWidth`, `constrainedHeight`; `rect` is the box of the element being resized. -/
def resizeSize (startWidth startHeight deltaX deltaY : ℚ) (rect canvasRect : DOMRect) : ℚ × ℚ :=
  let newWidth := max 50 (startWidth + deltaX)
  let newHeight := max 50 (startHeight + deltaY)
  (min newWidth (canvasRect.right - rect.left), min newHeight (canvasRect.bottom - rect.top))

/-- The inline style of a camera element: `left`, `top`, `width` and `height`, each a
percentage of the canvas. -/
structure Style where
  left : ℚ
  top : ℚ
  width : ℚ
  height : ℚ
  deriving DecidableEq

/-- What the browser returns from `getBoundingClientRect` for an element with the percent
style `style` inside the canvas: the percentages taken of the canvas size, from the canvas
corner.  The layout engine is not part of the source; it is taken to be exact, without the
rounding to sub-pixel units that an engine applies. -/
def getBoundingClientRect (canvasRect : DOMRect) (style : Style) : DOMRect :=
  { left := canvasRect.left + style.left / 100 * canvasRect.width
    top := canvasRect.top + style.top / 100 * canvasRect.height
    width := style.width / 100 * canvasRect.width
    height := style.height / 100 * canvasRect.height }

/-- The two assignments to `previewState.dragging.style` in the `mousemove` handler. -/
def dragStyle (startLeft startTop deltaX deltaY draggedWidth draggedHeight : ℚ)
    (canvasRect : DOMRect) (otherCameras : List DOMRect) (style : Style) : Style :=
  let pos := dragPosition startLeft startTop deltaX deltaY draggedWidth draggedHeight canvasRect
    otherCameras
  { style with
    left := pos.1 / canvasRect.width * 100
    top := pos.2 / canvasRect.height * 100 }

/-- The two assignments to `previewState.resizing.style` in the `mousemove` handler. -/
def resizeStyle (startWidth startHeight deltaX deltaY : ℚ) (canvasRect : DOMRect)
    (style : Style) : Style :=
  let size := resizeSize startWidth startHeight deltaX deltaY
    (getBoundingClientRect canvasRect style) canvasRect
  { style with
    width := size.1 / canvasRect.width * 100
    height := size.2 / canvasRect.height * 100 }

theorem foldl_invariant {α β : Type} (P : α → Prop) (g : α → β → α)
    (h : ∀ a b, P a → P (g a b)) : ∀ (l : List β) (a : α), P a → P (l.foldl g a) := by
  intro l
  induction l with
  | nil => intro a ha; exact ha
  | cons b l ih => intro a ha; exact ih (g a b) (h a b ha)

/-- Every snap value is less than the threshold away from the position it replaces. -/
def SnapNear (newPos : ℚ) (snap : Option ℚ) : Prop :=
  ∀ v, snap = some v → abs (newPos - v) < snapThreshold

theorem snapToCanvas_near (newPos draggedSize canvasSize : ℚ) :
    SnapNear newPos (snapToCanvas newPos draggedSize canvasSize) := by
  intro v hv
  unfold snapToCanvas at hv
  simp only at hv
  split_ifs at hv with h1 h2
  · cases hv
    have e : newPos - (canvasSize - draggedSize) = newPos + draggedSize - canvasSize := by ring
    rw [e]; exact h1
  · cases hv
    rw [sub_zero]; exact h2

theorem snapToCamera_near (newPos draggedSize : ℚ) (snap : Option ℚ) (camStart camEnd : ℚ)
    (h : SnapNear newPos snap) :
    SnapNear newPos (snapToCamera newPos draggedSize snap camStart camEnd) := by
  intro v hv
  unfold snapToCamera at hv
  simp only at hv
  have e1 : ∀ x : ℚ, newPos - (x - draggedSize) = newPos + draggedSize - x := fun x => by ring
  split_ifs at hv <;> cases hv <;>
    first
    | (rw [e1]; assumption)
    | assumption
    | exact h _ rfl

theorem snapX_near (newLeft draggedWidth : ℚ) (canvasRect : DOMRect) (others : List DOMRect) :
    SnapNear newLeft (snapX newLeft draggedWidth canvasRect others) :=
  foldl_invariant (SnapNear newLeft) _ (fun _ _ h => snapToCamera_near _ _ _ _ _ h) others _
    (snapToCanvas_near _ _ _)

theorem snapY_near (newTop draggedHeight : ℚ) (canvasRect : DOMRect) (others : List DOMRect) :
    SnapNear newTop (snapY newTop draggedHeight canvasRect others) :=
  foldl_invariant (SnapNear newTop) _ (fun _ _ h => snapToCamera_near _ _ _ _ _ h) others _
    (snapToCanvas_near _ _ _)

theorem constrain_range (value draggedSize canvasSize : ℚ) (h : draggedSize ≤ canvasSize) :
    0 ≤ constrain value draggedSize canvasSize ∧
      constrain value draggedSize canvasSize + draggedSize ≤ canvasSize := by
  unfold constrain
  refine ⟨le_max_left _ _, ?_⟩
  have h1 : max 0 (min value (canvasSize - draggedSize)) ≤ canvasSize - draggedSize :=
    max_le (by linarith) (min_le_right _ _)
  linarith

/-- A position more than the threshold before the canvas start ends at the canvas start,
whatever it snaps to. -/
theorem constrain_before_start (newPos draggedSize canvasSize : ℚ) (snap : Option ℚ)
    (hn : SnapNear newPos snap) (hp : newPos ≤ -snapThreshold) :
    constrain (snap.getD newPos) draggedSize canvasSize = 0 := by
  have hv : snap.getD newPos ≤ 0 := by
    cases snap with
    | none =>
      simp only [Option.getD_none]
      unfold snapThreshold at hp
      linarith
    | some v =>
      simp only [Option.getD_some]
      have := abs_lt.mp (hn v rfl)
      unfold snapThreshold at hp this
      linarith [this.1]
  unfold constrain
  exact max_eq_left (le_trans (min_le_left _ _) hv)

/-- The properties `offsetWidth` and `offsetHeight` of an element, from the width or height
of its box: the size as an integer, taken to be the nearest one. -/
def offsetSize (size : ℚ) : ℚ := (jsRound size : ℚ)

theorem offsetSize_near (size : ℚ) : size < offsetSize size + 1 / 2 := by
  unfold offsetSize jsRound
  have := Int.lt_floor_add_one (size + 1 / 2)
  linarith

/-- The position computed by the drag handler keeps a rectangle of the size that the
handler works with inside the canvas. -/
theorem dragPosition_inside
    (startLeft startTop deltaX deltaY draggedWidth draggedHeight : ℚ)
    (canvasRect : DOMRect) (otherCameras : List DOMRect)
    (hw : draggedWidth ≤ canvasRect.width) (hh : draggedHeight ≤ canvasRect.height) :
    0 ≤ (dragPosition startLeft startTop deltaX deltaY draggedWidth draggedHeight canvasRect
        otherCameras).1 ∧
      (dragPosition startLeft startTop deltaX deltaY draggedWidth draggedHeight canvasRect
        otherCameras).1 + draggedWidth ≤ canvasRect.width ∧
      0 ≤ (dragPosition startLeft startTop deltaX deltaY draggedWidth draggedHeight canvasRect
        otherCameras).2 ∧
      (dragPosition startLeft startTop deltaX deltaY draggedWidth draggedHeight canvasRect
        otherCameras).2 + draggedHeight ≤ canvasRect.height := by
  unfold dragPosition
  simp only
  exact ⟨(constrain_range _ _ _ hw).1, (constrain_range _ _ _ hw).2,
    (constrain_range _ _ _ hh).1, (constrain_range _ _ _ hh).2⟩

/-- C15 (counterexample): a box 260.4375 px wide has `offsetWidth` 260.  Dragged to the
right in a canvas 1000 px wide, the handler puts it at `left = 740`, so that its right edge
is at 1000.4375, outside the canvas. -/
theorem drag_box_past_edge :
    offsetSize (4167 / 16) = 260 ∧ (4167 / 16 : ℚ) ≤ 1000 ∧
    (dragPosition 0 0 2000 0 (offsetSize (4167 / 16)) (offsetSize 200)
      { left := 0, top := 0, width := 1000, height := 1000 } []).1 = 740 ∧
    (1000 : ℚ) < 740 + 4167 / 16 := by
  decide!

/-- C15 (amended): for every start position, pointer delta and set of other rectangles,
when the integer size that the handler reads from `offsetWidth` and `offsetHeight` is no
larger than the canvas, the position computed by the drag handler satisfies `0 ≤ left`,
`left + offsetWidth ≤ canvasWidth`, `0 ≤ top` and `top + offsetHeight ≤ canvasHeight`; the
box itself, whose width and height can exceed these integers by up to half a pixel, ends
less than half a pixel outside the canvas.  A 200 x 200 rectangle at (0,0) in a
1000 x 1000 canvas dragged by (-50,-50) is left at (0,0), whatever the other rectangles
are. -/
theorem drag_stays_inside (startLeft startTop deltaX deltaY width height : ℚ)
    (canvasRect : DOMRect) (otherCameras : List DOMRect)
    (hw : offsetSize width ≤ canvasRect.width) (hh : offsetSize height ≤ canvasRect.height) :
    (0 ≤ (dragPosition startLeft startTop deltaX deltaY (offsetSize width) (offsetSize height)
        canvasRect otherCameras).1 ∧
      (dragPosition startLeft startTop deltaX deltaY (offsetSize width) (offsetSize height)
        canvasRect otherCameras).1 + offsetSize width ≤ canvasRect.width ∧
      (dragPosition startLeft startTop deltaX deltaY (offsetSize width) (offsetSize height)
        canvasRect otherCameras).1 + width < canvasRect.width + 1 / 2 ∧
      0 ≤ (dragPosition startLeft startTop deltaX deltaY (offsetSize width) (offsetSize height)
        canvasRect otherCameras).2 ∧
      (dragPosition startLeft startTop deltaX deltaY (offsetSize width) (offsetSize height)
        canvasRect otherCameras).2 + offsetSize height ≤ canvasRect.height ∧
      (dragPosition startLeft startTop deltaX deltaY (offsetSize width) (offsetSize height)
        canvasRect otherCameras).2 + height < canvasRect.height + 1 / 2) ∧
    offsetSize 200 = 200 ∧
    ∀ (x y : ℚ) (others : List DOMRect),
      dragPosition 0 0 (-50) (-50) (offsetSize 200) (offsetSize 200)
        { left := x, top := y, width := 1000, height := 1000 } others = (0, 0) := by
  have e200 : offsetSize 200 = 200 := by decide!
  refine ⟨?_, e200, ?_⟩
  · obtain ⟨h1, h2, h3, h4⟩ := dragPosition_inside startLeft startTop deltaX deltaY
      (offsetSize width) (offsetSize height) canvasRect otherCameras hw hh
    have hx := offsetSize_near width
    have hy := offsetSize_near height
    exact ⟨h1, h2, by linarith, h3, h4, by linarith⟩
  · intro x y others
    rw [e200]
    unfold dragPosition
    simp only
    rw [constrain_before_start _ _ _ _ (snapX_near _ _ _ _) (by norm_num [snapThreshold]),
      constrain_before_start _ _ _ _ (snapY_near _ _ _ _) (by norm_num [snapThreshold])]

/-- C15 (witness): a box of 200.25 x 100 dragged by (730, -20) from (100, 50) in a
1000 x 800 canvas with one other rectangle. -/
theorem drag_stays_inside_witness :
    offsetSize (801 / 4) ≤ (1000 : ℚ) ∧ offsetSize 100 ≤ (800 : ℚ) ∧
    0 ≤ (dragPosition 100 50 730 (-20) (offsetSize (801 / 4)) (offsetSize 100)
        { left := 8, top := 8, width := 1000, height := 800 }
        [{ left := 308, top := 8, width := 300, height := 400 }]).1 ∧
    (dragPosition 100 50 730 (-20) (offsetSize (801 / 4)) (offsetSize 100)
        { left := 8, top := 8, width := 1000, height := 800 }
        [{ left := 308, top := 8, width := 300, height := 400 }]).1 + 801 / 4 <
      1000 + 1 / 2 :=
  ⟨by decide!, by decide!,
    (drag_stays_inside 100 50 730 (-20) (801 / 4) 100
      { left := 8, top := 8, width := 1000, height := 800 }
      [{ left := 308, top := 8, width := 300, height := 400 }] (by decide!) (by decide!)).1.1,
    (drag_stays_inside 100 50 730 (-20) (801 / 4) 100
      { left := 8, top := 8, width := 1000, height := 800 }
      [{ left := 308, top := 8, width := 300, height := 400 }] (by decide!)
      (by decide!)).1.2.2.1⟩

/-- The two snap candidates of the canvas on one axis, in the order of evaluation: each
with the distance that is tested and the value that aligns the dragged rectangle. -/
def canvasCandidates (newPos draggedSize canvasSize : ℚ) : List (ℚ × ℚ) :=
  [(abs newPos, 0), (abs ((newPos + draggedSize) - canvasSize), canvasSize - draggedSize)]

/-- The four snap candidates of another rectangle on one axis, in the order of evaluation:
start to start, start to end, end to start, end to end. -/
def cameraCandidates (newPos draggedSize camStart camEnd : ℚ) : List (ℚ × ℚ) :=
  [(abs (newPos - camStart), camStart), (abs (newPos - camEnd), camEnd),
   (abs ((newPos + draggedSize) - camStart), camStart - draggedSize),
   (abs ((newPos + draggedSize) - camEnd), camEnd - draggedSize)]

/-- The aligned value of the last candidate of the list whose distance is below the
threshold. -/
def lastMatching (candidates : List (ℚ × ℚ)) : Option ℚ :=
  ((candidates.filter (fun c => decide (c.1 < snapThreshold))).getLast?).map Prod.snd

theorem lastMatching_concat (cs : List (ℚ × ℚ)) (c : ℚ × ℚ) :
    lastMatching (cs ++ [c]) = if c.1 < snapThreshold then some c.2 else lastMatching cs := by
  unfold lastMatching
  rw [List.filter_append]
  by_cases h : c.1 < snapThreshold
  · rw [if_pos h]
    have : List.filter (fun c => decide (c.1 < snapThreshold)) [c] = [c] := by
      simp [List.filter, h]
    rw [this, List.getLast?_concat]; rfl
  · rw [if_neg h]
    have : List.filter (fun c => decide (c.1 < snapThreshold)) [c] = [] := by
      simp [List.filter, h]
    rw [this, List.append_nil]

theorem snapToCanvas_eq (newPos draggedSize canvasSize : ℚ) :
    snapToCanvas newPos draggedSize canvasSize =
      lastMatching (canvasCandidates newPos draggedSize canvasSize) := by
  have e : canvasCandidates newPos draggedSize canvasSize =
      ([] ++ [(abs newPos, (0 : ℚ))]) ++
        [(abs ((newPos + draggedSize) - canvasSize), canvasSize - draggedSize)] := rfl
  rw [e, lastMatching_concat, lastMatching_concat]
  rfl

theorem snapToCamera_eq (newPos draggedSize camStart camEnd : ℚ) (cs : List (ℚ × ℚ)) :
    snapToCamera newPos draggedSize (lastMatching cs) camStart camEnd =
      lastMatching (cs ++ cameraCandidates newPos draggedSize camStart camEnd) := by
  have e : cs ++ cameraCandidates newPos draggedSize camStart camEnd =
      (((cs ++ [(abs (newPos - camStart), camStart)]) ++ [(abs (newPos - camEnd), camEnd)]) ++
        [(abs ((newPos + draggedSize) - camStart), camStart - draggedSize)]) ++
        [(abs ((newPos + draggedSize) - camEnd), camEnd - draggedSize)] := by
    simp [cameraCandidates]
  rw [e, lastMatching_concat, lastMatching_concat, lastMatching_concat, lastMatching_concat]
  rfl

theorem foldl_snap_eq (newPos draggedSize : ℚ) (f : DOMRect → ℚ × ℚ) (others : List DOMRect) :
    ∀ cs : List (ℚ × ℚ),
      others.foldl (fun snap rect => snapToCamera newPos draggedSize snap (f rect).1 (f rect).2)
        (lastMatching cs) =
      lastMatching (cs ++ (others.map (fun rect =>
        cameraCandidates newPos draggedSize (f rect).1 (f rect).2)).flatten) := by
  induction others with
  | nil => intro cs; simp
  | cons r rest ih =>
    intro cs
    rw [List.foldl_cons, snapToCamera_eq, ih, List.map_cons, List.flatten_cons,
      List.append_assoc]

/-- C17: for every drag, on each axis the value of the snap is the aligned value of the
last candidate whose distance to the translated edge is below the threshold, in the order
canvas start, canvas end, then for each other rectangle in enumeration order start to
start, start to end, end to start, end to end; there is no snap when no candidate is below
the threshold.  The distances are not compared: a camera edge at distance 9 replaces the
canvas start at distance 3. -/
theorem last_snap_candidate_wins (newLeft newTop draggedWidth draggedHeight : ℚ)
    (canvasRect : DOMRect) (otherCameras : List DOMRect) :
    snapX newLeft draggedWidth canvasRect otherCameras =
      lastMatching (canvasCandidates newLeft draggedWidth canvasRect.width ++
        (otherCameras.map (fun rect => cameraCandidates newLeft draggedWidth
          (rect.left - canvasRect.left) (rect.left - canvasRect.left + rect.width))).flatten) ∧
    snapY newTop draggedHeight canvasRect otherCameras =
      lastMatching (canvasCandidates newTop draggedHeight canvasRect.height ++
        (otherCameras.map (fun rect => cameraCandidates newTop draggedHeight
          (rect.top - canvasRect.top) (rect.top - canvasRect.top + rect.height))).flatten) ∧
    snapX 3 100 { left := 0, top := 0, width := 1000, height := 1000 }
      [{ left := 12, top := 500, width := 100, height := 100 }] = some 12 := by
  refine ⟨?_, ?_, by decide!⟩
  · rw [snapX, snapToCanvas_eq]
    exact foldl_snap_eq newLeft draggedWidth
      (fun rect => (rect.left - canvasRect.left, rect.left - canvasRect.left + rect.width))
      otherCameras _
  · rw [snapY, snapToCanvas_eq]
    exact foldl_snap_eq newTop draggedHeight
      (fun rect => (rect.top - canvasRect.top, rect.top - canvasRect.top + rect.height))
      otherCameras _

/-- No snap candidate of the rectangle from `camStart` to `camEnd` is below the threshold. -/
def NoCandidate (newPos draggedSize camStart camEnd : ℚ) : Prop :=
  ∀ c ∈ cameraCandidates newPos draggedSize camStart camEnd, ¬ c.1 < snapThreshold

theorem snapToCamera_noCandidate (newPos draggedSize : ℚ) (snap : Option ℚ)
    (camStart camEnd : ℚ) (h : NoCandidate newPos draggedSize camStart camEnd) :
    snapToCamera newPos draggedSize snap camStart camEnd = snap := by
  have h1 := h (abs (newPos - camStart), camStart) (by simp [cameraCandidates])
  have h2 := h (abs (newPos - camEnd), camEnd) (by simp [cameraCandidates])
  have h3 := h (abs ((newPos + draggedSize) - camStart), camStart - draggedSize)
    (by simp [cameraCandidates])
  have h4 := h (abs ((newPos + draggedSize) - camEnd), camEnd - draggedSize)
    (by simp [cameraCandidates])
  simp only at h1 h2 h3 h4
  simp only [snapToCamera, h1, h2, h3, h4, if_false]

theorem foldl_noCandidate (newPos draggedSize : ℚ) (f : DOMRect → ℚ × ℚ) (others : List DOMRect)
    (h : ∀ r ∈ others, NoCandidate newPos draggedSize (f r).1 (f r).2) (snap : Option ℚ) :
    others.foldl (fun snap rect => snapToCamera newPos draggedSize snap (f rect).1 (f rect).2)
      snap = snap := by
  induction others with
  | nil => rfl
  | cons r rest ih =>
    rw [List.foldl_cons, snapToCamera_noCandidate _ _ _ _ _ (h r (by simp))]
    exact ih (fun r2 h2 => h r2 (by simp [h2]))

theorem constrain_of_range (value draggedSize canvasSize : ℚ) (h0 : 0 ≤ value)
    (h1 : value + draggedSize ≤ canvasSize) : constrain value draggedSize canvasSize = value := by
  unfold constrain
  rw [min_eq_left (by linarith), max_eq_right h0]

/-- C16: for every drag in which the translated left edge of the dragged rectangle is less
than 10 px from the right edge of another rectangle `A`, the two later candidates of `A`
and the candidates of the rectangles after `A` are not within the threshold, and the
aligned position keeps the dragged rectangle inside the canvas, the resulting left edge is
the right edge of `A`. -/
theorem snap_to_right_edge (startLeft startTop deltaX deltaY draggedWidth draggedHeight : ℚ)
    (canvasRect : DOMRect) (before after : List DOMRect) (A : DOMRect)
    (hnear : abs (startLeft + deltaX - (A.left - canvasRect.left + A.width)) < snapThreshold)
    (hA3 : ¬ abs ((startLeft + deltaX + draggedWidth) - (A.left - canvasRect.left)) <
      snapThreshold)
    (hA4 : ¬ abs ((startLeft + deltaX + draggedWidth) - (A.left - canvasRect.left + A.width)) <
      snapThreshold)
    (hafter : ∀ r ∈ after, NoCandidate (startLeft + deltaX) draggedWidth
      (r.left - canvasRect.left) (r.left - canvasRect.left + r.width))
    (h0 : 0 ≤ A.left - canvasRect.left + A.width)
    (h1 : A.left - canvasRect.left + A.width + draggedWidth ≤ canvasRect.width) :
    (dragPosition startLeft startTop deltaX deltaY draggedWidth draggedHeight canvasRect
      (before ++ A :: after)).1 = A.left - canvasRect.left + A.width := by
  have hs : snapX (startLeft + deltaX) draggedWidth canvasRect (before ++ A :: after) =
      some (A.left - canvasRect.left + A.width) := by
    rw [snapX, List.foldl_append, List.foldl_cons]
    rw [foldl_noCandidate (startLeft + deltaX) draggedWidth
      (fun r => (r.left - canvasRect.left, r.left - canvasRect.left + r.width)) after hafter]
    simp only [snapToCamera, hnear, hA3, hA4, if_true, if_false]
  unfold dragPosition
  simp only [hs, Option.getD_some]
  exact constrain_of_range _ _ _ h0 h1

/-- C16 (witness): the right edge of `A` is at x = 500 and the left edge of the dragged
rectangle reaches x = 508; its left edge ends at 500. -/
theorem snap_to_right_edge_witness :
    (dragPosition 600 0 (-92) 0 200 200 { left := 0, top := 0, width := 1000, height := 1000 }
      ([] ++ { left := 300, top := 0, width := 200, height := 200 } :: [])).1 = 500 := by
  have h := snap_to_right_edge 600 0 (-92) 0 200 200
    { left := 0, top := 0, width := 1000, height := 1000 } []
    [] { left := 300, top := 0, width := 200, height := 200 }
    (by norm_num [snapThreshold]) (by norm_num [snapThreshold]) (by norm_num [snapThreshold])
    (by simp) (by norm_num) (by norm_num)
  rw [h]
  norm_num

/-- C18 (counterexample): a rectangle 200 wide whose translated left edge is at -95, next
to a rectangle that starts at 100: the end-to-start candidate gives the snap value -100,
which is outside the clamp range from 0 to 800, and the final left edge is 0. -/
theorem snap_value_outside_clamp :
    (200 : ℚ) ≤ 1000 ∧
    snapX (-95) 200 { left := 0, top := 0, width := 1000, height := 1000 }
      [{ left := 100, top := 0, width := 300, height := 300 }] = some (-100) ∧
    (dragPosition 0 0 (-95) 0 200 200 { left := 0, top := 0, width := 1000, height := 1000 }
      [{ left := 100, top := 0, width := 300, height := 300 }]).1 = 0 := by
  decide!

/-- C18 (amended): the snap is applied before the clamp.  For every drag of a rectangle no
larger than the canvas, when an axis snaps, the final coordinate on that axis is the snap
value clamped into the range from 0 to `canvasSize - rectSize`; it is the snap value itself
exactly when the snap value lies in that range.  The snap value of a canvas edge always
lies in the range. -/
theorem snap_then_clamp (startLeft startTop deltaX deltaY draggedWidth draggedHeight : ℚ)
    (canvasRect : DOMRect) (otherCameras : List DOMRect)
    (hw : draggedWidth ≤ canvasRect.width) (hh : draggedHeight ≤ canvasRect.height) :
    (∀ v, snapX (startLeft + deltaX) draggedWidth canvasRect otherCameras = some v →
      (dragPosition startLeft startTop deltaX deltaY draggedWidth draggedHeight canvasRect
        otherCameras).1 = max 0 (min v (canvasRect.width - draggedWidth)) ∧
      ((dragPosition startLeft startTop deltaX deltaY draggedWidth draggedHeight canvasRect
        otherCameras).1 = v ↔ 0 ≤ v ∧ v ≤ canvasRect.width - draggedWidth)) ∧
    (∀ v, snapY (startTop + deltaY) draggedHeight canvasRect otherCameras = some v →
      (dragPosition startLeft startTop deltaX deltaY draggedWidth draggedHeight canvasRect
        otherCameras).2 = max 0 (min v (canvasRect.height - draggedHeight)) ∧
      ((dragPosition startLeft startTop deltaX deltaY draggedWidth draggedHeight canvasRect
        otherCameras).2 = v ↔ 0 ≤ v ∧ v ≤ canvasRect.height - draggedHeight)) ∧
    (∀ v, snapToCanvas (startLeft + deltaX) draggedWidth canvasRect.width = some v →
      0 ≤ v ∧ v ≤ canvasRect.width - draggedWidth) ∧
    (∀ v, snapToCanvas (startTop + deltaY) draggedHeight canvasRect.height = some v →
      0 ≤ v ∧ v ≤ canvasRect.height - draggedHeight) := by
  have key : ∀ (v size cs : ℚ), size ≤ cs →
      (constrain v size cs = v ↔ 0 ≤ v ∧ v ≤ cs - size) := by
    intro v size cs hs
    constructor
    · intro e
      have := constrain_range v size cs hs
      rw [e] at this
      exact ⟨this.1, by linarith [this.2]⟩
    · intro ⟨h0, h1⟩
      exact constrain_of_range v size cs h0 (by linarith)
  have canvas : ∀ (p size cs v : ℚ), size ≤ cs → snapToCanvas p size cs = some v →
      0 ≤ v ∧ v ≤ cs - size := by
    intro p size cs v hs hv
    unfold snapToCanvas at hv
    simp only at hv
    split_ifs at hv
    · cases hv; exact ⟨by linarith, le_refl _⟩
    · cases hv; exact ⟨le_refl _, by linarith⟩
  refine ⟨?_, ?_, fun v hv => canvas _ _ _ v hw hv, fun v hv => canvas _ _ _ v hh hv⟩
  · intro v hv
    have e : (dragPosition startLeft startTop deltaX deltaY draggedWidth draggedHeight canvasRect
        otherCameras).1 = constrain v draggedWidth canvasRect.width := by
      unfold dragPosition
      simp only [hv, Option.getD_some]
    rw [e]
    exact ⟨rfl, key v _ _ hw⟩
  · intro v hv
    have e : (dragPosition startLeft startTop deltaX deltaY draggedWidth draggedHeight canvasRect
        otherCameras).2 = constrain v draggedHeight canvasRect.height := by
      unfold dragPosition
      simp only [hv, Option.getD_some]
    rw [e]
    exact ⟨rfl, key v _ _ hh⟩

/-- C18 (witness): the drag of the counterexample, where the snap value -100 is clamped
to 0. -/
theorem snap_then_clamp_witness :
    (200 : ℚ) ≤ 1000 ∧
    (dragPosition 0 0 (-95) 0 200 200 { left := 0, top := 0, width := 1000, height := 1000 }
      [{ left := 100, top := 0, width := 300, height := 300 }]).1 =
        max 0 (min (-100) ((1000 : ℚ) - 200)) :=
  ⟨by decide,
    ((snap_then_clamp 0 0 (-95) 0 200 200 { left := 0, top := 0, width := 1000, height := 1000 }
      [{ left := 100, top := 0, width := 300, height := 300 }] (by decide) (by decide)).1
      (-100) (by decide!)).1⟩

theorem percent_of_canvas (x size : ℚ) (h : size ≠ 0) : x / size * 100 / 100 * size = x := by
  field_simp
  ring

/-- C19: for every start size, pointer delta and element inside a canvas of positive size,
the resize handler yields `width = min(max(50, startWidth + deltaX), canvasRight - rectLeft)`
and `height = min(max(50, startHeight + deltaY), canvasBottom - rectTop)`, computed from the
element and the canvas alone; the box of the element after the handler has this width and
height, its right and bottom edges do not exceed those of the canvas, and its left and top
are where they were. -/
theorem resize_cap (startWidth startHeight deltaX deltaY : ℚ) (canvasRect : DOMRect)
    (style : Style) (hw : 0 < canvasRect.width) (hh : 0 < canvasRect.height) :
    resizeSize startWidth startHeight deltaX deltaY (getBoundingClientRect canvasRect style)
        canvasRect =
      (min (max 50 (startWidth + deltaX))
          (canvasRect.right - (getBoundingClientRect canvasRect style).left),
        min (max 50 (startHeight + deltaY))
          (canvasRect.bottom - (getBoundingClientRect canvasRect style).top)) ∧
    (getBoundingClientRect canvasRect
        (resizeStyle startWidth startHeight deltaX deltaY canvasRect style)).width =
      min (max 50 (startWidth + deltaX))
        (canvasRect.right - (getBoundingClientRect canvasRect style).left) ∧
    (getBoundingClientRect canvasRect
        (resizeStyle startWidth startHeight deltaX deltaY canvasRect style)).height =
      min (max 50 (startHeight + deltaY))
        (canvasRect.bottom - (getBoundingClientRect canvasRect style).top) ∧
    (getBoundingClientRect canvasRect
        (resizeStyle startWidth startHeight deltaX deltaY canvasRect style)).right ≤
      canvasRect.right ∧
    (getBoundingClientRect canvasRect
        (resizeStyle startWidth startHeight deltaX deltaY canvasRect style)).bottom ≤
      canvasRect.bottom ∧
    (getBoundingClientRect canvasRect
        (resizeStyle startWidth startHeight deltaX deltaY canvasRect style)).left =
      (getBoundingClientRect canvasRect style).left ∧
    (getBoundingClientRect canvasRect
        (resizeStyle startWidth startHeight deltaX deltaY canvasRect style)).top =
      (getBoundingClientRect canvasRect style).top := by
  have ew : (getBoundingClientRect canvasRect
      (resizeStyle startWidth startHeight deltaX deltaY canvasRect style)).width =
      min (max 50 (startWidth + deltaX))
        (canvasRect.right - (getBoundingClientRect canvasRect style).left) := by
    simp only [getBoundingClientRect, resizeStyle, resizeSize]
    exact percent_of_canvas _ _ (ne_of_gt hw)
  have eh : (getBoundingClientRect canvasRect
      (resizeStyle startWidth startHeight deltaX deltaY canvasRect style)).height =
      min (max 50 (startHeight + deltaY))
        (canvasRect.bottom - (getBoundingClientRect canvasRect style).top) := by
    simp only [getBoundingClientRect, resizeStyle, resizeSize]
    exact percent_of_canvas _ _ (ne_of_gt hh)
  refine ⟨rfl, ew, eh, ?_, ?_, rfl, rfl⟩
  · have e : (getBoundingClientRect canvasRect
        (resizeStyle startWidth startHeight deltaX deltaY canvasRect style)).right =
        (getBoundingClientRect canvasRect style).left +
          (getBoundingClientRect canvasRect
            (resizeStyle startWidth startHeight deltaX deltaY canvasRect style)).width := rfl
    rw [e, ew]
    linarith [min_le_right (max 50 (startWidth + deltaX))
      (canvasRect.right - (getBoundingClientRect canvasRect style).left)]
  · have e : (getBoundingClientRect canvasRect
        (resizeStyle startWidth startHeight deltaX deltaY canvasRect style)).bottom =
        (getBoundingClientRect canvasRect style).top +
          (getBoundingClientRect canvasRect
            (resizeStyle startWidth startHeight deltaX deltaY canvasRect style)).height := rfl
    rw [e, eh]
    linarith [min_le_right (max 50 (startHeight + deltaY))
      (canvasRect.bottom - (getBoundingClientRect canvasRect style).top)]

/-- C19 (witness): an element at 10% and 20% of a canvas of 1000 x 800, started at
300 x 200 and pulled by (900, -500). -/
theorem resize_cap_witness :
    (0 : ℚ) < 1000 ∧ (0 : ℚ) < 800 ∧
    (getBoundingClientRect { left := 8, top := 8, width := 1000, height := 800 }
        (resizeStyle 300 200 900 (-500) { left := 8, top := 8, width := 1000, height := 800 }
          { left := 10, top := 20, width := 30, height := 25 })).right ≤
      DOMRect.right { left := 8, top := 8, width := 1000, height := 800 } :=
  ⟨by decide, by decide,
    (resize_cap 300 200 900 (-500) { left := 8, top := 8, width := 1000, height := 800 }
      { left := 10, top := 20, width := 30, height := 25 } (by decide) (by decide)).2.2.2.1⟩

/-- C20 (counterexample): an element 20 wide whose origin is at (980, 0) in a canvas of
1000 x 1000, pulled by (10, 0): the origin is inside the canvas and the width produced is
20, below 50. -/
theorem resize_below_floor :
    ((0 : ℚ) ≤ 980 ∧ (980 : ℚ) ≤ 1000) ∧
    resizeSize 20 100 10 0 { left := 980, top := 0, width := 20, height := 100 }
      { left := 0, top := 0, width := 1000, height := 1000 } = (20, 100) ∧
    (20 : ℚ) < 50 := by
  decide!

/-- C20 (amended): for every start size and pointer delta, the width produced by the resize
handler is at least 50 when the origin of the rectangle is at least 50 px before the right
edge of the canvas, and the height is at least 50 when the origin is at least 50 px above
the bottom edge; in every case they are at least the smaller of 50 and that distance. -/
theorem resize_floor (startWidth startHeight deltaX deltaY : ℚ) (rect canvasRect : DOMRect)
    (hx : 50 ≤ canvasRect.right - rect.left) (hy : 50 ≤ canvasRect.bottom - rect.top) :
    50 ≤ (resizeSize startWidth startHeight deltaX deltaY rect canvasRect).1 ∧
    50 ≤ (resizeSize startWidth startHeight deltaX deltaY rect canvasRect).2 ∧
    ∀ (r c : DOMRect),
      min 50 (c.right - r.left) ≤ (resizeSize startWidth startHeight deltaX deltaY r c).1 ∧
      min 50 (c.bottom - r.top) ≤ (resizeSize startWidth startHeight deltaX deltaY r c).2 := by
  have key : ∀ (a cap : ℚ), min 50 cap ≤ min (max 50 a) cap := fun a cap =>
    min_le_min (le_max_left _ _) (le_refl _)
  refine ⟨?_, ?_, fun r c => ⟨key _ _, key _ _⟩⟩
  · exact le_trans (le_min (le_refl _) hx) (key _ _)
  · exact le_trans (le_min (le_refl _) hy) (key _ _)

/-- C20 (witness): an element at (100, 100) in a canvas of 1000 x 1000, pulled far to the
upper left. -/
theorem resize_floor_witness :
    50 ≤ (resizeSize 300 200 (-1000) (-1000)
      { left := 100, top := 100, width := 300, height := 200 }
      { left := 0, top := 0, width := 1000, height := 1000 }).1 :=
  (resize_floor 300 200 (-1000) (-1000) { left := 100, top := 100, width := 300, height := 200 }
    { left := 0, top := 0, width := 1000, height := 1000 } (by decide!) (by decide!)).1

/-- The four assignments to `cameraDiv.style` in the block `Render all cameras`: the
rectangle `[x1, y1, x2, y2]` as percentages of the screen size. -/
def coordsStyle (screenWidth screenHeight x1 y1 x2 y2 : ℚ) : Style :=
  { left := x1 / screenWidth * 100
    top := y1 / screenHeight * 100
    width := (x2 - x1) / screenWidth * 100
    height := (y2 - y1) / screenHeight * 100 }

/-- One axis of `updateCameraCoords`, in double precision: with
`scale = screenSize / canvasSize`, the pair `Math.round(start * scale)` and
`Math.round(first + size * scale)`.  The results are not finite numbers when the screen size
is `NaN` or the canvas size is 0: `.nan` stands for every such result. -/
def updateAxis (screenSize : JSNumber) (start size canvasSize : ℚ) : JSNumber × JSNumber :=
  match screenSize with
  | .nan => (.nan, .nan)
  | .int n =>
    if canvasSize = 0 then (.nan, .nan)
    else
      let scale := toDouble ((n : ℚ) / canvasSize)
      let first := jsRound (toDouble (start * scale))
      (.int first, .int (jsRound (toDouble ((first : ℚ) + toDouble (size * scale)))))

/-- The array `[x1, y1, x2, y2]` that `updateCameraCoords` computes from the box of the
element and stores in `dataset.coords`. -/
def updateCameraCoords (screenWidth screenHeight : JSNumber) (rect canvasRect : DOMRect) :
    List JSNumber :=
  let x := updateAxis screenWidth (toDouble (rect.left - canvasRect.left)) rect.width
    canvasRect.width
  let y := updateAxis screenHeight (toDouble (rect.top - canvasRect.top)) rect.height
    canvasRect.height
  [x.1, y.1, x.2, y.2]

/-! ## Indentation and blank lines -/

theorem trim_trim (l : Str) : trim (trim l) = trim l := by
  by_cases h : trim l = []
  · rw [h]; rfl
  · apply trim_of_trimmed
    constructor
    · rcases dropWhile_head isWhite l with h0 | ⟨c, r, h0, hc⟩
      · exfalso
        apply h
        rw [trim, trimStart, h0]
        rfl
      · have hp : trim l <+: c :: r := by
          have := trimEnd_initial (trimStart l)
          rw [trimStart, h0] at this
          rw [trim, trimStart, h0]
          exact this
        obtain ⟨t, ht⟩ := hp
        cases hl : trim l with
        | nil => exact absurd hl h
        | cons a b =>
          rw [hl, List.cons_append] at ht
          injection ht with e1 _
          exact ⟨a, b, rfl, by rw [e1]; exact hc⟩
    · rcases trimEnd_last (trimStart l) with h1 | h1
      · exact absurd h1 h
      · exact h1

/-- The loop body looks at the trimmed line only. -/
theorem step_trim (s : PState) (l : Str) : step s (trim l) = step s l := by
  simp only [step, trim_trim]

theorem step_blank (s : PState) (l : Str) (h : trim l = []) : step s l = .ok s := by
  simp only [step, h, if_true]

/-- The lines that `parse` looks at: the lines of the text, each without leading and
trailing white space, without the empty ones. -/
def significantLines (text : Str) : List Str :=
  ((splitOn '\n' text).map trim).filter (fun l => decide (l ≠ []))

theorem parseLines_significant (ls : List Str) : ∀ s : PState,
    parseLines s ((ls.map trim).filter (fun l => decide (l ≠ []))) = parseLines s ls := by
  induction ls with
  | nil => intro s; rfl
  | cons l ls ih =>
    intro s
    by_cases h : trim l = []
    · have e : ((l :: ls).map trim).filter (fun l => decide (l ≠ [])) =
          (ls.map trim).filter (fun l => decide (l ≠ [])) := by
        simp [List.filter_cons, h]
      rw [e, ih, parseLines, step_blank s l h]
      rfl
    · have e : ((l :: ls).map trim).filter (fun l => decide (l ≠ [])) =
          trim l :: (ls.map trim).filter (fun l => decide (l ≠ [])) := by
        simp [List.filter_cons, h]
      rw [e, parseLines, parseLines, step_trim]
      cases step s l with
      | error e => rfl
      | ok s2 => exact ih s2

/-- C30: for any two texts whose sequences of non-blank lines are equal after removal of
the leading and trailing white space of each line, and every prior resolution, `parse`
returns the same document and the same resolution. -/
theorem parse_ignores_indentation (res : Resolution) (t1 t2 : Str)
    (h : significantLines t1 = significantLines t2) : parse res t1 = parse res t2 := by
  unfold significantLines at h
  rw [parse, parse, ← parseLines_significant (splitOn '\n' t1),
    ← parseLines_significant (splitOn '\n' t2), h]

/-- C30 (witness): a text with its indentation and blank lines, and the same lines flush
left with other blank lines. -/
theorem parse_ignores_indentation_witness :
    parse defaultResolution
      ("# Resolution: 800x600\n\nessentials:\n  screens:\n    - streams:\n" ++
        "        - url: \"rtsp://x\"\n          imageurl: true\n\n").toList =
    parse defaultResolution
      ("\n# Resolution: 800x600\nessentials:\nscreens:\n\t- streams:  \n\n\n" ++
        "- url: \"rtsp://x\"\nimageurl: true").toList :=
  parse_ignores_indentation defaultResolution _ _ (by decide)

/-! ## The header for a resolution that the annotation pattern does not match -/

/-- No character of a printed number is `r` or `R`, `#`, a line break or white space. -/
theorem toStr_plain_chars (n : JSNumber) :
    ∀ c ∈ n.toStr, lowerAscii c ≠ 'r' ∧ c ≠ '#' ∧ c ≠ '\n' ∧ isWhite c = false := by
  cases n with
  | nan => decide
  | int m =>
    intro c hc
    have h := (toStr_int_chars m).2 c hc
    have hf := isNumChar_facts h
    refine ⟨?_, hf.2.2.2.2.2.1, hf.2.1, hf.1⟩
    simp only [isNumChar, isDigit, Bool.or_eq_true, Bool.and_eq_true, decide_eq_true_eq,
      beq_iff_eq] at h
    rcases h with h | h
    · have hl : lowerAscii c = c := by
        unfold lowerAscii
        rw [if_neg (by omega)]
      rw [hl]
      intro e
      rw [e] at h
      revert h
      decide
    · rw [h]; decide

/-- A printed number is the decimal form of a natural number, or starts with a character
that is not a digit. -/
theorem toStr_shape (n : JSNumber) :
    (∃ w : Nat, n = .int w ∧ n.toStr = natToStr w) ∨
      ∃ c r, n.toStr = c :: r ∧ isDigit c = false := by
  cases n with
  | nan => exact Or.inr ⟨'N', "aN".toList, rfl, by decide⟩
  | int m =>
    by_cases hm : m < 0
    · refine Or.inr ⟨'-', natToStr m.natAbs, ?_, by decide⟩
      simp only [JSNumber.toStr, hm, if_true]
    · refine Or.inl ⟨m.toNat, ?_, ?_⟩
      · rw [Int.toNat_of_nonneg (by omega)]
      · simp only [JSNumber.toStr, hm, if_false]
        congr 1
        omega

theorem toStr_trimmed (n : JSNumber) : Trimmed n.toStr := by
  cases n with
  | nan => exact trimmed_of_trim_eq (by decide) (by decide)
  | int m => exact toStr_int_trimmed m

theorem resolutionAt_none_of_head (s : Str) (h : ∀ c, s.head? = some c → lowerAscii c ≠ 'r') :
    resolutionAt s = none := by
  unfold resolutionAt
  rw [if_neg]
  intro e
  cases s with
  | nil => revert e; decide
  | cons c cs =>
    have hc := h c rfl
    rw [List.take_succ_cons, List.map_cons] at e
    have : lowerAscii c = 'r' := by
      have := congrArg List.head? e
      simpa using this
    exact hc this

theorem searchFirst_none {α : Type} (m : Str → Option α) (P : Char → Prop)
    (hm : ∀ s : Str, (∀ c, s.head? = some c → P c) → m s = none) :
    ∀ t : Str, (∀ c ∈ t, P c) → searchFirst m t = none := by
  intro t
  induction t with
  | nil => intro _; exact hm [] (fun c hc => by simp at hc)
  | cons a r ih =>
    intro ht
    have h1 : m (a :: r) = none := hm (a :: r) (fun c hc => by
      simp only [List.head?_cons, Option.some.injEq] at hc
      rw [← hc]; exact ht a (by simp))
    rw [searchFirst, h1]
    exact ih (fun c hc => ht c (by simp [hc]))

/-- The annotation pattern finds nothing in the text written for a resolution of which one
part is `NaN` or negative. -/
theorem resolutionMatch_none (W H : JSNumber)
    (hbad : ¬ ((∃ w : Nat, W = .int w) ∧ ∃ h : Nat, H = .int h)) :
    resolutionMatch ("Resolution: ".toList ++ (W.toStr ++ 'x' :: H.toStr)) = none := by
  have hchars : ∀ c ∈ W.toStr ++ 'x' :: H.toStr, lowerAscii c ≠ 'r' := by
    intro c hc
    rcases List.mem_append.mp hc with h | h
    · exact (toStr_plain_chars W c h).1
    · rcases List.mem_cons.mp h with h | h
      · rw [h]; decide
      · exact (toStr_plain_chars H c h).1
  have htail : searchFirst resolutionAt ("esolution: ".toList ++ (W.toStr ++ 'x' :: H.toStr)) =
      none := by
    apply searchFirst_none resolutionAt (fun c => lowerAscii c ≠ 'r') resolutionAt_none_of_head
    intro c hc
    rcases List.mem_append.mp hc with h | h
    · have hall : ∀ c ∈ "esolution: ".toList, lowerAscii c ≠ 'r' := by decide
      exact hall c h
    · exact hchars c h
  have e1 : (List.take 11 ("Resolution: ".toList ++ (W.toStr ++ 'x' :: H.toStr))).map
      lowerAscii = "resolution:".toList := by
    show (List.take 11 ('R' :: 'e' :: 's' :: 'o' :: 'l' :: 'u' :: 't' :: 'i' :: 'o' :: 'n' ::
      ':' :: ' ' :: (W.toStr ++ 'x' :: H.toStr))).map lowerAscii = _
    simp only [List.take_succ_cons, List.take_zero, List.map_cons, List.map_nil]
    decide
  obtain ⟨⟨c0, r0, hW0, hc0⟩, _⟩ := toStr_trimmed W
  have e2 : List.dropWhile isWhite (List.drop 11
      ("Resolution: ".toList ++ (W.toStr ++ 'x' :: H.toStr))) = W.toStr ++ 'x' :: H.toStr := by
    show List.dropWhile isWhite (' ' :: (W.toStr ++ 'x' :: H.toStr)) = _
    rw [List.dropWhile_cons, if_pos (by decide), hW0, List.cons_append, List.dropWhile_cons,
      if_neg (by simp [hc0])]
  have hhead : resolutionAt ("Resolution: ".toList ++ (W.toStr ++ 'x' :: H.toStr)) = none := by
    rw [resolutionAt, if_pos e1]
    simp only [e2]
    rcases toStr_shape W with ⟨w, hw, hws⟩ | ⟨c, r, hWs, hcd⟩
    · rcases toStr_shape H with ⟨h, hh, _⟩ | ⟨c, r, hHs, hcd⟩
      · exact absurd ⟨⟨w, hw⟩, ⟨h, hh⟩⟩ hbad
      · have hd := (natToStr_digits w).2
        rw [hws, takeWhile_append_stop (natToStr w) 'x' H.toStr hd (by decide),
          dropWhile_append_stop (natToStr w) 'x' H.toStr hd (by decide), hHs]
        have e5 : List.takeWhile isDigit (c :: r) = [] := by
          rw [List.takeWhile_cons, if_neg (by simp [hcd])]
        cases natToStr w with
        | nil => rfl
        | cons a b => simp only [e5]
    · have e3 : List.takeWhile isDigit (W.toStr ++ 'x' :: H.toStr) = [] := by
        rw [hWs, List.cons_append, List.takeWhile_cons, if_neg (by simp [hcd])]
      simp only [e3]
  show searchFirst resolutionAt ('R' :: ("esolution: ".toList ++ (W.toStr ++ 'x' :: H.toStr))) =
    none
  rw [searchFirst]
  have hhead2 : resolutionAt ('R' :: ("esolution: ".toList ++ (W.toStr ++ 'x' :: H.toStr))) =
      none := hhead
  rw [hhead2]
  exact htail

/-- The resolution line of the header leaves the resolution as it is, whatever it is: the
annotation is read back when both parts are integers from 0 on, and is not matched
otherwise. -/
theorem step_resolution_line (cfg : Config) (ie isc : Bool) (lc : Option Str)
    (res : Resolution) :
    step ⟨cfg, res, none, none, ie, isc, lc⟩
      ('#' :: ([' '] ++ ("Resolution: ".toList ++
        (res.width.toStr ++ 'x' :: res.height.toStr)))) =
      .ok ⟨cfg, res, none, none, ie, isc, lc⟩ := by
  by_cases hgood : (∃ w : Nat, res.width = .int w) ∧ ∃ h : Nat, res.height = .int h
  · obtain ⟨⟨w, hw⟩, ⟨h, hh⟩⟩ := hgood
    have h1 := step_resolution cfg ie isc lc w h res
    have e : res = ⟨.int w, .int h⟩ := by
      cases res
      simp only at hw hh
      rw [hw, hh]
    rw [hw, hh, toStr_nat_chars, toStr_nat_chars, h1, ← e]
  · have ht : Trimmed ("Resolution: ".toList ++ (res.width.toStr ++ 'x' :: res.height.toStr)) := by
      have h1 : Trimmed ('x' :: res.height.toStr) :=
        trimmed_append (a := ['x']) 'x' [] rfl (by decide) (toStr_trimmed res.height)
      have h2 := trimmed_append (a := "Resolution: ".toList ++ res.width.toStr) 'R'
        ("esolution: ".toList ++ res.width.toStr) rfl (by decide) h1
      simpa using h2
    rw [step_comment_line _ [' '] _ (by decide) ht, handleDisabled_outside]
    have hinc : includes "###".toList
        ('#' :: ([' '] ++ ("Resolution: ".toList ++
          (res.width.toStr ++ 'x' :: res.height.toStr)))) = false := by
      have hnm : '#' ∉ ([' '] ++ ("Resolution: ".toList ++
          (res.width.toStr ++ 'x' :: res.height.toStr))) := by
        intro hm
        simp only [List.mem_append, List.mem_cons, List.mem_singleton] at hm
        rcases hm with hm | hm | hm | hm | hm
        · revert hm; decide
        · revert hm; decide
        · exact (toStr_plain_chars _ _ hm).2.1 rfl
        · cases hm
        · exact (toStr_plain_chars _ _ hm).2.1 rfl
      have h1 := includes_false_of_not_mem '#' "##".toList _ hnm
      show includes ('#' :: "##".toList) ('#' :: ([' '] ++ _)) = false
      rw [includes, h1]
      rfl
    simp only [Except.bind, hinc, Bool.not_false, if_true, captureComment,
      resolutionMatch_none res.width res.height hgood, Option.isSome_none, Bool.false_eq_true,
      if_false]

/-- The scan over the header that `stringify` writes, for every resolution. -/
theorem runs_header_any (res : Resolution) (d : Config) :
    Runs (initState res) (header res d)
      ⟨⟨d.disable_autorotation, []⟩, res, none, none, true, true, none⟩ := by
  rw [header_eq]
  have nl2 : '\n' ∉ ('#' :: ([' '] ++ ("Resolution: ".toList ++
      (res.width.toStr ++ 'x' :: res.height.toStr)))) := by
    intro hm
    simp only [List.mem_append, List.mem_cons, List.mem_singleton] at hm
    rcases hm with hm | hm | hm | hm | hm | hm
    · revert hm; decide
    · revert hm; decide
    · revert hm; decide
    · exact (toStr_plain_chars _ _ hm).2.2.1 rfl
    · cases hm
    · exact (toStr_plain_chars _ _ hm).2.2.1 rfl
  have nl5 : '\n' ∉ ("  disable_autorotation: ".toList ++ boolCap d.disable_autorotation) := by
    cases d.disable_autorotation <;> decide
  exact Runs.trans (Runs.line (by decide) (step_banner _ res false false none))
    (Runs.trans (Runs.line nl2 (step_resolution_line ⟨false, []⟩ false false none res))
    (Runs.trans (Runs.blank _)
    (Runs.trans (Runs.line (by decide) (step_essentials _ res none none false false none))
    (Runs.trans (Runs.line nl5
      (step_autorotation false [] res none none false none d.disable_autorotation))
    (Runs.trans (Runs.blank _)
      (Runs.line (by decide) (step_screens _ res none none true false none)))))))

/-- The round trip of a configuration that satisfies `okConfig`, for every resolution. -/
theorem roundtrip_any_resolution (res : Resolution) (d : Config) (hd : okConfig d) :
    parse res (stringify res d) = .ok (d, res) := by
  obtain ⟨cs, cst, lc, h2⟩ := runs_screens d.disable_autorotation res d.screens hd [] none none
    none
  have h := Runs.finish (Runs.trans (runs_header_any res d) h2)
  rw [parse, stringify_eq, h]
  simp

/-! ## The restricted round trip -/

/-- A character of a word of a name: not white space, not `#` and not `:`; every letter and
every digit is one. -/
def isNameChar (c : Char) : Bool := !isWhite c && c != '#' && c != ':'

/-- A name of words separated by spaces: not empty, of word characters and spaces, with a
word character first and last.  In particular every non-empty string of letters, digits and
single inner spaces. -/
def plainName (n : Str) : Prop :=
  (∀ c ∈ n, isNameChar c = true ∨ c = ' ') ∧
    (∃ c r, n = c :: r ∧ isNameChar c = true) ∧ ∃ r d, n = r ++ [d] ∧ isNameChar d = true

instance : DecidablePred plainName := fun n => by
  unfold plainName
  have h1 : Decidable (∃ c r, n = c :: r ∧ isNameChar c = true) :=
    match n with
    | [] => isFalse (by rintro ⟨c, r, h, _⟩; cases h)
    | c :: r =>
      if h : isNameChar c = true then isTrue ⟨c, r, rfl, h⟩
      else isFalse (by rintro ⟨c2, r2, e, h2⟩; cases e; exact h h2)
  have h2 : Decidable (∃ r d, n = r ++ [d] ∧ isNameChar d = true) :=
    match hn : n.getLast? with
    | none => isFalse (by
        rintro ⟨r, d, e, _⟩
        rw [e, List.getLast?_concat] at hn
        cases hn)
    | some d =>
      if h : isNameChar d = true then
        isTrue (by
          rcases List.eq_nil_or_concat n with e | ⟨r, d2, e⟩
          · rw [e] at hn; cases hn
          · have e2 : n = r ++ [d2] := by simpa using e
            rw [e2, List.getLast?_concat] at hn
            cases hn
            exact ⟨r, d, e2, h⟩)
      else isFalse (by
        rintro ⟨r, d2, e, h2⟩
        rw [e, List.getLast?_concat] at hn
        cases hn
        exact h h2)
  infer_instance

/-- A number field of the restricted round trip: `null` or a positive integer, below
`2^53` (the range in which the model of numbers is exact). -/
def positiveInt : Option JSNumber → Prop
  | none => True
  | some .nan => False
  | some (.int n) => 0 < n ∧ n < 2 ^ 53

instance : DecidablePred positiveInt
  | none => isTrue trivial
  | some .nan => isFalse (fun h => h)
  | some (.int n) => inferInstanceAs (Decidable (0 < n ∧ n < 2 ^ 53))

/-- A stream of the restricted round trip. -/
def restrictedStream (st : Stream) : Prop :=
  okQuoted st.url ∧ optAll plainName st.name ∧
  optAll okQuoted st.freeform_advanced_mpv_options ∧ positiveInt st.probe_timeout ∧
  positiveInt st.timeout_waiting_for_init_stream ∧ okCoords st.force_coordinates ∧
  st.previewCoords = none

/-- A document of the restricted round trip. -/
def restrictedConfig (d : Config) : Prop :=
  ∀ sc ∈ d.screens, (∀ st ∈ sc.streams, restrictedStream st) ∧ positiveInt sc.duration ∧
    positiveInt sc.nr_of_columns

instance : DecidablePred restrictedStream := fun st => by unfold restrictedStream; infer_instance
instance : DecidablePred restrictedConfig := fun d => by unfold restrictedConfig; infer_instance

theorem isNameChar_facts {c : Char} (h : isNameChar c = true ∨ c = ' ') :
    c ≠ '#' ∧ c ≠ ':' ∧ c ≠ '\n' := by
  rcases h with h | h
  · simp only [isNameChar, Bool.and_eq_true, Bool.not_eq_true', bne_iff_ne, ne_eq] at h
    refine ⟨h.1.2, h.2, ?_⟩
    intro e
    rw [e] at h
    exact absurd h.1.1 (by decide)
  · rw [h]; decide

theorem resolutionAt_colon (s : Str) (r : Str × Str) (h : resolutionAt s = some r) :
    ':' ∈ s := by
  unfold resolutionAt at h
  split_ifs at h with h1
  have h2 : ':' ∈ (s.take 11).map lowerAscii := by rw [h1]; decide
  obtain ⟨c, hc, e⟩ := List.mem_map.mp h2
  have hc2 : c ∈ s := List.mem_of_mem_take hc
  have : c = ':' := by
    unfold lowerAscii at e
    split_ifs at e with h3
    · exfalso
      have hk : c = Char.ofNat c.toNat := (Char.ofNat_toNat c).symm
      generalize c.toNat = k at h3 e hk
      obtain ⟨h4, h5⟩ := h3
      interval_cases k <;> revert e <;> decide
    · exact e
  rw [← this]; exact hc2

theorem okName_of_plainName {n : Str} (h : plainName n) : okName n := by
  obtain ⟨hall, ⟨c, r, e1, hc⟩, ⟨r2, d, e2, hd⟩⟩ := h
  have hw : ∀ x : Char, isNameChar x = true → isWhite x = false := by
    intro x hx
    simp only [isNameChar, Bool.and_eq_true, Bool.not_eq_true'] at hx
    exact hx.1.1
  have hhash : '#' ∉ n := fun hm => (isNameChar_facts (hall _ hm)).1 rfl
  have hcolon : ':' ∉ n := fun hm => (isNameChar_facts (hall _ hm)).2.1 rfl
  have hnl : '\n' ∉ n := fun hm => (isNameChar_facts (hall _ hm)).2.2 rfl
  have ht : Trimmed n := ⟨⟨c, r, e1, hw c hc⟩, ⟨r2, d, e2, hw d hd⟩⟩
  refine ⟨trimmed_ne_nil ht, trim_of_trimmed n ht, hnl, ?_, ?_, ?_, ?_⟩
  · have h1 := includes_false_of_not_mem '#' "##".toList n hhash
    have hc1 : c ≠ '#' := (isNameChar_facts (Or.inl hc)).1
    have h2 : ('#' :: "##".toList).isPrefixOf ('#' :: n) = false := by
      rw [e1]
      show ('#' :: '#' :: ['#']).isPrefixOf ('#' :: c :: r) = false
      rw [isPrefixOf_cons_cons, isPrefixOf_cons_cons]
      simp [Ne.symm hc1]
    show includes ('#' :: "##".toList) ('#' :: n) = false
    rw [includes, h1, h2]
    rfl
  · cases hm : resolutionMatch n with
    | none => rfl
    | some p =>
      obtain ⟨a, b, hab, hb⟩ := searchFirst_some resolutionAt n p hm
      exact absurd (by rw [hab]; exact List.mem_append_right _ (resolutionAt_colon b p hb)) hcolon
  · cases hs : startsWith "- url:".toList n with
    | false => rfl
    | true => exact absurd (mem_of_startsWith hs (by decide)) hcolon
  · simp only [hasKey, List.any_eq_false]
    intro k hk
    cases hs : startsWith k n with
    | false => simp
    | true =>
      have hall : ∀ k ∈ streamKeys, ':' ∈ k := by decide
      have hk2 : ':' ∈ k := hall k hk
      exact absurd (mem_of_startsWith hs hk2) hcolon

theorem okNumber_of_positiveInt {v : Option JSNumber} (h : positiveInt v) : okNumber v := by
  cases v with
  | none => trivial
  | some n =>
    cases n with
    | nan => exact h
    | int m =>
      obtain ⟨h0, h1⟩ := h
      exact ⟨by omega, by omega⟩

theorem okConfig_of_restricted {d : Config} (h : restrictedConfig d) : okConfig d := by
  intro sc hsc
  obtain ⟨hs, hd, hc⟩ := h sc hsc
  refine ⟨?_, okNumber_of_positiveInt hd, okNumber_of_positiveInt hc⟩
  intro st hst
  obtain ⟨h1, h2, h3, h4, h5, h6, h7⟩ := hs st hst
  refine ⟨h1, ?_, okNumber_of_positiveInt h4, okNumber_of_positiveInt h5, h3, h6, h7⟩
  cases hn : st.name with
  | none => trivial
  | some n =>
    rw [hn] at h2
    exact okName_of_plainName h2

/-- C26: for every document in which every url is not empty and holds no double quote and
no line break, every name is `null` or words of letters and digits separated by spaces,
every option string is `null` or not empty without double quote and line break, every
timeout, duration and column count is `null` or a positive integer (below `2^53`), every
`force_coordinates` is `null` or four integers from 0 on (below `2^53`), and for every
resolution, reading back what `stringify` writes gives the document, field by field in the
same order, and leaves the resolution as it was. -/
theorem restricted_roundtrip (res : Resolution) (d : Config) (hd : restrictedConfig d) :
    parse res (stringify res d) = .ok (d, res) :=
  roundtrip_any_resolution res d (okConfig_of_restricted hd)

/-- C26 (witness): the round trip of `sampleConfig` at a resolution of which one part is
`NaN`. -/
theorem restricted_roundtrip_witness :
    restrictedConfig sampleConfig ∧
    parse { width := .nan, height := .int 1080 }
      (stringify { width := .nan, height := .int 1080 } sampleConfig) =
      .ok (sampleConfig, { width := .nan, height := .int 1080 }) :=
  ⟨by decide, restricted_roundtrip _ sampleConfig (by decide)⟩

/-! ## The editor state (`script.js`) -/

/-- The value of `state.editMode`: `'add'` or `'edit'`. -/
inductive EditMode where
  | add
  | edit
  deriving DecidableEq, Repr

/-- The object `state`, as far as the document goes: the configuration, the resolution, the
selected screen and camera, and the edit mode. -/
structure EditorState where
  config : Config
  resolution : Resolution
  currentScreenIndex : Option Nat
  currentCameraIndex : Option Nat
  editMode : EditMode
  deriving DecidableEq

/-- The initial value of `state`. -/
def initialEditor : EditorState :=
  { config := { disable_autorotation := false, screens := [] }
    resolution := defaultResolution
    currentScreenIndex := none
    currentCameraIndex := none
    editMode := .add }

/-- The fields of the camera form that `saveCamera` reads. -/
structure CameraForm where
  cameraName : Str
  cameraUrl : Str
  cameraImageUrl : Bool
  cameraShowOnTop : Bool
  cameraEnableAudio : Bool
  cameraProbeTimeout : Str
  cameraInitTimeout : Str
  cameraMpvOptions : Str
  cameraForceCoords : Bool
  coordX1 : Str
  coordY1 : Str
  coordX2 : Str
  coordY2 : Str
  cameraEnabled : Bool
  deriving DecidableEq

/-- The expression `checked || null` for a check box. -/
def checkedOrNull (checked : Bool) : Option Bool := if checked then some true else none

/-- The expression `parseInt(value) || null`. -/
def parseIntOrNull (value : Str) : Option JSNumber :=
  if (parseInt value).truthy then some (parseInt value) else none

/-- The four numbers of the coordinate form are stored when none is `NaN`. -/
def formCoordinates (form : CameraForm) : Option (List JSNumber) :=
  if form.cameraForceCoords then
    match parseInt form.coordX1, parseInt form.coordY1, parseInt form.coordX2,
      parseInt form.coordY2 with
    | .int x1, .int y1, .int x2, .int y2 => some [.int x1, .int y1, .int x2, .int y2]
    | _, _, _, _ => none
  else none

/-- The object `camera` that `saveCamera` builds from the form, for the trimmed url. -/
def formCamera (form : CameraForm) (url : Str) : Stream :=
  { name := orNull (some (trim form.cameraName))
    url := url
    imageurl := checkedOrNull form.cameraImageUrl
    showontop := checkedOrNull form.cameraShowOnTop
    enableaudio := checkedOrNull form.cameraEnableAudio
    probe_timeout := parseIntOrNull form.cameraProbeTimeout
    timeout_waiting_for_init_stream := parseIntOrNull form.cameraInitTimeout
    freeform_advanced_mpv_options := orNull (some (trim form.cameraMpvOptions))
    force_coordinates := formCoordinates form
    disabled := !form.cameraEnabled }

/-- The assignment `screen.streams[state.currentCameraIndex] = camera`: the element is
replaced, or appended at the index after the last; the index `null` names a property of the
array that is no element.  An index further out would leave holes in the array, which the
model of a list does not have. -/
def assignCamera (streams : List Stream) (index : Option Nat) (camera : Stream) :
    Except String (List Stream) :=
  match index with
  | none => .ok streams
  | some k =>
    if k < streams.length then .ok (modifyAt (fun _ => camera) k streams)
    else if k = streams.length then .ok (streams ++ [camera])
    else .error "array with holes"

/-- The function `saveCamera`.  The read of `screen.streams` throws a `TypeError` when there
is no screen at `state.currentScreenIndex`. -/
def saveCamera (form : CameraForm) (st : EditorState) : Except String EditorState :=
  let url := trim form.cameraUrl
  if url = [] then .ok st
  else
    let camera := formCamera form url
    match st.currentScreenIndex with
    | none => .error "TypeError: cannot read properties of undefined"
    | some i =>
      match st.config.screens[i]? with
      | none => .error "TypeError: cannot read properties of undefined"
      | some screen =>
        let streams : Except String (List Stream) :=
          match st.editMode with
          | .add => .ok (screen.streams ++ [camera])
          | .edit => assignCamera screen.streams st.currentCameraIndex camera
        streams.map (fun l =>
          { st with config := st.config.modifyScreen i (fun sc => { sc with streams := l }) })

/-- The function `selectScreen`. -/
def selectScreen (index : Nat) (st : EditorState) : EditorState :=
  { st with currentScreenIndex := some index }

/-- The function `addScreen`. -/
def addScreen (st : EditorState) : EditorState :=
  { st with
    config := { st.config with screens := st.config.screens ++ [newScreen] }
    currentScreenIndex := some ((st.config.screens ++ [newScreen]).length - 1) }

/-- The function `deleteScreen`; `confirmed` is the answer to the confirmation dialog. -/
def deleteScreen (confirmed : Bool) (st : EditorState) : EditorState :=
  match st.currentScreenIndex with
  | none => st
  | some i =>
    if confirmed then
      let screens := st.config.screens.eraseIdx i
      { st with
        config := { st.config with screens := screens }
        currentScreenIndex :=
          if screens.length = 0 then none
          else if i ≥ screens.length then some (screens.length - 1)
          else some i }
    else st

/-- The function `loadConfig`; `content` is the text of the response, none when the
request fails.  An exception is caught and leaves the state as it is. -/
def loadConfig (content : Option Str) (st : EditorState) : EditorState :=
  match content with
  | none => st
  | some text =>
    match parse st.resolution text with
    | .error _ => st
    | .ok (config, resolution) =>
      let st1 := { st with config := config, resolution := resolution }
      if 0 < config.screens.length then selectScreen 0 st1 else st1

/-- The function `importExternalYaml`, once a file is selected; `content` is the text of
the response, none when the request fails. -/
def importExternalYaml (content : Option Str) (st : EditorState) : EditorState :=
  match content with
  | none => st
  | some text =>
    match parse st.resolution text with
    | .error _ => st
    | .ok (config, resolution) => { st with config := config, resolution := resolution }

/-- The selected screen is `null` or the index of a screen of the document. -/
def validScreenIndex (st : EditorState) : Prop :=
  ∀ i, st.currentScreenIndex = some i → i < st.config.screens.length

/-- C24: for every editor state and every form, `saveCamera` called with a url that is
empty after trimming returns without an exception and leaves the state, and so the
document, as it was: no stream is added and none is replaced, in add mode and in edit
mode. -/
theorem saveCamera_empty_url (form : CameraForm) (st : EditorState)
    (h : trim form.cameraUrl = []) : saveCamera form st = .ok st := by
  simp only [saveCamera, h, if_true]

/-- A form with a url of white space only. -/
def blankUrlForm : CameraForm :=
  { cameraName := "Door".toList
    cameraUrl := "  \t ".toList
    cameraImageUrl := true
    cameraShowOnTop := false
    cameraEnableAudio := false
    cameraProbeTimeout := "5".toList
    cameraInitTimeout := [] 
    cameraMpvOptions := []
    cameraForceCoords := true
    coordX1 := "0".toList
    coordY1 := "0".toList
    coordX2 := "10".toList
    coordY2 := "10".toList
    cameraEnabled := true }

/-- C24 (witness): the form `blankUrlForm` in edit mode on the document `sampleConfig`. -/
theorem saveCamera_empty_url_witness :
    trim blankUrlForm.cameraUrl = [] ∧
    saveCamera blankUrlForm
      { config := sampleConfig, resolution := defaultResolution, currentScreenIndex := some 0,
        currentCameraIndex := some 1, editMode := .edit } =
      .ok { config := sampleConfig, resolution := defaultResolution,
            currentScreenIndex := some 0, currentCameraIndex := some 1, editMode := .edit } :=
  ⟨by decide, saveCamera_empty_url blankUrlForm _ (by decide)⟩

theorem addScreen_valid (st : EditorState) : validScreenIndex (addScreen st) := by
  intro i hi
  simp only [addScreen, Option.some.injEq] at hi
  simp only [addScreen, List.length_append, List.length_singleton] at hi ⊢
  omega

theorem selectScreen_valid (index : Nat) (st : EditorState)
    (h : index < st.config.screens.length) : validScreenIndex (selectScreen index st) := by
  intro i hi
  simp only [selectScreen, Option.some.injEq] at hi
  rw [← hi]; exact h

theorem deleteScreen_valid (confirmed : Bool) (st : EditorState) (h : validScreenIndex st) :
    validScreenIndex (deleteScreen confirmed st) := by
  unfold deleteScreen
  cases hc : st.currentScreenIndex with
  | none =>
    simp only
    exact h
  | some i =>
    simp only
    cases confirmed with
    | false => simp only [Bool.false_eq_true, if_false]; exact h
    | true =>
      simp only [if_true]
      intro j hj
      simp only at hj ⊢
      split_ifs at hj with h1 h2
      · cases hj; omega
      · cases hj; omega

theorem loadConfig_valid (text : Str) (st : EditorState) (config : Config) (res : Resolution)
    (hp : parse st.resolution text = .ok (config, res)) (hn : 0 < config.screens.length) :
    validScreenIndex (loadConfig (some text) st) := by
  intro i hi
  simp only [loadConfig, hp, hn, if_true, selectScreen, Option.some.injEq] at hi ⊢
  omega

/-- C29 (the defect at a failing input): `addScreen`, `deleteScreen`, `selectScreen` with an
existing index and `loadConfig` of a text with a screen keep the selected index valid; but
after a text with two screens is loaded and the second screen is selected,
`importExternalYaml` of a text with one screen leaves the index 1 with one screen, and
`loadConfig` of a text without screen leaves the index 1 with no screen. -/
theorem import_keeps_stale_screen_index :
    (∀ st, validScreenIndex (addScreen st)) ∧
    (∀ confirmed st, validScreenIndex st → validScreenIndex (deleteScreen confirmed st)) ∧
    (∀ index st, index < st.config.screens.length → validScreenIndex (selectScreen index st)) ∧
    (∀ text st config res, parse st.resolution text = .ok (config, res) →
      0 < config.screens.length → validScreenIndex (loadConfig (some text) st)) ∧
    (selectScreen 1 (loadConfig (some "screens:\n- streams:\n- streams:".toList)
      initialEditor)).config.screens.length = 2 ∧
    (importExternalYaml (some "screens:\n- streams:".toList)
      (selectScreen 1 (loadConfig (some "screens:\n- streams:\n- streams:".toList)
        initialEditor))).currentScreenIndex = some 1 ∧
    (importExternalYaml (some "screens:\n- streams:".toList)
      (selectScreen 1 (loadConfig (some "screens:\n- streams:\n- streams:".toList)
        initialEditor))).config.screens.length = 1 ∧
    (loadConfig (some [])
      (selectScreen 1 (loadConfig (some "screens:\n- streams:\n- streams:".toList)
        initialEditor))).currentScreenIndex = some 1 ∧
    (loadConfig (some [])
      (selectScreen 1 (loadConfig (some "screens:\n- streams:\n- streams:".toList)
        initialEditor))).config.screens.length = 0 :=
  ⟨addScreen_valid, deleteScreen_valid, selectScreen_valid, loadConfig_valid, by decide,
    by decide, by decide, by decide, by decide⟩

/-! ## What is written into `force_coordinates` -/

/-- After `parse`, the coordinate list of a stream is `null`, or a list that is not empty of
elements that are each `NaN` or an integer from 0 on, for lists whose numbers are below
`2 ^ 53`. -/
theorem parse_coords_shape (res res2 : Resolution) (text : Str) (cfg : Config)
    (p : Nat × Nat) (st : Stream) (h : parse res text = .ok (cfg, res2))
    (hst : cfg.getStream p = some st)
    (hsmall : ∀ l, st.force_coordinates = some l → ∀ x ∈ l, ∀ k : Int, x = .int k → k < 2 ^ 53) :
    st.force_coordinates = none ∨
      ∃ l, st.force_coordinates = some l ∧ l ≠ [] ∧
        ∀ x ∈ l, x = .nan ∨ ∃ n : Nat, x = .int n ∧ n < 2 ^ 53 := by
  unfold parse at h
  cases hp : parseLines (initState res) (splitOn '\n' text) with
  | error e => rw [hp] at h; cases h
  | ok sf =>
    rw [hp] at h
    simp only [Except.ok.injEq, Prod.mk.injEq] at h
    have hrel := parseLines_rel _ _ sf hp
    rw [h.1] at hrel
    have hshape : CoordsShape st := by
      rcases hrel.2 p st hst with ⟨st0, h0, _⟩ | ⟨_, lc, u, dis, hev⟩
      · simp [initState, Config.getStream] at h0
      · exact evolves_coordsShape hev (Or.inl rfl)
    rcases hshape with e | ⟨g, _, hc, e⟩
    · exact Or.inl e
    · refine Or.inr ⟨parseCoords g, e, (parseCoords_shape g hc).1, ?_⟩
      intro x hx
      rcases (parseCoords_shape g hc).2 x hx with hnan | ⟨n, hn⟩
      · exact Or.inl hnan
      · refine Or.inr ⟨n, hn, ?_⟩
        have := hsmall _ e x hx (n : Int) hn
        exact_mod_cast this

theorem jsonCoords_some (cs cs2 : List JSNumber) (h : jsonCoords cs = some cs2) : cs2 = cs := by
  unfold jsonCoords at h
  split_ifs at h
  exact (Option.some.inj h).symm

theorem mem_modifyAt {α : Type} (f : α → α) (l : List α) :
    ∀ (i : Nat) (y : α), y ∈ modifyAt f i l → y ∈ l ∨ ∃ x ∈ l, y = f x := by
  induction l with
  | nil => intro i y h; cases i <;> simp [modifyAt] at h
  | cons a l ih =>
    intro i y h
    cases i with
    | zero =>
      simp only [modifyAt, List.mem_cons] at h
      rcases h with h | h
      · exact Or.inr ⟨a, by simp, h⟩
      · exact Or.inl (by simp [h])
    | succ i =>
      simp only [modifyAt, List.mem_cons] at h
      rcases h with h | h
      · exact Or.inl (by simp [h])
      · rcases ih i y h with h1 | ⟨x, hx, e⟩
        · exact Or.inl (by simp [h1])
        · exact Or.inr ⟨x, by simp [hx], e⟩

/-- After the loop of `applyPreviewChanges`, the coordinate list of every stream is the one
it had or the array of four numbers of a camera element. -/
theorem applyCameras_coords (cameras : List CameraDiv) :
    ∀ (l l2 : List Stream), applyCameras l cameras = .ok l2 →
      ∀ st2 ∈ l2, (∃ st ∈ l, st2.force_coordinates = st.force_coordinates) ∨
        ∃ cam ∈ cameras, cam.coords.length = 4 ∧ st2.force_coordinates = some cam.coords := by
  induction cameras with
  | nil =>
    intro l l2 h st2 hst2
    simp only [applyCameras, Except.ok.injEq] at h
    rw [← h] at hst2
    exact Or.inl ⟨st2, hst2, rfl⟩
  | cons cam rest ih =>
    intro l l2 h st2 hst2
    rw [applyCameras] at h
    cases h1 : applyCamera l cam with
    | error e => rw [h1] at h; cases h
    | ok l1 =>
      rw [h1] at h
      rcases ih l1 l2 h st2 hst2 with ⟨st1, hst1, e1⟩ | ⟨c, hc, h4, e⟩
      · unfold applyCamera at h1
        split_ifs at h1 with h4
        · split at h1
          · split at h1
            · rename_i coords hj
              simp only [Except.ok.injEq] at h1
              rw [← h1] at hst1
              rcases mem_modifyAt _ l _ _ hst1 with h2 | ⟨x, _, e2⟩
              · exact Or.inl ⟨st1, h2, e1⟩
              · refine Or.inr ⟨cam, by simp, h4, ?_⟩
                rw [e1, e2, jsonCoords_some _ _ hj]
            · cases h1
          · cases h1
        · simp only [Except.ok.injEq] at h1
          rw [← h1] at hst1
          exact Or.inl ⟨st1, hst1, e1⟩
      · exact Or.inr ⟨c, by simp [hc], h4, e⟩

/-- A form whose coordinates are in reverse order. -/
def reversedCoordsForm : CameraForm :=
  { cameraName := []
    cameraUrl := "rtsp://x".toList
    cameraImageUrl := false
    cameraShowOnTop := false
    cameraEnableAudio := false
    cameraProbeTimeout := []
    cameraInitTimeout := []
    cameraMpvOptions := []
    cameraForceCoords := true
    coordX1 := "10".toList
    coordY1 := "10".toList
    coordX2 := "5".toList
    coordY2 := "-5".toList
    cameraEnabled := true }

/-- C25 (counterexample): at the resolution 1920 x 1080, `parse` stores the list
`[10, 10, 5, 5]` of a line `force_coordinates:`, and `saveCamera` in add mode stores the
list `[10, 10, 5, -5]` of the form; in neither is `x1 < x2`. -/
theorem persisted_rectangle_unchecked :
    (parse defaultResolution
      "screens:\n- streams:\n- url: \"a\"\nforce_coordinates: [10, 10, 5, 5]".toList).map
        (fun r => (r.1.screens.map (fun sc => sc.streams.map Stream.force_coordinates), r.2)) =
      .ok ([[some [.int 10, .int 10, .int 5, .int 5]]], defaultResolution) ∧
    (saveCamera reversedCoordsForm (addScreen initialEditor)).map
        (fun st => st.config.screens.map (fun sc => sc.streams.map Stream.force_coordinates)) =
      .ok [[some [.int 10, .int 10, .int 5, .int (-5)]]] := by
  decide

/-- C25 (amended): the three operations store what they are given, without a check of the
order or of the range.  After `parse`, every `force_coordinates` that is not `null` is a
list that is not empty of elements that are each `NaN` or an integer from 0 on, for lists
whose numbers are below `2 ^ 53`.  `saveCamera` in add mode, with a url and an existing
screen, appends the camera of the form, whose `force_coordinates` is `null` or the four
numbers that `parseInt` reads from the four fields, none of them `NaN`.  After
`applyPreviewChanges`, every `force_coordinates` is the one the stream had or the array of
four numbers of a camera element. -/
theorem persisted_rectangles_as_written :
    (∀ (res res2 : Resolution) (text : Str) (cfg : Config) (p : Nat × Nat) (st : Stream),
      parse res text = .ok (cfg, res2) → cfg.getStream p = some st →
      (∀ l, st.force_coordinates = some l → ∀ x ∈ l, ∀ k : Int, x = .int k → k < 2 ^ 53) →
      st.force_coordinates = none ∨
        ∃ l, st.force_coordinates = some l ∧ l ≠ [] ∧
          ∀ x ∈ l, x = .nan ∨ ∃ n : Nat, x = .int n ∧ n < 2 ^ 53) ∧
    (∀ (form : CameraForm) (st : EditorState) (i : Nat) (sc : Screen),
      trim form.cameraUrl ≠ [] → st.editMode = .add → st.currentScreenIndex = some i →
      st.config.screens[i]? = some sc →
      saveCamera form st = .ok { st with
        config := st.config.modifyScreen i (fun s =>
          { s with streams := sc.streams ++ [formCamera form (trim form.cameraUrl)] }) } ∧
      ((formCamera form (trim form.cameraUrl)).force_coordinates = none ∨
        (parseInt form.coordX1 ≠ .nan ∧ parseInt form.coordY1 ≠ .nan ∧
          parseInt form.coordX2 ≠ .nan ∧ parseInt form.coordY2 ≠ .nan ∧
          (formCamera form (trim form.cameraUrl)).force_coordinates =
            some [parseInt form.coordX1, parseInt form.coordY1, parseInt form.coordX2,
              parseInt form.coordY2]))) ∧
    (∀ (W H : JSNumber) (cameras : List CameraDiv) (sc sc2 : Screen) (res : Resolution),
      applyPreviewChanges W H cameras sc = .ok (sc2, res) →
      ∀ st2 ∈ sc2.streams, (∃ st ∈ sc.streams, st2.force_coordinates = st.force_coordinates) ∨
        ∃ cam ∈ cameras, cam.coords.length = 4 ∧ st2.force_coordinates = some cam.coords) := by
  refine ⟨parse_coords_shape, ?_, ?_⟩
  · intro form st i sc hu hm hi hsc
    refine ⟨?_, ?_⟩
    · simp only [saveCamera, hu, if_false, hi, hsc, hm, Except.map]
    · show formCoordinates form = none ∨ _
      unfold formCoordinates
      cases hf : form.cameraForceCoords with
      | false => exact Or.inl rfl
      | true =>
        simp only [if_true]
        cases h1 : parseInt form.coordX1 with
        | nan => exact Or.inl rfl
        | int x1 =>
          cases h2 : parseInt form.coordY1 with
          | nan => exact Or.inl rfl
          | int y1 =>
            cases h3 : parseInt form.coordX2 with
            | nan => exact Or.inl rfl
            | int x2 =>
              cases h4 : parseInt form.coordY2 with
              | nan => exact Or.inl rfl
              | int y2 =>
                refine Or.inr ⟨by simp, by simp, by simp, by simp, ?_⟩
                show formCoordinates form = _
                simp only [formCoordinates, hf, h1, h2, h3, h4, if_true]
  · intro W H cameras sc sc2 res h st2 hst2
    unfold applyPreviewChanges at h
    cases h1 : applyCameras sc.streams cameras with
    | error e => rw [h1] at h; cases h
    | ok l =>
      rw [h1] at h
      simp only [Except.map, Except.ok.injEq, Prod.mk.injEq] at h
      rw [← h.1] at hst2
      simp only [List.mem_map] at hst2
      obtain ⟨st1, hst1, e⟩ := hst2
      have := applyCameras_coords cameras sc.streams l h1 st1 hst1
      rw [← e]
      exact this

/-! ## The keyboard nudge -/

/-- The operator `+` on numbers: `NaN` when an operand is `NaN`. -/
def JSNumber.plus : JSNumber → JSNumber → JSNumber
  | .int a, .int b => .int (a + b)
  | _, _ => .nan

/-- The operator `-` on numbers: `NaN` when an operand is `NaN`. -/
def JSNumber.minus : JSNumber → JSNumber → JSNumber
  | .int a, .int b => .int (a - b)
  | _, _ => .nan

/-- The function `Math.max` of two numbers: `NaN` when an argument is `NaN`. -/
def JSNumber.mathMax : JSNumber → JSNumber → JSNumber
  | .int a, .int b => .int (max a b)
  | _, _ => .nan

/-- The function `Math.min` of two numbers: `NaN` when an argument is `NaN`. -/
def JSNumber.mathMin : JSNumber → JSNumber → JSNumber
  | .int a, .int b => .int (min a b)
  | _, _ => .nan

/-- The expression `e.shiftKey ? 10 : 1` of the `keydown` handler. -/
def nudgeStep (shiftKey : Bool) : JSNumber := if shiftKey then .int 10 else .int 1

/-- The four branches on `e.key` of the `keydown` handler: the rectangle `[x1, y1, x2, y2]`
after the move, none when the key is no arrow key (`moved` stays false). -/
def nudge (key : Str) (step screenWidth screenHeight x1 y1 x2 y2 : JSNumber) :
    Option (List JSNumber) :=
  if key = "ArrowLeft".toList then
    let newX1 := JSNumber.mathMax (.int 0) (x1.minus step)
    let diff := x1.minus newX1
    some [newX1, y1, x2.minus diff, y2]
  else if key = "ArrowRight".toList then
    let newX2 := JSNumber.mathMin screenWidth (x2.plus step)
    let diff := newX2.minus x2
    some [x1.plus diff, y1, newX2, y2]
  else if key = "ArrowUp".toList then
    let newY1 := JSNumber.mathMax (.int 0) (y1.minus step)
    let diff := y1.minus newY1
    some [x1, newY1, x2, y2.minus diff]
  else if key = "ArrowDown".toList then
    let newY2 := JSNumber.mathMin screenHeight (y2.plus step)
    let diff := newY2.minus y2
    some [x1, y1.plus diff, x2, newY2]
  else none

/-- The four arrow keys. -/
def arrowKeys : List Str :=
  ["ArrowLeft".toList, "ArrowRight".toList, "ArrowUp".toList, "ArrowDown".toList]

/-- The nudge of an integer rectangle, branch by branch. -/
theorem nudge_int (key : Str) (step W H x1 y1 x2 y2 : Int) (hkey : key ∈ arrowKeys) :
    (key = "ArrowLeft".toList ∧
      nudge key (.int step) (.int W) (.int H) (.int x1) (.int y1) (.int x2) (.int y2) =
        some [.int (max 0 (x1 - step)), .int y1, .int (x2 - (x1 - max 0 (x1 - step))),
          .int y2]) ∨
    (key = "ArrowRight".toList ∧
      nudge key (.int step) (.int W) (.int H) (.int x1) (.int y1) (.int x2) (.int y2) =
        some [.int (x1 + (min W (x2 + step) - x2)), .int y1, .int (min W (x2 + step)),
          .int y2]) ∨
    (key = "ArrowUp".toList ∧
      nudge key (.int step) (.int W) (.int H) (.int x1) (.int y1) (.int x2) (.int y2) =
        some [.int x1, .int (max 0 (y1 - step)), .int x2,
          .int (y2 - (y1 - max 0 (y1 - step)))]) ∨
    (key = "ArrowDown".toList ∧
      nudge key (.int step) (.int W) (.int H) (.int x1) (.int y1) (.int x2) (.int y2) =
        some [.int x1, .int (y1 + (min H (y2 + step) - y2)), .int x2,
          .int (min H (y2 + step))]) := by
  simp only [arrowKeys, List.mem_cons, List.mem_singleton, List.not_mem_nil, or_false] at hkey
  rcases hkey with h | h | h | h
  · exact Or.inl ⟨h, by rw [h]; rfl⟩
  · exact Or.inr (Or.inl ⟨h, by rw [h]; rfl⟩)
  · exact Or.inr (Or.inr (Or.inl ⟨h, by rw [h]; rfl⟩))
  · exact Or.inr (Or.inr (Or.inr ⟨h, by rw [h]; rfl⟩))

/-- C21: for every integer rectangle `[x1, y1, x2, y2]`, every step, every screen size and
every arrow key, the nudge returns a rectangle with the same width `x2 - x1` and the same
height `y2 - y1`, in which the coordinates of the other axis are as they were; the left
nudge gives `[max(0, x1 - step), y1, x2 - (x1 - max(0, x1 - step)), y2]`, and
`[5, 100, 300, 300]` nudged left by 10 becomes `[0, 100, 295, 300]`. -/
theorem nudge_preserves_size (key : Str) (step W H x1 y1 x2 y2 : Int)
    (hkey : key ∈ arrowKeys) :
    (∃ a b c d : Int,
      nudge key (.int step) (.int W) (.int H) (.int x1) (.int y1) (.int x2) (.int y2) =
        some [.int a, .int b, .int c, .int d] ∧
      c - a = x2 - x1 ∧ d - b = y2 - y1 ∧
      (key = "ArrowLeft".toList ∨ key = "ArrowRight".toList → b = y1 ∧ d = y2) ∧
      (key = "ArrowUp".toList ∨ key = "ArrowDown".toList → a = x1 ∧ c = x2) ∧
      (key = "ArrowLeft".toList →
        a = max 0 (x1 - step) ∧ c = x2 - (x1 - max 0 (x1 - step)))) ∧
    nudge "ArrowLeft".toList (.int 10) (.int W) (.int H) (.int 5) (.int 100) (.int 300)
      (.int 300) = some [.int 0, .int 100, .int 295, .int 300] := by
  refine ⟨?_, rfl⟩
  rcases nudge_int key step W H x1 y1 x2 y2 hkey with ⟨hk, e⟩ | ⟨hk, e⟩ | ⟨hk, e⟩ | ⟨hk, e⟩
  · refine ⟨_, _, _, _, e, by omega, by omega, fun _ => ⟨rfl, rfl⟩, ?_, fun _ => ⟨rfl, rfl⟩⟩
    rw [hk]; intro h; exact absurd h (by decide)
  · refine ⟨_, _, _, _, e, by omega, by omega, fun _ => ⟨rfl, rfl⟩, ?_, ?_⟩
    · rw [hk]; intro h; exact absurd h (by decide)
    · rw [hk]; intro h; exact absurd h (by decide)
  · refine ⟨_, _, _, _, e, by omega, by omega, ?_, fun _ => ⟨rfl, rfl⟩, ?_⟩
    · rw [hk]; intro h; exact absurd h (by decide)
    · rw [hk]; intro h; exact absurd h (by decide)
  · refine ⟨_, _, _, _, e, by omega, by omega, ?_, fun _ => ⟨rfl, rfl⟩, ?_⟩
    · rw [hk]; intro h; exact absurd h (by decide)
    · rw [hk]; intro h; exact absurd h (by decide)

/-- C21 (witness): the right nudge by 10 of `[1700, 0, 1915, 200]` on a screen 1920 wide. -/
theorem nudge_preserves_size_witness :
    ∃ a b c d : Int,
      nudge "ArrowRight".toList (.int 10) (.int 1920) (.int 1080) (.int 1700) (.int 0)
        (.int 1915) (.int 200) = some [.int a, .int b, .int c, .int d] ∧
      c - a = 1915 - 1700 ∧ d - b = 200 - 0 := by
  obtain ⟨a, b, c, d, e, h1, h2, _⟩ :=
    (nudge_preserves_size "ArrowRight".toList 10 1920 1080 1700 0 1915 200 (by decide)).1
  exact ⟨a, b, c, d, e, h1, h2⟩

/-- C22: for every integer rectangle with `0 ≤ x1 ≤ x2 ≤ screenWidth` and
`0 ≤ y1 ≤ y2 ≤ screenHeight`, every arrow key and step 1 or 10, the nudged rectangle again
satisfies `0 ≤ x1 ≤ x2 ≤ screenWidth` and `0 ≤ y1 ≤ y2 ≤ screenHeight`. -/
theorem nudge_stays_on_screen (key : Str) (shiftKey : Bool) (W H x1 y1 x2 y2 : Int)
    (hkey : key ∈ arrowKeys) (hx1 : 0 ≤ x1) (hx : x1 ≤ x2) (hx2 : x2 ≤ W) (hy1 : 0 ≤ y1)
    (hy : y1 ≤ y2) (hy2 : y2 ≤ H) :
    ∃ a b c d : Int,
      nudge key (nudgeStep shiftKey) (.int W) (.int H) (.int x1) (.int y1) (.int x2) (.int y2) =
        some [.int a, .int b, .int c, .int d] ∧
      0 ≤ a ∧ a ≤ c ∧ c ≤ W ∧ 0 ≤ b ∧ b ≤ d ∧ d ≤ H := by
  have hstep : ∃ step : Int, nudgeStep shiftKey = .int step ∧ (step = 1 ∨ step = 10) := by
    cases shiftKey
    · exact ⟨1, rfl, Or.inl rfl⟩
    · exact ⟨10, rfl, Or.inr rfl⟩
  obtain ⟨step, hs, h01⟩ := hstep
  have hpos : 0 ≤ step := by omega
  rw [hs]
  rcases nudge_int key step W H x1 y1 x2 y2 hkey with ⟨_, e⟩ | ⟨_, e⟩ | ⟨_, e⟩ | ⟨_, e⟩
  · exact ⟨_, _, _, _, e, by omega, by omega, by omega, hy1, hy, hy2⟩
  · exact ⟨_, _, _, _, e, by omega, by omega, by omega, hy1, hy, hy2⟩
  · exact ⟨_, _, _, _, e, hx1, hx, hx2, by omega, by omega, by omega⟩
  · exact ⟨_, _, _, _, e, hx1, hx, hx2, by omega, by omega, by omega⟩

/-- C22 (witness): `[5, 100, 300, 300]` nudged left with Shift on a screen of
1920 x 1080. -/
theorem nudge_stays_on_screen_witness :
    ∃ a b c d : Int,
      nudge "ArrowLeft".toList (nudgeStep true) (.int 1920) (.int 1080) (.int 5) (.int 100)
        (.int 300) (.int 300) = some [.int a, .int b, .int c, .int d] ∧
      0 ≤ a ∧ a ≤ c ∧ c ≤ 1920 ∧ 0 ≤ b ∧ b ≤ d ∧ d ≤ 1080 :=
  nudge_stays_on_screen "ArrowLeft".toList true 1920 1080 5 100 300 300 (by decide)
    (by decide) (by decide) (by decide) (by decide) (by decide) (by decide)

/-! ## Further properties of the rounding to a double -/

theorem frac_upper (p q bp bq : Nat) (hq : 0 < q) (hp : p < 2 ^ bp) (hql : 2 ^ (bq - 1) ≤ q)
    (hbq : 1 ≤ bq) : (p : ℚ) / (q : ℚ) < (2 : ℚ) ^ (bp + 1) / (2 : ℚ) ^ bq := by
  have hq2 : (0 : ℚ) < (q : ℚ) := by exact_mod_cast hq
  have hp2 : (p : ℚ) < (2 : ℚ) ^ bp := by exact_mod_cast hp
  have hql2 : (2 : ℚ) ^ (bq - 1) ≤ (q : ℚ) := by exact_mod_cast hql
  have hpos : (0 : ℚ) < (2 : ℚ) ^ bq := by positivity
  have e : (2 : ℚ) ^ bq = 2 * 2 ^ (bq - 1) := by
    conv_lhs => rw [show bq = (bq - 1) + 1 by omega]
    rw [pow_succ]; ring
  rw [div_lt_div_iff₀ hq2 hpos, pow_succ, e]
  have h0 : (0 : ℚ) ≤ (p : ℚ) := by positivity
  have h1 : (0 : ℚ) < (2 : ℚ) ^ (bq - 1) := by positivity
  nlinarith [mul_pos (sub_pos.mpr hp2) h1, mul_nonneg h0 (sub_nonneg.mpr hql2)]

/-- The binary exponent of a positive number: the number is below the next power of 2. -/
theorem lt_pow2_exponentOf_succ (a : ℚ) (ha : 0 < a) : a < pow2 (exponentOf a + 1) := by
  unfold exponentOf
  dsimp only
  split_ifs with h
  · have hnum : 0 < a.num := Rat.num_pos.mpr ha
    have hp0 : a.num.natAbs ≠ 0 := by omega
    have hq0 : a.den ≠ 0 := a.den_nz
    obtain ⟨_, hpu⟩ := bitLength_bounds a.num.natAbs hp0
    obtain ⟨hql, hqu⟩ := bitLength_bounds a.den hq0
    have hbq : 1 ≤ bitLength a.den := by
      by_contra hc
      have h0 : bitLength a.den = 0 := by omega
      rw [h0] at hqu
      omega
    have ha2 : (a.num.natAbs : ℚ) / (a.den : ℚ) = a := by
      have h1 : ((a.num.natAbs : Nat) : ℚ) = (a.num : ℚ) := by
        have h0 : ((a.num.natAbs : Nat) : Int) = a.num := Int.natAbs_of_nonneg hnum.le
        rw [← Int.cast_natCast, h0]
      rw [h1]
      exact Rat.num_div_den a
    have e : ((bitLength a.num.natAbs : Int) - (bitLength a.den : Int) + 1) =
        ((bitLength a.num.natAbs + 1 : Nat) : Int) - (bitLength a.den : Int) := by
      push_cast; ring
    rw [e, pow2_eq, zpow_sub₀ (by norm_num), zpow_natCast, zpow_natCast]
    exact lt_of_eq_of_lt ha2.symm
      (frac_upper _ _ _ _ (Nat.pos_of_ne_zero hq0) hpu hql hbq)
  · have e : (bitLength a.num.natAbs : Int) - (bitLength a.den : Int) - 1 + 1 =
        (bitLength a.num.natAbs : Int) - (bitLength a.den : Int) := by ring
    rw [e]
    exact not_le.mp h

theorem exponentOf_mono (a b : ℚ) (ha : 0 < a) (hab : a ≤ b) : exponentOf a ≤ exponentOf b := by
  by_contra hc
  have h1 : exponentOf b + 1 ≤ exponentOf a := by omega
  have h2 := pow2_mono h1
  have h3 := pow2_exponentOf_le a ha
  have h4 := lt_pow2_exponentOf_succ b (lt_of_lt_of_le ha hab)
  linarith

theorem roundHalfEven_mono (m n : ℚ) (h : m ≤ n) : roundHalfEven m ≤ roundHalfEven n := by
  have hm1 := Int.floor_le m
  have hm2 := Int.lt_floor_add_one m
  have hn1 := Int.floor_le n
  have hn2 := Int.lt_floor_add_one n
  have hf : ⌊m⌋ ≤ ⌊n⌋ := Int.floor_le_floor h
  have hlow : ∀ x : ℚ, ⌊x⌋ ≤ roundHalfEven x ∧ roundHalfEven x ≤ ⌊x⌋ + 1 := by
    intro x
    unfold roundHalfEven
    dsimp only
    split_ifs <;> constructor <;> omega
  rcases eq_or_lt_of_le hf with he | hl
  · unfold roundHalfEven
    dsimp only
    rw [← he]
    have hcast : ((⌊n⌋ : Int) : ℚ) = ((⌊m⌋ : Int) : ℚ) := by rw [he]
    split_ifs with a1 a2 a3 a4 a5 a6 a7 a8 a9 <;> first | omega | (exfalso; linarith)
  · have := (hlow m).2
    have := (hlow n).1
    omega

theorem roundHalfEven_neg (m : ℚ) : roundHalfEven (-m) = -roundHalfEven m := by
  have hm1 := Int.floor_le m
  have hm2 := Int.lt_floor_add_one m
  by_cases hint : ((⌊m⌋ : Int) : ℚ) = m
  · rw [← hint, ← Int.cast_neg, roundHalfEven_intCast, roundHalfEven_intCast]
  · have hlt : ((⌊m⌋ : Int) : ℚ) < m := lt_of_le_of_ne hm1 hint
    have hfl : ⌊-m⌋ = -⌊m⌋ - 1 := by
      rw [Int.floor_eq_iff]
      push_cast
      constructor <;> linarith
    unfold roundHalfEven
    dsimp only
    rw [hfl]
    push_cast
    split_ifs with a1 a2 a3 a4 a5 a6 a7 a8 a9 <;> first | omega | (exfalso; linarith)

theorem roundHalfEven_le_of_le (m : ℚ) (n : Int) (h : m ≤ (n : ℚ)) : roundHalfEven m ≤ n := by
  have := roundHalfEven_mono m n h
  rwa [roundHalfEven_intCast] at this

theorem roundHalfEven_ge_of_ge (m : ℚ) (n : Int) (h : (n : ℚ) ≤ m) : n ≤ roundHalfEven m := by
  have := roundHalfEven_mono n m h
  rwa [roundHalfEven_intCast] at this

theorem toDouble_neg (x : ℚ) : toDouble (-x) = -toDouble x := by
  by_cases hx : x = 0
  · rw [hx]; simp [toDouble]
  · have hnx : -x ≠ 0 := neg_ne_zero.mpr hx
    unfold toDouble
    rw [if_neg hx, if_neg hnx]
    dsimp only
    rw [abs_neg, neg_div, roundHalfEven_neg]
    push_cast
    ring

theorem toDouble_nonneg (x : ℚ) (h : 0 ≤ x) : 0 ≤ toDouble x := by
  by_cases hx : x = 0
  · rw [hx, toDouble_zero]
  · unfold toDouble
    rw [if_neg hx]
    dsimp only
    have hu := pow2_pos (max (exponentOf |x|) (-1022) - 52)
    have h0 : (0 : Int) ≤ roundHalfEven (x / pow2 (max (exponentOf |x|) (-1022) - 52)) :=
      roundHalfEven_ge_of_ge _ 0 (by simpa using div_nonneg h hu.le)
    have : (0 : ℚ) ≤ (roundHalfEven (x / pow2 (max (exponentOf |x|) (-1022) - 52)) : Int) := by
      exact_mod_cast h0
    exact mul_nonneg this hu.le

/-- The rounding to a double is monotone on the positive numbers. -/
theorem toDouble_mono_pos (x y : ℚ) (hx : 0 < x) (h : x ≤ y) : toDouble x ≤ toDouble y := by
  have hy : 0 < y := lt_of_lt_of_le hx h
  have hx0 : x ≠ 0 := ne_of_gt hx
  have hy0 : y ≠ 0 := ne_of_gt hy
  unfold toDouble
  rw [if_neg hx0, if_neg hy0]
  dsimp only
  rw [abs_of_pos hx, abs_of_pos hy]
  set ex := exponentOf x with hex
  set ey := exponentOf y with hey
  have hexy : ex ≤ ey := exponentOf_mono x y hx h
  have hxl := pow2_exponentOf_le x hx
  have hxu := lt_pow2_exponentOf_succ x hx
  have hyl := pow2_exponentOf_le y hy
  rw [← hex] at hxl hxu
  rw [← hey] at hyl
  rcases eq_or_lt_of_le (max_le_max hexy (le_refl (-1022 : Int))) with he | hl
  · rw [← he]
    have hu := pow2_pos (max ex (-1022) - 52)
    have h1 : x / pow2 (max ex (-1022) - 52) ≤ y / pow2 (max ex (-1022) - 52) :=
      div_le_div_of_nonneg_right h hu.le
    have h2 := roundHalfEven_mono _ _ h1
    have h3 : ((roundHalfEven (x / pow2 (max ex (-1022) - 52)) : Int) : ℚ) ≤
        (roundHalfEven (y / pow2 (max ex (-1022) - 52)) : Int) := by exact_mod_cast h2
    exact mul_le_mul_of_nonneg_right h3 hu.le
  · have hey2 : max ey (-1022) = ey := by
      apply max_eq_left
      by_contra hc
      have : max ey (-1022) = -1022 := max_eq_right (by omega)
      have : -1022 ≤ max ex (-1022) := le_max_right _ _
      omega
    have hstep : max ex (-1022) + 1 ≤ ey := by omega
    set kx := max ex (-1022) with hkx
    have hux := pow2_pos (kx - 52)
    have huy := pow2_pos (ey - 52)
    rw [hey2]
    have hB : pow2 (kx + 1) = ((2 ^ 53 : Int) : ℚ) * pow2 (kx - 52) := by
      have : kx + 1 = 53 + (kx - 52) := by ring
      rw [this, pow2_add]
      congr 1
    have hE : pow2 ey = ((2 ^ 52 : Int) : ℚ) * pow2 (ey - 52) := by
      have : ey = 52 + (ey - 52) := by ring
      conv_lhs => rw [this]
      rw [pow2_add]
      congr 1
    have hx1 : x ≤ pow2 (kx + 1) :=
      le_trans hxu.le (pow2_mono (by have := le_max_left ex (-1022); omega))
    have h1 : roundHalfEven (x / pow2 (kx - 52)) ≤ 2 ^ 53 := by
      apply roundHalfEven_le_of_le
      rw [div_le_iff₀ hux, ← hB]
      exact hx1
    have h2 : (2 ^ 52 : Int) ≤ roundHalfEven (y / pow2 (ey - 52)) := by
      apply roundHalfEven_ge_of_ge
      rw [le_div_iff₀ huy, ← hE]
      exact hyl
    have h3 : ((roundHalfEven (x / pow2 (kx - 52)) : Int) : ℚ) * pow2 (kx - 52) ≤
        pow2 (kx + 1) := by
      rw [hB]
      exact mul_le_mul_of_nonneg_right (by exact_mod_cast h1) hux.le
    have h4 : pow2 ey ≤ ((roundHalfEven (y / pow2 (ey - 52)) : Int) : ℚ) * pow2 (ey - 52) := by
      rw [hE]
      exact mul_le_mul_of_nonneg_right (by exact_mod_cast h2) huy.le
    have h5 : pow2 (kx + 1) ≤ pow2 ey := pow2_mono hstep
    linarith

/-- The rounding to a double is monotone. -/
theorem toDouble_mono (x y : ℚ) (h : x ≤ y) : toDouble x ≤ toDouble y := by
  rcases lt_trichotomy 0 x with hx | hx | hx
  · exact toDouble_mono_pos x y hx h
  · rw [← hx, toDouble_zero]
    exact toDouble_nonneg y (by linarith)
  · rcases le_or_lt 0 y with hy | hy
    · have h1 := toDouble_nonneg (-x) (by linarith)
      rw [toDouble_neg] at h1
      have h2 := toDouble_nonneg y hy
      linarith
    · have h1 := toDouble_mono_pos (-y) (-x) (by linarith) (by linarith)
      rw [toDouble_neg, toDouble_neg] at h1
      linarith

/-- A multiple of a half below `2 ^ 52` in size is a double. -/
theorem toDouble_half (z : Int) (h : |z| < 2 ^ 53) : toDouble ((z : ℚ) / 2) = (z : ℚ) / 2 := by
  by_cases hz : z = 0
  · rw [hz]; simp [toDouble]
  · have hq : (z : ℚ) / 2 ≠ 0 := by
      have : (z : ℚ) ≠ 0 := by exact_mod_cast hz
      positivity
    unfold toDouble
    rw [if_neg hq]
    dsimp only
    set e := exponentOf |(z : ℚ) / 2| with he
    have habs : 0 < |(z : ℚ) / 2| := abs_pos.mpr hq
    have hle : pow2 e ≤ |(z : ℚ) / 2| := pow2_exponentOf_le _ habs
    have hlt : |(z : ℚ) / 2| < pow2 52 := by
      rw [pow2_eq, abs_div]
      have : ((|z| : Int) : ℚ) < ((2 ^ 53 : Int) : ℚ) := by exact_mod_cast h
      rw [Int.cast_abs] at this
      norm_num at this ⊢
      linarith
    have he52 : e < 52 := by
      by_contra hc
      have := pow2_mono (not_lt.mp hc)
      linarith
    have hk : max e (-1022) - 52 ≤ -1 := by
      have : max e (-1022) ≤ 51 := max_le (by omega) (by norm_num)
      omega
    obtain ⟨m, hm⟩ := Int.eq_ofNat_of_zero_le (by omega : 0 ≤ -(max e (-1022) - 52) - 1)
    have ek : max e (-1022) - 52 = -((m : Int) + 1) := by omega
    rw [ek]
    have hp : pow2 (-((m : Int) + 1)) = 1 / (2 : ℚ) ^ (m + 1) := by
      rw [pow2_eq, zpow_neg]
      have : ((m : Int) + 1) = ((m + 1 : Nat) : Int) := by push_cast; rfl
      rw [this, zpow_natCast]
      simp
    rw [hp]
    have e1 : (z : ℚ) / 2 / (1 / (2 : ℚ) ^ (m + 1)) = ((z * 2 ^ m : Int) : ℚ) := by
      push_cast
      field_simp
      ring
    rw [e1, roundHalfEven_intCast]
    push_cast
    field_simp
    ring

/-- The doubles of some quotients, products and sums that occur below, as exact fractions:
`0.1`, `1366 / 1100`, `275 * (1366 / 1100)` (printed `341.49999999999994`),
`200 + 275 * (1366 / 1100)` (`541.5`), `7 * (1917 / 14)` (printed `958.4999999999999`) and
`3 * (9007199254740991 / 3)` (`9007199254740992`). -/
theorem toDouble_values :
    toDouble (1 / 10) = 3602879701896397 / 36028797018963968 ∧
    toDouble (1366 / 1100) = 2796325950449135 / 2251799813685248 ∧
    toDouble (275 * toDouble (1366 / 1100)) = 6007731534168063 / 17592186044416 ∧
    toDouble (200 + toDouble (275 * toDouble (1366 / 1100))) = 1083 / 2 ∧
    toDouble (7 * toDouble (1917 / 14)) = 8431055161786367 / 8796093022208 ∧
    toDouble (3 * toDouble (9007199254740991 / 3)) = 9007199254740992 := by
  decide!

/-! ## The size written back after a drag -/

/-- With exact numbers an integer can be moved out of `Math.round`. -/
theorem jsRound_int_add (a : Int) (x : ℚ) : jsRound ((a : ℚ) + x) = a + jsRound x := by
  unfold jsRound
  rw [add_assoc, Int.floor_int_add]

/-- Rounding the double of `a + p`, for an integer `a` and a sum of at most `2 ^ 25` in
size, gives `a + Math.round(p)` or one more: the half-integers are doubles and the rounding
to a double is monotone, so the double of the sum stays between the two half-integers that
enclose the sum. -/
theorem jsRound_sum (a : Int) (p : ℚ) (hb : |(a : ℚ) + p| ≤ 2 ^ 25) :
    jsRound (toDouble ((a : ℚ) + p)) = a + jsRound p ∨
      jsRound (toDouble ((a : ℚ) + p)) = a + jsRound p + 1 := by
  have hr1 : ((jsRound p : Int) : ℚ) ≤ p + 1 / 2 := Int.floor_le (p + 1 / 2)
  have hr2 : p + 1 / 2 < ((jsRound p : Int) : ℚ) + 1 := Int.lt_floor_add_one (p + 1 / 2)
  have hab := abs_le.mp hb
  have hq1 : ((a + jsRound p : Int) : ℚ) ≤ 2 ^ 25 + 1 / 2 := by push_cast; linarith [hab.2]
  have hq2 : -(2 ^ 25 : ℚ) - 1 / 2 < ((a + jsRound p : Int) : ℚ) := by
    push_cast; linarith [hab.1]
  have hi1 : a + jsRound p ≤ 2 ^ 25 := by
    have : ((a + jsRound p : Int) : ℚ) < ((2 ^ 25 + 1 : Int) : ℚ) := by
      push_cast; push_cast at hq1; linarith
    have := Int.cast_lt.mp this
    omega
  have hi2 : -(2 ^ 25 : Int) ≤ a + jsRound p := by
    have : ((-(2 ^ 25) - 1 : Int) : ℚ) < ((a + jsRound p : Int) : ℚ) := by
      push_cast; push_cast at hq2; linarith
    have := Int.cast_lt.mp this
    omega
  have hz1 : |2 * (a + jsRound p) - 1| < 2 ^ 53 := by rw [abs_lt]; constructor <;> omega
  have hz2 : |2 * (a + jsRound p) + 1| < 2 ^ 53 := by rw [abs_lt]; constructor <;> omega
  have hd1 := toDouble_half _ hz1
  have hd2 := toDouble_half _ hz2
  have hlow : ((2 * (a + jsRound p) - 1 : Int) : ℚ) / 2 ≤ (a : ℚ) + p := by
    push_cast; linarith
  have hupp : (a : ℚ) + p ≤ ((2 * (a + jsRound p) + 1 : Int) : ℚ) / 2 := by
    push_cast; linarith
  have hm1 := toDouble_mono _ _ hlow
  have hm2 := toDouble_mono _ _ hupp
  rw [hd1] at hm1
  rw [hd2] at hm2
  have hge : a + jsRound p ≤ jsRound (toDouble ((a : ℚ) + p)) := by
    unfold jsRound
    rw [Int.le_floor]
    have e : ((a + ⌊p + 1 / 2⌋ : Int) : ℚ) = ((2 * (a + jsRound p) - 1 : Int) : ℚ) / 2 + 1 / 2 := by
      unfold jsRound; push_cast; ring
    rw [e]
    linarith
  have hle : jsRound (toDouble ((a : ℚ) + p)) < a + jsRound p + 2 := by
    unfold jsRound
    rw [Int.floor_lt]
    have e : ((a + ⌊p + 1 / 2⌋ + 2 : Int) : ℚ) =
        ((2 * (a + jsRound p) + 1 : Int) : ℚ) / 2 + 1 / 2 + 1 := by
      unfold jsRound; push_cast; ring
    rw [e]
    linarith
  omega

/-- One axis of `updateCameraCoords` for an integer screen size and a canvas size that is
not 0: the two numbers are integers, and their difference is `Math.round(size * scale)` or
one more as long as the sum `first + size * scale` is not above `2 ^ 25` in size. -/
theorem updateAxis_size (n : Int) (start size canvasSize : ℚ) (hc : canvasSize ≠ 0) :
    ∃ a b : Int, updateAxis (.int n) start size canvasSize = (.int a, .int b) ∧
      a = jsRound (toDouble (start * toDouble ((n : ℚ) / canvasSize))) ∧
      b = jsRound (toDouble ((a : ℚ) + toDouble (size * toDouble ((n : ℚ) / canvasSize)))) ∧
      (|(a : ℚ) + toDouble (size * toDouble ((n : ℚ) / canvasSize))| ≤ 2 ^ 25 →
        b - a = jsRound (toDouble (size * toDouble ((n : ℚ) / canvasSize))) ∨
        b - a = jsRound (toDouble (size * toDouble ((n : ℚ) / canvasSize))) + 1) := by
  refine ⟨_, _, by simp only [updateAxis, if_neg hc], rfl, rfl, ?_⟩
  intro hb
  rcases jsRound_sum _ _ hb with h | h
  · left; rw [h]; ring
  · right; rw [h]; ring

/-- C28 (counterexample): on a screen 1366 wide shown in a canvas 1100 px wide, a box
275 px wide is written back 341 wide when its left edge is at 0, and 342 wide when its left
edge is at 161 px: `275 * (1366 / 1100)` is `341.49999999999994` in double precision, and
the sum `200 + 341.49999999999994` is rounded to `541.5`. -/
theorem drag_changes_size :
    updateCameraCoords (.int 1366) (.int 768)
        { left := 0, top := 0, width := 275, height := 100 }
        { left := 0, top := 0, width := 1100, height := 600 } =
      [.int 0, .int 0, .int 341, .int 128] ∧
    updateCameraCoords (.int 1366) (.int 768)
        { left := 161, top := 0, width := 275, height := 100 }
        { left := 0, top := 0, width := 1100, height := 600 } =
      [.int 200, .int 0, .int 542, .int 128] := by
  decide!

/-- C28 (amended): for an integer screen size and a canvas of a size that is not 0,
`updateCameraCoords` computes `x1 = round(left * sx)` and `x2 = round(x1 + width * sx)` in
double precision, so that `x2 - x1` is `round(width * sx)` or one more, and `y2 - y1` is
`round(height * sy)` or one more, for coordinates up to `2 ^ 25`; a drag assigns `left` and
`top` of the style only, so the width and the height of the style are those before the drag at
every drag position. -/
theorem drag_keeps_size (W H : Int) (canvasRect : DOMRect) (hcw : canvasRect.width ≠ 0)
    (hch : canvasRect.height ≠ 0) :
    (∀ rect : DOMRect, ∃ x1 y1 x2 y2 : Int,
      updateCameraCoords (.int W) (.int H) rect canvasRect =
        [.int x1, .int y1, .int x2, .int y2] ∧
      x1 = jsRound (toDouble (toDouble (rect.left - canvasRect.left) *
        toDouble ((W : ℚ) / canvasRect.width))) ∧
      y1 = jsRound (toDouble (toDouble (rect.top - canvasRect.top) *
        toDouble ((H : ℚ) / canvasRect.height))) ∧
      x2 = jsRound (toDouble ((x1 : ℚ) +
        toDouble (rect.width * toDouble ((W : ℚ) / canvasRect.width)))) ∧
      y2 = jsRound (toDouble ((y1 : ℚ) +
        toDouble (rect.height * toDouble ((H : ℚ) / canvasRect.height)))) ∧
      (|(x1 : ℚ) + toDouble (rect.width * toDouble ((W : ℚ) / canvasRect.width))| ≤ 2 ^ 25 →
        x2 - x1 = jsRound (toDouble (rect.width * toDouble ((W : ℚ) / canvasRect.width))) ∨
        x2 - x1 =
          jsRound (toDouble (rect.width * toDouble ((W : ℚ) / canvasRect.width))) + 1) ∧
      (|(y1 : ℚ) + toDouble (rect.height * toDouble ((H : ℚ) / canvasRect.height))| ≤ 2 ^ 25 →
        y2 - y1 = jsRound (toDouble (rect.height * toDouble ((H : ℚ) / canvasRect.height))) ∨
        y2 - y1 =
          jsRound (toDouble (rect.height * toDouble ((H : ℚ) / canvasRect.height))) + 1)) ∧
    (∀ (startLeft startTop deltaX deltaY draggedWidth draggedHeight : ℚ)
      (otherCameras : List DOMRect) (style : Style),
      (dragStyle startLeft startTop deltaX deltaY draggedWidth draggedHeight canvasRect
        otherCameras style).width = style.width ∧
      (dragStyle startLeft startTop deltaX deltaY draggedWidth draggedHeight canvasRect
        otherCameras style).height = style.height) := by
  refine ⟨?_, fun _ _ _ _ _ _ _ _ => ⟨rfl, rfl⟩⟩
  intro rect
  obtain ⟨a, b, e1, ha, hb, hs1⟩ := updateAxis_size W (toDouble (rect.left - canvasRect.left))
    rect.width canvasRect.width hcw
  obtain ⟨c, d, e2, hc, hd, hs2⟩ := updateAxis_size H (toDouble (rect.top - canvasRect.top))
    rect.height canvasRect.height hch
  refine ⟨a, c, b, d, ?_, ha, hc, hb, hd, hs1, hs2⟩
  simp only [updateCameraCoords, e1, e2]

/-- C28 (witness): the box of the counterexample at its second position. -/
theorem drag_keeps_size_witness :
    ∃ x1 y1 x2 y2 : Int,
      updateCameraCoords (.int 1366) (.int 768)
          { left := 161, top := 0, width := 275, height := 100 }
          { left := 0, top := 0, width := 1100, height := 600 } =
        [.int x1, .int y1, .int x2, .int y2] ∧
      (|(x1 : ℚ) + toDouble (275 * toDouble (((1366 : Int) : ℚ) / 1100))| ≤ 2 ^ 25 →
        x2 - x1 = jsRound (toDouble (275 * toDouble (((1366 : Int) : ℚ) / 1100))) ∨
        x2 - x1 = jsRound (toDouble (275 * toDouble (((1366 : Int) : ℚ) / 1100))) + 1) := by
  obtain ⟨x1, y1, x2, y2, e, _, _, _, _, h, _⟩ :=
    (drag_keeps_size 1366 768 { left := 0, top := 0, width := 1100, height := 600 }
      (by decide) (by decide)).1 { left := 161, top := 0, width := 275, height := 100 }
  exact ⟨x1, y1, x2, y2, e, h⟩

/-! ## The automatic layout tiles the screen -/

theorem gridLine_zero (size parts : Int) : gridLine size parts 0 = 0 := by
  unfold gridLine
  rw [Nat.cast_zero, zero_mul, toDouble_zero]
  exact_mod_cast jsRound_intCast 0

theorem jsRound_of_near (y : ℚ) (n : Int) (h : |y - (n : ℚ)| < 1 / 2) : jsRound y = n := by
  unfold jsRound
  rw [Int.floor_eq_iff]
  have := abs_lt.mp h
  constructor <;> linarith [this.1, this.2]

theorem jsRound_step (a b : ℚ) (h : a + 1 ≤ b) : jsRound a + 1 ≤ jsRound b := by
  unfold jsRound
  rw [← Int.floor_add_one]
  exact Int.floor_le_floor (by linarith)

/-- The cell size in double precision, for `1 ≤ parts ≤ size < 2 ^ 24`: within `2 ^ (-27)`
of the exact quotient. -/
theorem cellSize_near (size parts : Int) (hp : 1 ≤ parts) (hs : parts ≤ size)
    (hb : size < 2 ^ 24) :
    |toDouble ((size : ℚ) / (parts : ℚ)) - (size : ℚ) / (parts : ℚ)| ≤ 1 / 2 ^ 27 ∧
    1 ≤ (size : ℚ) / (parts : ℚ) ∧ (size : ℚ) / (parts : ℚ) ≤ 2 ^ 24 := by
  have hpq : (1 : ℚ) ≤ (parts : ℚ) := by exact_mod_cast hp
  have hsq : (parts : ℚ) ≤ (size : ℚ) := by exact_mod_cast hs
  have hbq : (size : ℚ) < 2 ^ 24 := by exact_mod_cast hb
  have hpos : (0 : ℚ) < (parts : ℚ) := by linarith
  have h1 : 1 ≤ (size : ℚ) / (parts : ℚ) := by rw [le_div_iff₀ hpos]; linarith
  have h2 : (size : ℚ) / (parts : ℚ) ≤ 2 ^ 24 := by
    rw [div_le_iff₀ hpos]
    nlinarith
  refine ⟨toDouble_near _ ?_, h1, h2⟩
  rw [abs_of_nonneg (by linarith)]
  linarith

/-- The product `k * cell` in double precision, for `k ≤ parts`: within `2 ^ (-27)` of the
product. -/
theorem cellProduct_near (size parts : Int) (k : Nat) (hp : 1 ≤ parts) (hs : parts ≤ size)
    (hb : size < 2 ^ 24) (hk : (k : Int) ≤ parts) :
    |toDouble ((k : ℚ) * toDouble ((size : ℚ) / (parts : ℚ))) -
      (k : ℚ) * toDouble ((size : ℚ) / (parts : ℚ))| ≤ 1 / 2 ^ 27 ∧
    |(k : ℚ) * toDouble ((size : ℚ) / (parts : ℚ)) - (k : ℚ) * ((size : ℚ) / (parts : ℚ))| ≤
      (parts : ℚ) / 2 ^ 27 := by
  obtain ⟨hq, h1, h2⟩ := cellSize_near size parts hp hs hb
  have hpq : (1 : ℚ) ≤ (parts : ℚ) := by exact_mod_cast hp
  have hsq : (parts : ℚ) ≤ (size : ℚ) := by exact_mod_cast hs
  have hbq : (size : ℚ) < 2 ^ 24 := by exact_mod_cast hb
  have hkq : (k : ℚ) ≤ (parts : ℚ) := by exact_mod_cast hk
  have hk0 : (0 : ℚ) ≤ (k : ℚ) := by positivity
  have hpos : (0 : ℚ) < (parts : ℚ) := by linarith
  set x := (size : ℚ) / (parts : ℚ) with hx
  set q := toDouble x with hqd
  have hqa := abs_le.mp hq
  have hkx : (k : ℚ) * x ≤ (size : ℚ) := by
    have : (k : ℚ) * x ≤ (parts : ℚ) * x := mul_le_mul_of_nonneg_right hkq (by linarith)
    have e : (parts : ℚ) * x = (size : ℚ) := by rw [hx]; field_simp
    linarith
  have hd : |(k : ℚ) * q - (k : ℚ) * x| ≤ (parts : ℚ) / 2 ^ 27 := by
    rw [← mul_sub, abs_mul, abs_of_nonneg hk0]
    calc (k : ℚ) * |q - x| ≤ (parts : ℚ) * |q - x| :=
          mul_le_mul_of_nonneg_right hkq (abs_nonneg _)
      _ ≤ (parts : ℚ) * (1 / 2 ^ 27) := mul_le_mul_of_nonneg_left hq hpos.le
      _ = (parts : ℚ) / 2 ^ 27 := by ring
  refine ⟨toDouble_near _ ?_, hd⟩
  have hda := abs_le.mp hd
  have hp27 : (parts : ℚ) / 2 ^ 27 ≤ 1 := by
    rw [div_le_one (by positivity)]
    linarith [show (2 : ℚ) ^ 24 ≤ 2 ^ 27 by norm_num]
  have hnn : 0 ≤ (k : ℚ) * q := by
    apply mul_nonneg hk0
    linarith [show (1 : ℚ) / 2 ^ 27 ≤ 1 by norm_num]
  rw [abs_of_nonneg hnn]
  have : (k : ℚ) * q ≤ (size : ℚ) + 1 := by linarith [hda.2]
  linarith [show (2 : ℚ) ^ 24 + 1 ≤ 2 ^ 25 by norm_num]

/-- The last grid line is the size of the screen. -/
theorem gridLine_full (size parts : Int) (k : Nat) (hp : 1 ≤ parts) (hs : parts ≤ size)
    (hb : size < 2 ^ 24) (hk : (k : Int) = parts) : gridLine size parts k = size := by
  obtain ⟨h1, h2⟩ := cellProduct_near size parts k hp hs hb (le_of_eq hk)
  have hpq : (1 : ℚ) ≤ (parts : ℚ) := by exact_mod_cast hp
  have hsq : (parts : ℚ) ≤ (size : ℚ) := by exact_mod_cast hs
  have hbq : (size : ℚ) < 2 ^ 24 := by exact_mod_cast hb
  have hkq : (k : ℚ) = (parts : ℚ) := by exact_mod_cast hk
  have e : (k : ℚ) * ((size : ℚ) / (parts : ℚ)) = (size : ℚ) := by
    rw [hkq]; field_simp
  rw [e] at h2
  unfold gridLine
  apply jsRound_of_near
  have a1 := abs_le.mp h1
  have a2 := abs_le.mp h2
  have hp27 : (parts : ℚ) / 2 ^ 27 ≤ 1 / 8 := by
    rw [div_le_iff₀ (by positivity)]
    linarith [show (1 : ℚ) / 8 * 2 ^ 27 = 2 ^ 24 by norm_num]
  rw [abs_lt]
  constructor <;> linarith [a1.1, a1.2, a2.1, a2.2, show (1 : ℚ) / 2 ^ 27 < 1 / 4 by norm_num]

/-- Every cell is at least one pixel wide: the next grid line is at least one further. -/
theorem gridLine_step (size parts : Int) (k : Nat) (hp : 1 ≤ parts) (hs : parts ≤ size)
    (hb : size < 2 ^ 24) (hk : (k : Int) + 1 ≤ parts) :
    gridLine size parts k + 1 ≤ gridLine size parts (k + 1) := by
  have hk1 : ((k + 1 : Nat) : Int) ≤ parts := by push_cast; exact hk
  rcases eq_or_lt_of_le hs with heq | hlt
  · have hpq : (parts : ℚ) ≠ 0 := by
      have : parts ≠ 0 := by omega
      exact_mod_cast this
    have hx : (size : ℚ) / (parts : ℚ) = ((1 : Int) : ℚ) := by
      rw [← heq]; simp [hpq]
    have hq : toDouble ((size : ℚ) / (parts : ℚ)) = 1 := by
      rw [hx, toDouble_intCast 1 (by norm_num)]; simp
    have hline : ∀ m : Nat, (m : Int) ≤ parts → gridLine size parts m = m := by
      intro m hm
      unfold gridLine
      rw [hq, mul_one]
      have hm2 : |(m : Int)| < 2 ^ 53 := by
        rw [abs_of_nonneg (by positivity)]
        omega
      have := toDouble_intCast (m : Int) hm2
      rw [Int.cast_natCast] at this
      rw [this]
      exact_mod_cast jsRound_intCast (m : Int)
    rw [hline k (by omega), hline (k + 1) hk1]
    push_cast
    exact le_rfl
  · obtain ⟨hq, h1, _⟩ := cellSize_near size parts hp hs hb
    obtain ⟨ha, _⟩ := cellProduct_near size parts k hp hs hb (by omega)
    obtain ⟨hb2, _⟩ := cellProduct_near size parts (k + 1) hp hs hb hk1
    have hpq : (1 : ℚ) ≤ (parts : ℚ) := by exact_mod_cast hp
    have hpb : (parts : ℚ) < 2 ^ 24 := by
      have : parts < 2 ^ 24 := by omega
      exact_mod_cast this
    have hpos : (0 : ℚ) < (parts : ℚ) := by linarith
    have hx : 1 + 1 / (parts : ℚ) ≤ (size : ℚ) / (parts : ℚ) := by
      have : (parts : ℚ) + 1 ≤ (size : ℚ) := by
        have : parts + 1 ≤ size := by omega
        exact_mod_cast this
      rw [le_div_iff₀ hpos]
      have e : (1 + 1 / (parts : ℚ)) * (parts : ℚ) = (parts : ℚ) + 1 := by field_simp
      rw [e]
      exact this
    have hinv : (1 : ℚ) / 2 ^ 24 < 1 / (parts : ℚ) := one_div_lt_one_div_of_lt hpos hpb
    unfold gridLine
    apply jsRound_step
    have a0 := abs_le.mp hq
    have a1 := abs_le.mp ha
    have a2 := abs_le.mp hb2
    have e : ((k + 1 : Nat) : ℚ) * toDouble ((size : ℚ) / (parts : ℚ)) =
        (k : ℚ) * toDouble ((size : ℚ) / (parts : ℚ)) + toDouble ((size : ℚ) / (parts : ℚ)) := by
      push_cast; ring
    have h3 : (3 : ℚ) / 2 ^ 27 < 1 / 2 ^ 24 := by norm_num
    linarith [a0.1, a1.2, a2.1, e]

theorem gridLine_mono (size parts : Int) (hp : 1 ≤ parts) (hs : parts ≤ size)
    (hb : size < 2 ^ 24) (k : Nat) :
    ∀ m : Nat, k ≤ m → (m : Int) ≤ parts → gridLine size parts k ≤ gridLine size parts m := by
  intro m hkm
  induction m, hkm using Nat.le_induction with
  | base => intro _; exact le_rfl
  | succ m hm ih =>
    intro hmp
    have hmp2 : (m : Int) + 1 ≤ parts := by push_cast at hmp; exact hmp
    have := gridLine_step size parts m hp hs hb hmp2
    have := ih (by omega)
    omega

/-- The number of rows `Math.ceil(N / c)` has room for every index below `N`. -/
theorem rows_room (c N i : Nat) (hc : 1 ≤ c) (hi : i < N) :
    ((i / c + 1 : Nat) : Int) ≤ ⌈(N : ℚ) / (c : ℚ)⌉ := by
  have hcq : (0 : ℚ) < (c : ℚ) := by exact_mod_cast hc
  have h2 : ((i / c : Nat) : Int) < ⌈(N : ℚ) / (c : ℚ)⌉ := by
    rw [Int.lt_ceil]
    rw [lt_div_iff₀ hcq]
    have h3 : (i / c) * c ≤ i := Nat.div_mul_le_self i c
    have h4 : (i / c) * c < N := lt_of_le_of_lt h3 hi
    have h5 : (((i / c) * c : Nat) : ℚ) < (N : ℚ) := by exact_mod_cast h4
    push_cast at h5
    simpa using h5
  push_cast
  omega

theorem index_split (c i j : Nat) (h : j ≠ i) : i % c ≠ j % c ∨ i / c ≠ j / c := by
  by_contra hn
  push_neg at hn
  apply h
  rw [← Nat.div_add_mod i c, ← Nat.div_add_mod j c, hn.1, hn.2]

/-- The number of streams is at most the number of cells of the grid. -/
theorem streams_le_cells (c N : Nat) (hc : 1 ≤ c) :
    (N : Int) ≤ ⌈(N : ℚ) / (c : ℚ)⌉ * (c : Int) := by
  have hcq : (0 : ℚ) < (c : ℚ) := by exact_mod_cast hc
  have h1 : (N : ℚ) / (c : ℚ) ≤ ((⌈(N : ℚ) / (c : ℚ)⌉ : Int) : ℚ) := Int.le_ceil _
  rw [div_le_iff₀ hcq] at h1
  exact_mod_cast h1

/-- A screen of three streams without coordinates, in three columns. -/
def threeStreams : Screen :=
  { newScreen with
    nr_of_columns := some (.int 3)
    streams := List.replicate 3 (newStream none "a".toList false) }

/-- C27 (counterexample): on a screen `2 ^ 53 - 1` wide with three columns, the last column
ends at `2 ^ 53`, one pixel beyond the screen: the double product `3 * (W / 3)` is rounded
up. -/
theorem auto_layout_past_width :
    (camerasWithoutCoords threeStreams).length = 3 ∧
    ((showScreenPreviewDraggable (.int 9007199254740991) (.int 1080)
      threeStreams).1.streams[2]?).bind effectiveCoords =
      some [.int 6004799503160661, .int 0, .int 9007199254740992, .int 1080] ∧
    (9007199254740991 : Int) < 9007199254740992 := by
  decide!

/-- C27 (amended): for `N ≥ 1` streams without coordinates, `c ≥ 1` columns and a resolution
with `c ≤ W < 2 ^ 24` and `ceil(N/c) ≤ H < 2 ^ 24`, the cell of every index below `N` lies
on the screen with positive width and height, the last column ends at the screen width and
the last row at the screen height, the right edge of a cell is the left edge of the next
cell of its row, and the cells of two different indices have disjoint interiors. -/
theorem auto_layout_tiling (W H : Int) (c N : Nat) (hN : 1 ≤ N) (hc : 1 ≤ c)
    (hW : (c : Int) ≤ W) (hH : ⌈(N : ℚ) / (c : ℚ)⌉ ≤ H) (hWb : W < 2 ^ 24)
    (hHb : H < 2 ^ 24) (i : Nat) (hi : i < N) :
    ∃ x1 y1 x2 y2 : Int,
      previewCell (.int W) (.int H) (c : Int) ⌈toDouble ((N : ℚ) / ((c : Int) : ℚ))⌉ i =
        [.int x1, .int y1, .int x2, .int y2] ∧
      0 ≤ x1 ∧ x1 < x2 ∧ x2 ≤ W ∧ 0 ≤ y1 ∧ y1 < y2 ∧ y2 ≤ H ∧
      (i % c + 1 = c → x2 = W) ∧
      (((i / c + 1 : Nat) : Int) = ⌈(N : ℚ) / (c : ℚ)⌉ → y2 = H) ∧
      ∀ j, j < N → ∃ u1 v1 u2 v2 : Int,
        previewCell (.int W) (.int H) (c : Int) ⌈toDouble ((N : ℚ) / ((c : Int) : ℚ))⌉ j =
          [.int u1, .int v1, .int u2, .int v2] ∧
        (j / c = i / c → j % c = i % c + 1 → u1 = x2 ∧ v1 = y1 ∧ v2 = y2) ∧
        (j ≠ i → x2 ≤ u1 ∨ u2 ≤ x1 ∨ y2 ≤ v1 ∨ v2 ≤ y1) := by
  have hcpos : 0 < c := hc
  have hcI : (1 : Int) ≤ (c : Int) := by exact_mod_cast hc
  have hcb : c < 2 ^ 53 := by
    have : (c : Int) < 2 ^ 53 := by omega
    exact_mod_cast this
  have hR1 : 1 ≤ ⌈(N : ℚ) / (c : ℚ)⌉ := rows_positive N c hN hcpos
  have hNb : N < 2 ^ 52 := by
    have h1 := streams_le_cells c N hc
    have h2 : ⌈(N : ℚ) / (c : ℚ)⌉ * (c : Int) < 2 ^ 52 := by nlinarith
    have : (N : Int) < 2 ^ 52 := by omega
    exact_mod_cast this
  have hcell : ∀ k, k < N →
      previewCell (.int W) (.int H) (c : Int) ⌈toDouble ((N : ℚ) / ((c : Int) : ℚ))⌉ k =
        gridRect W H c N k := by
    intro k hk
    rw [rows_eq N c hcpos hNb hcb]
    exact previewCell_eq W H c N k hcpos hN (by omega) hcb
  have hmod : ∀ k, k % c < c := fun k => Nat.mod_lt k hcpos
  have gx0 := gridLine_zero W c
  have gy0 := gridLine_zero H ⌈(N : ℚ) / (c : ℚ)⌉
  have gxm := gridLine_mono W c hcI hW hWb
  have gym := gridLine_mono H ⌈(N : ℚ) / (c : ℚ)⌉ hR1 hH hHb
  have gxs := gridLine_step W c
  have gys := gridLine_step H ⌈(N : ℚ) / (c : ℚ)⌉
  have gxf := gridLine_full W c c hcI hW hWb rfl
  have hroom := fun k (hk : k < N) => rows_room c N k hc hk
  refine ⟨_, _, _, _, hcell i hi, ?_, ?_, ?_, ?_, ?_, ?_, ?_, ?_, ?_⟩
  · have := gxm 0 (i % c) (Nat.zero_le _) (by have := hmod i; omega)
    omega
  · have := gxs (i % c) hcI hW hWb (by have := hmod i; omega)
    omega
  · have := gxm (i % c + 1) c (hmod i) le_rfl
    omega
  · have := gym 0 (i / c) (Nat.zero_le _) (by have := hroom i hi; push_cast at this; omega)
    omega
  · have := gys (i / c) hR1 hH hHb (by have := hroom i hi; push_cast at this; omega)
    omega
  · obtain ⟨r, hr⟩ := Int.eq_ofNat_of_zero_le (by omega : 0 ≤ ⌈(N : ℚ) / (c : ℚ)⌉)
    have h1 := gym (i / c + 1) r (by have := hroom i hi; omega) (by omega)
    have h2 := gridLine_full H ⌈(N : ℚ) / (c : ℚ)⌉ r hR1 hH hHb hr.symm
    omega
  · intro h
    rw [h]
    exact gxf
  · intro h
    exact gridLine_full H ⌈(N : ℚ) / (c : ℚ)⌉ (i / c + 1) hR1 hH hHb h
  · intro j hj
    refine ⟨_, _, _, _, hcell j hj, ?_, ?_⟩
    · intro hrow hcol
      rw [hrow, hcol]
      exact ⟨rfl, rfl, rfl⟩
    · intro hne
      rcases index_split c i j hne with hm | hd
      · rcases Nat.lt_or_gt_of_ne hm with h | h
        · exact Or.inl (gxm _ _ h (by have := hmod j; omega))
        · exact Or.inr (Or.inl (gxm _ _ h (by have := hmod i; omega)))
      · rcases Nat.lt_or_gt_of_ne hd with h | h
        · exact Or.inr (Or.inr (Or.inl (gym _ _ h
            (by have := hroom j hj; push_cast at this; omega))))
        · exact Or.inr (Or.inr (Or.inr (gym _ _ h
            (by have := hroom i hi; push_cast at this; omega))))

/-- C27 (witness): the fifth of five streams in two columns at 1920 x 1080. -/
theorem auto_layout_tiling_witness :
    ∃ x1 y1 x2 y2 : Int,
      previewCell (.int 1920) (.int 1080) ((2 : Nat) : Int)
          ⌈toDouble (((5 : Nat) : ℚ) / (((2 : Nat) : Int) : ℚ))⌉ 4 =
        [.int x1, .int y1, .int x2, .int y2] ∧
      0 ≤ x1 ∧ x1 < x2 ∧ x2 ≤ 1920 ∧ 0 ≤ y1 ∧ y1 < y2 ∧ y2 ≤ 1080 := by
  obtain ⟨x1, y1, x2, y2, e, h1, h2, h3, h4, h5, h6, _⟩ :=
    auto_layout_tiling 1920 1080 2 5 (by decide) (by decide) (by decide) (by decide!)
      (by decide) (by decide) 4 (by decide)
  exact ⟨x1, y1, x2, y2, e, h1, h2, h3, h4, h5, h6⟩

/-! ## The gestures of the preview -/

/-- A `.preview-camera` element of the canvas with what the pointer and key handlers read
and write: the data set, the inline percent style, and whether `style.cursor` is
`grabbing`. -/
structure CameraElement where
  div : CameraDiv
  style : Style
  grabbing : Bool
  deriving DecidableEq

/-- The object `previewState`.  The element references `dragging` and `resizing` are kept
as the place of the element among the camera elements of the canvas; `null` is `none`. -/
structure PreviewState where
  dragging : Option Nat
  resizing : Option Nat
  startX : ℚ
  startY : ℚ
  startLeft : ℚ
  startTop : ℚ
  startWidth : ℚ
  startHeight : ℚ
  screenWidth : JSNumber
  screenHeight : JSNumber
  hasChanges : Bool
  selectedCamera : Option Nat
  deriving DecidableEq

/-- The initial value of `previewState`. -/
def initialPreviewState : PreviewState :=
  { dragging := none, resizing := none, startX := 0, startY := 0, startLeft := 0,
    startTop := 0, startWidth := 0, startHeight := 0, screenWidth := .int 1920,
    screenHeight := .int 1080, hasChanges := false, selectedCamera := none }

/-- The state that the handlers of the preview work on: `previewState` and the camera
elements of the canvas, in document order. -/
structure Preview where
  previewState : PreviewState
  cameras : List CameraElement
  deriving DecidableEq

/-- The listener of `mousedown` on the camera element at place `target`, for an event
whose target is not inside the resize handle.  It does not look at `previewState.resizing`
or at `previewState.dragging`. -/
def onMousedown (canvasRect : DOMRect) (target : Nat) (clientX clientY : ℚ) (p : Preview) :
    Preview :=
  match p.cameras[target]? with
  | none => p
  | some cameraDiv =>
    let rect := getBoundingClientRect canvasRect cameraDiv.style
    { previewState := { p.previewState with
        selectedCamera := some cameraDiv.div.index
        dragging := some target
        startX := clientX
        startY := clientY
        startLeft := rect.left - canvasRect.left
        startTop := rect.top - canvasRect.top }
      cameras := modifyAt (fun c => { c with grabbing := true }) target p.cameras }

/-- The listener of `mousedown` on the resize handle of the camera element at place
`target`; `stopPropagation` keeps the event from the listener of the element.  It does not
look at `previewState.dragging` or at `previewState.resizing`. -/
def onHandleMousedown (canvasRect : DOMRect) (target : Nat) (clientX clientY : ℚ)
    (p : Preview) : Preview :=
  match p.cameras[target]? with
  | none => p
  | some cameraDiv =>
    let rect := getBoundingClientRect canvasRect cameraDiv.style
    { p with
      previewState := { p.previewState with
        selectedCamera := some cameraDiv.div.index
        resizing := some target
        startX := clientX
        startY := clientY
        startWidth := rect.width
        startHeight := rect.height } }

/-- The branch `if (previewState.dragging)` of the `mousemove` handler. -/
def moveDragging (canvasRect : DOMRect) (clientX clientY : ℚ) (p : Preview) : Preview :=
  match p.previewState.dragging with
  | none => p
  | some k =>
    match p.cameras[k]? with
    | none => p
    | some cam =>
      let s := p.previewState
      let rect := getBoundingClientRect canvasRect cam.style
      let otherCameras :=
        (p.cameras.eraseIdx k).map (fun c => getBoundingClientRect canvasRect c.style)
      let style := dragStyle s.startLeft s.startTop (clientX - s.startX) (clientY - s.startY)
        (offsetSize rect.width) (offsetSize rect.height) canvasRect otherCameras cam.style
      let coords := updateCameraCoords s.screenWidth s.screenHeight
        (getBoundingClientRect canvasRect style) canvasRect
      { previewState := { s with hasChanges := true }
        cameras := modifyAt
          (fun c => { c with style := style, div := { c.div with coords := coords } }) k
          p.cameras }

/-- The branch `if (previewState.resizing)` of the `mousemove` handler. -/
def moveResizing (canvasRect : DOMRect) (clientX clientY : ℚ) (p : Preview) : Preview :=
  match p.previewState.resizing with
  | none => p
  | some k =>
    match p.cameras[k]? with
    | none => p
    | some cam =>
      let s := p.previewState
      let style := resizeStyle s.startWidth s.startHeight (clientX - s.startX)
        (clientY - s.startY) canvasRect cam.style
      let coords := updateCameraCoords s.screenWidth s.screenHeight
        (getBoundingClientRect canvasRect style) canvasRect
      { previewState := { s with hasChanges := true }
        cameras := modifyAt
          (fun c => { c with style := style, div := { c.div with coords := coords } }) k
          p.cameras }

/-- The `mousemove` handler of the document: the branch for a drag, then the branch for a
resize. -/
def onMousemove (canvasRect : DOMRect) (clientX clientY : ℚ) (p : Preview) : Preview :=
  moveResizing canvasRect clientX clientY (moveDragging canvasRect clientX clientY p)

/-- The `mouseup` handler of the document. -/
def onMouseup (p : Preview) : Preview :=
  let p1 : Preview :=
    match p.previewState.dragging with
    | none => p
    | some k =>
      { previewState := { p.previewState with dragging := none }
        cameras := modifyAt (fun c => { c with grabbing := false }) k p.cameras }
  match p1.previewState.resizing with
  | none => p1
  | some _ => { p1 with previewState := { p1.previewState with resizing := none } }

/-- A number that `JSON.parse` reads back from `dataset.coords`, in arithmetic:
`JSON.stringify` has written `NaN` as `null`, and `null` counts as 0. -/
def nullAsZero : JSNumber → JSNumber
  | .nan => .int 0
  | v => v

/-- The assignment of `(value / size) * 100` followed by `%` to a property of the style:
the property keeps `old` when the number is not finite, as the browser rejects the text. -/
def percentOr (value size : JSNumber) (old : ℚ) : ℚ :=
  match value, size with
  | .int a, .int n => if n = 0 then old else (a : ℚ) / (n : ℚ) * 100
  | _, _ => old

/-- The `keydown` handler of the document; `modalActive` says whether the preview modal has
the class `active`.  The camera elements carry arrays of four entries in `dataset.coords`,
the handler is left without effect on another array.  The entries that the branch of the
key does not assign are written back as they were read. -/
def onKeydown (modalActive : Bool) (key : Str) (shiftKey : Bool) (p : Preview) : Preview :=
  let s := p.previewState
  match s.selectedCamera with
  | none => p
  | some selected =>
    if s.dragging.isSome || s.resizing.isSome then p
    else if !modalActive then p
    else
      match p.cameras.findIdx? (fun c => c.div.index == selected) with
      | none => p
      | some k =>
        match (p.cameras[k]?).map (fun c => c.div.coords) with
        | some [x1, y1, x2, y2] =>
          match nudge key (nudgeStep shiftKey) s.screenWidth s.screenHeight (nullAsZero x1)
              (nullAsZero y1) (nullAsZero x2) (nullAsZero y2) with
          | some [m1, m2, m3, m4] =>
            let coords :=
              if key = "ArrowLeft".toList ∨ key = "ArrowRight".toList then [m1, y1, m3, y2]
              else [x1, m2, x2, m4]
            { previewState := { s with hasChanges := true }
              cameras := modifyAt
                (fun c => { c with
                  style := { c.style with
                    left := percentOr m1 s.screenWidth c.style.left
                    top := percentOr m2 s.screenHeight c.style.top }
                  div := { c.div with coords := coords } }) k p.cameras }
          | _ => p
        | _ => p

/-- The events of the preview: a pointer-down on the body or on the resize handle of the
camera element at place `target`, a pointer-move, a pointer-up and a key-down. -/
inductive PreviewEvent
  | mousedownBody (target : Nat) (clientX clientY : ℚ)
  | mousedownHandle (target : Nat) (clientX clientY : ℚ)
  | mousemove (clientX clientY : ℚ)
  | mouseup
  | keydown (key : Str) (shiftKey : Bool)
  deriving DecidableEq

/-- The handler that the browser runs for an event; `canvasRect` is the box of the
canvas. -/
def dispatch (canvasRect : DOMRect) (modalActive : Bool) (p : Preview) :
    PreviewEvent → Preview
  | .mousedownBody target clientX clientY => onMousedown canvasRect target clientX clientY p
  | .mousedownHandle target clientX clientY =>
    onHandleMousedown canvasRect target clientX clientY p
  | .mousemove clientX clientY => onMousemove canvasRect clientX clientY p
  | .mouseup => onMouseup p
  | .keydown key shiftKey => onKeydown modalActive key shiftKey p

/-- The state after a sequence of events. -/
def runEvents (canvasRect : DOMRect) (modalActive : Bool) (p : Preview)
    (events : List PreviewEvent) : Preview :=
  events.foldl (dispatch canvasRect modalActive) p

/-- No gesture is active: `previewState.dragging` and `previewState.resizing` are `null`. -/
def idle (p : Preview) : Bool :=
  p.previewState.dragging.isNone && p.previewState.resizing.isNone

/-- Both gestures are active at once. -/
def bothActive (p : Preview) : Bool :=
  p.previewState.dragging.isSome && p.previewState.resizing.isSome

/-- The event is a pointer-down. -/
def isPointerDown : PreviewEvent → Bool
  | .mousedownBody _ _ _ => true
  | .mousedownHandle _ _ _ => true
  | _ => false

/-- Every pointer-down of the sequence arrives while no gesture is active. -/
def startsWhenIdle (canvasRect : DOMRect) (modalActive : Bool) :
    Preview → List PreviewEvent → Bool
  | _, [] => true
  | p, e :: rest =>
    (!isPointerDown e || idle p) &&
      startsWhenIdle canvasRect modalActive (dispatch canvasRect modalActive p e) rest

theorem moveDragging_gestures (canvasRect : DOMRect) (x y : ℚ) (p : Preview) :
    (moveDragging canvasRect x y p).previewState.dragging = p.previewState.dragging ∧
    (moveDragging canvasRect x y p).previewState.resizing = p.previewState.resizing := by
  unfold moveDragging
  split
  · exact ⟨rfl, rfl⟩
  · split <;> exact ⟨rfl, rfl⟩

theorem moveResizing_gestures (canvasRect : DOMRect) (x y : ℚ) (p : Preview) :
    (moveResizing canvasRect x y p).previewState.dragging = p.previewState.dragging ∧
    (moveResizing canvasRect x y p).previewState.resizing = p.previewState.resizing := by
  unfold moveResizing
  split
  · exact ⟨rfl, rfl⟩
  · split <;> exact ⟨rfl, rfl⟩

theorem onMousemove_gestures (canvasRect : DOMRect) (x y : ℚ) (p : Preview) :
    (onMousemove canvasRect x y p).previewState.dragging = p.previewState.dragging ∧
    (onMousemove canvasRect x y p).previewState.resizing = p.previewState.resizing := by
  unfold onMousemove
  have h1 := moveDragging_gestures canvasRect x y p
  have h2 := moveResizing_gestures canvasRect x y (moveDragging canvasRect x y p)
  exact ⟨h2.1.trans h1.1, h2.2.trans h1.2⟩

theorem onKeydown_gestures (modalActive : Bool) (key : Str) (shiftKey : Bool) (p : Preview) :
    (onKeydown modalActive key shiftKey p).previewState.dragging = p.previewState.dragging ∧
    (onKeydown modalActive key shiftKey p).previewState.resizing = p.previewState.resizing := by
  unfold onKeydown
  dsimp only
  split
  · exact ⟨rfl, rfl⟩
  · by_cases h1 : (p.previewState.dragging.isSome || p.previewState.resizing.isSome) = true
    · rw [if_pos h1]; exact ⟨rfl, rfl⟩
    · rw [if_neg h1]
      by_cases h2 : (!modalActive) = true
      · rw [if_pos h2]; exact ⟨rfl, rfl⟩
      · rw [if_neg h2]
        split
        · exact ⟨rfl, rfl⟩
        · split
          · split <;> exact ⟨rfl, rfl⟩
          · exact ⟨rfl, rfl⟩

theorem onMouseup_idle (p : Preview) : idle (onMouseup p) = true := by
  unfold onMouseup idle
  cases hd : p.previewState.dragging <;> cases hr : p.previewState.resizing <;> simp [hd, hr]

theorem onMousedown_gestures (canvasRect : DOMRect) (target : Nat) (x y : ℚ) (p : Preview) :
    (onMousedown canvasRect target x y p).previewState.resizing = p.previewState.resizing ∧
    (target < p.cameras.length →
      (onMousedown canvasRect target x y p).previewState.dragging = some target) ∧
    (p.cameras.length ≤ target → onMousedown canvasRect target x y p = p) := by
  unfold onMousedown
  cases h : p.cameras[target]? with
  | none =>
    refine ⟨rfl, ?_, fun _ => rfl⟩
    intro hlt
    rw [List.getElem?_eq_none_iff] at h
    omega
  | some c =>
    refine ⟨rfl, fun _ => rfl, ?_⟩
    intro hle
    rw [List.getElem?_eq_none_iff.mpr hle] at h
    cases h

theorem onHandleMousedown_gestures (canvasRect : DOMRect) (target : Nat) (x y : ℚ)
    (p : Preview) :
    (onHandleMousedown canvasRect target x y p).previewState.dragging =
      p.previewState.dragging ∧
    (target < p.cameras.length →
      (onHandleMousedown canvasRect target x y p).previewState.resizing = some target) ∧
    (p.cameras.length ≤ target → onHandleMousedown canvasRect target x y p = p) := by
  unfold onHandleMousedown
  cases h : p.cameras[target]? with
  | none =>
    refine ⟨rfl, ?_, fun _ => rfl⟩
    intro hlt
    rw [List.getElem?_eq_none_iff] at h
    omega
  | some c =>
    refine ⟨rfl, fun _ => rfl, ?_⟩
    intro hle
    rw [List.getElem?_eq_none_iff.mpr hle] at h
    cases h

/-- One event keeps the two gestures from being active together, when a pointer-down
arrives only while no gesture is active. -/
theorem dispatch_exclusive (canvasRect : DOMRect) (modalActive : Bool) (p : Preview)
    (e : PreviewEvent) (hp : bothActive p = false) (he : isPointerDown e = true → idle p = true) :
    bothActive (dispatch canvasRect modalActive p e) = false := by
  cases e with
  | mousedownBody target x y =>
    have hi := he rfl
    have h := onMousedown_gestures canvasRect target x y p
    simp only [idle, Bool.and_eq_true, Option.isNone_iff_eq_none] at hi
    simp only [dispatch, bothActive, h.1, hi.2]
    simp
  | mousedownHandle target x y =>
    have hi := he rfl
    have h := onHandleMousedown_gestures canvasRect target x y p
    simp only [idle, Bool.and_eq_true, Option.isNone_iff_eq_none] at hi
    simp only [dispatch, bothActive, h.1, hi.1]
    simp
  | mousemove x y =>
    have h := onMousemove_gestures canvasRect x y p
    simp only [dispatch, bothActive, h.1, h.2]
    exact hp
  | mouseup =>
    have h := onMouseup_idle p
    simp only [idle, Bool.and_eq_true, Option.isNone_iff_eq_none] at h
    simp only [dispatch, bothActive, h.1]
    simp
  | keydown key shiftKey =>
    have h := onKeydown_gestures modalActive key shiftKey p
    simp only [dispatch, bothActive, h.1, h.2]
    exact hp

theorem runEvents_exclusive (canvasRect : DOMRect) (modalActive : Bool) :
    ∀ (events : List PreviewEvent) (p : Preview), bothActive p = false →
      startsWhenIdle canvasRect modalActive p events = true →
      bothActive (runEvents canvasRect modalActive p events) = false := by
  intro events
  induction events with
  | nil => intro p hp _; exact hp
  | cons e rest ih =>
    intro p hp hs
    simp only [startsWhenIdle, Bool.and_eq_true, Bool.or_eq_true, Bool.not_eq_true'] at hs
    have he : isPointerDown e = true → idle p = true := by
      intro h
      rcases hs.1 with h2 | h2
      · rw [h] at h2; cases h2
      · exact h2
    exact ih _ (dispatch_exclusive canvasRect modalActive p e hp he) hs.2

theorem idle_not_bothActive (p : Preview) (h : idle p = true) : bothActive p = false := by
  simp only [idle, Bool.and_eq_true, Option.isNone_iff_eq_none] at h
  simp [bothActive, h.1]

/-- A canvas of 960 by 540 pixels at the corner of the viewport. -/
def sampleCanvas : DOMRect := { left := 0, top := 0, width := 960, height := 540 }

/-- A preview of two cameras side by side on a screen of 1920 by 1080, with no gesture
active. -/
def samplePreview : Preview :=
  { previewState := initialPreviewState
    cameras :=
      [{ div := { index := 0, coords := [.int 0, .int 0, .int 960, .int 540] }
         style := coordsStyle 1920 1080 0 0 960 540
         grabbing := false },
       { div := { index := 1, coords := [.int 960, .int 0, .int 1920, .int 540] }
         style := coordsStyle 1920 1080 960 0 1920 540
         grabbing := false }] }

/-- C23, as claimed, fails: from the idle preview, a pointer-down on the body of the first
camera followed, before any pointer-up, by a pointer-down on the resize handle of the second
camera leaves `previewState.dragging` and `previewState.resizing` both set: the second
pointer-down starts a second gesture. -/
theorem second_gesture_starts :
    idle samplePreview = true ∧
    (runEvents sampleCanvas true samplePreview
      [.mousedownBody 0 10 10]).previewState.dragging = some 0 ∧
    (runEvents sampleCanvas true samplePreview
      [.mousedownBody 0 10 10]).previewState.resizing = none ∧
    (runEvents sampleCanvas true samplePreview
      [.mousedownBody 0 10 10, .mousedownHandle 1 950 260]).previewState.dragging = some 0 ∧
    (runEvents sampleCanvas true samplePreview
      [.mousedownBody 0 10 10, .mousedownHandle 1 950 260]).previewState.resizing = some 1 ∧
    bothActive (runEvents sampleCanvas true samplePreview
      [.mousedownBody 0 10 10, .mousedownHandle 1 950 260]) = true := by
  decide!

/-- C23, as the code has it: the pointer-down handlers are not gated.  A pointer-down on a
body sets `dragging` and leaves `resizing` as it is, a pointer-down on a resize handle sets
`resizing` and leaves `dragging` as it is, a pointer-up clears both, and a pointer-move and a
key-down change neither.  So from an idle state, along every sequence of events in which
each pointer-down arrives while no gesture is active, `dragging` and `resizing` are never
both set. -/
theorem gestures_exclusive_when_started_idle (canvasRect : DOMRect) (modalActive : Bool)
    (p : Preview) (events : List PreviewEvent) (hidle : idle p = true)
    (hstart : startsWhenIdle canvasRect modalActive p events = true) :
    bothActive (runEvents canvasRect modalActive p events) = false ∧
    (∀ (q : Preview) (target : Nat) (x y : ℚ),
      (onMousedown canvasRect target x y q).previewState.resizing = q.previewState.resizing ∧
      (target < q.cameras.length →
        (onMousedown canvasRect target x y q).previewState.dragging = some target)) ∧
    (∀ (q : Preview) (target : Nat) (x y : ℚ),
      (onHandleMousedown canvasRect target x y q).previewState.dragging =
        q.previewState.dragging ∧
      (target < q.cameras.length →
        (onHandleMousedown canvasRect target x y q).previewState.resizing = some target)) ∧
    (∀ q : Preview, idle (onMouseup q) = true) ∧
    (∀ (q : Preview) (x y : ℚ),
      (onMousemove canvasRect x y q).previewState.dragging = q.previewState.dragging ∧
      (onMousemove canvasRect x y q).previewState.resizing = q.previewState.resizing) ∧
    (∀ (q : Preview) (key : Str) (shiftKey : Bool),
      (onKeydown modalActive key shiftKey q).previewState.dragging =
        q.previewState.dragging ∧
      (onKeydown modalActive key shiftKey q).previewState.resizing =
        q.previewState.resizing) := by
  refine ⟨runEvents_exclusive canvasRect modalActive events p (idle_not_bothActive p hidle)
    hstart, ?_, ?_, onMouseup_idle, ?_, ?_⟩
  · intro q target x y
    have h := onMousedown_gestures canvasRect target x y q
    exact ⟨h.1, h.2.1⟩
  · intro q target x y
    have h := onHandleMousedown_gestures canvasRect target x y q
    exact ⟨h.1, h.2.1⟩
  · intro q x y
    exact onMousemove_gestures canvasRect x y q
  · intro q key shiftKey
    exact onKeydown_gestures modalActive key shiftKey q

/-- A drag of the first camera, a resize of the second and a nudge of the selected camera,
one after the other. -/
def sampleGestures : List PreviewEvent :=
  [.mousedownBody 0 10 10, .mousemove 30 40, .mouseup, .mousedownHandle 1 950 260,
   .mousemove 930 250, .mouseup, .keydown "ArrowLeft".toList true]

theorem gestures_exclusive_when_started_idle_witness :
    idle samplePreview = true ∧
    startsWhenIdle sampleCanvas true samplePreview sampleGestures = true ∧
    bothActive (runEvents sampleCanvas true samplePreview sampleGestures) = false :=
  ⟨by decide!, by decide!,
    (gestures_exclusive_when_started_idle sampleCanvas true samplePreview sampleGestures
      (by decide!) (by decide!)).1⟩

end OpenSurv
